import Mathlib

/-!
# Match engine of `monopoly-go` (package `internal/game`)

A shallow embedding of the match aggregate: `types.go`, `player.go`, `tile.go`,
`map.go`, `game.go`, `action.go` and `effect.go`, and of the one handler that writes to a match
directly (`LeaveGame` in `internal/api/handler/game.go`).

Modelling conventions.

* The development has two layers.  The first computes with exact integers: Go `int` is `Int`
  and `int(float64(pool) * rate)` is the exact product truncated toward zero (`rateOf`).  It
  describes the program as long as the numbers stay small.  The second layer
  (`namespace Machine`) is the same code with the arithmetic of the running program: every `+`,
  `-` and `*` on an `int` is reduced to 64 bits (`wrap`), and `int(float64(pool) * rate)` is
  the float64 computation (`goRate`).  The two layers agree on matches whose numbers are small
  (`Small`, `after_exact`); statements about amounts and about all reachable states are made
  on the second layer.
* `map[string]*Player` is a list of players keyed by `Player.ID` (`AddPlayer` stores every
  player under `player.ID`).  A real map holds each key once (`RegistryOK`).
* Go iterates a map in an unspecified order.  Every `range g.Players` loop therefore takes the
  order in which the keys are visited as an explicit argument (`IsRange`: any permutation of
  the keys).  The run time keeps a map of at most 8 entries in the slots of one bucket and
  visits the slots cyclically from a random slot; the theorem on the turn order takes the
  visiting orders as rotations of one slot order (`List.IsRotated`).
* `rand.Intn` results and `time.Now()` are explicit arguments.
* A run-time panic (index out of range, division by zero) is the outcome `Ret.panic`; the state
  carried with it is the state reached when the panic happened.
* `goRate` models `int(float64(pool) * rate)` bit by bit: the conversion of the pool to
  float64, one float64 multiplication by the constant, truncation.  It agrees with `rateOf` for
  pools below `2 ^ 45` (`goRate_eq_rateOf`) and differs from it from about `2 ^ 52` on.
-/

namespace Monopoly

/-! ## types.go -/

/-- Go `time.Time` and `time.Duration`, counted in nanoseconds. -/
abbrev Time := Int

def MaxPlayers : Nat := 4
def MinStartPlayers : Nat := 2
/-- The constant `30 * time.Second`. -/
def TurnTimeout : Int := 30 * 1000000000
/-- The constant `10 * time.Minute`. -/
def GameTimeout : Int := 600 * 1000000000

inductive GameStatus where
  | StatusWaiting
  | StatusPlaying
  | StatusFinished
  deriving DecidableEq, Repr

inductive PlayerStatus where
  | PlayerStatusWaiting
  | PlayerStatusPlaying
  | PlayerStatusOffline
  deriving DecidableEq, Repr

/-- The four declared `ActionType` constants and the literal tags used in `effect.go` and
`game.go` ("chanceReward", ..., "gameEnd"). -/
inductive ActionType where
  | ActionRollDice
  | ActionBuyProperty
  | ActionPayRent
  | ActionUpgrade
  | chanceReward
  | chancePenalty
  | chanceTeleport
  | fateCollect
  | fateMaintenance
  | fateProperty
  | prison
  | gameEnd
  deriving DecidableEq, Repr

inductive TileType where
  | TileStart
  | TileProperty
  | TileChance
  | TileFate
  | TileBank
  | TilePrison
  deriving DecidableEq, Repr

def InitialEntranceFee : Int := 1000
/-- The rate `0.02`, in per cent. -/
def PassingGoRewardRate : Int := 2
/-- The rate `0.01`, in per cent. -/
def ChanceRewardRate : Int := 1

/-- The value `int(float64(pool) * rate)` for a rate of `percent / 100`: exact product,
truncated toward zero as Go's float-to-int conversion does.  For pools of magnitude below
`2 ^ 45` this is what float64 arithmetic computes (`goRate`, `goRate_eq_rateOf`). -/
def rateOf (pool percent : Int) : Int := Int.tdiv (pool * percent) 100

/-! ## pkg/utils/errors.go -->  the error values the game package returns -/

inductive GameError where
  | ErrInvalidInput
  | ErrInsufficientFunds
  | ErrGameFull
  | ErrGameInProgress
  | ErrInvalidGameState
  | ErrNotEnoughPlayers
  | ErrPlayerNotFound
  | ErrPlayerExists
  | ErrNotYourTurn
  | ErrAlreadyRolled
  | ErrInPrison
  | ErrNotProperty
  | ErrPropertyOwned
  | ErrNotOwner
  | ErrMaxLevel
  | ErrPropertyNotOwned
  | ErrInvalidPropertyLevel
  deriving DecidableEq, Repr

/-- How a call ends: `error == nil`, a returned error value, or a run-time panic. -/
inductive Ret where
  | nil
  | err (e : GameError)
  | panic
  deriving DecidableEq, Repr

/-! ## player.go -/

structure Player where
  ID : String
  Name : String
  Coins : Int
  Position : Int
  Status : PlayerStatus
  HasRolled : Bool
  InPrison : Bool
  PrisonDays : Int
  JoinTime : Time
  deriving DecidableEq, Repr

def NewPlayer (id name : String) (coins : Int) (now : Time) : Player :=
  { ID := id, Name := name, Coins := coins, Position := 0,
    Status := PlayerStatus.PlayerStatusWaiting, HasRolled := false, InPrison := false,
    PrisonDays := 0, JoinTime := now }

/-! ## tile.go, map.go -/

structure Tile where
  ID : Int
  Name : String
  /-- The field `Type` (a reserved word here). -/
  Typ : TileType
  Price : Int
  OwnerID : String
  Level : Int
  RentPrice : List Int
  deriving DecidableEq, Repr

structure GameMap where
  Tiles : List Tile
  deriving DecidableEq, Repr

/-- Slice indexing `s[i]` with a Go `int` index; `none` is the index-out-of-range panic. -/
def idx {α : Type} (s : List α) (i : Int) : Option α :=
  if i < 0 then none else s[i.toNat]?

/-- Write through the pointer stored at `s[i]`. -/
def setIdx {α : Type} (s : List α) (i : Int) (a : α) : List α :=
  if i < 0 then s else s.set i.toNat a

def NewDefaultMap : GameMap :=
  { Tiles := [
      { ID := 0, Name := "起点", Typ := TileType.TileStart, Price := 0, OwnerID := "",
        Level := 0, RentPrice := [] },
      { ID := 1, Name := "第一大道", Typ := TileType.TileProperty, Price := 200, OwnerID := "",
        Level := 0, RentPrice := [20, 40, 80] },
      { ID := 2, Name := "机会", Typ := TileType.TileChance, Price := 0, OwnerID := "",
        Level := 0, RentPrice := [] },
      { ID := 3, Name := "第二大道", Typ := TileType.TileProperty, Price := 300, OwnerID := "",
        Level := 0, RentPrice := [30, 60, 120] },
      { ID := 4, Name := "银行", Typ := TileType.TileBank, Price := 0, OwnerID := "",
        Level := 0, RentPrice := [] } ] }

/-- `GameMap.GetTile`: the bounds-checked lookup. -/
def GameMap.GetTile (m : GameMap) (position : Int) : Except GameError Tile :=
  if position < 0 ∨ position ≥ m.Tiles.length then Except.error GameError.ErrInvalidInput
  else match idx m.Tiles position with
    | some t => Except.ok t
    | none => Except.error GameError.ErrInvalidInput

/-! ## game.go -->  the match aggregate -/

structure GameAction where
  /-- The field `Type` (a reserved word here). -/
  Typ : ActionType
  PlayerID : String
  Position : Int
  Amount : Int
  Timestamp : Time
  deriving DecidableEq, Repr

structure Game where
  ID : String
  Players : List Player
  Status : GameStatus
  PrizePool : Int
  Map : GameMap
  CurrentPlayerID : String
  CurrentTurnStarted : Time
  StartTime : Time
  Actions : List GameAction
  deriving DecidableEq, Repr

structure PlayerResult where
  PlayerID : String
  Name : String
  FinalCoins : Int
  PropertyValue : Int
  PropertyCount : Int
  TotalAssets : Int
  deriving DecidableEq, Repr

/-- The map read `g.Players[id]`; `none` is the nil pointer of a missing key. -/
def Game.player? (g : Game) (id : String) : Option Player :=
  g.Players.find? (fun p => decide (p.ID = id))

/-- A write through the pointer `g.Players[id]`. -/
def Game.updatePlayer (g : Game) (id : String) (f : Player → Player) : Game :=
  { g with Players := g.Players.map (fun p => if p.ID = id then f p else p) }

/-- A write through the pointer `g.Map.Tiles[i]`. -/
def Game.setTile (g : Game) (i : Int) (t : Tile) : Game :=
  { g with Map := { Tiles := setIdx g.Map.Tiles i t } }

/-- The keys of the registry, in storage order. -/
def Game.keys (g : Game) : List String := g.Players.map (fun p => p.ID)

/-- The registry is a map: every key occurs once. -/
def RegistryOK (g : Game) : Prop := g.keys.Nodup

/-- The list `order` is an order in which `range g.Players` may visit the keys. -/
def IsRange (g : Game) (order : List String) : Prop := order.Perm g.keys

instance (g : Game) : Decidable (RegistryOK g) := by
  unfold RegistryOK; infer_instance

instance (g : Game) (order : List String) : Decidable (IsRange g order) := by
  unfold IsRange; infer_instance

/-- The entries `range g.Players` yields when it visits the keys in `order`. -/
def Game.range (g : Game) (order : List String) : List Player :=
  order.filterMap g.player?

def NewGame (id : String) : Game :=
  { ID := id, Players := [], Status := GameStatus.StatusWaiting, PrizePool := 0,
    Map := NewDefaultMap, CurrentPlayerID := "", CurrentTurnStarted := 0, StartTime := 0,
    Actions := [] }

def AddPlayer (g : Game) (player : Player) : Game × Ret :=
  if g.Players.length ≥ MaxPlayers then (g, Ret.err GameError.ErrGameFull)
  else if g.Status ≠ GameStatus.StatusWaiting then (g, Ret.err GameError.ErrGameInProgress)
  else if (g.player? player.ID).isSome then (g, Ret.err GameError.ErrPlayerExists)
  else ({ g with Players := g.Players ++ [player] }, Ret.nil)

def canStartGame (g : Game) : Ret :=
  if g.Players.length < MinStartPlayers then Ret.err GameError.ErrNotEnoughPlayers
  else if g.Status ≠ GameStatus.StatusWaiting then Ret.err GameError.ErrInvalidGameState
  else Ret.nil

/-- The loop of `collectEntranceFees` over the keys still to visit. -/
def collectEntranceFees (g : Game) : List String → Game × Ret
  | [] => (g, Ret.nil)
  | id :: rest =>
    match g.player? id with
    | none => collectEntranceFees g rest
    | some player =>
      if player.Coins < InitialEntranceFee then (g, Ret.err GameError.ErrInsufficientFunds)
      else
        collectEntranceFees
          { g.updatePlayer id (fun p => { p with Coins := p.Coins - InitialEntranceFee }) with
            PrizePool := g.PrizePool + InitialEntranceFee } rest

/-- Go's `a <= b` on strings: lexicographic on the bytes, which for UTF-8 text is the
lexicographic order on the code points. -/
def strLE (a b : String) : Prop := a.data ≤ b.data

instance : DecidableRel strLE := fun a b => by
  unfold strLE; infer_instance

/-- The library call `sort.Strings`: ascending, byte-wise lexicographic. -/
def sortStrings (ids : List String) : List String :=
  ids.insertionSort strLE

def initializeGame (g : Game) (order : List String) (now : Time) : Game × Ret :=
  let playerIDs := (g.range order).map (fun p => p.ID)
  match sortStrings playerIDs with
  | [] => (g, Ret.panic)
  | first :: _ =>
    ({ g with CurrentPlayerID := first, Status := GameStatus.StatusPlaying, StartTime := now,
              CurrentTurnStarted := now }, Ret.nil)

/-- `StartGame`; `feeOrder` and `idOrder` are the visiting orders of its two map loops. -/
def StartGame (g : Game) (feeOrder idOrder : List String) (now : Time) : Game × Ret :=
  match canStartGame g with
  | Ret.nil =>
    match collectEntranceFees g feeOrder with
    | (g1, Ret.nil) => initializeGame g1 idOrder now
    | (g1, r) => (g1, r)
  | r => (g, r)

def AddAction (g : Game) (action : GameAction) : Game :=
  { g with Actions := g.Actions ++ [action] }

structure PlayerAsset where
  PlayerID : String
  Total : Int
  deriving DecidableEq, Repr

/-- The inner loop over `g.Map.Tiles` adding `Price * (Level + 1)` for every tile of `id`. -/
def addPropertyValue (tiles : List Tile) (id : String) (start : Int) : Int :=
  tiles.foldl (fun total tile =>
    if tile.OwnerID = id then total + tile.Price * (tile.Level + 1) else total) start

/-- The library call `sort.Slice(xs, less)` on a short slice (at most 12 elements, here at most
`MaxPlayers`): insertion sort, which keeps elements that compare equal in their input order. -/
def sortSlice {α : Type} (less : α → α → Bool) (xs : List α) : List α :=
  xs.insertionSort (fun a b => less b a = false)

/-- The slice `prizeRatios`, in per cent. -/
def prizeRatios : List Int := [50, 30, 15, 5]

/-- The payout loop of `EndGame`: rank `i` receives `int(float64(PrizePool) * prizeRatios[i])`;
the loop stops at the end of either slice. -/
def distributePrizes (g : Game) : List PlayerAsset → List Int → Game
  | asset :: assets, ratio :: ratios =>
    distributePrizes
      (g.updatePlayer asset.PlayerID
        (fun p => { p with Coins := p.Coins + rateOf g.PrizePool ratio })) assets ratios
  | _, _ => g

def EndGame (g : Game) (order : List String) (now : Time) : Game × Ret :=
  if g.Status ≠ GameStatus.StatusPlaying then (g, Ret.err GameError.ErrInvalidGameState)
  else
    let g1 := { g with Status := GameStatus.StatusFinished }
    let assets : List PlayerAsset := (g1.range order).map (fun player =>
      { PlayerID := player.ID, Total := addPropertyValue g1.Map.Tiles player.ID player.Coins })
    let ranked := sortSlice (fun a b => decide (a.Total > b.Total)) assets
    let g2 := distributePrizes g1 ranked prizeRatios
    (AddAction g2 { Typ := ActionType.gameEnd, PlayerID := "", Position := 0, Amount := 0,
                    Timestamp := now }, Ret.nil)

def GetFinalResults (g : Game) (order : List String) : Option (List PlayerResult) × Ret :=
  if g.Status ≠ GameStatus.StatusFinished then (none, Ret.err GameError.ErrInvalidGameState)
  else
    let results : List PlayerResult := (g.range order).map (fun player =>
      let propertyValue := addPropertyValue g.Map.Tiles player.ID 0
      let propertyCount : Int := (g.Map.Tiles.filter (fun t => decide (t.OwnerID = player.ID))).length
      { PlayerID := player.ID, Name := player.Name, FinalCoins := player.Coins,
        PropertyValue := propertyValue, PropertyCount := propertyCount,
        TotalAssets := player.Coins + propertyValue })
    (some (sortSlice (fun a b => decide (a.TotalAssets > b.TotalAssets)) results), Ret.nil)

/-! ## action.go -/

/-- What a call of type `(*GameAction, error)` leaves behind: the match state, the returned
action pointer (`none` is `nil`) and how the call ended. -/
structure ActionResult where
  game : Game
  action : Option GameAction
  ret : Ret
  deriving DecidableEq, Repr

/-- The random draws one `RollDice` call may consume, and the visiting order of the one map
loop it may run. -/
structure Draws where
  /-- The value of `rand.Intn(6)`. -/
  dice : Int
  /-- The value of `rand.Intn(100)` drawn by a chance or fate card. -/
  effect : Int
  /-- The value of `rand.Intn(len(g.Map.Tiles))` drawn by the teleport card. -/
  target : Int
  /-- The visiting order of `range g.Players` in the fate card. -/
  order : List String
  deriving DecidableEq, Repr

def validateGameState (g : Game) (playerID : String) : Ret :=
  if g.Status ≠ GameStatus.StatusPlaying then Ret.err GameError.ErrInvalidGameState
  else if g.CurrentPlayerID ≠ playerID then Ret.err GameError.ErrNotYourTurn
  else if (g.player? playerID).isNone then Ret.err GameError.ErrPlayerNotFound
  else Ret.nil

def validatePropertyPurchase (player : Player) (tile : Tile) : Ret :=
  if tile.Typ ≠ TileType.TileProperty then Ret.err GameError.ErrNotProperty
  else if tile.OwnerID ≠ "" then Ret.err GameError.ErrPropertyOwned
  else if player.Coins < tile.Price then Ret.err GameError.ErrInsufficientFunds
  else Ret.nil

def validatePropertyUpgrade (player : Player) (tile : Tile) : Ret :=
  if tile.Typ ≠ TileType.TileProperty then Ret.err GameError.ErrNotProperty
  else if tile.OwnerID ≠ player.ID then Ret.err GameError.ErrNotOwner
  else if tile.Level ≥ (tile.RentPrice.length : Int) - 1 then Ret.err GameError.ErrMaxLevel
  else if player.Coins < Int.tdiv tile.Price 2 then Ret.err GameError.ErrInsufficientFunds
  else Ret.nil

/-- The method `handlePrisonState`; it touches nothing but the player it is given. -/
def handlePrisonState (player : Player) : Player × Ret :=
  if player.InPrison then
    if player.PrisonDays > 0 then
      ({ player with PrisonDays := player.PrisonDays - 1, HasRolled := true },
        Ret.err GameError.ErrInPrison)
    else ({ player with InPrison := false, PrisonDays := 0 }, Ret.nil)
  else (player, Ret.nil)

def handlePassingGo (g : Game) (playerID : String) : Game :=
  let passingGoReward := rateOf g.PrizePool PassingGoRewardRate
  { g.updatePlayer playerID (fun p => { p with Coins := p.Coins + passingGoReward }) with
    PrizePool := g.PrizePool - passingGoReward }

def getOrderedPlayerIDs (g : Game) (order : List String) : List String :=
  (g.range order).map (fun p => p.ID)

/-- The loop of `getNextPlayerID` from index `i` on; `first` is `playerIDs[0]`. -/
def nextFrom (current first : String) : List String → String
  | [] => first
  | id :: rest =>
    if id = current then
      match rest with
      | [] => first
      | next :: _ => next
    else nextFrom current first rest

/-- The method `getNextPlayerID`; `none` is the panic of `playerIDs[0]` on an empty slice. -/
def getNextPlayerID (g : Game) (playerIDs : List String) : Option String :=
  match playerIDs with
  | [] => none
  | first :: _ => some (nextFrom g.CurrentPlayerID first playerIDs)

/-! ## effect.go -/

/-- The method `handleRentPayment`; `player` is the value of `*player` on entry. -/
def handleRentPayment (g : Game) (player : Player) (tile : Tile) (now : Time) : Game × Ret :=
  match g.player? tile.OwnerID with
  | none => (g, Ret.err GameError.ErrPlayerNotFound)
  | some _ =>
    match idx tile.RentPrice tile.Level with
    | none => (g, Ret.panic)
    | some rent =>
      if player.Coins < rent then (g, Ret.err GameError.ErrInsufficientFunds)
      else
        let g1 := g.updatePlayer player.ID (fun p => { p with Coins := p.Coins - rent })
        let g2 := g1.updatePlayer tile.OwnerID (fun p => { p with Coins := p.Coins + rent })
        (AddAction g2 { Typ := ActionType.ActionPayRent, PlayerID := player.ID,
                        Position := player.Position, Amount := rent, Timestamp := now }, Ret.nil)

/-- The method `handleChanceCard`; `player` is the value of `*player` on entry. -/
def handleChanceCard (g : Game) (player : Player) (d : Draws) (now : Time) : Game × Ret :=
  if d.effect < 30 then
    let amount := rateOf g.PrizePool ChanceRewardRate
    let g1 := { g.updatePlayer player.ID (fun p => { p with Coins := p.Coins + amount }) with
                PrizePool := g.PrizePool - amount }
    (AddAction g1 { Typ := ActionType.chanceReward, PlayerID := player.ID, Position := 0,
                    Amount := amount, Timestamp := now }, Ret.nil)
  else if d.effect < 60 then
    let amount : Int := if player.Coins < 100 then player.Coins else 100
    let g1 := { g.updatePlayer player.ID (fun p => { p with Coins := p.Coins - amount }) with
                PrizePool := g.PrizePool + amount }
    (AddAction g1 { Typ := ActionType.chancePenalty, PlayerID := player.ID, Position := 0,
                    Amount := -amount, Timestamp := now }, Ret.nil)
  else if d.effect < 80 then
    let oldPosition := player.Position
    let g1 := g.updatePlayer player.ID (fun p => { p with Position := d.target })
    let g2 := AddAction g1 { Typ := ActionType.chanceTeleport, PlayerID := player.ID,
                             Position := d.target, Amount := 0, Timestamp := now }
    if d.target < oldPosition then (handlePassingGo g2 player.ID, Ret.nil) else (g2, Ret.nil)
  else (g, Ret.nil)

/-- The loop of the fate card that takes up to 100 coins from every other player. -/
def collectFromOthers (g : Game) (playerID : String) : List String → Int → Game × Int
  | [], amount => (g, amount)
  | id :: rest, amount =>
    match g.player? id with
    | none => collectFromOthers g playerID rest amount
    | some p =>
      if p.ID ≠ playerID then
        let deduct : Int := if p.Coins < 100 then p.Coins else 100
        collectFromOthers (g.updatePlayer id (fun q => { q with Coins := q.Coins - deduct }))
          playerID rest (amount + deduct)
      else collectFromOthers g playerID rest amount

/-- The loop of the fate card that adds `Price / 10` for every tile the player owns. -/
def maintenanceFee (tiles : List Tile) (playerID : String) : Int :=
  tiles.foldl (fun amount tile =>
    if tile.OwnerID = playerID then amount + Int.tdiv tile.Price 10 else amount) 0

/-- The loop of the fate card that hands over the first unowned property; it returns the
board afterwards and the `ID` field of the tile handed over. -/
def grantFirstFree (playerID : String) : List Tile → Option (List Tile × Int)
  | [] => none
  | tile :: rest =>
    if tile.Typ = TileType.TileProperty ∧ tile.OwnerID = "" then
      some ({ tile with OwnerID := playerID } :: rest, tile.ID)
    else
      match grantFirstFree playerID rest with
      | none => none
      | some (tiles, id) => some (tile :: tiles, id)

/-- The method `handleFateCard`; `player` is the value of `*player` on entry. -/
def handleFateCard (g : Game) (player : Player) (d : Draws) (now : Time) : Game × Ret :=
  if d.effect < 30 then
    let (g1, amount) := collectFromOthers g player.ID d.order 0
    let g2 := g1.updatePlayer player.ID (fun p => { p with Coins := p.Coins + amount })
    (AddAction g2 { Typ := ActionType.fateCollect, PlayerID := player.ID, Position := 0,
                    Amount := amount, Timestamp := now }, Ret.nil)
  else if d.effect < 60 then
    let total := maintenanceFee g.Map.Tiles player.ID
    let amount : Int := if total > player.Coins then player.Coins else total
    let g1 := { g.updatePlayer player.ID (fun p => { p with Coins := p.Coins - amount }) with
                PrizePool := g.PrizePool + amount }
    (AddAction g1 { Typ := ActionType.fateMaintenance, PlayerID := player.ID, Position := 0,
                    Amount := -amount, Timestamp := now }, Ret.nil)
  else if d.effect < 80 then
    match grantFirstFree player.ID g.Map.Tiles with
    | none => (g, Ret.nil)
    | some (tiles, id) =>
      (AddAction { g with Map := { Tiles := tiles } }
        { Typ := ActionType.fateProperty, PlayerID := player.ID, Position := id, Amount := 0,
          Timestamp := now }, Ret.nil)
  else (g, Ret.nil)

def handlePrison (g : Game) (player : Player) (now : Time) : Game × Ret :=
  let g1 := g.updatePlayer player.ID (fun p => { p with InPrison := true, PrisonDays := 1 })
  (AddAction g1 { Typ := ActionType.prison, PlayerID := player.ID, Position := 0, Amount := 0,
                  Timestamp := now }, Ret.nil)

/-- The method `handleTileEffect`, called with the pointer `g.Players[playerID]`. -/
def handleTileEffect (g : Game) (playerID : String) (d : Draws) (now : Time) : Game × Ret :=
  match g.player? playerID with
  | none => (g, Ret.panic)
  | some player =>
    match idx g.Map.Tiles player.Position with
    | none => (g, Ret.panic)
    | some tile =>
      match tile.Typ with
      | TileType.TileProperty =>
        if tile.OwnerID ≠ "" ∧ tile.OwnerID ≠ player.ID then handleRentPayment g player tile now
        else (g, Ret.nil)
      | TileType.TileChance => handleChanceCard g player d now
      | TileType.TileFate => handleFateCard g player d now
      | TileType.TilePrison => handlePrison g player now
      | _ => (g, Ret.nil)

/-! ## action.go -->  the operations -/

def RollDice (g : Game) (playerID : String) (d : Draws) (now : Time) : ActionResult :=
  match validateGameState g playerID with
  | Ret.nil =>
    match g.player? playerID with
    | none => { game := g, action := none, ret := Ret.panic }
    | some player =>
      if player.HasRolled then
        { game := g, action := none, ret := Ret.err GameError.ErrAlreadyRolled }
      else
        let g1 := g.updatePlayer playerID (fun p => (handlePrisonState p).1)
        match (handlePrisonState player).2 with
        | Ret.nil =>
          let steps := d.dice + 1
          let oldPosition := player.Position
          if g1.Map.Tiles.length = 0 then { game := g1, action := none, ret := Ret.panic }
          else
            let newPosition := Int.tmod (oldPosition + steps) g1.Map.Tiles.length
            let g2 := g1.updatePlayer playerID
              (fun p => { p with Position := newPosition, HasRolled := true })
            let action : GameAction :=
              { Typ := ActionType.ActionRollDice, PlayerID := playerID, Position := newPosition,
                Amount := 0, Timestamp := now }
            let g3 := if newPosition < oldPosition then handlePassingGo g2 playerID else g2
            match handleTileEffect g3 playerID d now with
            | (g4, Ret.nil) => { game := AddAction g4 action, action := some action, ret := Ret.nil }
            | (g4, Ret.err e) => { game := g4, action := some action, ret := Ret.err e }
            | (g4, Ret.panic) => { game := g4, action := none, ret := Ret.panic }
        | r => { game := g1, action := none, ret := r }
  | r => { game := g, action := none, ret := r }

def BuyProperty (g : Game) (playerID : String) (now : Time) : ActionResult :=
  match validateGameState g playerID with
  | Ret.nil =>
    match g.player? playerID with
    | none => { game := g, action := none, ret := Ret.panic }
    | some player =>
      match idx g.Map.Tiles player.Position with
      | none => { game := g, action := none, ret := Ret.panic }
      | some tile =>
        match validatePropertyPurchase player tile with
        | Ret.nil =>
          let g1 := g.updatePlayer playerID (fun p => { p with Coins := p.Coins - tile.Price })
          let g2 := g1.setTile player.Position { tile with OwnerID := playerID }
          let g3 := { g2 with PrizePool := g2.PrizePool + tile.Price }
          let action : GameAction :=
            { Typ := ActionType.ActionBuyProperty, PlayerID := playerID,
              Position := player.Position, Amount := tile.Price, Timestamp := now }
          { game := AddAction g3 action, action := some action, ret := Ret.nil }
        | r => { game := g, action := none, ret := r }
  | r => { game := g, action := none, ret := r }

def UpgradeProperty (g : Game) (playerID : String) (position : Int) (now : Time) :
    ActionResult :=
  match validateGameState g playerID with
  | Ret.nil =>
    match g.player? playerID with
    | none => { game := g, action := none, ret := Ret.panic }
    | some player =>
      match idx g.Map.Tiles position with
      | none => { game := g, action := none, ret := Ret.panic }
      | some tile =>
        match validatePropertyUpgrade player tile with
        | Ret.nil =>
          let upgradeCost := Int.tdiv tile.Price 2
          let g1 := g.updatePlayer playerID (fun p => { p with Coins := p.Coins - upgradeCost })
          let g2 := g1.setTile position { tile with Level := tile.Level + 1 }
          let g3 := { g2 with PrizePool := g2.PrizePool + upgradeCost }
          let action : GameAction :=
            { Typ := ActionType.ActionUpgrade, PlayerID := playerID, Position := position,
              Amount := upgradeCost, Timestamp := now }
          { game := AddAction g3 action, action := some action, ret := Ret.nil }
        | r => { game := g, action := none, ret := r }
  | r => { game := g, action := none, ret := r }

/-- `NextTurn`; `order` is the visiting order of the loop in `getOrderedPlayerIDs`, `endOrder`
that of the loop in `EndGame` when the match has timed out. -/
def NextTurn (g : Game) (order endOrder : List String) (now : Time) : Game × Ret :=
  if g.Status ≠ GameStatus.StatusPlaying then (g, Ret.err GameError.ErrInvalidGameState)
  else
    let g1 := g.updatePlayer g.CurrentPlayerID (fun p => { p with HasRolled := false })
    match getNextPlayerID g1 (getOrderedPlayerIDs g1 order) with
    | none => (g1, Ret.panic)
    | some next =>
      let g2 := { g1 with CurrentPlayerID := next, CurrentTurnStarted := now }
      if now - g2.StartTime ≥ GameTimeout then EndGame g2 endOrder now else (g2, Ret.nil)

/-! ## The operations of a match, as one step function -/

/-- One call on a match, with everything the call consumes from outside. -/
inductive Op where
  | addPlayer (player : Player)
  | startGame (feeOrder idOrder : List String) (now : Time)
  | rollDice (playerID : String) (d : Draws) (now : Time)
  | buyProperty (playerID : String) (now : Time)
  | upgradeProperty (playerID : String) (position : Int) (now : Time)
  | nextTurn (order endOrder : List String) (now : Time)
  | endGame (order : List String) (now : Time)
  | getFinalResults (order : List String)
  deriving DecidableEq, Repr

/-- The match state an operation leaves behind, however the call ended. -/
def Op.after (g : Game) : Op → Game
  | Op.addPlayer player => (AddPlayer g player).1
  | Op.startGame feeOrder idOrder now => (StartGame g feeOrder idOrder now).1
  | Op.rollDice playerID d now => (RollDice g playerID d now).game
  | Op.buyProperty playerID now => (BuyProperty g playerID now).game
  | Op.upgradeProperty playerID position now => (UpgradeProperty g playerID position now).game
  | Op.nextTurn order endOrder now => (NextTurn g order endOrder now).1
  | Op.endGame order now => (EndGame g order now).1
  | Op.getFinalResults _ => g

/-- The status `s2` is `s1` or the successor of `s1` in Waiting, Playing, Finished. -/
def StatusAdvances (s1 s2 : GameStatus) : Prop :=
  s2 = s1 ∨ (s1 = GameStatus.StatusWaiting ∧ s2 = GameStatus.StatusPlaying) ∨
    (s1 = GameStatus.StatusPlaying ∧ s2 = GameStatus.StatusFinished)

instance (s1 s2 : GameStatus) : Decidable (StatusAdvances s1 s2) := by
  unfold StatusAdvances; infer_instance

/-! ## Names for the intermediate values of `RollDice` -/

/-- The value `newPosition` of `RollDice` for a player standing where `player` stands. -/
def rollTarget (g : Game) (player : Player) (d : Draws) : Int :=
  Int.tmod (player.Position + (d.dice + 1)) g.Map.Tiles.length

/-- The action record `RollDice` builds. -/
def rollAction (g : Game) (playerID : String) (player : Player) (d : Draws) (now : Time) :
    GameAction :=
  { Typ := ActionType.ActionRollDice, PlayerID := playerID, Position := rollTarget g player d,
    Amount := 0, Timestamp := now }

/-- The match state `RollDice` hands to `handleTileEffect`: prison state resolved, the player
moved and marked as rolled, the passing reward paid when the position wrapped. -/
def afterMove (g : Game) (playerID : String) (player : Player) (d : Draws) : Game :=
  let g1 := g.updatePlayer playerID (fun p => (handlePrisonState p).1)
  let g2 := g1.updatePlayer playerID
    (fun p => { p with Position := rollTarget g player d, HasRolled := true })
  if rollTarget g player d < player.Position then handlePassingGo g2 playerID else g2

/-- A view of a player that does not look at the balance. -/
def CoinBlind {β : Type} (proj : Player → β) : Prop :=
  ∀ (p : Player) (c : Int), proj { p with Coins := c } = proj p

/-- Where a player stands and whether the player has rolled. -/
def standing (p : Player) : Int × Bool := (p.Position, p.HasRolled)

/-- The tile invariant of the data model: the level of a property indexes its rent schedule. -/
def BoardOK (g : Game) : Prop :=
  ∀ t ∈ g.Map.Tiles, t.Typ = TileType.TileProperty →
    0 ≤ t.Level ∧ t.Level < (t.RentPrice.length : Int)

instance (g : Game) : Decidable (BoardOK g) := by
  unfold BoardOK; infer_instance

/-! ## Example matches -/

/-- A match on the default board with the given players, status and prize pool. -/
def matchOf (players : List Player) (status : GameStatus) (pool : Int) (current : String) :
    Game :=
  { NewGame "m1" with Players := players, Status := status, PrizePool := pool,
                      CurrentPlayerID := current }

/-- Two players who can both pay the entrance fee, waiting for the start. -/
def lobbyRich : Game :=
  matchOf [NewPlayer "bob" "Bob" 1500 0, NewPlayer "alice" "Alice" 1000 0]
    GameStatus.StatusWaiting 0 ""

/-- Two players, the second of whom cannot pay the entrance fee, waiting for the start. -/
def lobbyPoor : Game :=
  matchOf [NewPlayer "alice" "Alice" 1000 0, NewPlayer "bob" "Bob" 500 0]
    GameStatus.StatusWaiting 0 ""

/-- A match in progress on the default board: alice (at the start, 500 coins) is to move,
bob stands on the bank tile; the pool holds 2000. -/
def midGame : Game :=
  matchOf
    [{ ID := "alice", Name := "Alice", Coins := 500, Position := 0,
       Status := PlayerStatus.PlayerStatusPlaying, HasRolled := false, InPrison := false,
       PrisonDays := 0, JoinTime := 0 },
     { ID := "bob", Name := "Bob", Coins := 40, Position := 4,
       Status := PlayerStatus.PlayerStatusPlaying, HasRolled := false, InPrison := false,
       PrisonDays := 0, JoinTime := 0 }]
    GameStatus.StatusPlaying 2000 "alice"

/-- A roll of 2 with the teleport card (draw 70) sending the player to tile 4. -/
def teleportDraw : Draws := { dice := 1, effect := 70, target := 4, order := ["alice", "bob"] }

/-- The default board after bob has bought tile 1 and upgraded it twice (rent 80). -/
def bobsBoard : GameMap :=
  { Tiles := [
      { ID := 0, Name := "起点", Typ := TileType.TileStart, Price := 0, OwnerID := "",
        Level := 0, RentPrice := [] },
      { ID := 1, Name := "第一大道", Typ := TileType.TileProperty, Price := 200,
        OwnerID := "bob", Level := 2, RentPrice := [20, 40, 80] },
      { ID := 2, Name := "机会", Typ := TileType.TileChance, Price := 0, OwnerID := "",
        Level := 0, RentPrice := [] },
      { ID := 3, Name := "第二大道", Typ := TileType.TileProperty, Price := 300, OwnerID := "",
        Level := 0, RentPrice := [30, 60, 120] },
      { ID := 4, Name := "银行", Typ := TileType.TileBank, Price := 0, OwnerID := "",
        Level := 0, RentPrice := [] } ] }

/-- A match in progress in which alice, to move from the start tile with 50 coins, is one
step away from bob's property. -/
def rentGame : Game :=
  { matchOf
      [{ ID := "alice", Name := "Alice", Coins := 50, Position := 0,
         Status := PlayerStatus.PlayerStatusPlaying, HasRolled := false, InPrison := false,
         PrisonDays := 0, JoinTime := 0 },
       { ID := "bob", Name := "Bob", Coins := 700, Position := 4,
         Status := PlayerStatus.PlayerStatusPlaying, HasRolled := false, InPrison := false,
         PrisonDays := 0, JoinTime := 0 }]
      GameStatus.StatusPlaying 2600 "alice" with Map := bobsBoard }

/-- A roll of 1. -/
def rollOne : Draws := { dice := 0, effect := 0, target := 0, order := ["alice", "bob"] }

/-- A match in progress in which alice, to move with 500 coins, stands on the unowned
property tile 1 (price 200); bob owns nothing. -/
def buyGame : Game :=
  matchOf
    [{ ID := "alice", Name := "Alice", Coins := 500, Position := 1,
       Status := PlayerStatus.PlayerStatusPlaying, HasRolled := true, InPrison := false,
       PrisonDays := 0, JoinTime := 0 },
     { ID := "bob", Name := "Bob", Coins := 700, Position := 4,
       Status := PlayerStatus.PlayerStatusPlaying, HasRolled := false, InPrison := false,
       PrisonDays := 0, JoinTime := 0 }]
    GameStatus.StatusPlaying 2000 "alice"

/-- The entry of alice in `buyGame`. -/
def aliceBuying : Player :=
  { ID := "alice", Name := "Alice", Coins := 500, Position := 1,
    Status := PlayerStatus.PlayerStatusPlaying, HasRolled := true, InPrison := false,
    PrisonDays := 0, JoinTime := 0 }

/-- Tile 1 of the default board. -/
def firstAvenue : Tile :=
  { ID := 1, Name := "第一大道", Typ := TileType.TileProperty, Price := 200, OwnerID := "",
    Level := 0, RentPrice := [20, 40, 80] }

/-- Tile 3 of the default board, bought by alice. -/
def secondAvenue : Tile :=
  { ID := 3, Name := "第二大道", Typ := TileType.TileProperty, Price := 300,
    OwnerID := "alice", Level := 0, RentPrice := [30, 60, 120] }

/-- A match in progress in which alice, to move with 500 coins and standing on tile 1, owns
tile 3 at level 0. -/
def upgradeGame : Game :=
  { buyGame with Map := { Tiles := setIdx NewDefaultMap.Tiles 3 secondAvenue } }

/-- A match in progress in which alice (500 coins) stands on bob's property, rent 80. -/
def rentDue : Game :=
  { matchOf
      [{ ID := "alice", Name := "Alice", Coins := 500, Position := 1,
         Status := PlayerStatus.PlayerStatusPlaying, HasRolled := true, InPrison := false,
         PrisonDays := 0, JoinTime := 0 },
       { ID := "bob", Name := "Bob", Coins := 700, Position := 4,
         Status := PlayerStatus.PlayerStatusPlaying, HasRolled := false, InPrison := false,
         PrisonDays := 0, JoinTime := 0 }]
      GameStatus.StatusPlaying 2600 "alice" with Map := bobsBoard }

/-- The entry of bob in `rentDue`. -/
def bobOwning : Player :=
  { ID := "bob", Name := "Bob", Coins := 700, Position := 4,
    Status := PlayerStatus.PlayerStatusPlaying, HasRolled := false, InPrison := false,
    PrisonDays := 0, JoinTime := 0 }

/-- Tile 1 of `bobsBoard`. -/
def bobsAvenue : Tile :=
  { ID := 1, Name := "第一大道", Typ := TileType.TileProperty, Price := 200,
    OwnerID := "bob", Level := 2, RentPrice := [20, 40, 80] }

/-- The entry of a player called alice who stands on the last tile with 500 coins and has not
rolled. -/
def aliceOnBank : Player :=
  { ID := "alice", Name := "Alice", Coins := 500, Position := 4,
    Status := PlayerStatus.PlayerStatusPlaying, HasRolled := false, InPrison := false,
    PrisonDays := 0, JoinTime := 0 }

/-- A match in progress on the default 5-tile board: alice is to move from position 4 and the
prize pool holds 2030. -/
def wrapGame : Game :=
  matchOf [aliceOnBank,
    { ID := "bob", Name := "Bob", Coins := 700, Position := 1,
      Status := PlayerStatus.PlayerStatusPlaying, HasRolled := false, InPrison := false,
      PrisonDays := 0, JoinTime := 0 }]
    GameStatus.StatusPlaying 2030 "alice"

/-- A roll of 3; a chance card drawn with it has no effect (draw 90). -/
def rollThree : Draws := { dice := 2, effect := 90, target := 0, order := ["alice", "bob"] }

/-! ## End-of-match accounting, in the words of the specification -/

/-- The tiles whose owner id is `id`. -/
def ownedTiles (g : Game) (id : String) : List Tile :=
  g.Map.Tiles.filter (fun t => decide (t.OwnerID = id))

/-- The sum over the tiles owned by `id` of `price * (level + 1)`. -/
def propertyValue (g : Game) (id : String) : Int :=
  ((ownedTiles g id).map (fun t => t.Price * (t.Level + 1))).sum

/-- Total assets of a player: balance plus property value. -/
def totalAssets (g : Game) (p : Player) : Int := p.Coins + propertyValue g p.ID

/-- The final-results entry of a player. -/
def resultOf (g : Game) (p : Player) : PlayerResult :=
  { PlayerID := p.ID, Name := p.Name, FinalCoins := p.Coins,
    PropertyValue := propertyValue g p.ID, PropertyCount := (ownedTiles g p.ID).length,
    TotalAssets := p.Coins + propertyValue g p.ID }

/-- A finished match on `bobsBoard`: alice holds 900 coins, bob 700 coins and tile 1 at
level 2. -/
def finishedGame : Game :=
  { matchOf
      [{ ID := "alice", Name := "Alice", Coins := 900, Position := 1,
         Status := PlayerStatus.PlayerStatusPlaying, HasRolled := true, InPrison := false,
         PrisonDays := 0, JoinTime := 0 },
       { ID := "bob", Name := "Bob", Coins := 700, Position := 4,
         Status := PlayerStatus.PlayerStatusPlaying, HasRolled := false, InPrison := false,
         PrisonDays := 0, JoinTime := 0 }]
      GameStatus.StatusFinished 2600 "alice" with Map := bobsBoard }

/-- The number of players whose total assets are strictly larger than those of `p`: the rank
of `p` by descending total assets, counted from 0. -/
def rankOf (g : Game) (p : Player) : Nat :=
  (g.Players.filter (fun q => decide (totalAssets g q > totalAssets g p))).length

/-- The share `floor(pool * r)` of the rank counted from 0, with `r` = 50%, 30%, 15%, 5% for
the first four ranks and nothing beyond. -/
def prizeShare (pool : Int) (rank : Nat) : Int :=
  match prizeRatios[rank]? with
  | some percent => pool * percent / 100
  | none => 0

/-- All that the payout loop credits to `id` when it pays `assets` in order with `ratios`. -/
def prizeSum (pool : Int) (id : String) : List PlayerAsset → List Int → Int
  | asset :: assets, ratio :: ratios =>
    (if asset.PlayerID = id then rateOf pool ratio else 0) + prizeSum pool id assets ratios
  | _, _ => 0

/-- A match in progress on `bobsBoard` with 2001 in the pool: alice holds 900 coins, bob 700
coins and tile 1 at level 2 (worth 600). -/
def endingGame : Game :=
  { matchOf
      [{ ID := "alice", Name := "Alice", Coins := 900, Position := 1,
         Status := PlayerStatus.PlayerStatusPlaying, HasRolled := true, InPrison := false,
         PrisonDays := 0, JoinTime := 0 },
       { ID := "bob", Name := "Bob", Coins := 700, Position := 4,
         Status := PlayerStatus.PlayerStatusPlaying, HasRolled := false, InPrison := false,
         PrisonDays := 0, JoinTime := 0 }]
      GameStatus.StatusPlaying 2001 "alice" with Map := bobsBoard }

/-- A match in progress on the default board with 2000 in the pool, in which alice and bob
hold 900 coins each and no tile. -/
def tieGame : Game :=
  matchOf
    [{ ID := "alice", Name := "Alice", Coins := 900, Position := 1,
       Status := PlayerStatus.PlayerStatusPlaying, HasRolled := true, InPrison := false,
       PrisonDays := 0, JoinTime := 0 },
     { ID := "bob", Name := "Bob", Coins := 900, Position := 4,
       Status := PlayerStatus.PlayerStatusPlaying, HasRolled := false, InPrison := false,
       PrisonDays := 0, JoinTime := 0 }]
    GameStatus.StatusPlaying 2000 "alice"

/-- A player entry with 500 coins, standing on the start tile, not rolled. -/
def seat (id : String) : Player :=
  { ID := id, Name := id, Coins := 500, Position := 0,
    Status := PlayerStatus.PlayerStatusPlaying, HasRolled := false, InPrison := false,
    PrisonDays := 0, JoinTime := 0 }

/-- A match in progress with three players, started at time 0; alice is to move. -/
def threeGame : Game :=
  matchOf [seat "alice", seat "bob", seat "carol"] GameStatus.StatusPlaying 3000 "alice"

/-- The match state of `NextTurn` after the turn has passed to `next` at time `now`: the
rolled flag of the outgoing player cleared, current player and turn start set. -/
def turnPassed (g : Game) (next : String) (now : Time) : Game :=
  { g.updatePlayer g.CurrentPlayerID (fun p => { p with HasRolled := false }) with
    CurrentPlayerID := next, CurrentTurnStarted := now }

/-- A match in progress with four players. -/
def fullGame : Game :=
  matchOf [seat "alice", seat "bob", seat "carol", seat "dave"] GameStatus.StatusPlaying 4000
    "alice"

/-! ## The float64 arithmetic behind `rateOf` -/

/-- The loop behind `bitLen`: halve until zero, at most `fuel` times. -/
def bitLenAux : Nat → Nat → Nat
  | 0, _ => 0
  | fuel + 1, n => if n = 0 then 0 else bitLenAux fuel (n / 2) + 1

/-- The number of binary digits of `n`. -/
def bitLen (n : Nat) : Nat := bitLenAux n n

/-- Rounding of a natural number to 53 significant bits, ties to even: applied to the
numerator `n` of a magnitude `n / 2 ^ e`, it gives the numerator of the nearest float64. -/
def round53 (n : Nat) : Nat :=
  if bitLen n ≤ 53 then n
  else
    let s := bitLen n - 53
    let q := n / 2 ^ s
    let r := n % 2 ^ s
    if 2 ^ (s - 1) < r ∨ (r = 2 ^ (s - 1) ∧ q % 2 = 1) then (q + 1) * 2 ^ s else q * 2 ^ s

/-- The float64 constants `0.01`, `0.02`, `0.05`, `0.15`, `0.3` and `0.5`, listed by their
per-cent value as (mantissa, exponent) with value `mantissa / 2 ^ exponent`. -/
def float64Rate : Int → Nat × Nat
  | 1 => (5764607523034235, 59)
  | 2 => (5764607523034235, 58)
  | 5 => (7205759403792794, 57)
  | 15 => (5404319552844595, 55)
  | 30 => (5404319552844595, 54)
  | 50 => (4503599627370496, 53)
  | _ => (0, 0)

/-- The magnitude of `int(float64(pool) * rate)` for a pool of magnitude `pool`: conversion to
float64, one float64 multiplication, truncation. -/
def goRateNat (pool : Nat) (percent : Int) : Nat :=
  round53 (round53 pool * (float64Rate percent).1) / 2 ^ (float64Rate percent).2

/-- The value `int(float64(pool) * rate)` in float64 arithmetic, for the rate of `percent`
per cent. -/
def goRate (pool percent : Int) : Int :=
  if pool < 0 then -(goRateNat pool.natAbs percent : Int) else (goRateNat pool.natAbs percent : Int)

/-! ## Example matches for the cards and the prison -/

/-- A match in progress on the default board: alice stands on the chance tile (position 2),
bob on tile 4, and the prize pool holds 2000. -/
def chanceGame : Game :=
  matchOf
    [{ ID := "alice", Name := "Alice", Coins := 500, Position := 2,
       Status := PlayerStatus.PlayerStatusPlaying, HasRolled := true, InPrison := false,
       PrisonDays := 0, JoinTime := 0 },
     { ID := "bob", Name := "Bob", Coins := 40, Position := 4,
       Status := PlayerStatus.PlayerStatusPlaying, HasRolled := false, InPrison := false,
       PrisonDays := 0, JoinTime := 0 }]
    GameStatus.StatusPlaying 2000 "alice"

/-- The teleport card (draw 70) sending the player back to tile 1. -/
def teleportBack : Draws := { dice := 1, effect := 70, target := 1, order := ["alice", "bob"] }

/-- What the collecting fate card takes from the players other than `id`: `min(100, balance)`
from each of them, added up. -/
def fateCollection (g : Game) (id : String) : Int :=
  ((g.Players.filter (fun p => decide (p.ID ≠ id))).map (fun p => min 100 p.Coins)).sum

/-- A six-tile board: the default board followed by a fate tile. -/
def fateBoard : GameMap :=
  { Tiles := NewDefaultMap.Tiles ++
      [{ ID := 5, Name := "命运", Typ := TileType.TileFate, Price := 0, OwnerID := "",
         Level := 0, RentPrice := [] }] }

/-- A match in progress on `fateBoard`: alice stands on the fate tile with 500 coins, bob holds
40 coins and carol 300. -/
def fateGame : Game :=
  { ID := "m", Players :=
      [{ ID := "alice", Name := "Alice", Coins := 500, Position := 5,
         Status := PlayerStatus.PlayerStatusPlaying, HasRolled := true, InPrison := false,
         PrisonDays := 0, JoinTime := 0 },
       { ID := "bob", Name := "Bob", Coins := 40, Position := 4,
         Status := PlayerStatus.PlayerStatusPlaying, HasRolled := false, InPrison := false,
         PrisonDays := 0, JoinTime := 0 },
       { ID := "carol", Name := "Carol", Coins := 300, Position := 1,
         Status := PlayerStatus.PlayerStatusPlaying, HasRolled := false, InPrison := false,
         PrisonDays := 0, JoinTime := 0 }],
    Status := GameStatus.StatusPlaying, PrizePool := 3000, Map := fateBoard,
    CurrentPlayerID := "alice", CurrentTurnStarted := 0, StartTime := 0, Actions := [] }

/-- The collecting fate card (draw 10), the registry visited as carol, alice, bob. -/
def fateCollectDraw : Draws :=
  { dice := 0, effect := 10, target := 0, order := ["carol", "alice", "bob"] }

/-- The board `fateBoard` after bob has bought tile 1. -/
def fateBoardOwned : GameMap :=
  { Tiles := [
      { ID := 0, Name := "起点", Typ := TileType.TileStart, Price := 0, OwnerID := "",
        Level := 0, RentPrice := [] },
      { ID := 1, Name := "第一大道", Typ := TileType.TileProperty, Price := 200, OwnerID := "bob",
        Level := 0, RentPrice := [20, 40, 80] },
      { ID := 2, Name := "机会", Typ := TileType.TileChance, Price := 0, OwnerID := "",
        Level := 0, RentPrice := [] },
      { ID := 3, Name := "第二大道", Typ := TileType.TileProperty, Price := 300, OwnerID := "",
        Level := 0, RentPrice := [30, 60, 120] },
      { ID := 4, Name := "银行", Typ := TileType.TileBank, Price := 0, OwnerID := "",
        Level := 0, RentPrice := [] },
      { ID := 5, Name := "命运", Typ := TileType.TileFate, Price := 0, OwnerID := "",
        Level := 0, RentPrice := [] } ] }

/-- The match `fateGame` on the board `fateBoardOwned`. -/
def fateGameOwned : Game :=
  { ID := "m", Players := fateGame.Players, Status := GameStatus.StatusPlaying,
    PrizePool := 3000, Map := fateBoardOwned, CurrentPlayerID := "alice",
    CurrentTurnStarted := 0, StartTime := 0, Actions := [] }

/-- The fate card that hands over a property (draw 70). -/
def fateGrantDraw : Draws :=
  { dice := 0, effect := 70, target := 0, order := ["carol", "alice", "bob"] }

/-- A six-tile board: the default board followed by a prison tile. -/
def prisonBoard : GameMap :=
  { Tiles := NewDefaultMap.Tiles ++
      [{ ID := 5, Name := "监狱", Typ := TileType.TilePrison, Price := 0, OwnerID := "",
         Level := 0, RentPrice := [] }] }

/-- A match in progress on `prisonBoard`: alice is to move, sits in prison on tile 5 and has
`days` prison turns left. -/
def prisonGame (days : Int) : Game :=
  { ID := "m", Players :=
      [{ ID := "alice", Name := "Alice", Coins := 500, Position := 5,
         Status := PlayerStatus.PlayerStatusPlaying, HasRolled := false, InPrison := true,
         PrisonDays := days, JoinTime := 0 },
       { ID := "bob", Name := "Bob", Coins := 40, Position := 4,
         Status := PlayerStatus.PlayerStatusPlaying, HasRolled := false, InPrison := false,
         PrisonDays := 0, JoinTime := 0 }],
    Status := GameStatus.StatusPlaying, PrizePool := 2000, Map := prisonBoard,
    CurrentPlayerID := "alice", CurrentTurnStarted := 0, StartTime := 0, Actions := [] }

/-! ## Invariants of play -/

/-- The sum of all players' balances. -/
def coinTotal (g : Game) : Int := (g.Players.map (fun p => p.Coins)).sum

/-- No balance and no prize pool is negative. -/
def Funds (g : Game) : Prop := 0 ≤ g.PrizePool ∧ ∀ p ∈ g.Players, 0 ≤ p.Coins

/-- A tile as the board constructors build it and play keeps it: price and rents are not
negative, and the level of a property indexes its rent schedule. -/
def TileOK (t : Tile) : Prop :=
  0 ≤ t.Price ∧ (∀ r ∈ t.RentPrice, 0 ≤ r) ∧
    (t.Typ = TileType.TileProperty → 0 ≤ t.Level ∧ t.Level < (t.RentPrice.length : Int))

instance (t : Tile) : Decidable (TileOK t) := by
  unfold TileOK; infer_instance

def TilesOK (g : Game) : Prop := ∀ t ∈ g.Map.Tiles, TileOK t

instance (g : Game) : Decidable (TilesOK g) := by
  unfold TilesOK; infer_instance

/-- A property of tiles that survives the two writes play makes to a tile: handing it to a
registered player, and raising the level of a property that is below its top level. -/
def TileClosed (keys : List String) (Q : Tile → Prop) : Prop :=
  (∀ (t : Tile) (o : String), o ∈ keys → Q t → Q { t with OwnerID := o }) ∧
  (∀ t : Tile, t.Typ = TileType.TileProperty → t.Level < (t.RentPrice.length : Int) - 1 →
    Q t → Q { t with Level := t.Level + 1 })

/-- What every step of play (`RollDice`, `BuyProperty`, `UpgradeProperty` and the effects they
run) keeps of a match `g` in the state `g1` it leaves. -/
structure Play (g g1 : Game) : Prop where
  keys : g1.keys = g.keys
  current : g1.CurrentPlayerID = g.CurrentPlayerID
  status : g1.Status = g.Status
  log : ∃ added, g1.Actions = g.Actions ++ added
  tiles : ∀ Q : Tile → Prop, TileClosed g.keys Q →
    (∀ t ∈ g.Map.Tiles, Q t) → ∀ t ∈ g1.Map.Tiles, Q t
  total : RegistryOK g → coinTotal g1 + g1.PrizePool = coinTotal g + g.PrizePool
  funds : RegistryOK g → TilesOK g → Funds g → Funds g1

/-! ## Reachable match states -/

/-- The handler `LeaveGame` (`internal/api/handler/game.go`), the one place outside the game
package that writes to a match: `delete(g.Players, playerID)` while the match is Waiting. -/
def LeaveGame (g : Game) (playerID : String) : Game × Ret :=
  if g.Status ≠ GameStatus.StatusWaiting then (g, Ret.err GameError.ErrGameInProgress)
  else ({ g with Players := g.Players.filter (fun p => decide (p.ID ≠ playerID)) }, Ret.nil)

/-- What the Go run time guarantees about the visiting orders an operation is given: a
`range` over the registry visits every key once.  Players, positions, times and the values
of `rand.Intn` are not constrained. -/
def Op.admissible (g : Game) : Op → Prop
  | Op.startGame feeOrder idOrder _ => IsRange g feeOrder ∧ IsRange g idOrder
  | Op.rollDice _ d _ => IsRange g d.order
  | Op.nextTurn order endOrder _ => IsRange g order ∧ IsRange g endOrder
  | Op.endGame order _ => IsRange g order
  | Op.getFinalResults order => IsRange g order
  | _ => True

instance (g : Game) (op : Op) : Decidable (Op.admissible g op) := by
  cases op <;> unfold Op.admissible <;> infer_instance

/-- The match states a run of the program can reach: a newly created match, followed by any
sequence of operations (successful or failed) and of `LeaveGame` requests. -/
inductive Reachable : Game → Prop
  | create (id : String) : Reachable (NewGame id)
  | step {g : Game} (op : Op) : Reachable g → Op.admissible g op → Reachable (Op.after g op)
  | leave {g : Game} (playerID : String) : Reachable g → Reachable (LeaveGame g playerID).1

/-- The invariant of reachable match states. -/
structure Sound (g : Game) : Prop where
  registry : RegistryOK g
  tiles : TilesOK g
  pool : 0 ≤ g.PrizePool
  coins : g.Status ≠ GameStatus.StatusWaiting → ∀ p ∈ g.Players, 0 ≤ p.Coins
  current : g.Status = GameStatus.StatusPlaying → g.CurrentPlayerID ∈ g.keys

/-- A run of the program: alice (1500 coins) and bob (1200 coins) join a new match, the match
is started, and alice rolls a 2, lands on the chance tile and draws the penalty card. -/
def playedGame : Game :=
  Op.after (Op.after (Op.after (Op.after (NewGame "m")
    (Op.addPlayer (NewPlayer "alice" "Alice" 1500 1)))
    (Op.addPlayer (NewPlayer "bob" "Bob" 1200 2)))
    (Op.startGame ["bob", "alice"] ["alice", "bob"] 3))
    (Op.rollDice "alice" { dice := 1, effect := 40, target := 0, order := ["alice", "bob"] } 4)

/-- A run of the program with a player in debt: alice (1500 coins), carol (-50 coins) and bob
(1200 coins) join a new match; a first `StartGame` fails on carol; carol leaves; the match is
started, and alice rolls a 2, lands on the chance tile and draws the penalty card. -/
def debtGame : Game :=
  Op.after (Op.after (LeaveGame (Op.after (Op.after (Op.after (Op.after (NewGame "m")
    (Op.addPlayer (NewPlayer "alice" "Alice" 1500 1)))
    (Op.addPlayer (NewPlayer "carol" "Carol" (-50) 2)))
    (Op.addPlayer (NewPlayer "bob" "Bob" 1200 3)))
    (Op.startGame ["carol", "alice", "bob"] ["alice", "bob", "carol"] 4)) "carol").1
    (Op.startGame ["bob", "alice"] ["alice", "bob"] 5))
    (Op.rollDice "alice" { dice := 1, effect := 40, target := 0, order := ["alice", "bob"] } 6)

/-- Every owned tile is owned by a registered player, and before the start of the match no
tile is owned. -/
def OwnersOK (g : Game) : Prop :=
  (∀ t ∈ g.Map.Tiles, t.OwnerID = "" ∨ t.OwnerID ∈ g.keys) ∧
  (g.Status = GameStatus.StatusWaiting → ∀ t ∈ g.Map.Tiles, t.OwnerID = "")

instance (g : Game) : Decidable (OwnersOK g) := by
  unfold OwnersOK; infer_instance

/-- A run of the program in which a tile is bought: `playedGame`, then bob's turn, a roll of 1
onto tile 1, and the purchase of that tile. -/
def boughtGame : Game :=
  Op.after (Op.after (Op.after playedGame
    (Op.nextTurn ["alice", "bob"] ["alice", "bob"] 5))
    (Op.rollDice "bob" { dice := 0, effect := 0, target := 0, order := ["alice", "bob"] } 6))
    (Op.buyProperty "bob" 7)

/-- Nobody joins with the rolled flag set (`NewPlayer` builds players with the flag clear). -/
def Op.joinsClear : Op → Prop
  | Op.addPlayer player => player.HasRolled = false
  | _ => True

instance (op : Op) : Decidable (Op.joinsClear op) := by
  cases op <;> unfold Op.joinsClear <;> infer_instance

/-- The match states a run of the program can reach when every player joins with the rolled
flag clear. -/
inductive ReachableClear : Game → Prop
  | create (id : String) : ReachableClear (NewGame id)
  | step {g : Game} (op : Op) : ReachableClear g → Op.admissible g op → Op.joinsClear op →
      ReachableClear (Op.after g op)
  | leave {g : Game} (playerID : String) : ReachableClear g →
      ReachableClear (LeaveGame g playerID).1

/-- The registry reduced to ids and rolled flags. -/
def Game.flags (g : Game) : List (String × Bool) :=
  g.Players.map (fun p => (p.ID, p.HasRolled))

/-- Before the start nobody has rolled; during play only the current player may have. -/
def RolledOK (g : Game) : Prop :=
  (g.Status = GameStatus.StatusWaiting → ∀ x ∈ g.flags, x.2 = false) ∧
  (g.Status = GameStatus.StatusPlaying → ∀ x ∈ g.flags, x.2 = true → x.1 = g.CurrentPlayerID)

instance (g : Game) : Decidable (RolledOK g) := by
  unfold RolledOK; infer_instance

/-- A roll of 5; a chance card drawn with it has no effect (draw 90). -/
def rollFive : Draws := { dice := 4, effect := 90, target := 0, order := ["alice", "bob"] }

/-- What `EndGame` pays out in total, in the words of the specification: `floor(P * r)` for
the ratios 50%, 30%, 15%, 5%, one term per player, at most four terms. -/
def totalPayout (g : Game) : Int :=
  ((prizeRatios.take g.Players.length).map (fun r => g.PrizePool * r / 100)).sum

/-! ## The arithmetic of the running program

The definitions above compute with exact integers.  The program computes with Go `int`
(64 bits, two's complement) and with `float64`; the definitions of this section are the same
methods with that arithmetic: every `+`, `-`, `*` on an `int` is reduced by `wrap`, and every
`int(float64(pool) * rate)` is `goRate`.  The two layers agree on matches whose numbers are
small (`Small`, `after_exact`).  The fields of a match stay `Int`; what joins a match is an
`int` (`Op.typed`) and every write of this layer is reduced to an `int`. -/

/-- Go `int` arithmetic on a 64-bit platform: the exact result of `+`, `-` or `*`, reduced to
the range from `-2 ^ 63` to `2 ^ 63 - 1` (two's complement wrap-around). -/
def wrap (x : Int) : Int := (x + 2 ^ 63) % 2 ^ 64 - 2 ^ 63

/-- The value is a Go `int`. -/
def inRange (x : Int) : Prop := -2 ^ 63 ≤ x ∧ x < 2 ^ 63

instance (x : Int) : Decidable (inRange x) := by
  unfold inRange; infer_instance

namespace Machine

/-- The loop of `collectEntranceFees` over the keys still to visit. -/
def collectEntranceFees (g : Game) : List String → Game × Ret
  | [] => (g, Ret.nil)
  | id :: rest =>
    match g.player? id with
    | none => collectEntranceFees g rest
    | some player =>
      if player.Coins < InitialEntranceFee then (g, Ret.err GameError.ErrInsufficientFunds)
      else
        collectEntranceFees
          { g.updatePlayer id
              (fun p => { p with Coins := wrap (p.Coins - InitialEntranceFee) }) with
            PrizePool := wrap (g.PrizePool + InitialEntranceFee) } rest

/-- `StartGame`; `feeOrder` and `idOrder` are the visiting orders of its two map loops. -/
def StartGame (g : Game) (feeOrder idOrder : List String) (now : Time) : Game × Ret :=
  match canStartGame g with
  | Ret.nil =>
    match collectEntranceFees g feeOrder with
    | (g1, Ret.nil) => initializeGame g1 idOrder now
    | (g1, r) => (g1, r)
  | r => (g, r)

/-- The inner loop over `g.Map.Tiles` adding `Price * (Level + 1)` for every tile of `id`. -/
def addPropertyValue (tiles : List Tile) (id : String) (start : Int) : Int :=
  tiles.foldl (fun total tile =>
    if tile.OwnerID = id then wrap (total + wrap (tile.Price * wrap (tile.Level + 1)))
    else total) start

/-- The payout loop of `EndGame`: rank `i` receives `int(float64(PrizePool) * prizeRatios[i])`;
the loop stops at the end of either slice. -/
def distributePrizes (g : Game) : List PlayerAsset → List Int → Game
  | asset :: assets, ratio :: ratios =>
    distributePrizes
      (g.updatePlayer asset.PlayerID
        (fun p => { p with Coins := wrap (p.Coins + goRate g.PrizePool ratio) })) assets ratios
  | _, _ => g

def EndGame (g : Game) (order : List String) (now : Time) : Game × Ret :=
  if g.Status ≠ GameStatus.StatusPlaying then (g, Ret.err GameError.ErrInvalidGameState)
  else
    let g1 := { g with Status := GameStatus.StatusFinished }
    let assets : List PlayerAsset := (g1.range order).map (fun player =>
      { PlayerID := player.ID, Total := addPropertyValue g1.Map.Tiles player.ID player.Coins })
    let ranked := sortSlice (fun a b => decide (a.Total > b.Total)) assets
    let g2 := distributePrizes g1 ranked prizeRatios
    (AddAction g2 { Typ := ActionType.gameEnd, PlayerID := "", Position := 0, Amount := 0,
                    Timestamp := now }, Ret.nil)

/-- The method `handlePrisonState`; it touches nothing but the player it is given. -/
def handlePrisonState (player : Player) : Player × Ret :=
  if player.InPrison then
    if player.PrisonDays > 0 then
      ({ player with PrisonDays := wrap (player.PrisonDays - 1), HasRolled := true },
        Ret.err GameError.ErrInPrison)
    else ({ player with InPrison := false, PrisonDays := 0 }, Ret.nil)
  else (player, Ret.nil)

def handlePassingGo (g : Game) (playerID : String) : Game :=
  let passingGoReward := goRate g.PrizePool PassingGoRewardRate
  { g.updatePlayer playerID (fun p => { p with Coins := wrap (p.Coins + passingGoReward) }) with
    PrizePool := wrap (g.PrizePool - passingGoReward) }

/-- The method `handleRentPayment`; `player` is the value of `*player` on entry. -/
def handleRentPayment (g : Game) (player : Player) (tile : Tile) (now : Time) : Game × Ret :=
  match g.player? tile.OwnerID with
  | none => (g, Ret.err GameError.ErrPlayerNotFound)
  | some _ =>
    match idx tile.RentPrice tile.Level with
    | none => (g, Ret.panic)
    | some rent =>
      if player.Coins < rent then (g, Ret.err GameError.ErrInsufficientFunds)
      else
        let g1 := g.updatePlayer player.ID (fun p => { p with Coins := wrap (p.Coins - rent) })
        let g2 := g1.updatePlayer tile.OwnerID
          (fun p => { p with Coins := wrap (p.Coins + rent) })
        (AddAction g2 { Typ := ActionType.ActionPayRent, PlayerID := player.ID,
                        Position := player.Position, Amount := rent, Timestamp := now }, Ret.nil)

/-- The method `handleChanceCard`; `player` is the value of `*player` on entry. -/
def handleChanceCard (g : Game) (player : Player) (d : Draws) (now : Time) : Game × Ret :=
  if d.effect < 30 then
    let amount := goRate g.PrizePool ChanceRewardRate
    let g1 := { g.updatePlayer player.ID
                  (fun p => { p with Coins := wrap (p.Coins + amount) }) with
                PrizePool := wrap (g.PrizePool - amount) }
    (AddAction g1 { Typ := ActionType.chanceReward, PlayerID := player.ID, Position := 0,
                    Amount := amount, Timestamp := now }, Ret.nil)
  else if d.effect < 60 then
    let amount : Int := if player.Coins < 100 then player.Coins else 100
    let g1 := { g.updatePlayer player.ID
                  (fun p => { p with Coins := wrap (p.Coins - amount) }) with
                PrizePool := wrap (g.PrizePool + amount) }
    (AddAction g1 { Typ := ActionType.chancePenalty, PlayerID := player.ID, Position := 0,
                    Amount := wrap (-amount), Timestamp := now }, Ret.nil)
  else if d.effect < 80 then
    let oldPosition := player.Position
    let g1 := g.updatePlayer player.ID (fun p => { p with Position := d.target })
    let g2 := AddAction g1 { Typ := ActionType.chanceTeleport, PlayerID := player.ID,
                             Position := d.target, Amount := 0, Timestamp := now }
    if d.target < oldPosition then (handlePassingGo g2 player.ID, Ret.nil) else (g2, Ret.nil)
  else (g, Ret.nil)

/-- The loop of the fate card that takes up to 100 coins from every other player. -/
def collectFromOthers (g : Game) (playerID : String) : List String → Int → Game × Int
  | [], amount => (g, amount)
  | id :: rest, amount =>
    match g.player? id with
    | none => collectFromOthers g playerID rest amount
    | some p =>
      if p.ID ≠ playerID then
        let deduct : Int := if p.Coins < 100 then p.Coins else 100
        collectFromOthers
          (g.updatePlayer id (fun q => { q with Coins := wrap (q.Coins - deduct) }))
          playerID rest (wrap (amount + deduct))
      else collectFromOthers g playerID rest amount

/-- The loop of the fate card that adds `Price / 10` for every tile the player owns. -/
def maintenanceFee (tiles : List Tile) (playerID : String) : Int :=
  tiles.foldl (fun amount tile =>
    if tile.OwnerID = playerID then wrap (amount + Int.tdiv tile.Price 10) else amount) 0

/-- The method `handleFateCard`; `player` is the value of `*player` on entry. -/
def handleFateCard (g : Game) (player : Player) (d : Draws) (now : Time) : Game × Ret :=
  if d.effect < 30 then
    let (g1, amount) := collectFromOthers g player.ID d.order 0
    let g2 := g1.updatePlayer player.ID (fun p => { p with Coins := wrap (p.Coins + amount) })
    (AddAction g2 { Typ := ActionType.fateCollect, PlayerID := player.ID, Position := 0,
                    Amount := amount, Timestamp := now }, Ret.nil)
  else if d.effect < 60 then
    let total := maintenanceFee g.Map.Tiles player.ID
    let amount : Int := if total > player.Coins then player.Coins else total
    let g1 := { g.updatePlayer player.ID
                  (fun p => { p with Coins := wrap (p.Coins - amount) }) with
                PrizePool := wrap (g.PrizePool + amount) }
    (AddAction g1 { Typ := ActionType.fateMaintenance, PlayerID := player.ID, Position := 0,
                    Amount := wrap (-amount), Timestamp := now }, Ret.nil)
  else if d.effect < 80 then
    match grantFirstFree player.ID g.Map.Tiles with
    | none => (g, Ret.nil)
    | some (tiles, id) =>
      (AddAction { g with Map := { Tiles := tiles } }
        { Typ := ActionType.fateProperty, PlayerID := player.ID, Position := id, Amount := 0,
          Timestamp := now }, Ret.nil)
  else (g, Ret.nil)

/-- The method `handleTileEffect`, called with the pointer `g.Players[playerID]`. -/
def handleTileEffect (g : Game) (playerID : String) (d : Draws) (now : Time) : Game × Ret :=
  match g.player? playerID with
  | none => (g, Ret.panic)
  | some player =>
    match idx g.Map.Tiles player.Position with
    | none => (g, Ret.panic)
    | some tile =>
      match tile.Typ with
      | TileType.TileProperty =>
        if tile.OwnerID ≠ "" ∧ tile.OwnerID ≠ player.ID then handleRentPayment g player tile now
        else (g, Ret.nil)
      | TileType.TileChance => handleChanceCard g player d now
      | TileType.TileFate => handleFateCard g player d now
      | TileType.TilePrison => handlePrison g player now
      | _ => (g, Ret.nil)

/-- The value `newPosition` of `RollDice` for a player standing where `player` stands. -/
def rollTarget (g : Game) (player : Player) (d : Draws) : Int :=
  Int.tmod (wrap (player.Position + wrap (d.dice + 1))) g.Map.Tiles.length

/-- The action record `RollDice` builds. -/
def rollAction (g : Game) (playerID : String) (player : Player) (d : Draws) (now : Time) :
    GameAction :=
  { Typ := ActionType.ActionRollDice, PlayerID := playerID, Position := rollTarget g player d,
    Amount := 0, Timestamp := now }

/-- The match state `RollDice` hands to `handleTileEffect`: prison state resolved, the player
moved and marked as rolled, the passing reward paid when the position wrapped. -/
def afterMove (g : Game) (playerID : String) (player : Player) (d : Draws) : Game :=
  let g1 := g.updatePlayer playerID (fun p => (handlePrisonState p).1)
  let g2 := g1.updatePlayer playerID
    (fun p => { p with Position := rollTarget g player d, HasRolled := true })
  if rollTarget g player d < player.Position then handlePassingGo g2 playerID else g2

def RollDice (g : Game) (playerID : String) (d : Draws) (now : Time) : ActionResult :=
  match validateGameState g playerID with
  | Ret.nil =>
    match g.player? playerID with
    | none => { game := g, action := none, ret := Ret.panic }
    | some player =>
      if player.HasRolled then
        { game := g, action := none, ret := Ret.err GameError.ErrAlreadyRolled }
      else
        let g1 := g.updatePlayer playerID (fun p => (handlePrisonState p).1)
        match (handlePrisonState player).2 with
        | Ret.nil =>
          let steps := wrap (d.dice + 1)
          let oldPosition := player.Position
          if g1.Map.Tiles.length = 0 then { game := g1, action := none, ret := Ret.panic }
          else
            let newPosition := Int.tmod (wrap (oldPosition + steps)) g1.Map.Tiles.length
            let g2 := g1.updatePlayer playerID
              (fun p => { p with Position := newPosition, HasRolled := true })
            let action : GameAction :=
              { Typ := ActionType.ActionRollDice, PlayerID := playerID, Position := newPosition,
                Amount := 0, Timestamp := now }
            let g3 := if newPosition < oldPosition then handlePassingGo g2 playerID else g2
            match handleTileEffect g3 playerID d now with
            | (g4, Ret.nil) => { game := AddAction g4 action, action := some action, ret := Ret.nil }
            | (g4, Ret.err e) => { game := g4, action := some action, ret := Ret.err e }
            | (g4, Ret.panic) => { game := g4, action := none, ret := Ret.panic }
        | r => { game := g1, action := none, ret := r }
  | r => { game := g, action := none, ret := r }

def BuyProperty (g : Game) (playerID : String) (now : Time) : ActionResult :=
  match validateGameState g playerID with
  | Ret.nil =>
    match g.player? playerID with
    | none => { game := g, action := none, ret := Ret.panic }
    | some player =>
      match idx g.Map.Tiles player.Position with
      | none => { game := g, action := none, ret := Ret.panic }
      | some tile =>
        match validatePropertyPurchase player tile with
        | Ret.nil =>
          let g1 := g.updatePlayer playerID
            (fun p => { p with Coins := wrap (p.Coins - tile.Price) })
          let g2 := g1.setTile player.Position { tile with OwnerID := playerID }
          let g3 := { g2 with PrizePool := wrap (g2.PrizePool + tile.Price) }
          let action : GameAction :=
            { Typ := ActionType.ActionBuyProperty, PlayerID := playerID,
              Position := player.Position, Amount := tile.Price, Timestamp := now }
          { game := AddAction g3 action, action := some action, ret := Ret.nil }
        | r => { game := g, action := none, ret := r }
  | r => { game := g, action := none, ret := r }

def UpgradeProperty (g : Game) (playerID : String) (position : Int) (now : Time) :
    ActionResult :=
  match validateGameState g playerID with
  | Ret.nil =>
    match g.player? playerID with
    | none => { game := g, action := none, ret := Ret.panic }
    | some player =>
      match idx g.Map.Tiles position with
      | none => { game := g, action := none, ret := Ret.panic }
      | some tile =>
        match validatePropertyUpgrade player tile with
        | Ret.nil =>
          let upgradeCost := Int.tdiv tile.Price 2
          let g1 := g.updatePlayer playerID
            (fun p => { p with Coins := wrap (p.Coins - upgradeCost) })
          let g2 := g1.setTile position { tile with Level := wrap (tile.Level + 1) }
          let g3 := { g2 with PrizePool := wrap (g2.PrizePool + upgradeCost) }
          let action : GameAction :=
            { Typ := ActionType.ActionUpgrade, PlayerID := playerID, Position := position,
              Amount := upgradeCost, Timestamp := now }
          { game := AddAction g3 action, action := some action, ret := Ret.nil }
        | r => { game := g, action := none, ret := r }
  | r => { game := g, action := none, ret := r }

/-- `NextTurn`; `order` is the visiting order of the loop in `getOrderedPlayerIDs`, `endOrder`
that of the loop in `EndGame` when the match has timed out. -/
def NextTurn (g : Game) (order endOrder : List String) (now : Time) : Game × Ret :=
  if g.Status ≠ GameStatus.StatusPlaying then (g, Ret.err GameError.ErrInvalidGameState)
  else
    let g1 := g.updatePlayer g.CurrentPlayerID (fun p => { p with HasRolled := false })
    match getNextPlayerID g1 (getOrderedPlayerIDs g1 order) with
    | none => (g1, Ret.panic)
    | some next =>
      let g2 := { g1 with CurrentPlayerID := next, CurrentTurnStarted := now }
      if now - g2.StartTime ≥ GameTimeout then EndGame g2 endOrder now else (g2, Ret.nil)

/-- The match state an operation leaves behind, however the call ended. -/
def after (g : Game) : Op → Game
  | Op.addPlayer player => (AddPlayer g player).1
  | Op.startGame feeOrder idOrder now => (StartGame g feeOrder idOrder now).1
  | Op.rollDice playerID d now => (RollDice g playerID d now).game
  | Op.buyProperty playerID now => (BuyProperty g playerID now).game
  | Op.upgradeProperty playerID position now => (UpgradeProperty g playerID position now).game
  | Op.nextTurn order endOrder now => (NextTurn g order endOrder now).1
  | Op.endGame order now => (EndGame g order now).1
  | Op.getFinalResults _ => g

end Machine

/-- The values an operation takes from outside are what the program can supply: a joining
player's numbers are Go `int`s, and the draws are values of `rand.Intn(6)`, `rand.Intn(100)`
and `rand.Intn(len(g.Map.Tiles))`. -/
def Op.typed (g : Game) : Op → Prop
  | Op.addPlayer player =>
    inRange player.Coins ∧ inRange player.Position ∧ inRange player.PrisonDays
  | Op.rollDice _ d _ =>
    (0 ≤ d.dice ∧ d.dice < 6) ∧ (0 ≤ d.effect ∧ d.effect < 100) ∧
      (0 ≤ d.target ∧ d.target < g.Map.Tiles.length)
  | _ => True

instance (g : Game) (op : Op) : Decidable (Op.typed g op) := by
  cases op <;> unfold Op.typed <;> infer_instance

/-- The numbers of a player are small. -/
def Player.small (p : Player) : Prop :=
  p.Coins.natAbs < 2 ^ 45 ∧ p.Position.natAbs < 2 ^ 45 ∧ p.PrisonDays.natAbs < 2 ^ 45

instance (p : Player) : Decidable p.small := by
  unfold Player.small; infer_instance

/-- The numbers of a tile are small. -/
def Tile.small (t : Tile) : Prop :=
  t.Price.natAbs < 2 ^ 22 ∧ t.Level.natAbs < 2 ^ 22 ∧ ∀ r ∈ t.RentPrice, r.natAbs < 2 ^ 45

instance (t : Tile) : Decidable t.small := by
  unfold Tile.small; infer_instance

/-- Every number stored in the match is small: the prize pool, the balances, positions and
prison counters and the rents are below `2 ^ 45` in absolute value, prices and levels below
`2 ^ 22`, and there are at most `2 ^ 10` players and tiles. -/
def Small (g : Game) : Prop :=
  g.PrizePool.natAbs < 2 ^ 45 ∧ g.Players.length ≤ 2 ^ 10 ∧ g.Map.Tiles.length ≤ 2 ^ 10 ∧
    (∀ p ∈ g.Players, p.small) ∧ ∀ t ∈ g.Map.Tiles, t.small

instance (g : Game) : Decidable (Small g) := by
  unfold Small; infer_instance

/-- The visiting orders the Go run time produces for a registry nobody has left: the keys sit
in the slots of the map in the order in which the players joined, and every `range` visits
the slots cyclically from some slot. -/
def Op.walks (g : Game) : Op → Prop
  | Op.startGame feeOrder idOrder _ =>
    List.IsRotated feeOrder g.keys ∧ List.IsRotated idOrder g.keys
  | Op.rollDice _ d _ => List.IsRotated d.order g.keys
  | Op.nextTurn order endOrder _ => List.IsRotated order g.keys ∧ List.IsRotated endOrder g.keys
  | Op.endGame order _ => List.IsRotated order g.keys
  | Op.getFinalResults order => List.IsRotated order g.keys
  | _ => True

instance (g : Game) (op : Op) : Decidable (Op.walks g op) := by
  cases op <;> unfold Op.walks <;> infer_instance

namespace Machine

/-- Match states a run of the program does reach: a newly created match, followed by any
sequence of operations (successful or failed) on values the program can supply, every loop
over the registry visiting it in an order the run time produces (`Op.walks`). -/
inductive Reachable : Game → Prop
  | create (id : String) : Reachable (NewGame id)
  | step {g : Game} (op : Op) : Reachable g → Op.walks g op → Op.typed g op →
      Reachable (after g op)

/-- The match states a run of the program can reach while every number stored in the match
stays small: a newly created match, followed by any sequence of operations (successful or
failed) and of `LeaveGame` requests; the loops may visit the registry in any order. -/
inductive ReachableSmall : Game → Prop
  | create (id : String) : ReachableSmall (NewGame id)
  | step {g : Game} (op : Op) : ReachableSmall g → Op.admissible g op → Op.typed g op →
      Small (after g op) → ReachableSmall (after g op)
  | leave {g : Game} (playerID : String) : ReachableSmall g →
      ReachableSmall (LeaveGame g playerID).1

/-- The match state after a sequence of operations. -/
def run (g : Game) : List Op → Game
  | [] => g
  | op :: ops => run (after g op) ops

/-- Every operation of the sequence gets visiting orders the run time produces and values the
program can supply. -/
def Runs (g : Game) : List Op → Prop
  | [] => True
  | op :: ops => Op.walks g op ∧ Op.typed g op ∧ Runs (after g op) ops

instance decRuns : (g : Game) → (ops : List Op) → Decidable (Runs g ops)
  | _, [] => isTrue trivial
  | g, op :: ops =>
    @instDecidableAnd _ _ _ (@instDecidableAnd _ _ _ (decRuns (after g op) ops))

/-- The sequence of operations stays small: as `Runs`, and every state it visits is small. -/
def RunsSmall (g : Game) : List Op → Prop
  | [] => True
  | op :: ops =>
    Op.admissible g op ∧ Op.typed g op ∧ Small (after g op) ∧ RunsSmall (after g op) ops

instance decRunsSmall : (g : Game) → (ops : List Op) → Decidable (RunsSmall g ops)
  | _, [] => isTrue trivial
  | g, op :: ops =>
    @instDecidableAnd _ _ _ (@instDecidableAnd _ _ _
      (@instDecidableAnd _ _ _ (decRunsSmall (after g op) ops)))

end Machine

/-- A die roll of `dice + 1` with the card draw `effect`; registry visited as alice, bob. -/
def roll (dice effect : Int) : Draws :=
  { dice := dice, effect := effect, target := 0, order := ["alice", "bob"] }

/-- Bob's turn comes, bob rolls a 5 (from tile 3 of the 5-tile board back onto tile 3), and
the turn passes on to alice. -/
def rentRound (now : Time) : List Op :=
  [Op.nextTurn ["alice", "bob"] ["alice", "bob"] now, Op.rollDice "bob" (roll 4 0) now,
   Op.nextTurn ["alice", "bob"] ["alice", "bob"] now]

/-- A run of the program with a player who joins with the largest `int`: alice
(9223372036854775807 coins) and bob (3000 coins) join and the match starts; alice rolls a 3,
buys tile 3 and upgrades it twice (rent 120); bob's turn comes, bob rolls a 3 onto tile 3 and
pays the rent; the turn passes to alice, and then twelve times bob rolls a 5, stays on tile 3
and pays the rent again.  Alice now holds 9223372036854775767 coins, bob 440, the pool 2600. -/
def richOps : List Op :=
  [Op.addPlayer (NewPlayer "alice" "Alice" 9223372036854775807 1),
   Op.addPlayer (NewPlayer "bob" "Bob" 3000 2),
   Op.startGame ["alice", "bob"] ["alice", "bob"] 3,
   Op.rollDice "alice" (roll 2 0) 4,
   Op.buyProperty "alice" 5,
   Op.upgradeProperty "alice" 3 6,
   Op.upgradeProperty "alice" 3 7,
   Op.nextTurn ["alice", "bob"] ["alice", "bob"] 8,
   Op.rollDice "bob" (roll 2 0) 9,
   Op.nextTurn ["alice", "bob"] ["alice", "bob"] 10] ++
  rentRound 11 ++ rentRound 12 ++ rentRound 13 ++ rentRound 14 ++ rentRound 15 ++
  rentRound 16 ++ rentRound 17 ++ rentRound 18 ++ rentRound 19 ++ rentRound 20 ++
  rentRound 21 ++ rentRound 22

/-- The match state after `richOps`. -/
def richGame : Game := Machine.run (NewGame "m") richOps

/-- The match `richGame` when the turn has passed to bob. -/
def richTurn : Game := Machine.run richGame [Op.nextTurn ["alice", "bob"] ["alice", "bob"] 23]

/-- The run continues: bob's turn comes, bob rolls a 5 and pays the rent of 120 once more, the
turn passes to alice, and alice rolls a 4 from tile 3 onto the chance tile (tile 2, past the
start tile) and draws the penalty card (draw 40). -/
def overdrawnOps : List Op :=
  [Op.nextTurn ["alice", "bob"] ["alice", "bob"] 23, Op.rollDice "bob" (roll 4 0) 24,
   Op.nextTurn ["alice", "bob"] ["alice", "bob"] 25, Op.rollDice "alice" (roll 3 40) 26]

/-- The match state after `richOps` and `overdrawnOps`. -/
def overdrawnGame : Game := Machine.run richGame overdrawnOps

/-- A short run with a player who joins with the largest `int`: alice (9223372036854775807
coins), bob and carol (1000 coins each) join, the match starts and is ended at once. -/
def windfallOps : List Op :=
  [Op.addPlayer (NewPlayer "alice" "Alice" 9223372036854775807 1),
   Op.addPlayer (NewPlayer "bob" "Bob" 1000 2),
   Op.addPlayer (NewPlayer "carol" "Carol" 1000 3),
   Op.startGame ["alice", "bob", "carol"] ["alice", "bob", "carol"] 4,
   Op.endGame ["alice", "bob", "carol"] 5]

/-- The match state after `windfallOps`. -/
def windfallGame : Game := Machine.run (NewGame "m") windfallOps

/-- A run of the program: alice (1500 coins) and bob (1200 coins) join a new match, the match
is started, and alice rolls a 2, lands on the chance tile and draws the penalty card. -/
def playedOps : List Op :=
  [Op.addPlayer (NewPlayer "alice" "Alice" 1500 1),
   Op.addPlayer (NewPlayer "bob" "Bob" 1200 2),
   Op.startGame ["bob", "alice"] ["alice", "bob"] 3,
   Op.rollDice "alice" (roll 1 40) 4]

/-- The match state after `playedOps`. -/
def playedRun : Game := Machine.run (NewGame "m") playedOps

/-- A run of the program with a player in debt: alice (1500 coins), carol (-50 coins) and bob
(1200 coins) join a new match and a first `StartGame` fails on carol. -/
def debtOps : List Op :=
  [Op.addPlayer (NewPlayer "alice" "Alice" 1500 1),
   Op.addPlayer (NewPlayer "carol" "Carol" (-50) 2),
   Op.addPlayer (NewPlayer "bob" "Bob" 1200 3),
   Op.startGame ["carol", "alice", "bob"] ["alice", "bob", "carol"] 4]

/-- After carol has left: the match is started, and alice rolls a 2, lands on the chance tile
and draws the penalty card. -/
def settledOps : List Op :=
  [Op.startGame ["bob", "alice"] ["alice", "bob"] 5, Op.rollDice "alice" (roll 1 40) 6]

/-- The match state after `debtOps`, the departure of carol, and `settledOps`. -/
def debtRun : Game :=
  Machine.run (LeaveGame (Machine.run (NewGame "m") debtOps) "carol").1 settledOps

/-- The match `wrapGame` with 16426275177895799 in the prize pool. -/
def hugeWrapGame : Game :=
  matchOf [aliceOnBank,
    { ID := "bob", Name := "Bob", Coins := 700, Position := 1,
      Status := PlayerStatus.PlayerStatusPlaying, HasRolled := false, InPrison := false,
      PrisonDays := 0, JoinTime := 0 }]
    GameStatus.StatusPlaying 16426275177895799 "alice"

/-- The match `chanceGame` with 11748601611465899 in the prize pool. -/
def hugeChanceGame : Game :=
  matchOf
    [{ ID := "alice", Name := "Alice", Coins := 500, Position := 2,
       Status := PlayerStatus.PlayerStatusPlaying, HasRolled := true, InPrison := false,
       PrisonDays := 0, JoinTime := 0 },
     { ID := "bob", Name := "Bob", Coins := 40, Position := 4,
       Status := PlayerStatus.PlayerStatusPlaying, HasRolled := false, InPrison := false,
       PrisonDays := 0, JoinTime := 0 }]
    GameStatus.StatusPlaying 11748601611465899 "alice"

/-- The reward card (draw 10). -/
def rewardDraw : Draws := { dice := 1, effect := 10, target := 0, order := ["alice", "bob"] }

/-- A match in progress on the default board: alice is to move from tile 1 with 500 coins, bob
stands on the bank tile; the pool holds 2000. -/
def tileOneGame : Game :=
  matchOf
    [{ ID := "alice", Name := "Alice", Coins := 500, Position := 1,
       Status := PlayerStatus.PlayerStatusPlaying, HasRolled := false, InPrison := false,
       PrisonDays := 0, JoinTime := 0 },
     { ID := "bob", Name := "Bob", Coins := 40, Position := 4,
       Status := PlayerStatus.PlayerStatusPlaying, HasRolled := false, InPrison := false,
       PrisonDays := 0, JoinTime := 0 }]
    GameStatus.StatusPlaying 2000 "alice"

/-- A roll of 6 with the teleport card (draw 70) sending the player to the start tile. -/
def sixAndHome : Draws := { dice := 5, effect := 70, target := 0, order := ["alice", "bob"] }

/-- Tile 4 of the default board. -/
def bankTile : Tile :=
  { ID := 4, Name := "银行", Typ := TileType.TileBank, Price := 0, OwnerID := "", Level := 0,
    RentPrice := [] }

/-- The match `endingGame` with 7506080886996643 in the prize pool: alice holds 900 coins, bob
700 coins and tile 1 at level 2 (worth 600). -/
def hugeEndingGame : Game :=
  { matchOf
      [{ ID := "alice", Name := "Alice", Coins := 900, Position := 1,
         Status := PlayerStatus.PlayerStatusPlaying, HasRolled := true, InPrison := false,
         PrisonDays := 0, JoinTime := 0 },
       { ID := "bob", Name := "Bob", Coins := 700, Position := 4,
         Status := PlayerStatus.PlayerStatusPlaying, HasRolled := false, InPrison := false,
         PrisonDays := 0, JoinTime := 0 }]
      GameStatus.StatusPlaying 7506080886996643 "alice" with Map := bobsBoard }

/-- A match in progress with four players (500 coins each) and 13855075435523319 in the prize
pool. -/
def hugeFullGame : Game :=
  matchOf [seat "alice", seat "bob", seat "carol", seat "dave"] GameStatus.StatusPlaying
    13855075435523319 "alice"

/-! ## The turn order, in the words of the specification -/

/-- The successor of `x` in the ordering `slots`, wrapping from the last entry to the first. -/
def successorIn (slots : List String) (x : String) : String :=
  slots.getD ((slots.indexOf x + 1) % slots.length) x

/-- Consecutive `NextTurn` calls; each call comes with the visiting orders of its two loops
and with its time. -/
def nextTurns (g : Game) : List (List String × List String × Time) → Game
  | [] => g
  | call :: calls => nextTurns (Machine.NextTurn g call.1 call.2.1 call.2.2).1 calls

/-- The current player after each of the consecutive `NextTurn` calls. -/
def turnHolders (g : Game) : List (List String × List String × Time) → List String
  | [] => []
  | call :: calls =>
    (Machine.NextTurn g call.1 call.2.1 call.2.2).1.CurrentPlayerID ::
      turnHolders (Machine.NextTurn g call.1 call.2.1 call.2.2).1 calls

/-- Three `NextTurn` calls on `threeGame`, each visiting the registry from another slot. -/
def threeCalls : List (List String × List String × Time) :=
  [(["alice", "bob", "carol"], [], 1), (["carol", "alice", "bob"], [], 2),
   (["bob", "carol", "alice"], [], 3)]

/-! ## Frame lemmas: what the elementary writes leave alone -/

@[simp] theorem updatePlayer_Status (g : Game) (id : String) (f : Player → Player) :
    (g.updatePlayer id f).Status = g.Status := rfl

@[simp] theorem updatePlayer_PrizePool (g : Game) (id : String) (f : Player → Player) :
    (g.updatePlayer id f).PrizePool = g.PrizePool := rfl

@[simp] theorem updatePlayer_Map (g : Game) (id : String) (f : Player → Player) :
    (g.updatePlayer id f).Map = g.Map := rfl

@[simp] theorem updatePlayer_Actions (g : Game) (id : String) (f : Player → Player) :
    (g.updatePlayer id f).Actions = g.Actions := rfl

@[simp] theorem updatePlayer_CurrentPlayerID (g : Game) (id : String) (f : Player → Player) :
    (g.updatePlayer id f).CurrentPlayerID = g.CurrentPlayerID := rfl

@[simp] theorem setTile_Status (g : Game) (i : Int) (t : Tile) :
    (g.setTile i t).Status = g.Status := rfl

@[simp] theorem setTile_Players (g : Game) (i : Int) (t : Tile) :
    (g.setTile i t).Players = g.Players := rfl

@[simp] theorem setTile_PrizePool (g : Game) (i : Int) (t : Tile) :
    (g.setTile i t).PrizePool = g.PrizePool := rfl

@[simp] theorem setTile_Actions (g : Game) (i : Int) (t : Tile) :
    (g.setTile i t).Actions = g.Actions := rfl

@[simp] theorem setTile_CurrentPlayerID (g : Game) (i : Int) (t : Tile) :
    (g.setTile i t).CurrentPlayerID = g.CurrentPlayerID := rfl

@[simp] theorem AddAction_Status (g : Game) (a : GameAction) :
    (AddAction g a).Status = g.Status := rfl

@[simp] theorem AddAction_Players (g : Game) (a : GameAction) :
    (AddAction g a).Players = g.Players := rfl

@[simp] theorem AddAction_PrizePool (g : Game) (a : GameAction) :
    (AddAction g a).PrizePool = g.PrizePool := rfl

@[simp] theorem AddAction_Map (g : Game) (a : GameAction) :
    (AddAction g a).Map = g.Map := rfl

@[simp] theorem AddAction_CurrentPlayerID (g : Game) (a : GameAction) :
    (AddAction g a).CurrentPlayerID = g.CurrentPlayerID := rfl

@[simp] theorem handlePassingGo_Status (g : Game) (id : String) :
    (handlePassingGo g id).Status = g.Status := rfl

@[simp] theorem handlePassingGo_Map (g : Game) (id : String) :
    (handlePassingGo g id).Map = g.Map := rfl

@[simp] theorem handlePassingGo_Actions (g : Game) (id : String) :
    (handlePassingGo g id).Actions = g.Actions := rfl

/-! ## Status is kept by every loop and every tile effect -/

theorem collectEntranceFees_Status (order : List String) (g : Game) :
    (collectEntranceFees g order).1.Status = g.Status := by
  induction order generalizing g with
  | nil => rfl
  | cons id rest ih =>
    unfold collectEntranceFees
    cases h : g.player? id with
    | none => simpa using ih g
    | some player =>
      by_cases hc : player.Coins < InitialEntranceFee
      · simp [hc]
      · simp only [hc, if_false]
        rw [ih]
        rfl

theorem collectFromOthers_Status (order : List String) (g : Game) (id : String) (amount : Int) :
    (collectFromOthers g id order amount).1.Status = g.Status := by
  induction order generalizing g amount with
  | nil => rfl
  | cons k rest ih =>
    unfold collectFromOthers
    split
    · exact ih g amount
    · split_ifs <;> simp only [ih, updatePlayer_Status]

theorem distributePrizes_Status (assets : List PlayerAsset) (ratios : List Int) (g : Game) :
    (distributePrizes g assets ratios).Status = g.Status := by
  induction assets generalizing g ratios with
  | nil => simp [distributePrizes]
  | cons a rest ih =>
    cases ratios with
    | nil => simp [distributePrizes]
    | cons r rs =>
      simp only [distributePrizes]
      rw [ih]
      rfl

theorem handleRentPayment_Status (g : Game) (player : Player) (tile : Tile) (now : Time) :
    (handleRentPayment g player tile now).1.Status = g.Status := by
  unfold handleRentPayment
  split
  · rfl
  · split
    · rfl
    · split_ifs <;> rfl

theorem handleChanceCard_Status (g : Game) (player : Player) (d : Draws) (now : Time) :
    (handleChanceCard g player d now).1.Status = g.Status := by
  unfold handleChanceCard
  split_ifs <;> first | rfl | (dsimp only; split_ifs <;> rfl)

theorem handleFateCard_Status (g : Game) (player : Player) (d : Draws) (now : Time) :
    (handleFateCard g player d now).1.Status = g.Status := by
  unfold handleFateCard
  split_ifs
  · simp [collectFromOthers_Status]
  · rfl
  · split <;> rfl
  · rfl

theorem handleTileEffect_Status (g : Game) (id : String) (d : Draws) (now : Time) :
    (handleTileEffect g id d now).1.Status = g.Status := by
  unfold handleTileEffect
  split
  · rfl
  · split
    · rfl
    · split
      · split_ifs
        · exact handleRentPayment_Status g _ _ now
        · rfl
      · exact handleChanceCard_Status g _ d now
      · exact handleFateCard_Status g _ d now
      · rfl
      · rfl

/-! ## Status after each operation -/

theorem AddPlayer_Status (g : Game) (player : Player) :
    (AddPlayer g player).1.Status = g.Status := by
  unfold AddPlayer
  split_ifs <;> rfl

theorem RollDice_Status (g : Game) (id : String) (d : Draws) (now : Time) :
    (RollDice g id d now).game.Status = g.Status := by
  unfold RollDice
  split
  · split
    · rfl
    · split_ifs
      · rfl
      · dsimp only
        split
        · split_ifs <;> first
            | rfl
            | (split <;> rename_i h <;>
                have hs := congrArg (fun r => r.1.Status) h <;>
                simp only [handleTileEffect_Status] at hs <;>
                simp only [AddAction_Status, ← hs, handlePassingGo_Status, updatePlayer_Status])
        · rfl
  · rfl

theorem BuyProperty_Status (g : Game) (id : String) (now : Time) :
    (BuyProperty g id now).game.Status = g.Status := by
  unfold BuyProperty
  split
  · split
    · rfl
    · split
      · rfl
      · split <;> rfl
  · rfl

theorem UpgradeProperty_Status (g : Game) (id : String) (position : Int) (now : Time) :
    (UpgradeProperty g id position now).game.Status = g.Status := by
  unfold UpgradeProperty
  split
  · split
    · rfl
    · split
      · rfl
      · split <;> rfl
  · rfl

theorem EndGame_Status (g : Game) (order : List String) (now : Time) :
    (EndGame g order now).1.Status =
      if g.Status = GameStatus.StatusPlaying then GameStatus.StatusFinished else g.Status := by
  unfold EndGame
  by_cases h : g.Status = GameStatus.StatusPlaying
  · simp [h, distributePrizes_Status]
  · simp [h]

theorem initializeGame_Status (g : Game) (order : List String) (now : Time) :
    (initializeGame g order now).1.Status = g.Status ∨
      (initializeGame g order now).1.Status = GameStatus.StatusPlaying := by
  unfold initializeGame
  dsimp only
  split
  · exact Or.inl rfl
  · exact Or.inr rfl

theorem StartGame_Status (g : Game) (feeOrder idOrder : List String) (now : Time) :
    StatusAdvances g.Status (StartGame g feeOrder idOrder now).1.Status := by
  unfold StartGame
  split
  · rename_i hcan
    have hw : g.Status = GameStatus.StatusWaiting := by
      unfold canStartGame at hcan
      by_contra hne
      split_ifs at hcan
    have hfee := collectEntranceFees_Status feeOrder g
    split
    · rename_i g1 h1
      rw [h1] at hfee
      dsimp only at hfee
      rcases initializeGame_Status g1 idOrder now with h | h
      · exact Or.inl (by rw [h, hfee])
      · exact Or.inr (Or.inl ⟨hw, h⟩)
    · rename_i g1 r _ h1
      rw [h1] at hfee
      exact Or.inl hfee
  · exact Or.inl rfl

theorem NextTurn_Status (g : Game) (order endOrder : List String) (now : Time) :
    StatusAdvances g.Status (NextTurn g order endOrder now).1.Status := by
  unfold NextTurn
  by_cases h : g.Status = GameStatus.StatusPlaying
  · simp only [h, ne_eq, not_true_eq_false, if_false]
    split
    · exact Or.inl h
    · dsimp only
      split_ifs
      · rw [EndGame_Status]
        simp only [updatePlayer_Status, h, if_true]
        exact Or.inr (Or.inr ⟨rfl, rfl⟩)
      · exact Or.inl h
  · simp only [h, ne_eq, not_false_eq_true, if_true]
    exact Or.inl rfl

/-- C1: whatever operation is applied to whatever match state, and however the call ends, the
status afterwards is the status before or its successor in Waiting, Playing, Finished. -/
theorem status_only_advances (g : Game) (op : Op) :
    StatusAdvances g.Status (op.after g).Status := by
  cases op with
  | addPlayer player => exact Or.inl (AddPlayer_Status g player)
  | startGame feeOrder idOrder now => exact StartGame_Status g feeOrder idOrder now
  | rollDice playerID d now => exact Or.inl (RollDice_Status g playerID d now)
  | buyProperty playerID now => exact Or.inl (BuyProperty_Status g playerID now)
  | upgradeProperty playerID position now =>
    exact Or.inl (UpgradeProperty_Status g playerID position now)
  | nextTurn order endOrder now => exact NextTurn_Status g order endOrder now
  | endGame order now =>
    show StatusAdvances g.Status (EndGame g order now).1.Status
    rw [EndGame_Status]
    by_cases h : g.Status = GameStatus.StatusPlaying
    · simp only [h, if_true]
      exact Or.inr (Or.inr ⟨rfl, rfl⟩)
    · simp only [h, if_false]
      exact Or.inl rfl
  | getFinalResults order => exact Or.inl rfl

/-! ## The registry as a map -/

theorem player?_some {g : Game} {id : String} {p : Player} (h : g.player? id = some p) :
    p.ID = id ∧ p ∈ g.Players := by
  unfold Game.player? at h
  exact ⟨by simpa using List.find?_some h, List.mem_of_find?_eq_some h⟩

theorem player?_of_mem_keys {g : Game} {id : String} (h : id ∈ g.keys) :
    ∃ p, g.player? id = some p := by
  unfold Game.keys at h
  obtain ⟨q, hq, hid⟩ := List.mem_map.1 h
  cases hf : g.player? id with
  | some p => exact ⟨p, rfl⟩
  | none =>
    unfold Game.player? at hf
    have := List.find?_eq_none.1 hf q hq
    simp [hid] at this

theorem player?_updatePlayer (g : Game) (id k : String) (f : Player → Player)
    (hf : ∀ p, (f p).ID = p.ID) :
    (g.updatePlayer id f).player? k =
      (g.player? k).map (fun p => if p.ID = id then f p else p) := by
  unfold Game.player? Game.updatePlayer
  dsimp only
  have hF : ∀ p : Player, (if p.ID = id then f p else p).ID = p.ID := by
    intro p
    split_ifs <;> simp [hf]
  induction g.Players with
  | nil => rfl
  | cons p ps ih =>
    rw [List.map_cons, List.find?_cons, List.find?_cons, hF p]
    cases hd : decide (p.ID = k)
    · exact ih
    · rfl

theorem updatePlayer_keys (g : Game) (id : String) (f : Player → Player)
    (hf : ∀ p, (f p).ID = p.ID) : (g.updatePlayer id f).keys = g.keys := by
  unfold Game.keys Game.updatePlayer
  simp only [List.map_map]
  apply List.map_congr_left
  intro p _
  by_cases hi : p.ID = id <;> simp [hi, hf]

theorem range_keys (g : Game) (order : List String) (h : ∀ id ∈ order, id ∈ g.keys) :
    (g.range order).map (fun p => p.ID) = order := by
  unfold Game.range
  induction order with
  | nil => rfl
  | cons id rest ih =>
    obtain ⟨p, hp⟩ := player?_of_mem_keys (h id (List.mem_cons_self _ _))
    have hrest : ∀ k ∈ rest, k ∈ g.keys := fun k hk => h k (List.mem_cons_of_mem _ hk)
    simp only [List.filterMap_cons, hp, List.map_cons, ih hrest, (player?_some hp).1]

/-! ## StartGame -/

/-- The entrance-fee loop, when every key it visits is registered, is visited once and can
pay: every visited player is charged the fee and the pool grows by one fee per visit. -/
theorem collectEntranceFees_ok (order : List String) (g : Game)
    (hnd : order.Nodup) (hin : ∀ id ∈ order, id ∈ g.keys)
    (hc : ∀ p ∈ g.Players, p.ID ∈ order → InitialEntranceFee ≤ p.Coins) :
    collectEntranceFees g order =
      ({ g with
          Players := g.Players.map (fun p =>
            if p.ID ∈ order then { p with Coins := p.Coins - InitialEntranceFee } else p),
          PrizePool := g.PrizePool + InitialEntranceFee * order.length }, Ret.nil) := by
  induction order generalizing g with
  | nil => simp [collectEntranceFees]
  | cons id rest ih =>
    obtain ⟨player, hp⟩ := player?_of_mem_keys (hin id (List.mem_cons_self _ _))
    obtain ⟨hpid, hpmem⟩ := player?_some hp
    have hcoins : ¬ player.Coins < InitialEntranceFee :=
      not_lt.2 (hc player hpmem (by rw [hpid]; exact List.mem_cons_self _ _))
    have hnotin : id ∉ rest := (List.nodup_cons.1 hnd).1
    unfold collectEntranceFees
    simp only [hp, hcoins, if_false]
    rw [ih]
    · simp only [Game.updatePlayer, List.map_map, List.length_cons, Prod.mk.injEq, and_true,
        Game.mk.injEq, true_and]
      refine ⟨?_, by push_cast; ring⟩
      apply List.map_congr_left
      intro p _
      by_cases hi : p.ID = id
      · simp [hi, hnotin]
      · simp [hi]
    · exact (List.nodup_cons.1 hnd).2
    · intro k hk
      have : k ∈ g.keys := hin k (List.mem_cons_of_mem _ hk)
      simpa [Game.keys, Game.updatePlayer, List.map_map, Function.comp_def, apply_ite] using this
    · intro q hq hqr
      simp only [Game.updatePlayer, List.mem_map] at hq
      obtain ⟨p, hpm, rfl⟩ := hq
      by_cases hi : p.ID = id
      · simp only [hi, if_true] at hqr
        exact absurd hqr hnotin
      · simp only [hi, if_false] at hqr ⊢
        exact hc p hpm (List.mem_cons_of_mem _ hqr)

theorem strLE_iff (a b : String) : strLE a b ↔ a ≤ b :=
  String.le_iff_toList_le.symm

/-- The first element of `sort.Strings(ids)` is the least of `ids`. -/
theorem sortStrings_head (ids : List String) (hne : ids ≠ []) :
    ∃ first rest, sortStrings ids = first :: rest ∧ first ∈ ids ∧ ∀ id ∈ ids, first ≤ id := by
  haveI : IsTotal String strLE := ⟨fun a b => by
    simp only [strLE_iff]; exact le_total a b⟩
  haveI : IsTrans String strLE := ⟨fun a b c => by
    simp only [strLE_iff]; exact le_trans⟩
  have hperm : (sortStrings ids).Perm ids := List.perm_insertionSort strLE ids
  have hsorted : (sortStrings ids).Sorted strLE := List.sorted_insertionSort strLE ids
  cases hs : sortStrings ids with
  | nil =>
    rw [hs] at hperm
    exact absurd (List.Perm.nil_eq hperm).symm hne
  | cons first rest =>
    rw [hs] at hperm hsorted
    refine ⟨first, rest, rfl, hperm.subset (List.mem_cons_self _ _), ?_⟩
    intro id hid
    rcases List.mem_cons.1 (hperm.symm.subset hid) with h | h
    · rw [h]
    · exact (strLE_iff _ _).1 (List.rel_of_sorted_cons hsorted id h)

theorem keys_map_coins (ps : List Player) (f : Player → Player) (hf : ∀ p, (f p).ID = p.ID) :
    (ps.map f).map (fun p => p.ID) = ps.map (fun p => p.ID) := by
  simp [List.map_map, Function.comp_def, hf]

/-- What a successful start does, for one fixed registry. -/
theorem StartGame_ok (g : Game) (feeOrder idOrder : List String) (now : Time)
    (hreg : RegistryOK g) (hfee : IsRange g feeOrder) (hid : IsRange g idOrder)
    (hw : g.Status = GameStatus.StatusWaiting) (hn : 2 ≤ g.Players.length)
    (hc : ∀ p ∈ g.Players, 1000 ≤ p.Coins) :
    ∃ first, first ∈ g.keys ∧ (∀ id ∈ g.keys, first ≤ id) ∧
      StartGame g feeOrder idOrder now =
        ({ g with
            Players := g.Players.map (fun p => { p with Coins := p.Coins - 1000 }),
            PrizePool := g.PrizePool + 1000 * g.Players.length,
            CurrentPlayerID := first, Status := GameStatus.StatusPlaying, StartTime := now,
            CurrentTurnStarted := now }, Ret.nil) := by
  have hcan : canStartGame g = Ret.nil := by
    unfold canStartGame MinStartPlayers
    simp [hw, not_lt.2 hn]
  have hlen : feeOrder.length = g.Players.length := by
    rw [hfee.length_eq]; simp [Game.keys]
  have hcollect := collectEntranceFees_ok feeOrder g (hfee.nodup_iff.2 hreg)
    (fun id h => hfee.subset h) (fun p hp _ => hc p hp)
  have hplayers : g.Players.map (fun p =>
      if p.ID ∈ feeOrder then { p with Coins := p.Coins - InitialEntranceFee } else p) =
      g.Players.map (fun p => { p with Coins := p.Coins - 1000 }) := by
    apply List.map_congr_left
    intro p hp
    have : p.ID ∈ feeOrder := hfee.symm.subset (List.mem_map_of_mem _ hp)
    simp [this, InitialEntranceFee]
  rw [hplayers, hlen] at hcollect
  simp only [InitialEntranceFee] at hcollect
  have hne : idOrder ≠ [] := by
    intro h
    have := hid.length_eq
    simp [h, Game.keys] at this
    omega
  obtain ⟨first, rest, hsort, hmem, hmin⟩ := sortStrings_head idOrder hne
  refine ⟨first, hid.subset hmem, fun id h => hmin id (hid.symm.subset h), ?_⟩
  unfold StartGame
  simp only [hcan, hcollect]
  unfold initializeGame
  have hkeys : ∀ id ∈ idOrder, id ∈ Game.keys { g with
      Players := g.Players.map (fun p => { p with Coins := p.Coins - 1000 }),
      PrizePool := g.PrizePool + 1000 * g.Players.length } := by
    intro id h
    have := hid.subset h
    simpa [Game.keys, List.map_map, Function.comp_def] using this
  simp only [range_keys _ idOrder hkeys, hsort]

/-- C2: a Waiting match with at least two players (so also with 2 to 4), each holding at
least 1000 coins, starts: the call returns no error, every balance is 1000 lower, the prize
pool is 1000 per player higher, the status is Playing, and the current player is the least
registered id in lexicographic order.  That player is the same for every order in which the
same players joined and for every order in which the two map loops visit the registry. -/
theorem StartGame_fees_and_first_player (g : Game) (feeOrder idOrder : List String) (now : Time)
    (hreg : RegistryOK g) (hfee : IsRange g feeOrder) (hid : IsRange g idOrder)
    (hw : g.Status = GameStatus.StatusWaiting) (hn : 2 ≤ g.Players.length)
    (hc : ∀ p ∈ g.Players, 1000 ≤ p.Coins) :
    (StartGame g feeOrder idOrder now).2 = Ret.nil ∧
    (StartGame g feeOrder idOrder now).1.Players =
      g.Players.map (fun p => { p with Coins := p.Coins - 1000 }) ∧
    (StartGame g feeOrder idOrder now).1.PrizePool = g.PrizePool + 1000 * g.Players.length ∧
    (StartGame g feeOrder idOrder now).1.Status = GameStatus.StatusPlaying ∧
    (StartGame g feeOrder idOrder now).1.CurrentPlayerID ∈ g.keys ∧
    (∀ id ∈ g.keys, (StartGame g feeOrder idOrder now).1.CurrentPlayerID ≤ id) ∧
    (∀ (joined : List Player) (feeOrder2 idOrder2 : List String) (now2 : Time),
      joined.Perm g.Players →
      IsRange { g with Players := joined } feeOrder2 →
      IsRange { g with Players := joined } idOrder2 →
      (StartGame { g with Players := joined } feeOrder2 idOrder2 now2).1.CurrentPlayerID =
        (StartGame g feeOrder idOrder now).1.CurrentPlayerID) := by
  obtain ⟨first, hmem, hmin, hstart⟩ := StartGame_ok g feeOrder idOrder now hreg hfee hid hw hn hc
  rw [hstart]
  refine ⟨rfl, rfl, rfl, rfl, hmem, hmin, ?_⟩
  intro joined feeOrder2 idOrder2 now2 hperm hfee2 hid2
  have hkeys : (Game.keys { g with Players := joined }).Perm g.keys := hperm.map _
  obtain ⟨first2, hmem2, hmin2, hstart2⟩ :=
    StartGame_ok { g with Players := joined } feeOrder2 idOrder2 now2
      (hkeys.nodup_iff.2 hreg) hfee2 hid2 hw (by rw [show ({ g with Players := joined } : Game).Players = joined from rfl, hperm.length_eq]; exact hn)
      (fun p hp => hc p (hperm.subset hp))
  rw [hstart2]
  exact le_antisymm (hmin2 first (hkeys.symm.subset hmem)) (hmin first2 (hkeys.subset hmem2))

/-- C2, on an example: bob (1500 coins) joined before alice (1000 coins). -/
theorem StartGame_fees_and_first_player_witness :
    (StartGame lobbyRich ["bob", "alice"] ["alice", "bob"] 7).2 = Ret.nil ∧
    (StartGame lobbyRich ["bob", "alice"] ["alice", "bob"] 7).1.Players =
      lobbyRich.Players.map (fun p => { p with Coins := p.Coins - 1000 }) ∧
    (StartGame lobbyRich ["bob", "alice"] ["alice", "bob"] 7).1.PrizePool =
      lobbyRich.PrizePool + 1000 * lobbyRich.Players.length ∧
    (StartGame lobbyRich ["bob", "alice"] ["alice", "bob"] 7).1.Status =
      GameStatus.StatusPlaying ∧
    (StartGame lobbyRich ["bob", "alice"] ["alice", "bob"] 7).1.CurrentPlayerID ∈
      lobbyRich.keys ∧
    (∀ id ∈ lobbyRich.keys,
      (StartGame lobbyRich ["bob", "alice"] ["alice", "bob"] 7).1.CurrentPlayerID ≤ id) ∧
    (∀ (joined : List Player) (feeOrder2 idOrder2 : List String) (now2 : Time),
      joined.Perm lobbyRich.Players →
      IsRange { lobbyRich with Players := joined } feeOrder2 →
      IsRange { lobbyRich with Players := joined } idOrder2 →
      (StartGame { lobbyRich with Players := joined } feeOrder2 idOrder2 now2).1.CurrentPlayerID =
        (StartGame lobbyRich ["bob", "alice"] ["alice", "bob"] 7).1.CurrentPlayerID) :=
  StartGame_fees_and_first_player lobbyRich ["bob", "alice"] ["alice", "bob"] 7
    (by decide) (by decide) (by decide) rfl (by decide) (by decide)

/-! ## RollDice -/

theorem validateGameState_nil {g : Game} {id : String} :
    validateGameState g id = Ret.nil ↔
      g.Status = GameStatus.StatusPlaying ∧ g.CurrentPlayerID = id ∧
        (g.player? id).isSome := by
  unfold validateGameState
  by_cases h1 : g.Status = GameStatus.StatusPlaying
  · by_cases h2 : g.CurrentPlayerID = id
    · cases h3 : g.player? id <;> simp [h1, h2, h3]
    · simp [h1, h2]
  · simp [h1]

/-- The body of `RollDice` once validation, the rolled check and the prison check have
passed, in terms of what `handleTileEffect` returns. -/
theorem RollDice_eq (g : Game) (id : String) (d : Draws) (now : Time) (player : Player)
    (hv : validateGameState g id = Ret.nil) (hp : g.player? id = some player)
    (hr : player.HasRolled = false) (hprison : (handlePrisonState player).2 = Ret.nil)
    (hlen : g.Map.Tiles.length ≠ 0) :
    RollDice g id d now =
      match handleTileEffect (afterMove g id player d) id d now with
      | (g4, Ret.nil) =>
        { game := AddAction g4 (rollAction g id player d now),
          action := some (rollAction g id player d now), ret := Ret.nil }
      | (g4, Ret.err e) =>
        { game := g4, action := some (rollAction g id player d now), ret := Ret.err e }
      | (g4, Ret.panic) => { game := g4, action := none, ret := Ret.panic } := by
  unfold RollDice
  simp only [hv, hp, hr, hprison, updatePlayer_Map, hlen, if_false, Bool.false_eq_true]
  rfl

/-! ## What the tile effects leave of a player -/

theorem updatePlayer_proj {β : Type} (proj : Player → β) (g : Game) (id k : String)
    (f : Player → Player) (hid : ∀ p, (f p).ID = p.ID) (hf : ∀ p, proj (f p) = proj p) :
    ((g.updatePlayer id f).player? k).map proj = (g.player? k).map proj := by
  rw [player?_updatePlayer g id k f hid, Option.map_map]
  congr 1
  funext p
  simp only [Function.comp]
  split_ifs
  · exact hf p
  · rfl

theorem updatePlayer_coins_proj {β : Type} (proj : Player → β) (hb : CoinBlind proj)
    (g : Game) (id k : String) (c : Player → Int) :
    ((g.updatePlayer id (fun p => { p with Coins := c p })).player? k).map proj =
      (g.player? k).map proj :=
  updatePlayer_proj proj g id k _ (fun _ => rfl) (fun p => hb p _)

theorem handlePassingGo_proj {β : Type} (proj : Player → β) (hb : CoinBlind proj) (g : Game)
    (id k : String) : ((handlePassingGo g id).player? k).map proj = (g.player? k).map proj :=
  updatePlayer_coins_proj proj hb g id k _

theorem handleRentPayment_proj {β : Type} (proj : Player → β) (hb : CoinBlind proj) (g : Game)
    (player : Player) (tile : Tile) (now : Time) (k : String) :
    ((handleRentPayment g player tile now).1.player? k).map proj = (g.player? k).map proj := by
  unfold handleRentPayment
  split
  · rfl
  · split
    · rfl
    · split_ifs
      · rfl
      · show ((Game.updatePlayer _ _ _).player? k).map proj = _
        rw [updatePlayer_coins_proj proj hb, updatePlayer_coins_proj proj hb]

theorem collectFromOthers_proj {β : Type} (proj : Player → β) (hb : CoinBlind proj)
    (order : List String) (g : Game) (id k : String) (amount : Int) :
    ((collectFromOthers g id order amount).1.player? k).map proj = (g.player? k).map proj := by
  induction order generalizing g amount with
  | nil => rfl
  | cons j rest ih =>
    unfold collectFromOthers
    split
    · exact ih g amount
    · split_ifs <;> simp only [ih, updatePlayer_coins_proj proj hb]

theorem handleFateCard_proj {β : Type} (proj : Player → β) (hb : CoinBlind proj) (g : Game)
    (player : Player) (d : Draws) (now : Time) (k : String) :
    ((handleFateCard g player d now).1.player? k).map proj = (g.player? k).map proj := by
  unfold handleFateCard
  split_ifs
  · show ((Game.updatePlayer _ _ _).player? k).map proj = _
    rw [updatePlayer_coins_proj proj hb, collectFromOthers_proj proj hb]
  · exact updatePlayer_coins_proj proj hb g _ k _
  · split <;> rfl
  · rfl

theorem standing_blind : CoinBlind standing := fun _ _ => rfl

/-- Where the acting player stands after a chance card: at the teleport target when the draw
falls in [60, 80), otherwise where the player stood. -/
theorem handleChanceCard_standing (g : Game) (player : Player) (d : Draws) (now : Time)
    (hp : g.player? player.ID = some player) :
    ((handleChanceCard g player d now).1.player? player.ID).map standing =
      some (if 60 ≤ d.effect ∧ d.effect < 80 then d.target else player.Position,
        player.HasRolled) := by
  unfold handleChanceCard
  by_cases h1 : d.effect < 30
  · have hmid : ¬ (60 ≤ d.effect ∧ d.effect < 80) := by omega
    rw [if_pos h1, if_neg hmid]
    show ((Game.updatePlayer _ _ _).player? _).map standing = _
    rw [updatePlayer_coins_proj standing standing_blind, hp]
    rfl
  · rw [if_neg h1]
    by_cases h2 : d.effect < 60
    · have hmid : ¬ (60 ≤ d.effect ∧ d.effect < 80) := by omega
      rw [if_pos h2, if_neg hmid]
      show ((Game.updatePlayer _ _ _).player? _).map standing = _
      rw [updatePlayer_coins_proj standing standing_blind, hp]
      rfl
    · rw [if_neg h2]
      by_cases h3 : d.effect < 80
      · have hmid : 60 ≤ d.effect ∧ d.effect < 80 := by omega
        rw [if_pos h3, if_pos hmid]
        have hg : ((g.updatePlayer player.ID
            (fun p => { p with Position := d.target })).player? player.ID).map standing =
            some (d.target, player.HasRolled) := by
          have hu := player?_updatePlayer g player.ID player.ID
            (fun p => { p with Position := d.target }) (fun _ => rfl)
          rw [hu, hp]
          simp [standing]
        dsimp only
        split_ifs
        · show ((handlePassingGo _ _).player? _).map standing = _
          rw [handlePassingGo_proj standing standing_blind]
          exact hg
        · exact hg
      · have hmid : ¬ (60 ≤ d.effect ∧ d.effect < 80) := by omega
        rw [if_neg h3, if_neg hmid, hp]
        rfl

theorem handleChanceCard_ret (g : Game) (player : Player) (d : Draws) (now : Time) :
    (handleChanceCard g player d now).2 = Ret.nil := by
  unfold handleChanceCard
  split_ifs <;> first | rfl | (dsimp only; split_ifs <;> rfl)

theorem handleFateCard_ret (g : Game) (player : Player) (d : Draws) (now : Time) :
    (handleFateCard g player d now).2 = Ret.nil := by
  unfold handleFateCard
  split_ifs
  · rfl
  · rfl
  · split <;> rfl
  · rfl

theorem handleRentPayment_ret (g : Game) (player : Player) (tile : Tile) (now : Time)
    (hlv : (idx tile.RentPrice tile.Level).isSome) :
    (handleRentPayment g player tile now).2 ≠ Ret.panic := by
  unfold handleRentPayment
  split
  · simp
  · split
    · rename_i h
      simp [h] at hlv
    · split_ifs <;> simp

theorem handlePrison_standing (g : Game) (player : Player) (now : Time) (k : String) :
    ((handlePrison g player now).1.player? k).map standing = (g.player? k).map standing :=
  updatePlayer_proj standing g player.ID k
    (fun p => { p with InPrison := true, PrisonDays := 1 }) (fun _ => rfl) (fun _ => rfl)

/-- The tile effect for a player standing on `tile`: it ends without a panic when the level
of a property indexes its rent schedule, and it leaves the player where the player stood,
rolled flag untouched, except for the teleport card of a chance tile. -/
theorem handleTileEffect_standing (g : Game) (id : String) (d : Draws) (now : Time)
    (p : Player) (tile : Tile) (hp : g.player? id = some p)
    (ht : idx g.Map.Tiles p.Position = some tile)
    (hlv : tile.Typ = TileType.TileProperty → (idx tile.RentPrice tile.Level).isSome) :
    (handleTileEffect g id d now).2 ≠ Ret.panic ∧
    ((handleTileEffect g id d now).1.player? id).map standing =
      some (if tile.Typ = TileType.TileChance ∧ 60 ≤ d.effect ∧ d.effect < 80 then d.target
            else p.Position, p.HasRolled) := by
  have hid : p.ID = id := (player?_some hp).1
  unfold handleTileEffect
  simp only [hp, ht]
  cases hT : tile.Typ <;> simp only [false_and, true_and, if_false, reduceCtorEq]
  · exact ⟨by simp, by rw [hp]; rfl⟩
  · split_ifs
    · exact ⟨handleRentPayment_ret g p tile now (hlv hT),
        by rw [handleRentPayment_proj standing standing_blind, hp]; rfl⟩
    · exact ⟨by simp, by rw [hp]; rfl⟩
  · refine ⟨by rw [handleChanceCard_ret]; simp, ?_⟩
    have := handleChanceCard_standing g p d now (by rw [hid]; exact hp)
    rw [hid] at this
    exact this
  · exact ⟨by rw [handleFateCard_ret]; simp,
      by rw [handleFateCard_proj standing standing_blind, hp]; rfl⟩
  · exact ⟨by simp, by rw [hp]; rfl⟩
  · exact ⟨by simp [handlePrison], by rw [handlePrison_standing, hp]; rfl⟩

/-! ## Slice indexing -/

theorem idx_some_of_range {α : Type} (l : List α) (i : Int) (h0 : 0 ≤ i)
    (h1 : i < (l.length : Int)) : ∃ a, idx l i = some a ∧ a ∈ l := by
  have hlt : i.toNat < l.length := by omega
  refine ⟨l[i.toNat], ?_, List.getElem_mem hlt⟩
  unfold idx
  rw [if_neg (not_lt.2 h0), List.getElem?_eq_getElem hlt]

theorem idx_some {α : Type} {l : List α} {i : Int} {a : α} (h : idx l i = some a) :
    0 ≤ i ∧ i < (l.length : Int) ∧ a ∈ l := by
  unfold idx at h
  by_cases hneg : i < 0
  · simp [hneg] at h
  · rw [if_neg hneg] at h
    obtain ⟨hlt, ha⟩ := List.getElem?_eq_some.1 h
    refine ⟨not_lt.1 hneg, by omega, ?_⟩
    rw [← ha]
    exact List.getElem_mem hlt

theorem BoardOK.rent {g : Game} (hb : BoardOK g) {t : Tile} (ht : t ∈ g.Map.Tiles)
    (hT : t.Typ = TileType.TileProperty) : (idx t.RentPrice t.Level).isSome := by
  obtain ⟨h0, h1⟩ := hb t ht hT
  obtain ⟨r, hr, _⟩ := idx_some_of_range t.RentPrice t.Level h0 h1
  rw [hr]
  rfl

/-! ## The state handed to the tile effect -/

theorem handlePrisonState_ID (p : Player) : (handlePrisonState p).1.ID = p.ID := by
  unfold handlePrisonState
  split_ifs <;> rfl

theorem handlePrisonState_free (p : Player) (h : p.InPrison = false) :
    handlePrisonState p = (p, Ret.nil) := by
  unfold handlePrisonState
  simp [h]

theorem afterMove_Map (g : Game) (id : String) (player : Player) (d : Draws) :
    (afterMove g id player d).Map = g.Map := by
  unfold afterMove
  dsimp only
  split_ifs <;> rfl

/-- The roller, as `handleTileEffect` finds them: moved, marked as rolled, prison state
resolved, and paid the passing reward when the position wrapped. -/
theorem afterMove_player (g : Game) (id : String) (player : Player) (d : Draws)
    (hp : g.player? id = some player) :
    (afterMove g id player d).player? id =
      some { (handlePrisonState player).1 with
        Position := rollTarget g player d, HasRolled := true,
        Coins := (handlePrisonState player).1.Coins +
          if rollTarget g player d < player.Position then
            rateOf g.PrizePool PassingGoRewardRate else 0 } := by
  have hid : player.ID = id := (player?_some hp).1
  have hid1 : (handlePrisonState player).1.ID = id := by rw [handlePrisonState_ID, hid]
  have h1 := player?_updatePlayer g id id (fun p => (handlePrisonState p).1)
    handlePrisonState_ID
  have h2 := player?_updatePlayer (g.updatePlayer id (fun p => (handlePrisonState p).1)) id id
    (fun p => { p with Position := rollTarget g player d, HasRolled := true }) (fun _ => rfl)
  rw [h1, hp] at h2
  simp only [Option.map_some', hid, if_true, handlePrisonState_ID] at h2
  unfold afterMove
  dsimp only
  split_ifs
  · unfold handlePassingGo
    have h3 := player?_updatePlayer ((g.updatePlayer id (fun p => (handlePrisonState p).1)).updatePlayer
      id (fun p => { p with Position := rollTarget g player d, HasRolled := true })) id id
      (fun p => { p with Coins := p.Coins + rateOf g.PrizePool PassingGoRewardRate })
      (fun _ => rfl)
    rw [h2] at h3
    simp only [Option.map_some', handlePrisonState_ID, hid, if_true] at h3
    rw [hid1]
    exact h3
  · rw [h2, hid1]
    simp

/-- C4: in a Playing match whose tiles satisfy the level invariant, the current player, not
yet rolled, not imprisoned and standing at an in-range position `p`, rolls a die value
`d.dice + 1` in 1..6: the call does not panic, it returns the roll action of that player with
position `(p + die) mod (board length)`, the player's rolled flag is set afterwards, and the
player stands at `(p + die) mod (board length)`, except that a teleport card (chance tile, draw
in [60, 80)) puts them on the teleport target. -/
theorem RollDice_moves_player (g : Game) (id : String) (d : Draws) (now : Time)
    (player : Player) (hboard : BoardOK g) (hs : g.Status = GameStatus.StatusPlaying)
    (hcur : g.CurrentPlayerID = id) (hp : g.player? id = some player)
    (hr : player.HasRolled = false) (hfree : player.InPrison = false)
    (hpos : 0 ≤ player.Position ∧ player.Position < (g.Map.Tiles.length : Int))
    (hd : 0 ≤ d.dice ∧ d.dice < 6) :
    ∃ tile p',
      idx g.Map.Tiles ((player.Position + (d.dice + 1)) % g.Map.Tiles.length) = some tile ∧
      (RollDice g id d now).ret ≠ Ret.panic ∧
      (RollDice g id d now).action =
        some { Typ := ActionType.ActionRollDice, PlayerID := id,
               Position := (player.Position + (d.dice + 1)) % g.Map.Tiles.length,
               Amount := 0, Timestamp := now } ∧
      (RollDice g id d now).game.player? id = some p' ∧
      p'.HasRolled = true ∧
      p'.Position =
        if tile.Typ = TileType.TileChance ∧ 60 ≤ d.effect ∧ d.effect < 80 then d.target
        else (player.Position + (d.dice + 1)) % g.Map.Tiles.length := by
  have hv : validateGameState g id = Ret.nil :=
    validateGameState_nil.2 ⟨hs, hcur, by rw [hp]; rfl⟩
  have hlen : g.Map.Tiles.length ≠ 0 := by omega
  have hprison : (handlePrisonState player).2 = Ret.nil := by
    rw [handlePrisonState_free player hfree]
  have htarget : rollTarget g player d =
      (player.Position + (d.dice + 1)) % g.Map.Tiles.length := by
    unfold rollTarget
    exact Int.tmod_eq_emod (by omega) (by omega)
  have hlt : (player.Position + (d.dice + 1)) % (g.Map.Tiles.length : Int) <
      (g.Map.Tiles.length : Int) := Int.emod_lt_of_pos _ (by omega)
  have hge : 0 ≤ (player.Position + (d.dice + 1)) % (g.Map.Tiles.length : Int) :=
    Int.emod_nonneg _ (by omega)
  obtain ⟨tile, htile, hmem⟩ := idx_some_of_range g.Map.Tiles _ hge hlt
  have hp3 := afterMove_player g id player d hp
  have heff := handleTileEffect_standing (afterMove g id player d) id d now _ tile hp3
    (by rw [afterMove_Map]; dsimp only; rw [htarget]; exact htile)
    (fun hT => hboard.rent hmem hT)
  dsimp only at heff
  rw [htarget] at heff
  have hroll := RollDice_eq g id d now player hv hp hr hprison hlen
  have hact : rollAction g id player d now =
      { Typ := ActionType.ActionRollDice, PlayerID := id,
        Position := (player.Position + (d.dice + 1)) % g.Map.Tiles.length,
        Amount := 0, Timestamp := now } := by
    unfold rollAction
    rw [htarget]
  rw [hact] at hroll
  obtain ⟨hnp, hst⟩ := heff
  cases hres : handleTileEffect (afterMove g id player d) id d now with
  | mk g4 ret =>
    rw [hres] at hroll hnp hst
    dsimp only at hnp hst
    obtain ⟨p', hp', hview⟩ := Option.map_eq_some'.1 hst
    have hflag : p'.HasRolled = true := congrArg Prod.snd hview
    have hposn : p'.Position = _ := congrArg Prod.fst hview
    cases ret with
    | nil =>
      rw [hroll]
      exact ⟨tile, p', htile, by simp, rfl, hp', hflag, hposn⟩
    | err e =>
      rw [hroll]
      exact ⟨tile, p', htile, by simp, rfl, hp', hflag, hposn⟩
    | panic => exact absurd rfl hnp

/-- C4, on an example: alice rolls a 2 from the start tile, lands on the chance tile and is
teleported to tile 4. -/
theorem RollDice_moves_player_witness :
    ∃ tile p',
      idx midGame.Map.Tiles (((0 : Int) + (teleportDraw.dice + 1))
        % midGame.Map.Tiles.length) = some tile ∧
      (RollDice midGame "alice" teleportDraw 9).ret ≠ Ret.panic ∧
      (RollDice midGame "alice" teleportDraw 9).action =
        some { Typ := ActionType.ActionRollDice, PlayerID := "alice",
               Position := ((0 : Int) + (teleportDraw.dice + 1))
                 % midGame.Map.Tiles.length,
               Amount := 0, Timestamp := 9 } ∧
      (RollDice midGame "alice" teleportDraw 9).game.player? "alice" = some p' ∧
      p'.HasRolled = true ∧
      p'.Position =
        if tile.Typ = TileType.TileChance ∧ 60 ≤ teleportDraw.effect ∧ teleportDraw.effect < 80
        then teleportDraw.target
        else ((0 : Int) + (teleportDraw.dice + 1))
          % midGame.Map.Tiles.length :=
  RollDice_moves_player midGame "alice" teleportDraw 9
    { ID := "alice", Name := "Alice", Coins := 500, Position := 0,
      Status := PlayerStatus.PlayerStatusPlaying, HasRolled := false, InPrison := false,
      PrisonDays := 0, JoinTime := 0 }
    (by decide) rfl rfl rfl rfl rfl (by decide) (by decide)

theorem afterMove_player_ne (g : Game) (id k : String) (player : Player) (d : Draws)
    (hne : k ≠ id) : (afterMove g id player d).player? k = g.player? k := by
  have hkeep : ∀ (g0 : Game) (f : Player → Player), (∀ p, (f p).ID = p.ID) →
      (g0.updatePlayer id f).player? k = g0.player? k := by
    intro g0 f hf
    rw [player?_updatePlayer g0 id k f hf]
    cases hk : g0.player? k with
    | none => rfl
    | some q =>
      have hq : q.ID ≠ id := by rw [(player?_some hk).1]; exact hne
      simp [hq]
  unfold afterMove
  dsimp only
  split_ifs
  · unfold handlePassingGo
    show (Game.updatePlayer _ id _).player? k = _
    rw [hkeep, hkeep, hkeep]
    all_goals first | exact handlePrisonState_ID | (intro p; rfl)
  · rw [hkeep, hkeep]
    all_goals first | exact handlePrisonState_ID | (intro p; rfl)

theorem handlePrisonState_Coins (p : Player) : (handlePrisonState p).1.Coins = p.Coins := by
  unfold handlePrisonState
  split_ifs <;> rfl

theorem rateOf_nonneg (pool percent : Int) (hp : 0 ≤ pool) (hr : 0 ≤ percent) :
    0 ≤ rateOf pool percent :=
  Int.tdiv_nonneg (mul_nonneg hp hr) (by decide)

/-- C5: the roller lands on a property tile owned by another registered player and, at the
moment the tile effect is resolved (after a passing reward, if the position wrapped), holds
less than the rent `RentPrice[Level]`.  Then `RollDice` returns the roll action carrying the
new position together with the Insufficient-Funds error; the state it leaves is the state after
the move (new position and rolled flag kept); the owner's entry is untouched; and the roller's
balance is the balance before plus the passing reward, so it is not reduced when the pool is
non-negative. -/
theorem RollDice_rent_unpaid (g : Game) (id : String) (d : Draws) (now : Time)
    (player owner : Player) (tile : Tile) (rent : Int)
    (hs : g.Status = GameStatus.StatusPlaying) (hcur : g.CurrentPlayerID = id)
    (hp : g.player? id = some player) (hr : player.HasRolled = false)
    (hprison : ¬ (player.InPrison = true ∧ 0 < player.PrisonDays))
    (htile : idx g.Map.Tiles (rollTarget g player d) = some tile)
    (hT : tile.Typ = TileType.TileProperty)
    (hown : tile.OwnerID ≠ "" ∧ tile.OwnerID ≠ id)
    (howner : g.player? tile.OwnerID = some owner)
    (hrent : idx tile.RentPrice tile.Level = some rent)
    (hpoor : player.Coins +
      (if rollTarget g player d < player.Position then rateOf g.PrizePool PassingGoRewardRate
       else 0) < rent) :
    RollDice g id d now =
      { game := afterMove g id player d,
        action := some { Typ := ActionType.ActionRollDice, PlayerID := id,
                         Position := rollTarget g player d, Amount := 0, Timestamp := now },
        ret := Ret.err GameError.ErrInsufficientFunds } ∧
    (∃ p', (RollDice g id d now).game.player? id = some p' ∧
      p'.Position = rollTarget g player d ∧ p'.HasRolled = true ∧
      p'.Coins = player.Coins +
        (if rollTarget g player d < player.Position then rateOf g.PrizePool PassingGoRewardRate
         else 0) ∧
      (0 ≤ g.PrizePool → player.Coins ≤ p'.Coins)) ∧
    (RollDice g id d now).game.player? tile.OwnerID = some owner := by
  have hv : validateGameState g id = Ret.nil :=
    validateGameState_nil.2 ⟨hs, hcur, by rw [hp]; rfl⟩
  have hlen : g.Map.Tiles.length ≠ 0 := by
    intro h0
    have := (idx_some htile).2.2
    rw [List.length_eq_zero.1 h0] at this
    simp at this
  have hpr : (handlePrisonState player).2 = Ret.nil := by
    unfold handlePrisonState
    by_cases h1 : player.InPrison = true
    · have h2 : ¬ player.PrisonDays > 0 := fun h => hprison ⟨h1, h⟩
      simp [h1, h2]
    · simp [h1]
  have hp3 := afterMove_player g id player d hp
  have ho3 : (afterMove g id player d).player? tile.OwnerID = some owner := by
    rw [afterMove_player_ne g id _ player d hown.2, howner]
  have hid1 : (handlePrisonState player).1.ID = id := by
    rw [handlePrisonState_ID, (player?_some hp).1]
  have heff : handleTileEffect (afterMove g id player d) id d now =
      (afterMove g id player d, Ret.err GameError.ErrInsufficientFunds) := by
    unfold handleTileEffect
    simp only [hp3, afterMove_Map, htile, hT, hid1, hown, ne_eq, not_false_eq_true, and_self,
      if_true]
    unfold handleRentPayment
    simp only [ho3, hrent, handlePrisonState_Coins, hpoor, if_true]
  have hroll := RollDice_eq g id d now player hv hp hr hpr hlen
  rw [heff] at hroll
  dsimp only at hroll
  rw [hroll]
  refine ⟨rfl, ⟨_, hp3, rfl, rfl, by rw [handlePrisonState_Coins], ?_⟩, ho3⟩
  intro hpool
  dsimp only
  rw [handlePrisonState_Coins]
  split_ifs
  · have := rateOf_nonneg g.PrizePool PassingGoRewardRate hpool (by decide)
    omega
  · omega

/-- C5, on an example: alice (50 coins) rolls a 1 onto bob's property, rent 80. -/
theorem RollDice_rent_unpaid_witness :
    RollDice rentGame "alice" rollOne 9 =
      { game := afterMove rentGame "alice"
          { ID := "alice", Name := "Alice", Coins := 50, Position := 0,
            Status := PlayerStatus.PlayerStatusPlaying, HasRolled := false, InPrison := false,
            PrisonDays := 0, JoinTime := 0 } rollOne,
        action := some { Typ := ActionType.ActionRollDice, PlayerID := "alice",
                         Position := 1, Amount := 0, Timestamp := 9 },
        ret := Ret.err GameError.ErrInsufficientFunds } ∧
    (RollDice rentGame "alice" rollOne 9).game.player? "bob" =
      some { ID := "bob", Name := "Bob", Coins := 700, Position := 4,
             Status := PlayerStatus.PlayerStatusPlaying, HasRolled := false, InPrison := false,
             PrisonDays := 0, JoinTime := 0 } :=
  have h := RollDice_rent_unpaid rentGame "alice" rollOne 9
    { ID := "alice", Name := "Alice", Coins := 50, Position := 0,
      Status := PlayerStatus.PlayerStatusPlaying, HasRolled := false, InPrison := false,
      PrisonDays := 0, JoinTime := 0 }
    { ID := "bob", Name := "Bob", Coins := 700, Position := 4,
      Status := PlayerStatus.PlayerStatusPlaying, HasRolled := false, InPrison := false,
      PrisonDays := 0, JoinTime := 0 }
    { ID := 1, Name := "第一大道", Typ := TileType.TileProperty, Price := 200,
      OwnerID := "bob", Level := 2, RentPrice := [20, 40, 80] }
    80 rfl rfl rfl rfl (by decide) (by decide) rfl (by decide) (by decide) (by decide)
    (by decide)
  ⟨h.1, h.2.2⟩

/-! ## StartGame when a player cannot pay -/

/-- C3: alice (1000 coins) and bob (500 coins) wait for the start and the entrance-fee loop
visits alice first.  `StartGame` returns Insufficient-Funds and the status stays Waiting, but
alice has already been charged: her balance went from 1000 to 0 and the prize pool from 0 to
1000.  When the loop visits bob first, nothing is collected. -/
theorem StartGame_partial_collection :
    lobbyPoor.Status = GameStatus.StatusWaiting ∧ RegistryOK lobbyPoor ∧
    IsRange lobbyPoor ["alice", "bob"] ∧ IsRange lobbyPoor ["bob", "alice"] ∧
    (lobbyPoor.player? "alice").map (fun p => p.Coins) = some 1000 ∧
    lobbyPoor.PrizePool = 0 ∧
    (StartGame lobbyPoor ["alice", "bob"] ["alice", "bob"] 7).2 =
      Ret.err GameError.ErrInsufficientFunds ∧
    (StartGame lobbyPoor ["alice", "bob"] ["alice", "bob"] 7).1.Status =
      GameStatus.StatusWaiting ∧
    ((StartGame lobbyPoor ["alice", "bob"] ["alice", "bob"] 7).1.player? "alice").map
      (fun p => p.Coins) = some 0 ∧
    (StartGame lobbyPoor ["alice", "bob"] ["alice", "bob"] 7).1.PrizePool = 1000 ∧
    StartGame lobbyPoor ["bob", "alice"] ["alice", "bob"] 7 =
      (lobbyPoor, Ret.err GameError.ErrInsufficientFunds) := by
  decide

/-! ## Turn validation -/

theorem validateGameState_cases (g : Game) (id : String) :
    validateGameState g id =
      if g.Status ≠ GameStatus.StatusPlaying then Ret.err GameError.ErrInvalidGameState
      else if g.CurrentPlayerID ≠ id then Ret.err GameError.ErrNotYourTurn
      else if (g.player? id).isNone then Ret.err GameError.ErrPlayerNotFound
      else Ret.nil := rfl

theorem RollDice_invalid (g : Game) (id : String) (d : Draws) (now : Time) (e : GameError)
    (h : validateGameState g id = Ret.err e) :
    RollDice g id d now = { game := g, action := none, ret := Ret.err e } := by
  unfold RollDice
  rw [h]

theorem BuyProperty_invalid (g : Game) (id : String) (now : Time) (e : GameError)
    (h : validateGameState g id = Ret.err e) :
    BuyProperty g id now = { game := g, action := none, ret := Ret.err e } := by
  unfold BuyProperty
  rw [h]

theorem UpgradeProperty_invalid (g : Game) (id : String) (position : Int) (now : Time)
    (e : GameError) (h : validateGameState g id = Ret.err e) :
    UpgradeProperty g id position now = { game := g, action := none, ret := Ret.err e } := by
  unfold UpgradeProperty
  rw [h]

/-- C6: `RollDice`, `BuyProperty` and `UpgradeProperty` return Invalid-State when the match
is not Playing and otherwise Not-Your-Turn when the caller is not the current player;
`RollDice` by the current player whose rolled flag is set returns Already-Rolled.  In each case
no action is returned and the match state is the state before the call. -/
theorem turn_validation_rejects (g : Game) (id : String) (d : Draws) (position : Int)
    (now : Time) :
    (g.Status ≠ GameStatus.StatusPlaying →
      RollDice g id d now =
        { game := g, action := none, ret := Ret.err GameError.ErrInvalidGameState } ∧
      BuyProperty g id now =
        { game := g, action := none, ret := Ret.err GameError.ErrInvalidGameState } ∧
      UpgradeProperty g id position now =
        { game := g, action := none, ret := Ret.err GameError.ErrInvalidGameState }) ∧
    (g.Status = GameStatus.StatusPlaying → g.CurrentPlayerID ≠ id →
      RollDice g id d now =
        { game := g, action := none, ret := Ret.err GameError.ErrNotYourTurn } ∧
      BuyProperty g id now =
        { game := g, action := none, ret := Ret.err GameError.ErrNotYourTurn } ∧
      UpgradeProperty g id position now =
        { game := g, action := none, ret := Ret.err GameError.ErrNotYourTurn }) ∧
    (g.Status = GameStatus.StatusPlaying → g.CurrentPlayerID = id →
      ∀ player, g.player? id = some player → player.HasRolled = true →
        RollDice g id d now =
          { game := g, action := none, ret := Ret.err GameError.ErrAlreadyRolled }) := by
  refine ⟨?_, ?_, ?_⟩
  · intro hs
    have hv : validateGameState g id = Ret.err GameError.ErrInvalidGameState := by
      rw [validateGameState_cases, if_pos hs]
    exact ⟨RollDice_invalid g id d now _ hv, BuyProperty_invalid g id now _ hv,
      UpgradeProperty_invalid g id position now _ hv⟩
  · intro hs hcur
    have hv : validateGameState g id = Ret.err GameError.ErrNotYourTurn := by
      rw [validateGameState_cases, if_neg (not_not.2 hs), if_pos hcur]
    exact ⟨RollDice_invalid g id d now _ hv, BuyProperty_invalid g id now _ hv,
      UpgradeProperty_invalid g id position now _ hv⟩
  · intro hs hcur player hp hr
    have hv : validateGameState g id = Ret.nil :=
      validateGameState_nil.2 ⟨hs, hcur, by rw [hp]; rfl⟩
    unfold RollDice
    simp only [hv, hp, hr, if_true]

/-- C6, on an example: bob acts while it is the turn of alice. -/
theorem turn_validation_rejects_witness :
    RollDice midGame "bob" rollOne 9 =
      { game := midGame, action := none, ret := Ret.err GameError.ErrNotYourTurn } ∧
    BuyProperty midGame "bob" 9 =
      { game := midGame, action := none, ret := Ret.err GameError.ErrNotYourTurn } ∧
    UpgradeProperty midGame "bob" 1 9 =
      { game := midGame, action := none, ret := Ret.err GameError.ErrNotYourTurn } :=
  (turn_validation_rejects midGame "bob" rollOne 1 9).2.1 rfl (by decide)

/-! ## BuyProperty -/

theorem idx_setIdx_self {α : Type} (l : List α) (i : Int) (a b : α) (h : idx l i = some b) :
    idx (setIdx l i a) i = some a := by
  obtain ⟨h0, h1, _⟩ := idx_some h
  unfold idx setIdx
  rw [if_neg (not_lt.2 h0), if_neg (not_lt.2 h0)]
  exact List.getElem?_set_self (by omega)

theorem idx_setIdx_ne {α : Type} (l : List α) (i j : Int) (a : α) (h : j ≠ i) :
    idx (setIdx l i a) j = idx l j := by
  unfold idx setIdx
  by_cases hj : j < 0
  · simp [hj]
  · by_cases hi : i < 0
    · simp [hi]
    · rw [if_neg hj, if_neg hi, if_neg hj]
      exact List.getElem?_set_ne (by omega)

theorem player?_updatePlayer_ne (g : Game) (id k : String) (f : Player → Player)
    (hf : ∀ p, (f p).ID = p.ID) (hne : k ≠ id) :
    (g.updatePlayer id f).player? k = g.player? k := by
  rw [player?_updatePlayer g id k f hf]
  cases hk : g.player? k with
  | none => rfl
  | some q =>
    have hq : q.ID ≠ id := by rw [(player?_some hk).1]; exact hne
    simp [hq]

theorem player?_updatePlayer_self (g : Game) (id : String) (f : Player → Player)
    (hf : ∀ p, (f p).ID = p.ID) (player : Player) (hp : g.player? id = some player) :
    (g.updatePlayer id f).player? id = some (f player) := by
  rw [player?_updatePlayer g id id f hf, hp]
  simp [(player?_some hp).1]

/-- The state and result of `BuyProperty` once every check has passed. -/
theorem BuyProperty_eq (g : Game) (id : String) (now : Time) (player : Player) (tile : Tile)
    (hv : validateGameState g id = Ret.nil) (hp : g.player? id = some player)
    (ht : idx g.Map.Tiles player.Position = some tile)
    (hok : validatePropertyPurchase player tile = Ret.nil) :
    BuyProperty g id now =
      { game :=
          { g with
            Players := g.Players.map (fun p =>
              if p.ID = id then { p with Coins := p.Coins - tile.Price } else p),
            Map := { Tiles := setIdx g.Map.Tiles player.Position { tile with OwnerID := id } },
            PrizePool := g.PrizePool + tile.Price,
            Actions := g.Actions ++
              [{ Typ := ActionType.ActionBuyProperty, PlayerID := id,
                 Position := player.Position, Amount := tile.Price, Timestamp := now }] },
        action := some { Typ := ActionType.ActionBuyProperty, PlayerID := id,
                         Position := player.Position, Amount := tile.Price, Timestamp := now },
        ret := Ret.nil } := by
  unfold BuyProperty
  simp only [hv, hp, ht, hok]
  rfl

theorem validatePropertyPurchase_nil (player : Player) (tile : Tile) :
    validatePropertyPurchase player tile = Ret.nil ↔
      tile.Typ = TileType.TileProperty ∧ tile.OwnerID = "" ∧ tile.Price ≤ player.Coins := by
  unfold validatePropertyPurchase
  by_cases h1 : tile.Typ = TileType.TileProperty
  · by_cases h2 : tile.OwnerID = ""
    · by_cases h3 : player.Coins < tile.Price
      · simp [h1, h2, h3]
      · simp [h1, h2, h3, not_lt.1 h3]
    · simp [h1, h2]
  · simp [h1]

/-- C7: in a Playing match the current player stands on an unowned property tile whose
price is at most their balance.  `BuyProperty` succeeds and returns the buy action with the
player's position and the price as amount; afterwards the player's balance is lower by the
price, the prize pool higher by the price, the tile is owned by the player with its level and
every other field kept, and every other player and every other tile is as before. -/
theorem BuyProperty_success (g : Game) (id : String) (now : Time) (player : Player)
    (tile : Tile) (hs : g.Status = GameStatus.StatusPlaying) (hcur : g.CurrentPlayerID = id)
    (hp : g.player? id = some player) (ht : idx g.Map.Tiles player.Position = some tile)
    (hT : tile.Typ = TileType.TileProperty) (hfree : tile.OwnerID = "")
    (hprice : tile.Price ≤ player.Coins) :
    (BuyProperty g id now).ret = Ret.nil ∧
    (BuyProperty g id now).action =
      some { Typ := ActionType.ActionBuyProperty, PlayerID := id, Position := player.Position,
             Amount := tile.Price, Timestamp := now } ∧
    (BuyProperty g id now).game.player? id =
      some { player with Coins := player.Coins - tile.Price } ∧
    (∀ k, k ≠ id → (BuyProperty g id now).game.player? k = g.player? k) ∧
    (BuyProperty g id now).game.PrizePool = g.PrizePool + tile.Price ∧
    idx (BuyProperty g id now).game.Map.Tiles player.Position =
      some { tile with OwnerID := id } ∧
    (∀ i, i ≠ player.Position →
      idx (BuyProperty g id now).game.Map.Tiles i = idx g.Map.Tiles i) := by
  have hv : validateGameState g id = Ret.nil :=
    validateGameState_nil.2 ⟨hs, hcur, by rw [hp]; rfl⟩
  have hok := (validatePropertyPurchase_nil player tile).2 ⟨hT, hfree, hprice⟩
  rw [BuyProperty_eq g id now player tile hv hp ht hok]
  refine ⟨rfl, rfl, ?_, ?_, rfl, ?_, ?_⟩
  · exact player?_updatePlayer_self g id (fun p => { p with Coins := p.Coins - tile.Price })
      (fun _ => rfl) player hp
  · intro k hk
    exact player?_updatePlayer_ne g id k (fun p => { p with Coins := p.Coins - tile.Price })
      (fun _ => rfl) hk
  · exact idx_setIdx_self _ _ _ _ ht
  · intro i hi
    exact idx_setIdx_ne _ _ _ _ hi

/-- C7, on an example: alice (500 coins) buys tile 1 for 200. -/
theorem BuyProperty_success_witness :
    (BuyProperty buyGame "alice" 9).ret = Ret.nil ∧
    (BuyProperty buyGame "alice" 9).action =
      some { Typ := ActionType.ActionBuyProperty, PlayerID := "alice",
             Position := aliceBuying.Position, Amount := firstAvenue.Price, Timestamp := 9 } ∧
    (BuyProperty buyGame "alice" 9).game.player? "alice" =
      some { aliceBuying with Coins := aliceBuying.Coins - firstAvenue.Price } ∧
    (∀ k, k ≠ "alice" → (BuyProperty buyGame "alice" 9).game.player? k = buyGame.player? k) ∧
    (BuyProperty buyGame "alice" 9).game.PrizePool = buyGame.PrizePool + firstAvenue.Price ∧
    idx (BuyProperty buyGame "alice" 9).game.Map.Tiles aliceBuying.Position =
      some { firstAvenue with OwnerID := "alice" } ∧
    (∀ i, i ≠ aliceBuying.Position →
      idx (BuyProperty buyGame "alice" 9).game.Map.Tiles i = idx buyGame.Map.Tiles i) :=
  BuyProperty_success buyGame "alice" 9 aliceBuying firstAvenue rfl rfl (by decide) (by decide)
    rfl rfl (by decide)

/-- C8: for the current player of a Playing match standing on `tile`, `BuyProperty` returns
Not-Property when the tile is not a property, otherwise Property-Owned when the tile has an
owner (whoever it is), otherwise Insufficient-Funds when the price exceeds the balance, each
time without an action and with the match state unchanged; and it succeeds exactly when the
tile is an unowned property priced at or below the balance. -/
theorem BuyProperty_rejects (g : Game) (id : String) (now : Time) (player : Player)
    (tile : Tile) (hs : g.Status = GameStatus.StatusPlaying) (hcur : g.CurrentPlayerID = id)
    (hp : g.player? id = some player) (ht : idx g.Map.Tiles player.Position = some tile) :
    (tile.Typ ≠ TileType.TileProperty →
      BuyProperty g id now =
        { game := g, action := none, ret := Ret.err GameError.ErrNotProperty }) ∧
    (tile.Typ = TileType.TileProperty → tile.OwnerID ≠ "" →
      BuyProperty g id now =
        { game := g, action := none, ret := Ret.err GameError.ErrPropertyOwned }) ∧
    (tile.Typ = TileType.TileProperty → tile.OwnerID = "" → player.Coins < tile.Price →
      BuyProperty g id now =
        { game := g, action := none, ret := Ret.err GameError.ErrInsufficientFunds }) ∧
    ((BuyProperty g id now).ret = Ret.nil ↔
      tile.Typ = TileType.TileProperty ∧ tile.OwnerID = "" ∧ tile.Price ≤ player.Coins) := by
  have hv : validateGameState g id = Ret.nil :=
    validateGameState_nil.2 ⟨hs, hcur, by rw [hp]; rfl⟩
  have hfail : ∀ e, validatePropertyPurchase player tile = Ret.err e →
      BuyProperty g id now = { game := g, action := none, ret := Ret.err e } := by
    intro e he
    unfold BuyProperty
    simp only [hv, hp, ht, he]
  refine ⟨?_, ?_, ?_, ?_⟩
  · intro h1
    exact hfail _ (by unfold validatePropertyPurchase; rw [if_pos h1])
  · intro h1 h2
    exact hfail _ (by unfold validatePropertyPurchase; rw [if_neg (not_not.2 h1), if_pos h2])
  · intro h1 h2 h3
    exact hfail _ (by
      unfold validatePropertyPurchase
      rw [if_neg (not_not.2 h1), if_neg (not_not.2 h2), if_pos h3])
  · rw [← validatePropertyPurchase_nil]
    constructor
    · intro hret
      cases hval : validatePropertyPurchase player tile with
      | nil => rfl
      | err e =>
        rw [hfail e hval] at hret
        exact absurd hret (by simp)
      | panic =>
        unfold validatePropertyPurchase at hval
        split_ifs at hval
    · intro hok
      rw [BuyProperty_eq g id now player tile hv hp ht hok]

/-- C8, on an example: alice stands on tile 1 of the default board, which is unowned. -/
theorem BuyProperty_rejects_witness :
    (firstAvenue.Typ ≠ TileType.TileProperty →
      BuyProperty buyGame "alice" 9 =
        { game := buyGame, action := none, ret := Ret.err GameError.ErrNotProperty }) ∧
    (firstAvenue.Typ = TileType.TileProperty → firstAvenue.OwnerID ≠ "" →
      BuyProperty buyGame "alice" 9 =
        { game := buyGame, action := none, ret := Ret.err GameError.ErrPropertyOwned }) ∧
    (firstAvenue.Typ = TileType.TileProperty → firstAvenue.OwnerID = "" →
      aliceBuying.Coins < firstAvenue.Price →
      BuyProperty buyGame "alice" 9 =
        { game := buyGame, action := none, ret := Ret.err GameError.ErrInsufficientFunds }) ∧
    ((BuyProperty buyGame "alice" 9).ret = Ret.nil ↔
      firstAvenue.Typ = TileType.TileProperty ∧ firstAvenue.OwnerID = "" ∧
        firstAvenue.Price ≤ aliceBuying.Coins) :=
  BuyProperty_rejects buyGame "alice" 9 aliceBuying firstAvenue rfl rfl (by decide) (by decide)

/-! ## UpgradeProperty -/

/-- The state and result of `UpgradeProperty` once every check has passed. -/
theorem UpgradeProperty_eq (g : Game) (id : String) (position : Int) (now : Time)
    (player : Player) (tile : Tile)
    (hv : validateGameState g id = Ret.nil) (hp : g.player? id = some player)
    (ht : idx g.Map.Tiles position = some tile)
    (hok : validatePropertyUpgrade player tile = Ret.nil) :
    UpgradeProperty g id position now =
      { game :=
          { g with
            Players := g.Players.map (fun p =>
              if p.ID = id then { p with Coins := p.Coins - Int.tdiv tile.Price 2 } else p),
            Map := { Tiles := setIdx g.Map.Tiles position
                       { tile with Level := tile.Level + 1 } },
            PrizePool := g.PrizePool + Int.tdiv tile.Price 2,
            Actions := g.Actions ++
              [{ Typ := ActionType.ActionUpgrade, PlayerID := id, Position := position,
                 Amount := Int.tdiv tile.Price 2, Timestamp := now }] },
        action := some { Typ := ActionType.ActionUpgrade, PlayerID := id, Position := position,
                         Amount := Int.tdiv tile.Price 2, Timestamp := now },
        ret := Ret.nil } := by
  unfold UpgradeProperty
  simp only [hv, hp, ht, hok]
  rfl

theorem UpgradeProperty_fails (g : Game) (id : String) (position : Int) (now : Time)
    (player : Player) (tile : Tile) (e : GameError)
    (hv : validateGameState g id = Ret.nil) (hp : g.player? id = some player)
    (ht : idx g.Map.Tiles position = some tile)
    (he : validatePropertyUpgrade player tile = Ret.err e) :
    UpgradeProperty g id position now = { game := g, action := none, ret := Ret.err e } := by
  unfold UpgradeProperty
  simp only [hv, hp, ht, he]

/-- Go's `Price / 2` is the floor of half the price when the price is not negative. -/
theorem upgradeCost_floor (price : Int) (h : 0 ≤ price) : Int.tdiv price 2 = price / 2 :=
  Int.tdiv_eq_ediv h (by decide)

/-- C9: in a Playing match the current player upgrades the tile at an in-range position
(any position, not only the one they stand on): a property with a non-negative price, owned
by them, below the last level of its rent schedule, and they hold at least `floor(price / 2)`.
`UpgradeProperty` succeeds and returns the upgrade action; afterwards the balance is lower by
`floor(price / 2)`, the prize pool higher by the same amount, the level of that tile higher by
one with its owner and other fields kept, and all other tiles and players are as before. -/
theorem UpgradeProperty_success (g : Game) (id : String) (position : Int) (now : Time)
    (player : Player) (tile : Tile)
    (hs : g.Status = GameStatus.StatusPlaying) (hcur : g.CurrentPlayerID = id)
    (hp : g.player? id = some player) (ht : idx g.Map.Tiles position = some tile)
    (hT : tile.Typ = TileType.TileProperty) (hown : tile.OwnerID = id)
    (hlevel : tile.Level < (tile.RentPrice.length : Int) - 1)
    (hprice : 0 ≤ tile.Price) (hcoins : tile.Price / 2 ≤ player.Coins) :
    (UpgradeProperty g id position now).ret = Ret.nil ∧
    (UpgradeProperty g id position now).action =
      some { Typ := ActionType.ActionUpgrade, PlayerID := id, Position := position,
             Amount := tile.Price / 2, Timestamp := now } ∧
    (UpgradeProperty g id position now).game.player? id =
      some { player with Coins := player.Coins - tile.Price / 2 } ∧
    (∀ k, k ≠ id → (UpgradeProperty g id position now).game.player? k = g.player? k) ∧
    (UpgradeProperty g id position now).game.PrizePool = g.PrizePool + tile.Price / 2 ∧
    idx (UpgradeProperty g id position now).game.Map.Tiles position =
      some { tile with Level := tile.Level + 1 } ∧
    (∀ i, i ≠ position →
      idx (UpgradeProperty g id position now).game.Map.Tiles i = idx g.Map.Tiles i) := by
  have hv : validateGameState g id = Ret.nil :=
    validateGameState_nil.2 ⟨hs, hcur, by rw [hp]; rfl⟩
  have hcost := upgradeCost_floor tile.Price hprice
  have hok : validatePropertyUpgrade player tile = Ret.nil := by
    unfold validatePropertyUpgrade
    rw [if_neg (not_not.2 hT), if_neg (not_not.2 (by rw [hown, (player?_some hp).1])),
      if_neg (not_le.2 hlevel), hcost, if_neg (not_lt.2 hcoins)]
  rw [UpgradeProperty_eq g id position now player tile hv hp ht hok, hcost]
  refine ⟨rfl, rfl, ?_, ?_, rfl, ?_, ?_⟩
  · exact player?_updatePlayer_self g id (fun p => { p with Coins := p.Coins - tile.Price / 2 })
      (fun _ => rfl) player hp
  · intro k hk
    exact player?_updatePlayer_ne g id k (fun p => { p with Coins := p.Coins - tile.Price / 2 })
      (fun _ => rfl) hk
  · exact idx_setIdx_self _ _ _ _ ht
  · intro i hi
    exact idx_setIdx_ne _ _ _ _ hi

/-- C9, on an example: alice, standing on tile 1, upgrades her tile 3 (price 300) for 150. -/
theorem UpgradeProperty_success_witness :
    (UpgradeProperty upgradeGame "alice" 3 9).ret = Ret.nil ∧
    (UpgradeProperty upgradeGame "alice" 3 9).action =
      some { Typ := ActionType.ActionUpgrade, PlayerID := "alice", Position := 3,
             Amount := secondAvenue.Price / 2, Timestamp := 9 } ∧
    (UpgradeProperty upgradeGame "alice" 3 9).game.player? "alice" =
      some { aliceBuying with Coins := aliceBuying.Coins - secondAvenue.Price / 2 } ∧
    (∀ k, k ≠ "alice" →
      (UpgradeProperty upgradeGame "alice" 3 9).game.player? k = upgradeGame.player? k) ∧
    (UpgradeProperty upgradeGame "alice" 3 9).game.PrizePool =
      upgradeGame.PrizePool + secondAvenue.Price / 2 ∧
    idx (UpgradeProperty upgradeGame "alice" 3 9).game.Map.Tiles 3 =
      some { secondAvenue with Level := secondAvenue.Level + 1 } ∧
    (∀ i, i ≠ 3 →
      idx (UpgradeProperty upgradeGame "alice" 3 9).game.Map.Tiles i =
        idx upgradeGame.Map.Tiles i) :=
  UpgradeProperty_success upgradeGame "alice" 3 9 aliceBuying secondAvenue rfl rfl (by decide)
    (by decide) rfl rfl (by decide) (by decide) (by decide)

/-- C10: for the current player of a Playing match and the tile at an in-range position,
`UpgradeProperty` returns Not-Property when the tile is not a property, otherwise Not-Owner
when its owner is not the player, otherwise Max-Level when the level has reached the last
index of the rent schedule, otherwise Insufficient-Funds when the balance is below
`floor(price / 2)` (price not negative); each time no action is returned and the match state
is unchanged. -/
theorem UpgradeProperty_rejects (g : Game) (id : String) (position : Int) (now : Time)
    (player : Player) (tile : Tile)
    (hs : g.Status = GameStatus.StatusPlaying) (hcur : g.CurrentPlayerID = id)
    (hp : g.player? id = some player) (ht : idx g.Map.Tiles position = some tile) :
    (tile.Typ ≠ TileType.TileProperty →
      UpgradeProperty g id position now =
        { game := g, action := none, ret := Ret.err GameError.ErrNotProperty }) ∧
    (tile.Typ = TileType.TileProperty → tile.OwnerID ≠ id →
      UpgradeProperty g id position now =
        { game := g, action := none, ret := Ret.err GameError.ErrNotOwner }) ∧
    (tile.Typ = TileType.TileProperty → tile.OwnerID = id →
      (tile.RentPrice.length : Int) - 1 ≤ tile.Level →
      UpgradeProperty g id position now =
        { game := g, action := none, ret := Ret.err GameError.ErrMaxLevel }) ∧
    (tile.Typ = TileType.TileProperty → tile.OwnerID = id →
      tile.Level < (tile.RentPrice.length : Int) - 1 → 0 ≤ tile.Price →
      player.Coins < tile.Price / 2 →
      UpgradeProperty g id position now =
        { game := g, action := none, ret := Ret.err GameError.ErrInsufficientFunds }) := by
  have hv : validateGameState g id = Ret.nil :=
    validateGameState_nil.2 ⟨hs, hcur, by rw [hp]; rfl⟩
  have hid : player.ID = id := (player?_some hp).1
  have hfail := fun e => UpgradeProperty_fails g id position now player tile e hv hp ht
  refine ⟨?_, ?_, ?_, ?_⟩
  · intro h1
    exact hfail _ (by unfold validatePropertyUpgrade; rw [if_pos h1])
  · intro h1 h2
    exact hfail _ (by
      unfold validatePropertyUpgrade
      rw [if_neg (not_not.2 h1), if_pos (by rw [hid]; exact h2)])
  · intro h1 h2 h3
    exact hfail _ (by
      unfold validatePropertyUpgrade
      rw [if_neg (not_not.2 h1), if_neg (not_not.2 (by rw [hid]; exact h2)), if_pos h3])
  · intro h1 h2 h3 h4 h5
    exact hfail _ (by
      unfold validatePropertyUpgrade
      rw [if_neg (not_not.2 h1), if_neg (not_not.2 (by rw [hid]; exact h2)),
        if_neg (not_le.2 h3), upgradeCost_floor tile.Price h4, if_pos h5])

/-- C10, on an example: alice asks to upgrade tile 1, which nobody owns. -/
theorem UpgradeProperty_rejects_witness :
    UpgradeProperty upgradeGame "alice" 1 9 =
      { game := upgradeGame, action := none, ret := Ret.err GameError.ErrNotOwner } :=
  (UpgradeProperty_rejects upgradeGame "alice" 1 9 aliceBuying firstAvenue rfl rfl
    (by decide) (by decide)).2.1 rfl (by decide)

/-! ## UpgradeProperty at a position outside the board -/

/-- An out-of-range index makes the slice lookup panic. -/
theorem idx_none_of_out {α : Type} (l : List α) (i : Int)
    (h : i < 0 ∨ (l.length : Int) ≤ i) : idx l i = none := by
  unfold idx
  by_cases hneg : i < 0
  · rw [if_pos hneg]
  · rw [if_neg hneg]
    have hge : l.length ≤ i.toNat := by omega
    exact List.getElem?_eq_none hge

/-- The tile lookup of `UpgradeProperty` at a position outside the board ends the call with a
panic, before anything is written. -/
theorem UpgradeProperty_out_of_range (g : Game) (id : String) (position : Int) (now : Time)
    (player : Player) (hs : g.Status = GameStatus.StatusPlaying) (hcur : g.CurrentPlayerID = id)
    (hp : g.player? id = some player)
    (hout : position < 0 ∨ (g.Map.Tiles.length : Int) ≤ position) :
    UpgradeProperty g id position now = { game := g, action := none, ret := Ret.panic } := by
  have hv : validateGameState g id = Ret.nil :=
    validateGameState_nil.2 ⟨hs, hcur, by rw [hp]; rfl⟩
  unfold UpgradeProperty
  simp only [hv, hp, idx_none_of_out g.Map.Tiles position hout]

/-- C11: alice, the current player of a Playing match on the 5-tile board, asks to upgrade
position 5 and position -1.  Each call ends in the index-out-of-range panic of the tile lookup
(no error value is returned), with the match state unchanged; the bounds-checked `GetTile`
returns the Invalid-Input error for the same positions. -/
theorem UpgradeProperty_position_unchecked :
    upgradeGame.Status = GameStatus.StatusPlaying ∧ upgradeGame.CurrentPlayerID = "alice" ∧
    upgradeGame.Map.Tiles.length = 5 ∧
    UpgradeProperty upgradeGame "alice" 5 9 =
      { game := upgradeGame, action := none, ret := Ret.panic } ∧
    UpgradeProperty upgradeGame "alice" (-1) 9 =
      { game := upgradeGame, action := none, ret := Ret.panic } ∧
    upgradeGame.Map.GetTile 5 = Except.error GameError.ErrInvalidInput ∧
    upgradeGame.Map.GetTile (-1) = Except.error GameError.ErrInvalidInput :=
  ⟨by decide, by decide, by decide, by decide, by decide, rfl, rfl⟩

/-! ## Rent -/

/-- The tile effect on a property tile, in terms of `handleRentPayment`. -/
theorem handleTileEffect_property (g : Game) (id : String) (d : Draws) (now : Time)
    (player : Player) (tile : Tile) (hp : g.player? id = some player)
    (ht : idx g.Map.Tiles player.Position = some tile)
    (hT : tile.Typ = TileType.TileProperty) :
    handleTileEffect g id d now =
      if tile.OwnerID ≠ "" ∧ tile.OwnerID ≠ id then handleRentPayment g player tile now
      else (g, Ret.nil) := by
  unfold handleTileEffect
  simp only [hp, ht, hT, (player?_some hp).1]

theorem player?_coins_ne (g : Game) (id k : String) (c : Player → Int) (hne : k ≠ id) :
    (g.updatePlayer id (fun p => { p with Coins := c p })).player? k = g.player? k :=
  player?_updatePlayer_ne g id k (fun p => { p with Coins := c p }) (fun _ => rfl) hne

theorem player?_coins_self (g : Game) (id : String) (c : Player → Int) (player : Player)
    (hp : g.player? id = some player) :
    (g.updatePlayer id (fun p => { p with Coins := c p })).player? id =
      some { player with Coins := c player } :=
  player?_updatePlayer_self g id (fun p => { p with Coins := c p }) (fun _ => rfl) player hp

/-- C12: a player stands on a property tile.  When the tile is owned by a different
registered player and the rent `RentPrice[Level]` is at most the payer's balance, the effect
succeeds: the payer loses exactly the rent, the owner gains exactly the rent, every other
player, the prize pool and the board are unchanged, and one pay-rent action with that amount
is appended to the log.  When the balance is below the rent the effect returns
Insufficient-Funds and the whole state is unchanged.  On an unowned property and on the
player's own property the effect succeeds and changes nothing. -/
theorem rent_is_paid_in_full_or_not_at_all (g : Game) (id : String) (d : Draws) (now : Time)
    (player : Player) (tile : Tile) (hp : g.player? id = some player)
    (ht : idx g.Map.Tiles player.Position = some tile)
    (hT : tile.Typ = TileType.TileProperty) :
    (∀ (owner : Player) (rent : Int), tile.OwnerID ≠ "" → tile.OwnerID ≠ id →
      g.player? tile.OwnerID = some owner → idx tile.RentPrice tile.Level = some rent →
      (rent ≤ player.Coins →
        (handleTileEffect g id d now).2 = Ret.nil ∧
        (handleTileEffect g id d now).1.player? id =
          some { player with Coins := player.Coins - rent } ∧
        (handleTileEffect g id d now).1.player? tile.OwnerID =
          some { owner with Coins := owner.Coins + rent } ∧
        (∀ k, k ≠ id → k ≠ tile.OwnerID →
          (handleTileEffect g id d now).1.player? k = g.player? k) ∧
        (handleTileEffect g id d now).1.PrizePool = g.PrizePool ∧
        (handleTileEffect g id d now).1.Map = g.Map ∧
        (handleTileEffect g id d now).1.Actions = g.Actions ++
          [{ Typ := ActionType.ActionPayRent, PlayerID := id, Position := player.Position,
             Amount := rent, Timestamp := now }]) ∧
      (player.Coins < rent →
        handleTileEffect g id d now = (g, Ret.err GameError.ErrInsufficientFunds))) ∧
    ((tile.OwnerID = "" ∨ tile.OwnerID = id) → handleTileEffect g id d now = (g, Ret.nil)) := by
  have heff := handleTileEffect_property g id d now player tile hp ht hT
  have hid : player.ID = id := (player?_some hp).1
  subst hid
  refine ⟨?_, ?_⟩
  · intro owner rent h1 h2 howner hrent
    rw [heff, if_pos ⟨h1, h2⟩]
    unfold handleRentPayment
    simp only [howner, hrent]
    constructor
    · intro hpay
      rw [if_neg (not_lt.2 hpay)]
      refine ⟨rfl, ?_, ?_, ?_, rfl, rfl, rfl⟩
      · show (Game.updatePlayer _ tile.OwnerID _).player? player.ID = _
        rw [player?_coins_ne _ _ _ _ (Ne.symm h2)]
        exact player?_coins_self g player.ID _ player hp
      · show (Game.updatePlayer _ tile.OwnerID _).player? tile.OwnerID = _
        apply player?_coins_self
        rw [player?_coins_ne _ _ _ _ h2]
        exact howner
      · intro k hk1 hk2
        show (Game.updatePlayer _ tile.OwnerID _).player? k = _
        rw [player?_coins_ne _ _ _ _ hk2, player?_coins_ne _ _ _ _ hk1]
    · intro hpoor
      rw [if_pos hpoor]
  · intro hfree
    rw [heff, if_neg]
    rintro ⟨h1, h2⟩
    rcases hfree with h | h
    · exact h1 h
    · exact h2 h

/-- C12, on an example: alice (500 coins) stands on bob's property, rent 80. -/
theorem rent_is_paid_in_full_or_not_at_all_witness :
    (handleTileEffect rentDue "alice" rollOne 9).2 = Ret.nil ∧
    (handleTileEffect rentDue "alice" rollOne 9).1.player? "alice" =
      some { aliceBuying with Coins := aliceBuying.Coins - 80 } ∧
    (handleTileEffect rentDue "alice" rollOne 9).1.player? "bob" =
      some { bobOwning with Coins := bobOwning.Coins + 80 } ∧
    (handleTileEffect rentDue "alice" rollOne 9).1.PrizePool = rentDue.PrizePool :=
  have h := (rent_is_paid_in_full_or_not_at_all rentDue "alice" rollOne 9 aliceBuying
    bobsAvenue (by decide) (by decide) rfl).1 bobOwning 80 (by decide) (by decide) (by decide)
    (by decide)
  have h2 := h.1 (by decide)
  ⟨h2.1, h2.2.1, h2.2.2.1, h2.2.2.2.2.1⟩

/-! ## `rateOf` is what float64 arithmetic computes -/

theorem bitLenAux_spec (fuel n : Nat) (h : n ≤ fuel) :
    n < 2 ^ bitLenAux fuel n ∧ ∀ k, n < 2 ^ k → bitLenAux fuel n ≤ k := by
  induction fuel generalizing n with
  | zero =>
    have h0 : n = 0 := by omega
    subst h0
    exact ⟨by simp [bitLenAux], fun k _ => by simp [bitLenAux]⟩
  | succ fuel ih =>
    unfold bitLenAux
    by_cases hn : n = 0
    · subst hn
      exact ⟨by simp, fun k _ => by simp⟩
    · rw [if_neg hn]
      obtain ⟨h1, h2⟩ := ih (n / 2) (by omega)
      constructor
      · rw [Nat.pow_succ]
        omega
      · intro k hk
        cases k with
        | zero =>
          simp at hk
          exact absurd hk hn
        | succ j =>
          rw [Nat.pow_succ] at hk
          have := h2 j (by omega)
          omega

theorem lt_two_pow_bitLen (n : Nat) : n < 2 ^ bitLen n :=
  (bitLenAux_spec n n (Nat.le_refl n)).1

theorem bitLen_le (n k : Nat) (h : n < 2 ^ k) : bitLen n ≤ k :=
  (bitLenAux_spec n n (Nat.le_refl n)).2 k h

/-- What rounding to 53 bits does to a number of more than 53 bits: with `X = 2 ^ s` the
spacing of the 53-bit numbers around `n`, the result is at most half a spacing above `n`, it
is not below any multiple of `X` that `n` reaches, and it reaches a multiple of `X` that is
less than half a spacing above `n`. -/
theorem round53_spec (n : Nat) (hbig : 53 < bitLen n) :
    ∃ X H : Nat, X = 2 ^ (bitLen n - 53) ∧ X = 2 * H ∧
      round53 n ≤ n + H ∧
      (∀ G, X ∣ G → G ≤ n → G ≤ round53 n) ∧
      (∀ G, X ∣ G → n < G → G < n + H → G ≤ round53 n) := by
  have hs : bitLen n - 53 = (bitLen n - 54) + 1 := by omega
  refine ⟨2 ^ (bitLen n - 53), 2 ^ (bitLen n - 54), rfl, by rw [hs, Nat.pow_succ]; omega, ?_⟩
  have hX : 2 ^ (bitLen n - 53) = 2 * 2 ^ (bitLen n - 54) := by rw [hs, Nat.pow_succ]; omega
  have hHpos : 0 < 2 ^ (bitLen n - 54) := Nat.pow_pos (by decide)
  have hs1 : bitLen n - 53 - 1 = bitLen n - 54 := by omega
  have hdm := Nat.div_add_mod n (2 ^ (bitLen n - 53))
  have hmod := Nat.mod_lt n (show 0 < 2 ^ (bitLen n - 53) by rw [hX]; omega)
  have hround : round53 n = n / 2 ^ (bitLen n - 53) * 2 ^ (bitLen n - 53) ∨
      (round53 n = (n / 2 ^ (bitLen n - 53) + 1) * 2 ^ (bitLen n - 53) ∧
        2 ^ (bitLen n - 54) ≤ n % 2 ^ (bitLen n - 53)) := by
    unfold round53
    rw [if_neg (not_le.2 hbig)]
    dsimp only
    rw [hs1]
    split_ifs with hc
    · right
      refine ⟨rfl, ?_⟩
      rcases hc with h | ⟨h, _⟩
      · omega
      · omega
    · left
      rfl
  have hup : ¬ (2 ^ (bitLen n - 54) < n % 2 ^ (bitLen n - 53)) →
      round53 n = n / 2 ^ (bitLen n - 53) * 2 ^ (bitLen n - 53) ∨
        2 ^ (bitLen n - 54) = n % 2 ^ (bitLen n - 53) := by
    intro hnot
    rcases hround with h | ⟨_, h⟩
    · exact Or.inl h
    · exact Or.inr (by omega)
  have hhigh : 2 ^ (bitLen n - 54) < n % 2 ^ (bitLen n - 53) →
      round53 n = (n / 2 ^ (bitLen n - 53) + 1) * 2 ^ (bitLen n - 53) := by
    intro hlt
    unfold round53
    rw [if_neg (not_le.2 hbig)]
    dsimp only
    rw [hs1, if_pos (Or.inl hlt)]
  generalize hq : n / 2 ^ (bitLen n - 53) = q at *
  generalize hr : n % 2 ^ (bitLen n - 53) = r at *
  generalize hXv : 2 ^ (bitLen n - 53) = X at *
  generalize hHv : 2 ^ (bitLen n - 54) = H at *
  generalize hR : round53 n = R at *
  have hmul : X * q = q * X := Nat.mul_comm _ _
  have hmul1 : (q + 1) * X = q * X + X := by ring
  refine ⟨?_, ?_, ?_⟩
  · rcases hround with h | ⟨h, h2⟩
    · omega
    · omega
  · rintro G ⟨j, rfl⟩ hle
    have hjq : j ≤ q := by
      by_contra hjq
      have hj : q + 1 ≤ j := by omega
      have := Nat.mul_le_mul_left X hj
      rw [Nat.mul_add, Nat.mul_one] at this
      omega
    have hjX : X * j ≤ X * q := Nat.mul_le_mul_left X hjq
    rcases hround with h | ⟨h, _⟩
    · omega
    · omega
  · rintro G ⟨j, rfl⟩ hlt hnear
    have hjq : j ≤ q + 1 := by
      by_contra hjq
      have hj : q + 2 ≤ j := by omega
      have := Nat.mul_le_mul_left X hj
      rw [Nat.mul_add] at this
      omega
    have hjX : X * j ≤ X * (q + 1) := Nat.mul_le_mul_left X hjq
    rw [Nat.mul_add, Nat.mul_one] at hjX
    have hj2 : q + 1 ≤ j := by
      by_contra hcon
      have hj : j ≤ q := by omega
      have := Nat.mul_le_mul_left X hj
      omega
    have hjX2 : X * (q + 1) ≤ X * j := Nat.mul_le_mul_left X hj2
    rw [Nat.mul_add, Nat.mul_one] at hjX2
    have hrH : H < r := by omega
    have := hhigh hrH
    omega

/-- One float64 multiplication of an integer below `2 ^ 45` by a constant `m / 2 ^ e` that
exceeds `p / 100` by at most `50 / (100 * 2 ^ e)` or falls short of it by at most
`20 / (100 * 2 ^ e)`, followed by truncation, gives `floor(P * p / 100)`. -/
theorem round53_mul_div (P m e p : Nat) (hP : P < 2 ^ 45) (hm1 : 2 ^ 52 ≤ m) (hm2 : m < 2 ^ 53)
    (he : 53 ≤ e) (hp1 : 1 ≤ p) (hp2 : p < 100)
    (hnear1 : 100 * m ≤ p * 2 ^ e + 50) (hnear2 : p * 2 ^ e ≤ 100 * m + 20) :
    round53 (P * m) / 2 ^ e = P * p / 100 := by
  have hE : 2 ^ 53 ≤ 2 ^ e := Nat.pow_le_pow_right (by decide) he
  have hkf := Nat.div_add_mod (P * p) 100
  have hf := Nat.mod_lt (P * p) (show 0 < 100 by decide)
  generalize hk : P * p / 100 = k at *
  generalize hfv : P * p % 100 = f at *
  generalize hEv : 2 ^ e = E at *
  have hNlow : 2 ^ 52 * P ≤ P * m := by
    rw [Nat.mul_comm]
    exact Nat.mul_le_mul_left P hm1
  have hNup : P * m ≤ 2 ^ 53 * P := by
    rw [Nat.mul_comm (2 ^ 53)]
    exact Nat.mul_le_mul_left P (le_of_lt hm2)
  have hfE1 : f * E ≤ 99 * E := Nat.mul_le_mul_right E (by omega)
  have hfE2 : f = 0 ∨ E ≤ f * E := by
    rcases Nat.eq_zero_or_pos f with h | h
    · exact Or.inl h
    · exact Or.inr (Nat.le_mul_of_pos_left E h)
  have hfE3 : f = 0 → f * E = 0 := fun h => by rw [h, Nat.zero_mul]
  have hP1 : P = 1 → f = p := by
    intro h
    rw [h, Nat.one_mul] at hkf
    omega
  -- the exact product, in hundredths
  have hprod : 100 * (P * m) + P * (p * E) = P * (100 * m) + (100 * (k * E) + f * E) := by
    have : P * p * E = (100 * k + f) * E := by rw [hkf]
    have h2 : P * (p * E) = 100 * (k * E) + f * E := by
      rw [← Nat.mul_assoc, this]
      ring
    rw [h2]
    ring
  have hD1 : P * (100 * m) ≤ P * (p * E) + 50 * P := by
    have := Nat.mul_le_mul_left P hnear1
    rw [Nat.mul_add] at this
    omega
  have hD2 : P * (p * E) ≤ P * (100 * m) + 20 * P := by
    have := Nat.mul_le_mul_left P hnear2
    rw [Nat.mul_add] at this
    omega
  have hpow45 : (2 : Nat) ^ 45 = 35184372088832 := by norm_num
  have hpow52 : (2 : Nat) ^ 52 = 4503599627370496 := by norm_num
  have hpow53 : (2 : Nat) ^ 53 = 9007199254740992 := by norm_num
  rw [hpow45] at hP
  rw [hpow52] at hNlow
  rw [hpow53] at hNup hE
  apply Nat.div_eq_of_lt_le
  all_goals try rw [Nat.succ_mul]
  all_goals
    by_cases hb : bitLen (P * m) ≤ 53
    · have hR : round53 (P * m) = P * m := by
        unfold round53
        rw [if_pos hb]
      have hN53 : P * m < 2 ^ 53 :=
        lt_of_lt_of_le (lt_two_pow_bitLen (P * m)) (Nat.pow_le_pow_right (by decide) hb)
      rw [hpow53] at hN53
      rw [hR]
      generalize P * m = N at *
      generalize P * (100 * m) = M at *
      generalize P * (p * E) = Q at *
      generalize k * E = G at *
      generalize f * E = F at *
      omega
    · obtain ⟨X, H, hX, hXH, hup, hgrid, hnearup⟩ := round53_spec (P * m) (not_le.1 hb)
      have hb98 : bitLen (P * m) ≤ 98 := by
        apply bitLen_le
        have : (2 : Nat) ^ 98 = 2 ^ 53 * 2 ^ 45 := by norm_num
        rw [this, hpow53, hpow45]
        omega
      have hXle : X ≤ 2 ^ 45 := by
        rw [hX]
        exact Nat.pow_le_pow_right (by decide) (by omega)
      have hXdvd : X ∣ k * E := by
        rw [hX, ← hEv]
        exact Dvd.dvd.mul_left (Nat.pow_dvd_pow 2 (by omega)) k
      have hNX : P * m < X * 2 ^ 53 := by
        have h1 := lt_two_pow_bitLen (P * m)
        have h2 : bitLen (P * m) = (bitLen (P * m) - 53) + 53 := by omega
        rw [h2, Nat.pow_add, ← hX] at h1
        exact h1
      rw [hpow45] at hXle
      rw [hpow53] at hNX
      have hg1 := hgrid (k * E) hXdvd
      have hg2 := hnearup (k * E) hXdvd
      generalize round53 (P * m) = R at *
      generalize P * m = N at *
      generalize P * (100 * m) = M at *
      generalize P * (p * E) = Q at *
      generalize k * E = G at *
      generalize f * E = F at *
      omega

/-- Each constant of `float64Rate` has a normalised 53-bit mantissa and lies within half a
unit in the last place of `percent / 100`: it is the float64 nearest to the decimal rate. -/
theorem float64Rate_nearest :
    ∀ percent ∈ ([1, 2, 5, 15, 30, 50] : List Int),
      2 ^ 52 ≤ (float64Rate percent).1 ∧ (float64Rate percent).1 < 2 ^ 53 ∧
      2 * Int.natAbs (100 * ((float64Rate percent).1 : Int) -
        percent * 2 ^ (float64Rate percent).2) ≤ 100 := by
  decide

theorem goRateNat_eq (P : Nat) (percent : Int)
    (hpct : percent ∈ ([1, 2, 5, 15, 30, 50] : List Int)) (hP : P < 2 ^ 45) :
    goRateNat P percent = P * percent.toNat / 100 := by
  have hPr : round53 P = P := by
    unfold round53
    rw [if_pos (bitLen_le P 53 (lt_of_lt_of_le hP (by norm_num)))]
  simp only [List.mem_cons, List.mem_singleton, List.not_mem_nil, or_false] at hpct
  unfold goRateNat
  rw [hPr]
  rcases hpct with rfl | rfl | rfl | rfl | rfl | rfl
  · exact round53_mul_div P 5764607523034235 59 1 hP (by norm_num) (by norm_num)
      (by norm_num) (by norm_num) (by norm_num) (by norm_num) (by norm_num)
  · exact round53_mul_div P 5764607523034235 58 2 hP (by norm_num) (by norm_num)
      (by norm_num) (by norm_num) (by norm_num) (by norm_num) (by norm_num)
  · exact round53_mul_div P 7205759403792794 57 5 hP (by norm_num) (by norm_num)
      (by norm_num) (by norm_num) (by norm_num) (by norm_num) (by norm_num)
  · exact round53_mul_div P 5404319552844595 55 15 hP (by norm_num) (by norm_num)
      (by norm_num) (by norm_num) (by norm_num) (by norm_num) (by norm_num)
  · exact round53_mul_div P 5404319552844595 54 30 hP (by norm_num) (by norm_num)
      (by norm_num) (by norm_num) (by norm_num) (by norm_num) (by norm_num)
  · exact round53_mul_div P 4503599627370496 53 50 hP (by norm_num) (by norm_num)
      (by norm_num) (by norm_num) (by norm_num) (by norm_num) (by norm_num)

/-- For a pool of magnitude below `2 ^ 45` and each of the rates the game uses, the float64
computation `int(float64(pool) * rate)` is the exact product truncated toward zero. -/
theorem goRate_eq_rateOf (pool percent : Int)
    (hpct : percent ∈ ([1, 2, 5, 15, 30, 50] : List Int)) (hpool : pool.natAbs < 2 ^ 45) :
    goRate pool percent = rateOf pool percent := by
  have hnat := goRateNat_eq pool.natAbs percent hpct hpool
  have hp0 : 0 ≤ percent := by
    simp only [List.mem_cons, List.mem_singleton, List.not_mem_nil, or_false] at hpct
    omega
  have hcast : ((pool.natAbs * percent.toNat / 100 : Nat) : Int) =
      Int.tdiv ((pool.natAbs : Int) * percent) 100 := by
    rw [Int.tdiv_eq_ediv (mul_nonneg (Int.natCast_nonneg _) hp0) (by decide)]
    push_cast
    rw [Int.toNat_of_nonneg hp0]
  unfold goRate rateOf
  rw [hnat, hcast]
  by_cases hneg : pool < 0
  · rw [if_pos hneg]
    have hab : (pool.natAbs : Int) = -pool := by omega
    rw [hab, Int.neg_mul, Int.neg_tdiv, neg_neg]
  · rw [if_neg hneg]
    have hab : (pool.natAbs : Int) = pool := by omega
    rw [hab]

/-! ## The passing reward of a roll -/

theorem rateOf_floor (pool percent : Int) (hp : 0 ≤ pool) (hr : 0 ≤ percent) :
    rateOf pool percent = pool * percent / 100 :=
  Int.tdiv_eq_ediv (mul_nonneg hp hr) (by decide)

theorem afterMove_PrizePool (g : Game) (id : String) (player : Player) (d : Draws) :
    (afterMove g id player d).PrizePool =
      g.PrizePool - if rollTarget g player d < player.Position then
        rateOf g.PrizePool PassingGoRewardRate else 0 := by
  unfold afterMove
  dsimp only
  split_ifs
  · rfl
  · simp

/-! ## Iterating the registry -/

theorem find?_of_nodup (ps : List Player) (h : (ps.map (fun p => p.ID)).Nodup) (p : Player)
    (hp : p ∈ ps) : ps.find? (fun q => decide (q.ID = p.ID)) = some p := by
  induction ps with
  | nil => cases hp
  | cons x xs ih =>
    rw [List.map_cons, List.nodup_cons] at h
    rcases List.mem_cons.1 hp with rfl | hmem
    · simp [List.find?_cons]
    · have hne : x.ID ≠ p.ID := by
        intro heq
        exact h.1 (heq ▸ List.mem_map_of_mem (fun p => p.ID) hmem)
      rw [List.find?_cons]
      simp only [hne, decide_False]
      exact ih h.2 hmem

theorem player?_of_mem {g : Game} (hreg : RegistryOK g) {p : Player} (hp : p ∈ g.Players) :
    g.player? p.ID = some p :=
  find?_of_nodup g.Players hreg p hp

/-- A loop over the registry visits every entry exactly once, in the order of the keys. -/
theorem range_perm {g : Game} (hreg : RegistryOK g) {order : List String}
    (hord : IsRange g order) : (g.range order).Perm g.Players := by
  have hkeys : g.keys.filterMap g.player? = g.Players := by
    unfold Game.keys
    rw [List.filterMap_map]
    have : ∀ p ∈ g.Players, (g.player? ∘ fun p => p.ID) p = some p :=
      fun p hp => player?_of_mem hreg hp
    rw [List.filterMap_congr this, List.filterMap_some]
  unfold Game.range
  rw [← hkeys]
  exact List.Perm.filterMap _ hord

/-! ## Property value -/

theorem addPropertyValue_eq (tiles : List Tile) (id : String) (start : Int) :
    addPropertyValue tiles id start =
      start + ((tiles.filter (fun t => decide (t.OwnerID = id))).map
        (fun t => t.Price * (t.Level + 1))).sum := by
  unfold addPropertyValue
  induction tiles generalizing start with
  | nil => simp
  | cons t ts ih =>
    rw [List.foldl_cons, ih]
    by_cases h : t.OwnerID = id
    · simp [h, List.filter_cons, add_assoc]
    · simp [h, List.filter_cons]

/-! ## GetFinalResults -/

/-- The comparison `sortSlice` sorts by: not less the other way round. -/
theorem sortSlice_sorted {α : Type} (key : α → Int) (xs : List α) :
    (sortSlice (fun a b => decide (key a > key b)) xs).Pairwise (fun a b => key a ≥ key b) ∧
    (sortSlice (fun a b => decide (key a > key b)) xs).Perm xs := by
  haveI : IsTotal α (fun a b => decide (key b > key a) = false) := ⟨fun a b => by
    simp only [decide_eq_false_iff_not, not_lt]
    exact le_total _ _⟩
  haveI : IsTrans α (fun a b => decide (key b > key a) = false) := ⟨fun a b c => by
    simp only [decide_eq_false_iff_not, not_lt]
    exact fun h1 h2 => le_trans h2 h1⟩
  refine ⟨?_, List.perm_insertionSort _ xs⟩
  have hs := List.sorted_insertionSort (fun a b => decide (key b > key a) = false) xs
  exact List.Pairwise.imp (fun h => by simpa using h) hs

/-- The entry `GetFinalResults` builds for a player is the entry of the specification. -/
theorem finalResult_eq (g : Game) (player : Player) :
    ({ PlayerID := player.ID, Name := player.Name, FinalCoins := player.Coins,
       PropertyValue := addPropertyValue g.Map.Tiles player.ID 0,
       PropertyCount :=
         ((g.Map.Tiles.filter (fun t => decide (t.OwnerID = player.ID))).length : Int),
       TotalAssets := player.Coins + addPropertyValue g.Map.Tiles player.ID 0 } : PlayerResult) =
      resultOf g player := by
  unfold resultOf propertyValue ownedTiles
  rw [addPropertyValue_eq, zero_add]

/-- C16: on a Finished match `GetFinalResults` returns no error and a list that holds exactly
one entry per registered player (a permutation of the players' entries), each entry carrying
the number of tiles the player owns, the sum over those tiles of `price * (level + 1)`, the
player's balance and their sum as total assets, in order of non-increasing total assets. -/
theorem GetFinalResults_entries (g : Game) (order : List String)
    (hs : g.Status = GameStatus.StatusFinished) (hreg : RegistryOK g)
    (hord : IsRange g order) :
    (GetFinalResults g order).2 = Ret.nil ∧
    ∃ results, (GetFinalResults g order).1 = some results ∧
      results.Perm (g.Players.map (resultOf g)) ∧
      results.Pairwise (fun a b => a.TotalAssets ≥ b.TotalAssets) := by
  unfold GetFinalResults
  rw [if_neg (not_not.2 hs)]
  refine ⟨rfl, _, rfl, ?_, ?_⟩
  · refine (sortSlice_sorted (fun r : PlayerResult => r.TotalAssets) _).2.trans ?_
    simp only [finalResult_eq]
    exact (range_perm hreg hord).map _
  · exact (sortSlice_sorted (fun r : PlayerResult => r.TotalAssets) _).1

/-- C16, on an example: bob (700 coins, tile 1 at level 2 worth 600) ranks before alice (900
coins). -/
theorem GetFinalResults_entries_witness :
    (GetFinalResults finishedGame ["alice", "bob"]).2 = Ret.nil ∧
    ∃ results, (GetFinalResults finishedGame ["alice", "bob"]).1 = some results ∧
      results.Perm (finishedGame.Players.map (resultOf finishedGame)) ∧
      results.Pairwise (fun a b => a.TotalAssets ≥ b.TotalAssets) :=
  GetFinalResults_entries finishedGame ["alice", "bob"] rfl (by decide) (by decide)

/-! ## EndGame: the payout loop -/

theorem distributePrizes_PrizePool (assets : List PlayerAsset) (ratios : List Int) (g : Game) :
    (distributePrizes g assets ratios).PrizePool = g.PrizePool := by
  induction assets generalizing g ratios with
  | nil => simp [distributePrizes]
  | cons a rest ih =>
    cases ratios with
    | nil => simp [distributePrizes]
    | cons r rs =>
      simp only [distributePrizes]
      rw [ih]
      rfl

/-- What the payout loop leaves of the entry of `k`: the balance grows by all that the loop
credits to `k`, nothing else changes. -/
theorem distributePrizes_player (assets : List PlayerAsset) (ratios : List Int) (g : Game)
    (k : String) :
    (distributePrizes g assets ratios).player? k =
      (g.player? k).map (fun p =>
        { p with Coins := p.Coins + prizeSum g.PrizePool k assets ratios }) := by
  induction assets generalizing g ratios with
  | nil =>
    cases hk : g.player? k <;> simp [distributePrizes, prizeSum, hk]
  | cons a rest ih =>
    cases ratios with
    | nil => cases hk : g.player? k <;> simp [distributePrizes, prizeSum, hk]
    | cons r rs =>
      simp only [distributePrizes, prizeSum]
      rw [ih, updatePlayer_PrizePool,
        player?_updatePlayer g a.PlayerID k
          (fun p => { p with Coins := p.Coins + rateOf g.PrizePool r }) (fun _ => rfl)]
      cases hk : g.player? k with
      | none => rfl
      | some p =>
        have hid : p.ID = k := (player?_some hk).1
        by_cases ha : a.PlayerID = k
        · simp [ha, hid, add_assoc]
        · have hne : ¬ p.ID = a.PlayerID := by rw [hid]; exact fun h => ha h.symm
          simp [ha, hne]

theorem prizeSum_of_not_mem (pool : Int) (id : String) (assets : List PlayerAsset)
    (ratios : List Int) (h : id ∉ assets.map (fun a => a.PlayerID)) :
    prizeSum pool id assets ratios = 0 := by
  induction assets generalizing ratios with
  | nil => simp [prizeSum]
  | cons a rest ih =>
    cases ratios with
    | nil => simp [prizeSum]
    | cons r rs =>
      rw [List.map_cons, List.mem_cons, not_or] at h
      simp only [prizeSum]
      rw [if_neg (fun heq => h.1 heq.symm), ih rs h.2, add_zero]

/-- With every id paid at most once, the asset at index `i` is credited the ratio at index
`i`, when there is one. -/
theorem prizeSum_at (pool : Int) (assets : List PlayerAsset) (ratios : List Int) (i : Nat)
    (a : PlayerAsset) (hnd : (assets.map (fun a => a.PlayerID)).Nodup)
    (hi : assets[i]? = some a) :
    prizeSum pool a.PlayerID assets ratios =
      match ratios[i]? with
      | some ratio => rateOf pool ratio
      | none => 0 := by
  induction assets generalizing ratios i with
  | nil => simp at hi
  | cons x xs ih =>
    rw [List.map_cons, List.nodup_cons] at hnd
    cases ratios with
    | nil => simp [prizeSum]
    | cons r rs =>
      simp only [prizeSum]
      cases i with
      | zero =>
        simp only [List.getElem?_cons_zero, Option.some.injEq] at hi
        subst hi
        rw [if_pos rfl, prizeSum_of_not_mem pool _ xs rs hnd.1, add_zero]
        simp
      | succ j =>
        simp only [List.getElem?_cons_succ] at hi
        have hmem : a.PlayerID ∈ xs.map (fun a => a.PlayerID) :=
          List.mem_map_of_mem _ (List.getElem?_mem hi)
        have hne : ¬ x.PlayerID = a.PlayerID := fun heq => hnd.1 (heq ▸ hmem)
        rw [if_neg hne, zero_add, ih rs j hnd.2 hi]
        simp

/-- In a strictly descending list the element at index `i` has exactly `i` elements above
it. -/
theorem count_above_of_descending {α : Type} (key : α → Int) (l : List α) (i : Nat) (a : α)
    (hs : l.Pairwise (fun x y => key x > key y)) (hi : l[i]? = some a) :
    (l.filter (fun b => decide (key b > key a))).length = i := by
  induction l generalizing i with
  | nil => simp at hi
  | cons x xs ih =>
    rw [List.pairwise_cons] at hs
    cases i with
    | zero =>
      simp only [List.getElem?_cons_zero, Option.some.injEq] at hi
      subst hi
      rw [List.filter_cons, if_neg (by simp), List.length_eq_zero, List.filter_eq_nil_iff]
      intro b hb
      have := hs.1 b hb
      simp only [gt_iff_lt, decide_eq_true_eq, not_lt]
      omega
    | succ j =>
      simp only [List.getElem?_cons_succ] at hi
      have hgt : key x > key a := hs.1 a (List.getElem?_mem hi)
      rw [List.filter_cons, if_pos (by simpa using hgt), List.length_cons, ih j hs.2 hi]

/-! ## EndGame: ranking and payout -/

theorem asset_total (g : Game) (p : Player) :
    addPropertyValue g.Map.Tiles p.ID p.Coins = totalAssets g p := by
  rw [addPropertyValue_eq]
  rfl

/-- The state `EndGame` leaves, in terms of the ranked assets. -/
theorem EndGame_eq (g : Game) (order : List String) (now : Time)
    (hs : g.Status = GameStatus.StatusPlaying) :
    EndGame g order now =
      (AddAction
        (distributePrizes { g with Status := GameStatus.StatusFinished }
          (sortSlice (fun a b => decide (a.Total > b.Total))
            ((g.range order).map (fun p =>
              ({ PlayerID := p.ID, Total := totalAssets g p } : PlayerAsset))))
          prizeRatios)
        { Typ := ActionType.gameEnd, PlayerID := "", Position := 0, Amount := 0,
          Timestamp := now }, Ret.nil) := by
  unfold EndGame
  rw [if_neg (not_not.2 hs)]
  simp only [asset_total]
  rfl

theorem prizeRatios_nonneg : ∀ r ∈ prizeRatios, (0 : Int) ≤ r := by decide

/-- With pairwise distinct total assets, the payout loop credits a player the share of their
rank, whatever order the registry was visited in. -/
theorem ranked_prizeSum (g : Game) (order : List String) (hreg : RegistryOK g)
    (hord : IsRange g order) (hpool : 0 ≤ g.PrizePool)
    (hdistinct : (g.Players.map (totalAssets g)).Nodup) (p : Player) (hp : p ∈ g.Players) :
    prizeSum g.PrizePool p.ID
      (sortSlice (fun a b => decide (a.Total > b.Total))
        ((g.range order).map (fun p =>
          ({ PlayerID := p.ID, Total := totalAssets g p } : PlayerAsset)))) prizeRatios =
      prizeShare g.PrizePool (rankOf g p) := by
  obtain ⟨hsorted, hperm⟩ := sortSlice_sorted (fun a : PlayerAsset => a.Total)
    ((g.range order).map (fun p =>
      ({ PlayerID := p.ID, Total := totalAssets g p } : PlayerAsset)))
  have hall : (sortSlice (fun a b => decide (a.Total > b.Total))
      ((g.range order).map (fun p =>
        ({ PlayerID := p.ID, Total := totalAssets g p } : PlayerAsset)))).Perm
      (g.Players.map (fun p =>
        ({ PlayerID := p.ID, Total := totalAssets g p } : PlayerAsset))) :=
    hperm.trans ((range_perm hreg hord).map _)
  generalize sortSlice (fun a b => decide (a.Total > b.Total))
      ((g.range order).map (fun p =>
        ({ PlayerID := p.ID, Total := totalAssets g p } : PlayerAsset))) = ranked
    at hsorted hall ⊢
  have hids : (ranked.map (fun a => a.PlayerID)).Nodup := by
    have h1 := hall.map (fun a : PlayerAsset => a.PlayerID)
    rw [List.map_map] at h1
    exact h1.nodup_iff.2 hreg
  have htotals : (ranked.map (fun a => a.Total)).Nodup := by
    have h1 := hall.map (fun a : PlayerAsset => a.Total)
    rw [List.map_map] at h1
    exact h1.nodup_iff.2 hdistinct
  have hstrict : ranked.Pairwise (fun a b => a.Total > b.Total) := by
    have hne : ranked.Pairwise (fun a b => a.Total ≠ b.Total) :=
      (List.pairwise_map).1 htotals
    exact (hsorted.and hne).imp (fun h => lt_of_le_of_ne h.1 (Ne.symm h.2))
  have hmem : ({ PlayerID := p.ID, Total := totalAssets g p } : PlayerAsset) ∈ ranked :=
    hall.symm.subset (List.mem_map_of_mem _ hp)
  obtain ⟨i, hi⟩ := List.getElem?_of_mem hmem
  have hrank : rankOf g p = i := by
    have hc := count_above_of_descending (fun a : PlayerAsset => a.Total) ranked i _ hstrict hi
    rw [← hc]
    unfold rankOf
    rw [(hall.filter _).length_eq, List.filter_map, List.length_map]
    rfl
  have hsum := prizeSum_at g.PrizePool ranked prizeRatios i _ hids hi
  rw [hrank]
  refine hsum.trans ?_
  unfold prizeShare
  cases hr : prizeRatios[i]? with
  | none => rfl
  | some r =>
    exact rateOf_floor g.PrizePool r hpool (prizeRatios_nonneg r (List.getElem?_mem hr))

/-- The balance of every player after `EndGame`, for any visiting order. -/
theorem EndGame_player (g : Game) (order : List String) (now : Time)
    (hs : g.Status = GameStatus.StatusPlaying) (hreg : RegistryOK g) (hord : IsRange g order)
    (hpool : 0 ≤ g.PrizePool) (hdistinct : (g.Players.map (totalAssets g)).Nodup)
    (p : Player) (hp : p ∈ g.Players) :
    (EndGame g order now).1.player? p.ID =
      some { p with Coins := p.Coins + prizeShare g.PrizePool (rankOf g p) } := by
  have key := ranked_prizeSum g order hreg hord hpool hdistinct p hp
  have hlook : Game.player? { g with Status := GameStatus.StatusFinished } p.ID = some p :=
    player?_of_mem hreg hp
  rw [EndGame_eq g order now hs]
  show (distributePrizes _ _ _).player? p.ID = _
  rw [distributePrizes_player, hlook, Option.map_some']
  show some { p with Coins := p.Coins + prizeSum g.PrizePool p.ID _ prizeRatios } = _
  rw [key]

/-- The payout by rank in exact arithmetic: a Playing match with prize pool `P >= 0` and
pairwise distinct total assets ends.  For every visiting order of the registry, `EndGame`
returns no error and leaves every registered player with their balance plus the share of
their rank: `floor(P * 50 / 100)`, `floor(P * 30 / 100)`, `floor(P * 15 / 100)`,
`floor(P * 5 / 100)` for the four players with the largest total assets, in descending order,
and nothing for anybody else.  For `P < 2 ^ 45` the float64 computations
`int(float64(P) * ratio)` yield these same shares. -/
theorem pays_by_rank_exact (g : Game) (order : List String) (now : Time)
    (hs : g.Status = GameStatus.StatusPlaying) (hreg : RegistryOK g) (hord : IsRange g order)
    (hpool : 0 ≤ g.PrizePool) (hdistinct : (g.Players.map (totalAssets g)).Nodup) :
    (EndGame g order now).2 = Ret.nil ∧
    (∀ p ∈ g.Players, (EndGame g order now).1.player? p.ID =
      some { p with Coins := p.Coins + prizeShare g.PrizePool (rankOf g p) }) ∧
    (∀ a b, g.Players.Perm [a, b] → totalAssets g b < totalAssets g a →
      (EndGame g order now).1.player? a.ID =
        some { a with Coins := a.Coins + g.PrizePool / 2 } ∧
      (EndGame g order now).1.player? b.ID =
        some { b with Coins := b.Coins + g.PrizePool * 3 / 10 }) ∧
    (g.PrizePool < 2 ^ 45 →
      ∀ r ∈ prizeRatios, goRate g.PrizePool r = g.PrizePool * r / 100) := by
  refine ⟨by rw [EndGame_eq g order now hs], ?_, ?_, ?_⟩
  rotate_left 2
  · intro hsmall r hr
    have hmem : r ∈ ([1, 2, 5, 15, 30, 50] : List Int) := by
      revert r
      decide
    rw [goRate_eq_rateOf g.PrizePool r hmem (by omega),
      rateOf_floor g.PrizePool r hpool (prizeRatios_nonneg r hr)]
  · exact fun p hp => EndGame_player g order now hs hreg hord hpool hdistinct p hp
  · intro a b hperm hlt
    have ha : a ∈ g.Players := hperm.symm.subset (by simp)
    have hb : b ∈ g.Players := hperm.symm.subset (by simp)
    have hra : rankOf g a = 0 := by
      unfold rankOf
      rw [(hperm.filter _).length_eq]
      simp [List.filter_cons, not_lt.2 (le_of_lt hlt)]
    have hrb : rankOf g b = 1 := by
      unfold rankOf
      rw [(hperm.filter _).length_eq]
      simp [List.filter_cons, hlt]
    have h50 : prizeShare g.PrizePool 0 = g.PrizePool / 2 := by
      show g.PrizePool * 50 / 100 = g.PrizePool / 2
      omega
    have h30 : prizeShare g.PrizePool 1 = g.PrizePool * 3 / 10 := by
      show g.PrizePool * 30 / 100 = g.PrizePool * 3 / 10
      omega
    constructor
    · rw [EndGame_player g order now hs hreg hord hpool hdistinct a ha, hra, h50]
    · rw [EndGame_player g order now hs hreg hord hpool hdistinct b hb, hrb, h30]

/-! ## EndGame when total assets tie -/

/-- C15: alice and bob hold the same total assets (900) and the pool holds 2000.  Both
visiting orders are possible for the loop over the registry; when it visits alice first she is
paid 1000 and bob 600, when it visits bob first he is paid 1000 and alice 600. -/
theorem EndGame_tie_follows_visiting_order :
    tieGame.Status = GameStatus.StatusPlaying ∧ RegistryOK tieGame ∧
    IsRange tieGame ["alice", "bob"] ∧ IsRange tieGame ["bob", "alice"] ∧
    tieGame.Players.map (totalAssets tieGame) = [900, 900] ∧
    (EndGame tieGame ["alice", "bob"] 9).1.Players.map (fun p => (p.ID, p.Coins)) =
      [("alice", 1900), ("bob", 1500)] ∧
    (EndGame tieGame ["bob", "alice"] 9).1.Players.map (fun p => (p.ID, p.Coins)) =
      [("alice", 1500), ("bob", 1900)] := by
  decide

/-! ## NextTurn: the match timeout -/

theorem nextFrom_mem (current first : String) (ids : List String) :
    nextFrom current first ids = first ∨ nextFrom current first ids ∈ ids := by
  induction ids with
  | nil => exact Or.inl rfl
  | cons id rest ih =>
    unfold nextFrom
    split_ifs
    · cases rest with
      | nil => exact Or.inl rfl
      | cons n _ => exact Or.inr (by simp)
    · rcases ih with h | h
      · exact Or.inl h
      · exact Or.inr (List.mem_cons_of_mem _ h)

theorem distributePrizes_Actions (assets : List PlayerAsset) (ratios : List Int) (g : Game) :
    (distributePrizes g assets ratios).Actions = g.Actions := by
  induction assets generalizing g ratios with
  | nil => simp [distributePrizes]
  | cons a rest ih =>
    cases ratios with
    | nil => simp [distributePrizes]
    | cons r rs =>
      simp only [distributePrizes]
      rw [ih]
      rfl

/-- `NextTurn` on a Playing match with a non-empty registry: who is next, and what the call
returns on either side of the timeout. -/
theorem NextTurn_eq (g : Game) (order endOrder : List String) (now : Time)
    (hs : g.Status = GameStatus.StatusPlaying) (hord : IsRange g order)
    (hne : g.Players ≠ []) :
    ∃ next, next ∈ g.keys ∧
      NextTurn g order endOrder now =
        if now - g.StartTime ≥ GameTimeout then EndGame (turnPassed g next now) endOrder now
        else (turnPassed g next now, Ret.nil) := by
  have hkeys : (g.updatePlayer g.CurrentPlayerID (fun p => { p with HasRolled := false })).keys =
      g.keys := updatePlayer_keys g _ _ (fun _ => rfl)
  have hids : getOrderedPlayerIDs
      (g.updatePlayer g.CurrentPlayerID (fun p => { p with HasRolled := false })) order =
      order := by
    unfold getOrderedPlayerIDs
    apply range_keys
    intro id hid
    rw [hkeys]
    exact hord.subset hid
  cases horder : order with
  | nil =>
    rw [horder] at hord
    have := hord.length_eq
    simp only [Game.keys, List.length_nil, List.length_map] at this
    exact absurd (List.length_eq_zero.1 this.symm) hne
  | cons first rest =>
    refine ⟨nextFrom g.CurrentPlayerID first (first :: rest), ?_, ?_⟩
    · have hsub : ∀ k ∈ first :: rest, k ∈ g.keys := fun k hk => hord.subset (horder ▸ hk)
      rcases nextFrom_mem g.CurrentPlayerID first (first :: rest) with h | h
      · rw [h]; exact hsub _ (List.mem_cons_self _ _)
      · exact hsub _ h
    · unfold NextTurn
      rw [if_neg (not_not.2 hs)]
      simp only [← horder, hids]
      rw [horder]
      rfl

/-- C18: `NextTurn` on a Playing match with registered players, the elapsed time since the
match start being `now - StartTime`.  When the elapsed time is at least the match timeout of
10 minutes, the call is the call of `EndGame` on the state with the turn passed: the status
becomes Finished, the payouts of `EndGame` are made and the match-end action is appended to
the log.  When it is less, the call returns no error, the status stays Playing, and every
balance and the prize pool are as before. -/
theorem NextTurn_ends_match_on_timeout (g : Game) (order endOrder : List String) (now : Time)
    (hs : g.Status = GameStatus.StatusPlaying) (hord : IsRange g order)
    (hne : g.Players ≠ []) :
    GameTimeout = 10 * 60 * 1000000000 ∧
    (GameTimeout ≤ now - g.StartTime →
      (∃ next, next ∈ g.keys ∧
        NextTurn g order endOrder now = EndGame (turnPassed g next now) endOrder now) ∧
      (NextTurn g order endOrder now).2 = Ret.nil ∧
      (NextTurn g order endOrder now).1.Status = GameStatus.StatusFinished ∧
      (NextTurn g order endOrder now).1.Actions = g.Actions ++
        [{ Typ := ActionType.gameEnd, PlayerID := "", Position := 0, Amount := 0,
           Timestamp := now }]) ∧
    (now - g.StartTime < GameTimeout →
      (NextTurn g order endOrder now).2 = Ret.nil ∧
      (NextTurn g order endOrder now).1.Status = GameStatus.StatusPlaying ∧
      (NextTurn g order endOrder now).1.PrizePool = g.PrizePool ∧
      (NextTurn g order endOrder now).1.Actions = g.Actions ∧
      (NextTurn g order endOrder now).1.Players.map (fun p => (p.ID, p.Coins)) =
        g.Players.map (fun p => (p.ID, p.Coins))) := by
  obtain ⟨next, hnext, heq⟩ := NextTurn_eq g order endOrder now hs hord hne
  refine ⟨by decide, ?_, ?_⟩
  · intro hto
    rw [if_pos hto] at heq
    have hs2 : (turnPassed g next now).Status = GameStatus.StatusPlaying := hs
    refine ⟨⟨next, hnext, heq⟩, ?_, ?_, ?_⟩
    · rw [heq, EndGame_eq _ endOrder now hs2]
    · rw [heq, EndGame_Status, if_pos hs2]
    · rw [heq, EndGame_eq _ endOrder now hs2]
      show (distributePrizes _ _ _).Actions ++ _ = _
      rw [distributePrizes_Actions]
      rfl
  · intro hlt
    rw [if_neg (not_le.2 hlt)] at heq
    rw [heq]
    refine ⟨rfl, hs, rfl, rfl, ?_⟩
    show (g.Players.map _).map _ = _
    rw [List.map_map]
    apply List.map_congr_left
    intro p _
    simp only [Function.comp]
    split_ifs <;> rfl

/-- C18, on an example: the three-player match started at time 0 is advanced one nanosecond
before and exactly at the timeout. -/
theorem NextTurn_ends_match_on_timeout_witness :
    (NextTurn threeGame ["alice", "bob", "carol"] ["alice", "bob", "carol"]
      (GameTimeout - 1)).1.Status = GameStatus.StatusPlaying ∧
    (NextTurn threeGame ["alice", "bob", "carol"] ["alice", "bob", "carol"]
      GameTimeout).1.Status = GameStatus.StatusFinished :=
  ⟨((NextTurn_ends_match_on_timeout threeGame ["alice", "bob", "carol"]
      ["alice", "bob", "carol"] (GameTimeout - 1) rfl (by decide) (by decide)).2.2
      (by decide)).2.1,
   ((NextTurn_ends_match_on_timeout threeGame ["alice", "bob", "carol"]
      ["alice", "bob", "carol"] GameTimeout rfl (by decide) (by decide)).2.1
      (by decide)).2.2.1⟩

/-! ## AddPlayer -/

theorem player?_append_new (g : Game) (player : Player) (k : String) :
    Game.player? { g with Players := g.Players ++ [player] } k =
      match g.player? k with
      | some p => some p
      | none => if player.ID = k then some player else none := by
  unfold Game.player?
  dsimp only
  rw [List.find?_append]
  cases h : g.Players.find? (fun p => decide (p.ID = k)) with
  | some p => rfl
  | none =>
    by_cases hk : player.ID = k <;> simp [List.find?_cons, hk]

theorem not_mem_keys_iff (g : Game) (id : String) : id ∉ g.keys ↔ g.player? id = none := by
  constructor
  · intro h
    cases hp : g.player? id with
    | none => rfl
    | some p =>
      obtain ⟨hid, hmem⟩ := player?_some hp
      exact absurd (hid ▸ List.mem_map_of_mem (fun p => p.ID) hmem) h
  · intro h hmem
    obtain ⟨p, hp⟩ := player?_of_mem_keys hmem
    rw [h] at hp
    cases hp

/-- C19: `AddPlayer` on a Waiting match.  With 4 (= MaxPlayers) or more players registered it
returns Game-Full; otherwise, when the id is already registered, Player-Exists; in both cases
the match state is unchanged.  Otherwise it returns no error and the registry is the registry
before plus that player: the new id maps to the player, every other id maps to what it mapped
to before, and the keys stay unique.  A registry of at most 4 players stays at most 4. -/
theorem AddPlayer_waiting (g : Game) (player : Player)
    (hs : g.Status = GameStatus.StatusWaiting) :
    MaxPlayers = 4 ∧
    (4 ≤ g.Players.length → AddPlayer g player = (g, Ret.err GameError.ErrGameFull)) ∧
    (g.Players.length < 4 → player.ID ∈ g.keys →
      AddPlayer g player = (g, Ret.err GameError.ErrPlayerExists)) ∧
    (g.Players.length < 4 → player.ID ∉ g.keys →
      AddPlayer g player = ({ g with Players := g.Players ++ [player] }, Ret.nil) ∧
      (AddPlayer g player).1.player? player.ID = some player ∧
      (∀ k, k ≠ player.ID → (AddPlayer g player).1.player? k = g.player? k) ∧
      (AddPlayer g player).1.keys = g.keys ++ [player.ID] ∧
      (RegistryOK g → RegistryOK (AddPlayer g player).1)) ∧
    (g.Players.length ≤ 4 → (AddPlayer g player).1.Players.length ≤ 4) := by
  have hfull : 4 ≤ g.Players.length →
      AddPlayer g player = (g, Ret.err GameError.ErrGameFull) := by
    intro h
    unfold AddPlayer MaxPlayers
    rw [if_pos h]
  have hexists : g.Players.length < 4 → player.ID ∈ g.keys →
      AddPlayer g player = (g, Ret.err GameError.ErrPlayerExists) := by
    intro h hmem
    obtain ⟨p, hp⟩ := player?_of_mem_keys hmem
    unfold AddPlayer MaxPlayers
    rw [if_neg (not_le.2 h), if_neg (not_not.2 hs), hp]
    rfl
  have hadd : g.Players.length < 4 → player.ID ∉ g.keys →
      AddPlayer g player = ({ g with Players := g.Players ++ [player] }, Ret.nil) := by
    intro h hnew
    unfold AddPlayer MaxPlayers
    rw [if_neg (not_le.2 h), if_neg (not_not.2 hs), (not_mem_keys_iff g player.ID).1 hnew]
    rfl
  refine ⟨rfl, hfull, hexists, ?_, ?_⟩
  · intro h hnew
    have hnone := (not_mem_keys_iff g player.ID).1 hnew
    rw [hadd h hnew]
    refine ⟨rfl, ?_, ?_, ?_, ?_⟩
    · show Game.player? { g with Players := g.Players ++ [player] } player.ID = _
      rw [player?_append_new, hnone]
      simp
    · intro k hk
      show Game.player? { g with Players := g.Players ++ [player] } k = _
      rw [player?_append_new]
      cases hgk : g.player? k with
      | some p => rfl
      | none => simp [Ne.symm hk]
    · simp [Game.keys]
    · intro hreg
      show (Game.keys { g with Players := g.Players ++ [player] }).Nodup
      simp only [Game.keys, List.map_append, List.map_cons, List.map_nil]
      rw [List.nodup_append]
      refine ⟨hreg, List.nodup_singleton _, ?_⟩
      intro a ha hb
      rw [List.mem_singleton] at hb
      exact hnew (hb ▸ ha)
  · intro hle
    by_cases h4 : 4 ≤ g.Players.length
    · rw [hfull h4]
      exact hle
    · by_cases hmem : player.ID ∈ g.keys
      · rw [hexists (not_le.1 h4) hmem]
        exact hle
      · rw [hadd (not_le.1 h4) hmem]
        show (g.Players ++ [player]).length ≤ 4
        rw [List.length_append, List.length_singleton]
        omega

/-- C19, on an example: carol joins the lobby of bob and alice. -/
theorem AddPlayer_waiting_witness :
    AddPlayer lobbyRich (seat "carol") =
      ({ lobbyRich with Players := lobbyRich.Players ++ [seat "carol"] }, Ret.nil) ∧
    AddPlayer lobbyRich (seat "bob") = (lobbyRich, Ret.err GameError.ErrPlayerExists) :=
  have h := AddPlayer_waiting lobbyRich (seat "carol") rfl
  have h2 := AddPlayer_waiting lobbyRich (seat "bob") rfl
  ⟨(h.2.2.2.1 (by decide) (by decide)).1, h2.2.2.1 (by decide) (by decide)⟩

/-- C20, as stated, fails: a Playing match that already holds four players rejects a fifth
with Game-Full, not with Game-In-Progress. -/
theorem AddPlayer_playing_full_counterexample :
    fullGame.Status = GameStatus.StatusPlaying ∧
    AddPlayer fullGame (seat "erin") = (fullGame, Ret.err GameError.ErrGameFull) ∧
    (AddPlayer fullGame (seat "erin")).2 ≠ Ret.err GameError.ErrGameInProgress := by
  decide

/-- C20, amended: on a Playing match `AddPlayer` always fails and leaves the match state
unchanged; the error is Game-In-Progress when fewer than 4 players are registered and
Game-Full when 4 or more are. -/
theorem AddPlayer_playing (g : Game) (player : Player)
    (hs : g.Status = GameStatus.StatusPlaying) :
    (g.Players.length < 4 → AddPlayer g player = (g, Ret.err GameError.ErrGameInProgress)) ∧
    (4 ≤ g.Players.length → AddPlayer g player = (g, Ret.err GameError.ErrGameFull)) ∧
    (AddPlayer g player).1 = g ∧ (AddPlayer g player).2 ≠ Ret.nil := by
  have hlow : g.Players.length < 4 →
      AddPlayer g player = (g, Ret.err GameError.ErrGameInProgress) := by
    intro h
    unfold AddPlayer MaxPlayers
    rw [if_neg (not_le.2 h), if_pos (by rw [hs]; decide)]
  have hfull : 4 ≤ g.Players.length →
      AddPlayer g player = (g, Ret.err GameError.ErrGameFull) := by
    intro h
    unfold AddPlayer MaxPlayers
    rw [if_pos h]
  refine ⟨hlow, hfull, ?_⟩
  by_cases h4 : 4 ≤ g.Players.length
  · rw [hfull h4]
    exact ⟨rfl, by simp⟩
  · rw [hlow (not_le.1 h4)]
    exact ⟨rfl, by simp⟩

/-- C20 amended, on an example: carol tries to join the running match of alice and bob. -/
theorem AddPlayer_playing_witness :
    AddPlayer midGame (seat "carol") = (midGame, Ret.err GameError.ErrGameInProgress) :=
  (AddPlayer_playing midGame (seat "carol") rfl).1 (by decide)

/-! ## Calls in the wrong status -/

/-- C21: a call in the wrong status is rejected and leaves the match as it was.  `StartGame`
returns Not-Enough-Players on a match with fewer than 2 players and Invalid-State on a match with
at least 2 players that is not Waiting; `NextTurn` and `EndGame` return Invalid-State unless the
match is Playing; `GetFinalResults` returns no results and Invalid-State unless the match is
Finished.  The state after the call is the state before it, so balances, prize pool, status,
current player and action log are unchanged. -/
theorem wrong_status_rejected (g : Game) :
    (g.Players.length < 2 → ∀ (feeOrder idOrder : List String) (now : Time),
      StartGame g feeOrder idOrder now = (g, Ret.err GameError.ErrNotEnoughPlayers)) ∧
    (2 ≤ g.Players.length → g.Status ≠ GameStatus.StatusWaiting →
      ∀ (feeOrder idOrder : List String) (now : Time),
        StartGame g feeOrder idOrder now = (g, Ret.err GameError.ErrInvalidGameState)) ∧
    (g.Status ≠ GameStatus.StatusPlaying → ∀ (order endOrder : List String) (now : Time),
      NextTurn g order endOrder now = (g, Ret.err GameError.ErrInvalidGameState) ∧
      EndGame g order now = (g, Ret.err GameError.ErrInvalidGameState) ∧
      Op.after g (Op.nextTurn order endOrder now) = g ∧ Op.after g (Op.endGame order now) = g) ∧
    (g.Status ≠ GameStatus.StatusFinished → ∀ (order : List String),
      GetFinalResults g order = (none, Ret.err GameError.ErrInvalidGameState) ∧
      Op.after g (Op.getFinalResults order) = g) := by
  refine ⟨?_, ?_, ?_, ?_⟩
  · intro hn feeOrder idOrder now
    have hc : canStartGame g = Ret.err GameError.ErrNotEnoughPlayers := by
      unfold canStartGame MinStartPlayers
      rw [if_pos hn]
    unfold StartGame
    rw [hc]
  · intro hn hs feeOrder idOrder now
    have hc : canStartGame g = Ret.err GameError.ErrInvalidGameState := by
      unfold canStartGame MinStartPlayers
      rw [if_neg (by omega), if_pos hs]
    unfold StartGame
    rw [hc]
  · intro hs order endOrder now
    have h1 : NextTurn g order endOrder now = (g, Ret.err GameError.ErrInvalidGameState) := by
      unfold NextTurn
      rw [if_pos hs]
    have h2 : EndGame g order now = (g, Ret.err GameError.ErrInvalidGameState) := by
      unfold EndGame
      rw [if_pos hs]
    refine ⟨h1, h2, ?_, ?_⟩
    · show (NextTurn g order endOrder now).1 = g
      rw [h1]
    · show (EndGame g order now).1 = g
      rw [h2]
  · intro hs order
    refine ⟨?_, rfl⟩
    unfold GetFinalResults
    rw [if_pos hs]

/-- C21, on an example: a running match cannot be started again and has no final results. -/
theorem wrong_status_rejected_witness :
    StartGame midGame ["alice", "bob"] ["alice", "bob"] 9 =
      (midGame, Ret.err GameError.ErrInvalidGameState) ∧
    GetFinalResults midGame ["alice", "bob"] = (none, Ret.err GameError.ErrInvalidGameState) :=
  ⟨(wrong_status_rejected midGame).2.1 (by decide) (by decide) ["alice", "bob"]
      ["alice", "bob"] 9,
    ((wrong_status_rejected midGame).2.2.2 (by decide) ["alice", "bob"]).1⟩

/-! ## The chance card -/

theorem handleTileEffect_chance (g : Game) (id : String) (d : Draws) (now : Time)
    (player : Player) (tile : Tile) (hp : g.player? id = some player)
    (ht : idx g.Map.Tiles player.Position = some tile)
    (hT : tile.Typ = TileType.TileChance) :
    handleTileEffect g id d now = handleChanceCard g player d now := by
  unfold handleTileEffect
  simp only [hp, ht, hT]

theorem handleChanceCard_Map (g : Game) (player : Player) (d : Draws) (now : Time) :
    (handleChanceCard g player d now).1.Map = g.Map := by
  unfold handleChanceCard
  split_ifs <;> first | rfl | (dsimp only; split_ifs <;> rfl)

theorem handleChanceCard_player_ne (g : Game) (player : Player) (d : Draws) (now : Time)
    (k : String) (hk : k ≠ player.ID) :
    (handleChanceCard g player d now).1.player? k = g.player? k := by
  unfold handleChanceCard
  by_cases h1 : d.effect < 30
  · rw [if_pos h1]
    exact player?_coins_ne g player.ID k _ hk
  · rw [if_neg h1]
    by_cases h2 : d.effect < 60
    · rw [if_pos h2]
      exact player?_coins_ne g player.ID k _ hk
    · rw [if_neg h2]
      by_cases h3 : d.effect < 80
      · rw [if_pos h3]
        have hm : (g.updatePlayer player.ID (fun p => { p with Position := d.target })).player? k =
            g.player? k := player?_updatePlayer_ne g player.ID k _ (fun _ => rfl) hk
        dsimp only
        split_ifs
        · show (Game.updatePlayer _ _ _).player? k = _
          rw [player?_coins_ne _ player.ID k _ hk]
          exact hm
        · exact hm
      · rw [if_neg h3]

/-- The chance card in exact arithmetic, for the draw `d.effect` and the teleport target
`d.target`, resolved for the player `id` standing on a chance tile while the prize pool `P` is
non-negative.  The effect never fails, leaves the board and every other player alone, and
* for a draw below 30 the player gains `floor(P / 100)` and the pool loses the same amount;
* for a draw in [30, 60) the player loses `min(100, balance)` and the pool gains that amount;
* for a draw in [60, 80) the position becomes the target, and the passing reward
  `floor(P * 2 / 100)` moves from the pool to the player exactly when the target is smaller
  than the position teleported from;
* for a draw of 80 or more the match state is unchanged.
The amounts are what float64 arithmetic gives for pools below `2 ^ 45`. -/
theorem chance_card_exact (g : Game) (id : String) (d : Draws) (now : Time)
    (player : Player) (tile : Tile) (hp : g.player? id = some player)
    (ht : idx g.Map.Tiles player.Position = some tile)
    (hT : tile.Typ = TileType.TileChance) (hP : 0 ≤ g.PrizePool) :
    (handleTileEffect g id d now).2 = Ret.nil ∧
    (handleTileEffect g id d now).1.Map = g.Map ∧
    (∀ k, k ≠ id → (handleTileEffect g id d now).1.player? k = g.player? k) ∧
    (d.effect < 30 →
      (handleTileEffect g id d now).1.player? id =
        some { player with Coins := player.Coins + g.PrizePool / 100 } ∧
      (handleTileEffect g id d now).1.PrizePool = g.PrizePool - g.PrizePool / 100) ∧
    (30 ≤ d.effect → d.effect < 60 →
      (handleTileEffect g id d now).1.player? id =
        some { player with Coins := player.Coins - min 100 player.Coins } ∧
      (handleTileEffect g id d now).1.PrizePool = g.PrizePool + min 100 player.Coins) ∧
    (60 ≤ d.effect → d.effect < 80 →
      (d.target < player.Position →
        (handleTileEffect g id d now).1.player? id =
          some { player with Position := d.target,
                             Coins := player.Coins + g.PrizePool * 2 / 100 } ∧
        (handleTileEffect g id d now).1.PrizePool = g.PrizePool - g.PrizePool * 2 / 100) ∧
      (¬ d.target < player.Position →
        (handleTileEffect g id d now).1.player? id = some { player with Position := d.target } ∧
        (handleTileEffect g id d now).1.PrizePool = g.PrizePool)) ∧
    (80 ≤ d.effect → (handleTileEffect g id d now).1 = g) ∧
    (g.PrizePool < 2 ^ 45 →
      goRate g.PrizePool ChanceRewardRate = g.PrizePool / 100 ∧
      goRate g.PrizePool PassingGoRewardRate = g.PrizePool * 2 / 100) := by
  rw [handleTileEffect_chance g id d now player tile hp ht hT]
  obtain ⟨hid, _⟩ := player?_some hp
  subst hid
  have hr1 : rateOf g.PrizePool ChanceRewardRate = g.PrizePool / 100 := by
    rw [rateOf_floor _ _ hP (by decide)]
    simp [ChanceRewardRate]
  have hr2 : rateOf g.PrizePool PassingGoRewardRate = g.PrizePool * 2 / 100 := by
    rw [rateOf_floor _ _ hP (by decide)]
    rfl
  refine ⟨handleChanceCard_ret g player d now, handleChanceCard_Map g player d now,
    fun k hk => handleChanceCard_player_ne g player d now k hk, ?_, ?_, ?_, ?_, ?_⟩
  · intro h1
    unfold handleChanceCard
    rw [if_pos h1]
    refine ⟨?_, ?_⟩
    · show (Game.updatePlayer _ _ _).player? _ = _
      rw [player?_coins_self g player.ID _ player hp, hr1]
    · show g.PrizePool - rateOf g.PrizePool ChanceRewardRate = _
      rw [hr1]
  · intro h1 h2
    have hmin : (if player.Coins < 100 then player.Coins else 100) = min 100 player.Coins := by
      split_ifs with hc
      · exact (min_eq_right (le_of_lt hc)).symm
      · exact (min_eq_left (not_lt.1 hc)).symm
    unfold handleChanceCard
    rw [if_neg (by omega), if_pos h2]
    refine ⟨?_, ?_⟩
    · show (Game.updatePlayer _ _ _).player? _ = _
      rw [player?_coins_self g player.ID _ player hp, hmin]
    · show g.PrizePool + (if player.Coins < 100 then player.Coins else 100) = _
      rw [hmin]
  · intro h1 h2
    have hmove : ∀ a : GameAction,
        (AddAction (g.updatePlayer player.ID (fun p => { p with Position := d.target })) a).player?
          player.ID = some { player with Position := d.target } := fun _ =>
      player?_updatePlayer_self g player.ID (fun p => { p with Position := d.target })
        (fun _ => rfl) player hp
    unfold handleChanceCard
    rw [if_neg (by omega), if_neg (by omega), if_pos h2]
    dsimp only
    refine ⟨?_, ?_⟩
    · intro hlt
      rw [if_pos hlt]
      refine ⟨?_, ?_⟩
      · unfold handlePassingGo
        show (Game.updatePlayer _ _ _).player? _ = _
        rw [player?_coins_self _ player.ID _ _ (hmove _)]
        rw [← hr2]
        rfl
      · show g.PrizePool - rateOf g.PrizePool PassingGoRewardRate = _
        rw [hr2]
    · intro hge
      rw [if_neg hge]
      exact ⟨hmove _, rfl⟩
  · intro h1
    unfold handleChanceCard
    rw [if_neg (by omega), if_neg (by omega), if_neg (by omega)]
  · intro hlt
    have hb : g.PrizePool.natAbs < 2 ^ 45 := by omega
    rw [goRate_eq_rateOf _ _ (by decide) hb, goRate_eq_rateOf _ _ (by decide) hb]
    exact ⟨hr1, hr2⟩

/-! ## The fate card that collects from the other players -/

theorem handleTileEffect_fate (g : Game) (id : String) (d : Draws) (now : Time)
    (player : Player) (tile : Tile) (hp : g.player? id = some player)
    (ht : idx g.Map.Tiles player.Position = some tile)
    (hT : tile.Typ = TileType.TileFate) :
    handleTileEffect g id d now = handleFateCard g player d now := by
  unfold handleTileEffect
  simp only [hp, ht, hT]

theorem range_cons_some (g : Game) (k : String) (rest : List String) (p : Player)
    (hp : g.player? k = some p) : g.range (k :: rest) = p :: g.range rest := by
  unfold Game.range
  rw [List.filterMap_cons, hp]

theorem range_cons_none (g : Game) (k : String) (rest : List String)
    (hp : g.player? k = none) : g.range (k :: rest) = g.range rest := by
  unfold Game.range
  rw [List.filterMap_cons, hp]

theorem range_congr (g g1 : Game) (order : List String)
    (h : ∀ k ∈ order, g1.player? k = g.player? k) : g1.range order = g.range order := by
  unfold Game.range
  exact List.filterMap_congr h

theorem clamp_eq_min (c : Int) : (if c < 100 then c else 100) = min 100 c := by
  split_ifs with hc
  · exact (min_eq_right (le_of_lt hc)).symm
  · exact (min_eq_left (not_lt.1 hc)).symm

/-- The collecting loop over keys visited once each: every visited player other than `id`
loses `min(100, balance)`, and the amounts are added to the running total. -/
theorem collectFromOthers_spec (order : List String) (hnd : order.Nodup) (g : Game)
    (id : String) (amount : Int) :
    (∀ k, (collectFromOthers g id order amount).1.player? k =
      if k ∈ order ∧ k ≠ id then
        (g.player? k).map (fun q => { q with Coins := q.Coins - min 100 q.Coins })
      else g.player? k) ∧
    (collectFromOthers g id order amount).2 =
      amount + (((g.range order).filter (fun p => decide (p.ID ≠ id))).map
        (fun p => min 100 p.Coins)).sum := by
  induction order generalizing g amount with
  | nil =>
    refine ⟨fun k => ?_, ?_⟩
    · simp [collectFromOthers]
    · simp [collectFromOthers, Game.range]
  | cons j rest ih =>
    rw [List.nodup_cons] at hnd
    obtain ⟨hj, hrest⟩ := hnd
    unfold collectFromOthers
    cases hp : g.player? j with
    | none =>
      dsimp only
      obtain ⟨ih1, ih2⟩ := ih hrest g amount
      rw [range_cons_none g j rest hp]
      refine ⟨fun k => ?_, ih2⟩
      rw [ih1 k]
      by_cases hk : k = j
      · subst hk
        simp [hj, hp]
      · simp [hk]
    | some p =>
      dsimp only
      have hpid : p.ID = j := (player?_some hp).1
      rw [range_cons_some g j rest p hp]
      by_cases hne : p.ID ≠ id
      · rw [if_pos hne, clamp_eq_min]
        obtain ⟨ih1, ih2⟩ := ih hrest
          (g.updatePlayer j (fun q => { q with Coins := q.Coins - min 100 p.Coins }))
          (amount + min 100 p.Coins)
        have hsame : ∀ k ∈ rest,
            (g.updatePlayer j (fun q => { q with Coins := q.Coins - min 100 p.Coins })).player? k =
              g.player? k := by
          intro k hk
          exact player?_coins_ne g j k _ (fun h => hj (h ▸ hk))
        rw [range_congr g _ rest hsame] at ih2
        refine ⟨fun k => ?_, ?_⟩
        · rw [ih1 k]
          by_cases hk : k = j
          · subst hk
            have hjid : k ≠ id := hpid ▸ hne
            rw [if_neg (fun h => hj h.1), if_pos ⟨List.mem_cons_self _ _, hjid⟩,
              player?_coins_self g k _ p hp, hp]
            rfl
          · rw [player?_coins_ne g j k _ hk]
            simp [hk]
        · rw [ih2, List.filter_cons_of_pos (by simpa using hne), List.map_cons, List.sum_cons]
          ring
      · rw [if_neg hne]
        obtain ⟨ih1, ih2⟩ := ih hrest g amount
        have hjid : j = id := by rw [← hpid]; exact not_not.1 hne
        refine ⟨fun k => ?_, ?_⟩
        · rw [ih1 k]
          by_cases hk : k = j
          · subst hk
            simp [hj, hjid]
          · simp [hk]
        · rw [ih2, List.filter_cons_of_neg (by simpa using hne)]

theorem handleFateCard_collect (g : Game) (player : Player) (d : Draws) (now : Time)
    (he : d.effect < 30) :
    handleFateCard g player d now =
      (AddAction ((collectFromOthers g player.ID d.order 0).1.updatePlayer player.ID
          (fun p => { p with Coins := p.Coins + (collectFromOthers g player.ID d.order 0).2 }))
        { Typ := ActionType.fateCollect, PlayerID := player.ID, Position := 0,
          Amount := (collectFromOthers g player.ID d.order 0).2, Timestamp := now }, Ret.nil) := by
  unfold handleFateCard
  rw [if_pos he]

theorem collectFromOthers_frame (order : List String) (g : Game) (id : String) (amount : Int) :
    (collectFromOthers g id order amount).1.PrizePool = g.PrizePool ∧
    (collectFromOthers g id order amount).1.Map = g.Map ∧
    (collectFromOthers g id order amount).1.Actions = g.Actions ∧
    (collectFromOthers g id order amount).1.CurrentPlayerID = g.CurrentPlayerID := by
  induction order generalizing g amount with
  | nil => exact ⟨rfl, rfl, rfl, rfl⟩
  | cons k rest ih =>
    unfold collectFromOthers
    cases hp : g.player? k with
    | none => exact ih g amount
    | some p =>
      dsimp only
      by_cases hne : p.ID ≠ id
      · rw [if_pos hne]
        exact ih _ _
      · rw [if_neg hne]
        exact ih g amount

/-- C23: the fate card with a draw below 30, resolved for the player `id` standing on a fate
tile of a match whose registry is visited key by key.  Every other player loses exactly
`min(100, balance)`, the acting player gains exactly the sum of those amounts, the prize pool
and the board are unchanged, and the fate-collect action appended to the log carries that sum
as its amount. -/
theorem fate_collect (g : Game) (id : String) (d : Draws) (now : Time)
    (player : Player) (tile : Tile) (hreg : RegistryOK g) (hord : IsRange g d.order)
    (hp : g.player? id = some player)
    (ht : idx g.Map.Tiles player.Position = some tile)
    (hT : tile.Typ = TileType.TileFate) (he : d.effect < 30) :
    (handleTileEffect g id d now).2 = Ret.nil ∧
    (∀ k q, k ≠ id → g.player? k = some q →
      (handleTileEffect g id d now).1.player? k =
        some { q with Coins := q.Coins - min 100 q.Coins }) ∧
    (handleTileEffect g id d now).1.player? id =
      some { player with Coins := player.Coins + fateCollection g id } ∧
    (handleTileEffect g id d now).1.PrizePool = g.PrizePool ∧
    (handleTileEffect g id d now).1.Map = g.Map ∧
    (handleTileEffect g id d now).1.Actions = g.Actions ++
      [{ Typ := ActionType.fateCollect, PlayerID := id, Position := 0,
         Amount := fateCollection g id, Timestamp := now }] := by
  rw [handleTileEffect_fate g id d now player tile hp ht hT]
  obtain ⟨hid, _⟩ := player?_some hp
  subst hid
  have hnd : d.order.Nodup := (List.Perm.nodup_iff hord).2 hreg
  obtain ⟨hl, ha⟩ := collectFromOthers_spec d.order hnd g player.ID 0
  obtain ⟨hpool, hmap, hact, _⟩ := collectFromOthers_frame d.order g player.ID 0
  have hsum : (collectFromOthers g player.ID d.order 0).2 = fateCollection g player.ID := by
    rw [ha, zero_add]
    unfold fateCollection
    exact (((range_perm hreg hord).filter _).map _).sum_eq
  rw [handleFateCard_collect g player d now he, hsum]
  refine ⟨rfl, ?_, ?_, hpool, hmap, ?_⟩
  · intro k q hk hq
    show (Game.updatePlayer _ _ _).player? k = _
    have hmem : k ∈ d.order := by
      refine (List.Perm.mem_iff hord).2 ?_
      obtain ⟨hqid, hqm⟩ := player?_some hq
      exact hqid ▸ List.mem_map_of_mem (fun p => p.ID) hqm
    rw [player?_coins_ne _ player.ID k _ hk, hl k, if_pos ⟨hmem, hk⟩, hq]
    rfl
  · show (Game.updatePlayer _ _ _).player? _ = _
    have hself : (collectFromOthers g player.ID d.order 0).1.player? player.ID = some player := by
      rw [hl, if_neg (fun h => h.2 rfl), hp]
    rw [player?_coins_self _ player.ID _ player hself]
  · show (collectFromOthers g player.ID d.order 0).1.Actions ++ _ = _
    rw [hact]

/-- C23, on an example: alice collects 40 from bob, who holds no more, and 100 from carol. -/
theorem fate_collect_witness :
    (handleTileEffect fateGame "alice" fateCollectDraw 9).1.player? "alice" =
      some { ID := "alice", Name := "Alice", Coins := 640, Position := 5,
             Status := PlayerStatus.PlayerStatusPlaying, HasRolled := true, InPrison := false,
             PrisonDays := 0, JoinTime := 0 } :=
  (fate_collect fateGame "alice" fateCollectDraw 9
    { ID := "alice", Name := "Alice", Coins := 500, Position := 5,
      Status := PlayerStatus.PlayerStatusPlaying, HasRolled := true, InPrison := false,
      PrisonDays := 0, JoinTime := 0 }
    { ID := 5, Name := "命运", Typ := TileType.TileFate, Price := 0, OwnerID := "",
      Level := 0, RentPrice := [] } (by decide) (by decide) (by decide) (by decide) rfl
    (by decide)).2.2.1

/-! ## The fate card that hands over a property -/

theorem grantFirstFree_first (id : String) (tiles : List Tile) (i : Nat) (tile : Tile)
    (h : tiles[i]? = some tile) (hfree : tile.Typ = TileType.TileProperty ∧ tile.OwnerID = "")
    (hmin : ∀ t ∈ tiles.take i, ¬ (t.Typ = TileType.TileProperty ∧ t.OwnerID = "")) :
    grantFirstFree id tiles = some (tiles.set i { tile with OwnerID := id }, tile.ID) := by
  induction tiles generalizing i with
  | nil => simp at h
  | cons t rest ih =>
    cases i with
    | zero =>
      simp only [List.getElem?_cons_zero, Option.some.injEq] at h
      subst h
      unfold grantFirstFree
      rw [if_pos hfree]
      rfl
    | succ i =>
      rw [List.getElem?_cons_succ] at h
      have ht : ¬ (t.Typ = TileType.TileProperty ∧ t.OwnerID = "") :=
        hmin t (by simp)
      have hrest : ∀ u ∈ rest.take i, ¬ (u.Typ = TileType.TileProperty ∧ u.OwnerID = "") :=
        fun u hu => hmin u (by simp [hu])
      unfold grantFirstFree
      rw [if_neg ht, ih i h hrest]
      rfl

theorem grantFirstFree_none (id : String) (tiles : List Tile)
    (h : ∀ t ∈ tiles, ¬ (t.Typ = TileType.TileProperty ∧ t.OwnerID = "")) :
    grantFirstFree id tiles = none := by
  induction tiles with
  | nil => rfl
  | cons t rest ih =>
    unfold grantFirstFree
    rw [if_neg (h t (List.mem_cons_self _ _)),
      ih (fun u hu => h u (List.mem_cons_of_mem _ hu))]

/-- C24: the fate card with a draw in [60, 80), resolved for the player `id` standing on a fate
tile, on any board.  If the tile at position `i` is an unowned property and no tile before it
is one, the player becomes the owner of that tile, every other tile stays as it was, the
registry (all balances) and the prize pool are unchanged, and one fate-property action is
logged.  If the board has no unowned property, the match state is unchanged. -/
theorem fate_grants_first_free (g : Game) (id : String) (d : Draws) (now : Time)
    (player : Player) (tile : Tile) (hp : g.player? id = some player)
    (ht : idx g.Map.Tiles player.Position = some tile)
    (hT : tile.Typ = TileType.TileFate) (he : 60 ≤ d.effect ∧ d.effect < 80) :
    (handleTileEffect g id d now).2 = Ret.nil ∧
    (∀ (i : Nat) (free : Tile), g.Map.Tiles[i]? = some free →
      free.Typ = TileType.TileProperty → free.OwnerID = "" →
      (∀ t ∈ g.Map.Tiles.take i, ¬ (t.Typ = TileType.TileProperty ∧ t.OwnerID = "")) →
      (handleTileEffect g id d now).1.Map.Tiles =
        g.Map.Tiles.set i { free with OwnerID := id } ∧
      (∀ j : Nat, j ≠ i → (handleTileEffect g id d now).1.Map.Tiles[j]? = g.Map.Tiles[j]?) ∧
      (handleTileEffect g id d now).1.Players = g.Players ∧
      (handleTileEffect g id d now).1.PrizePool = g.PrizePool ∧
      (handleTileEffect g id d now).1.Actions = g.Actions ++
        [{ Typ := ActionType.fateProperty, PlayerID := id, Position := free.ID, Amount := 0,
           Timestamp := now }]) ∧
    ((∀ t ∈ g.Map.Tiles, ¬ (t.Typ = TileType.TileProperty ∧ t.OwnerID = "")) →
      (handleTileEffect g id d now).1 = g) := by
  rw [handleTileEffect_fate g id d now player tile hp ht hT]
  obtain ⟨hid, _⟩ := player?_some hp
  subst hid
  refine ⟨handleFateCard_ret g player d now, ?_, ?_⟩
  · intro i free hi hty hown hmin
    have hgrant := grantFirstFree_first player.ID g.Map.Tiles i free hi ⟨hty, hown⟩ hmin
    have hstate : (handleFateCard g player d now).1 =
        AddAction { g with Map := { Tiles := g.Map.Tiles.set i { free with OwnerID := player.ID } } }
          { Typ := ActionType.fateProperty, PlayerID := player.ID, Position := free.ID,
            Amount := 0, Timestamp := now } := by
      unfold handleFateCard
      rw [if_neg (by omega), if_neg (by omega), if_pos he.2, hgrant]
    rw [hstate]
    refine ⟨rfl, fun j hj => ?_, rfl, rfl, rfl⟩
    show (g.Map.Tiles.set i _)[j]? = _
    exact List.getElem?_set_ne (Ne.symm hj)
  · intro hnone
    unfold handleFateCard
    rw [if_neg (by omega), if_neg (by omega), if_pos he.2, grantFirstFree_none _ _ hnone]

/-- C24, on an example: tile 1 belongs to bob, so alice is given tile 3 and nothing else. -/
theorem fate_grants_first_free_witness :
    (handleTileEffect fateGameOwned "alice" fateGrantDraw 9).1.Map.Tiles =
      fateGameOwned.Map.Tiles.set 3
        { ID := 3, Name := "第二大道", Typ := TileType.TileProperty, Price := 300,
          OwnerID := "alice", Level := 0, RentPrice := [30, 60, 120] } :=
  ((fate_grants_first_free fateGameOwned "alice" fateGrantDraw 9
    { ID := "alice", Name := "Alice", Coins := 500, Position := 5,
      Status := PlayerStatus.PlayerStatusPlaying, HasRolled := true, InPrison := false,
      PrisonDays := 0, JoinTime := 0 }
    { ID := 5, Name := "命运", Typ := TileType.TileFate, Price := 0, OwnerID := "",
      Level := 0, RentPrice := [] } (by decide) (by decide) rfl (by decide)).2.1 3
    { ID := 3, Name := "第二大道", Typ := TileType.TileProperty, Price := 300, OwnerID := "",
      Level := 0, RentPrice := [30, 60, 120] } (by decide) rfl rfl (by decide)).1

/-! ## Prison -/

theorem handleTileEffect_prison (g : Game) (id : String) (d : Draws) (now : Time)
    (player : Player) (tile : Tile) (hp : g.player? id = some player)
    (ht : idx g.Map.Tiles player.Position = some tile)
    (hT : tile.Typ = TileType.TilePrison) :
    handleTileEffect g id d now = handlePrison g player now := by
  unfold handleTileEffect
  simp only [hp, ht, hT]

/-- Two writes through the pointer `g.Players[id]` that agree on the entry stored there leave
the same match state. -/
theorem updatePlayer_congr (g : Game) (hreg : RegistryOK g) (id : String) (player : Player)
    (hp : g.player? id = some player) (f f1 : Player → Player) (h : f player = f1 player) :
    g.updatePlayer id f = g.updatePlayer id f1 := by
  unfold Game.updatePlayer
  congr 1
  apply List.map_congr_left
  intro q hq
  by_cases hid : q.ID = id
  · have hq1 := player?_of_mem hreg hq
    rw [hid, hp] at hq1
    rw [if_pos hid, if_pos hid, ← Option.some.inj hq1, h]
  · rw [if_neg hid, if_neg hid]

theorem updatePlayer_updatePlayer (g : Game) (id : String) (f f1 : Player → Player)
    (hf : ∀ p, (f p).ID = p.ID) :
    (g.updatePlayer id f).updatePlayer id f1 = g.updatePlayer id (fun p => f1 (f p)) := by
  unfold Game.updatePlayer
  simp only [List.map_map]
  congr 1
  apply List.map_congr_left
  intro q _
  by_cases hid : q.ID = id
  · simp [hid, hf]
  · simp [hid]

/-- C25: prison.
* The tile effect of a prison tile sets the imprisonment flag of the player standing on it
  and sets the remaining prison turns to 1.
* `RollDice` by the current player, not yet rolled, imprisoned with remaining turns above 0:
  the call reports the in-prison outcome and returns no action; the remaining turns drop by 1
  and the rolled flag is set; position and balance of the player, every other player, the prize
  pool, the board and the log are unchanged.
* `RollDice` by the current player, not yet rolled, imprisoned with no remaining turns: the call
  is the call `RollDice` made on the match in which the player has been set free (flag cleared,
  remaining turns 0), so the player moves by the die as a free player does. -/
theorem prison_rules (g : Game) (id : String) (d : Draws) (now : Time) (player : Player)
    (hp : g.player? id = some player) :
    (∀ tile, idx g.Map.Tiles player.Position = some tile → tile.Typ = TileType.TilePrison →
      (handleTileEffect g id d now).2 = Ret.nil ∧
      (handleTileEffect g id d now).1.player? id =
        some { player with InPrison := true, PrisonDays := 1 }) ∧
    (g.Status = GameStatus.StatusPlaying → g.CurrentPlayerID = id → player.HasRolled = false →
      player.InPrison = true → 0 < player.PrisonDays →
      (RollDice g id d now).ret = Ret.err GameError.ErrInPrison ∧
      (RollDice g id d now).action = none ∧
      (RollDice g id d now).game.player? id =
        some { player with PrisonDays := player.PrisonDays - 1, HasRolled := true } ∧
      (∀ k, k ≠ id → (RollDice g id d now).game.player? k = g.player? k) ∧
      (RollDice g id d now).game.PrizePool = g.PrizePool ∧
      (RollDice g id d now).game.Map = g.Map ∧
      (RollDice g id d now).game.Actions = g.Actions) ∧
    (RegistryOK g → g.Status = GameStatus.StatusPlaying → g.CurrentPlayerID = id →
      player.HasRolled = false → player.InPrison = true → player.PrisonDays ≤ 0 →
      (g.updatePlayer id (fun p => { p with InPrison := false, PrisonDays := 0 })).player? id =
        some { player with InPrison := false, PrisonDays := 0 } ∧
      RollDice g id d now =
        RollDice (g.updatePlayer id (fun p => { p with InPrison := false, PrisonDays := 0 }))
          id d now) := by
  refine ⟨?_, ?_, ?_⟩
  · intro tile ht hT
    rw [handleTileEffect_prison g id d now player tile hp ht hT]
    refine ⟨rfl, ?_⟩
    obtain ⟨hid, _⟩ := player?_some hp
    subst hid
    exact player?_updatePlayer_self g player.ID
      (fun p => { p with InPrison := true, PrisonDays := 1 }) (fun _ => rfl) player hp
  · intro hs hcur hr hin hdays
    have hv : validateGameState g id = Ret.nil :=
      validateGameState_nil.2 ⟨hs, hcur, by rw [hp]; rfl⟩
    have hps : handlePrisonState player =
        ({ player with PrisonDays := player.PrisonDays - 1, HasRolled := true },
          Ret.err GameError.ErrInPrison) := by
      unfold handlePrisonState
      rw [if_pos hin, if_pos hdays]
    have hroll : RollDice g id d now =
        { game := g.updatePlayer id (fun p => (handlePrisonState p).1), action := none,
          ret := Ret.err GameError.ErrInPrison } := by
      unfold RollDice
      simp only [hv, hp, hr, hps, if_false, Bool.false_eq_true]
    rw [hroll]
    refine ⟨rfl, rfl, ?_, fun k hk => ?_, rfl, rfl, rfl⟩
    · show (g.updatePlayer id (fun p => (handlePrisonState p).1)).player? id = _
      rw [player?_updatePlayer_self g id (fun p => (handlePrisonState p).1) handlePrisonState_ID
        player hp, hps]
    · exact player?_updatePlayer_ne g id k (fun p => (handlePrisonState p).1)
        handlePrisonState_ID hk
  · intro hreg hs hcur hr hin hdays
    have hfreed : (g.updatePlayer id (fun p => { p with InPrison := false, PrisonDays := 0 })).player?
        id = some { player with InPrison := false, PrisonDays := 0 } :=
      player?_updatePlayer_self g id (fun p => { p with InPrison := false, PrisonDays := 0 })
        (fun _ => rfl) player hp
    refine ⟨hfreed, ?_⟩
    have hps : handlePrisonState player =
        ({ player with InPrison := false, PrisonDays := 0 }, Ret.nil) := by
      unfold handlePrisonState
      rw [if_pos hin, if_neg (by omega)]
    have hps1 : handlePrisonState { player with InPrison := false, PrisonDays := 0 } =
        ({ player with InPrison := false, PrisonDays := 0 }, Ret.nil) :=
      handlePrisonState_free _ rfl
    have hv : validateGameState g id = Ret.nil :=
      validateGameState_nil.2 ⟨hs, hcur, by rw [hp]; rfl⟩
    have hv1 : validateGameState
        (g.updatePlayer id (fun p => { p with InPrison := false, PrisonDays := 0 })) id =
        Ret.nil :=
      validateGameState_nil.2 ⟨hs, hcur, by rw [hfreed]; rfl⟩
    have hg1 : g.updatePlayer id (fun p => (handlePrisonState p).1) =
        g.updatePlayer id (fun p => { p with InPrison := false, PrisonDays := 0 }) :=
      updatePlayer_congr g hreg id player hp _ _ (by rw [hps])
    have hg2 : (g.updatePlayer id (fun p => { p with InPrison := false, PrisonDays := 0 })).updatePlayer
        id (fun p => (handlePrisonState p).1) =
        g.updatePlayer id (fun p => { p with InPrison := false, PrisonDays := 0 }) := by
      rw [updatePlayer_updatePlayer g id (fun p => { p with InPrison := false, PrisonDays := 0 })
        (fun p => (handlePrisonState p).1) (fun _ => rfl)]
      exact updatePlayer_congr g hreg id player hp _ _ (by show (handlePrisonState _).1 = _; rw [hps1])
    unfold RollDice
    simp only [hv, hv1, hp, hfreed, hps, hps1, hg1, hg2, updatePlayer_Map]
    simp only [hr, if_false, Bool.false_eq_true]

/-- C25, on an example: alice, in prison with one turn left, rolls: she stays on tile 5 with no
turn left and her rolled flag set.  With no turn left she rolls a 1 as a free player: she moves
from tile 5 to tile 0 and is paid the passing reward. -/
theorem prison_rules_witness :
    (RollDice (prisonGame 1) "alice" rollOne 9).ret = Ret.err GameError.ErrInPrison ∧
    (RollDice (prisonGame 1) "alice" rollOne 9).game.player? "alice" =
      some { ID := "alice", Name := "Alice", Coins := 500, Position := 5,
             Status := PlayerStatus.PlayerStatusPlaying, HasRolled := true, InPrison := true,
             PrisonDays := 0, JoinTime := 0 } ∧
    (RollDice (prisonGame 0) "alice" rollOne 9).game.player? "alice" =
      some { ID := "alice", Name := "Alice", Coins := 540, Position := 0,
             Status := PlayerStatus.PlayerStatusPlaying, HasRolled := true, InPrison := false,
             PrisonDays := 0, JoinTime := 0 } :=
  have h := (prison_rules (prisonGame 1) "alice" rollOne 9
    { ID := "alice", Name := "Alice", Coins := 500, Position := 5,
      Status := PlayerStatus.PlayerStatusPlaying, HasRolled := false, InPrison := true,
      PrisonDays := 1, JoinTime := 0 } (by decide)).2.1 rfl rfl rfl rfl (by decide)
  have h0 := ((prison_rules (prisonGame 0) "alice" rollOne 9
    { ID := "alice", Name := "Alice", Coins := 500, Position := 5,
      Status := PlayerStatus.PlayerStatusPlaying, HasRolled := false, InPrison := true,
      PrisonDays := 0, JoinTime := 0 } (by decide)).2.2 (by decide) rfl rfl rfl rfl
      (by decide)).2
  ⟨h.1, h.2.2.1, by rw [h0]; decide⟩

/-! ## Writes to one registry entry -/

theorem sum_coins_update (ps : List Player) (id : String) (f : Player → Player)
    (player : Player) (hnd : (ps.map (fun p => p.ID)).Nodup)
    (hp : ps.find? (fun p => decide (p.ID = id)) = some player) :
    ((ps.map (fun p => if p.ID = id then f p else p)).map (fun p => p.Coins)).sum =
      (ps.map (fun p => p.Coins)).sum - player.Coins + (f player).Coins := by
  induction ps with
  | nil => simp at hp
  | cons x xs ih =>
    rw [List.map_cons, List.nodup_cons] at hnd
    by_cases hx : x.ID = id
    · have hpx : player = x := by
        rw [List.find?_cons] at hp
        simp only [hx, decide_True] at hp
        exact (Option.some.inj hp).symm
      subst hpx
      have htail : xs.map (fun p => if p.ID = id then f p else p) = xs := by
        conv_rhs => rw [← List.map_id xs]
        apply List.map_congr_left
        intro q hq
        have : q.ID ≠ id := fun h => hnd.1 (by
          rw [hx, ← h]; exact List.mem_map_of_mem (fun p => p.ID) hq)
        simp [this]
      simp only [List.map_cons, hx, if_true, htail, List.sum_cons]
      ring
    · have hp1 : xs.find? (fun p => decide (p.ID = id)) = some player := by
        rw [List.find?_cons] at hp
        simpa [hx] using hp
      simp only [List.map_cons, hx, if_false, List.sum_cons, ih hnd.2 hp1]
      ring

theorem coinTotal_updatePlayer (g : Game) (hreg : RegistryOK g) (id : String)
    (player : Player) (hp : g.player? id = some player) (f : Player → Player) :
    coinTotal (g.updatePlayer id f) = coinTotal g - player.Coins + (f player).Coins :=
  sum_coins_update g.Players id f player hreg hp

theorem updatePlayer_none (g : Game) (id : String) (f : Player → Player)
    (hp : g.player? id = none) : g.updatePlayer id f = g := by
  unfold Game.player? at hp
  rw [List.find?_eq_none] at hp
  unfold Game.updatePlayer
  have : g.Players.map (fun p => if p.ID = id then f p else p) = g.Players := by
    conv_rhs => rw [← List.map_id g.Players]
    apply List.map_congr_left
    intro q hq
    have := hp q hq
    simp only [decide_eq_true_eq] at this
    simp [this]
  rw [this]

theorem mem_updatePlayer {g : Game} {id : String} {f : Player → Player} {q : Player}
    (hq : q ∈ (g.updatePlayer id f).Players) :
    (∃ p ∈ g.Players, p.ID = id ∧ q = f p) ∨ (q ∈ g.Players ∧ q.ID ≠ id) := by
  unfold Game.updatePlayer at hq
  obtain ⟨p, hp, rfl⟩ := List.mem_map.1 hq
  by_cases h : p.ID = id
  · left
    exact ⟨p, hp, h, by simp [h]⟩
  · right
    simp only [h, if_false]
    exact ⟨hp, h⟩

theorem coins_nonneg_write (g : Game) (hreg : RegistryOK g) (id : String) (player : Player)
    (hp : g.player? id = some player) (hall : ∀ p ∈ g.Players, 0 ≤ p.Coins)
    (f : Player → Player) (hf : 0 ≤ (f player).Coins) :
    ∀ q ∈ (g.updatePlayer id f).Players, 0 ≤ q.Coins := by
  intro q hq
  rcases mem_updatePlayer hq with ⟨p, hpm, hid, rfl⟩ | ⟨hqm, _⟩
  · have hpp := player?_of_mem hreg hpm
    rw [hid, hp] at hpp
    rw [← Option.some.inj hpp]
    exact hf
  · exact hall q hqm

theorem coins_nonneg_mono (g : Game) (id : String) (hall : ∀ p ∈ g.Players, 0 ≤ p.Coins)
    (f : Player → Player) (hf : ∀ p, 0 ≤ p.Coins → 0 ≤ (f p).Coins) :
    ∀ q ∈ (g.updatePlayer id f).Players, 0 ≤ q.Coins := by
  intro q hq
  rcases mem_updatePlayer hq with ⟨p, hpm, _, rfl⟩ | ⟨hqm, _⟩
  · exact hf p (hall p hpm)
  · exact hall q hqm

theorem coinTotal_blind (g : Game) (id : String) (f : Player → Player)
    (hc : ∀ p, (f p).Coins = p.Coins) : coinTotal (g.updatePlayer id f) = coinTotal g := by
  unfold coinTotal Game.updatePlayer
  simp only [List.map_map]
  congr 1
  apply List.map_congr_left
  intro p _
  by_cases h : p.ID = id <;> simp [h, hc]

theorem mem_keys_of_player? {g : Game} {id : String} {p : Player}
    (hp : g.player? id = some p) : id ∈ g.keys := by
  obtain ⟨hid, hm⟩ := player?_some hp
  exact hid ▸ List.mem_map_of_mem (fun p => p.ID) hm

/-! ## Steps of play -/

theorem Play.refl (g : Game) : Play g g :=
  { keys := rfl, current := rfl, status := rfl, log := ⟨[], (List.append_nil _).symm⟩,
    tiles := fun _ _ h => h, total := fun _ => rfl, funds := fun _ _ h => h }

theorem tileOK_closed (keys : List String) : TileClosed keys TileOK := by
  refine ⟨fun t o _ h => h, fun t hT hlt h => ?_⟩
  obtain ⟨h1, h2, h3⟩ := h
  refine ⟨h1, h2, fun _ => ?_⟩
  have := h3 hT
  dsimp only
  omega

theorem Play.trans {g g1 g2 : Game} (h1 : Play g g1) (h2 : Play g1 g2) : Play g g2 where
  keys := h2.keys.trans h1.keys
  current := h2.current.trans h1.current
  status := h2.status.trans h1.status
  log := by
    obtain ⟨a, ha⟩ := h1.log
    obtain ⟨b, hb⟩ := h2.log
    exact ⟨a ++ b, by rw [hb, ha, List.append_assoc]⟩
  tiles := fun Q hQ h => h2.tiles Q (h1.keys ▸ hQ) (h1.tiles Q hQ h)
  total := fun hreg => by
    have hreg1 : RegistryOK g1 := by unfold RegistryOK; rw [h1.keys]; exact hreg
    rw [h2.total hreg1, h1.total hreg]
  funds := fun hreg ht hf => by
    have hreg1 : RegistryOK g1 := by unfold RegistryOK; rw [h1.keys]; exact hreg
    exact h2.funds hreg1 (h1.tiles TileOK (tileOK_closed _) ht) (h1.funds hreg ht hf)

theorem Play.addAction (g : Game) (a : GameAction) : Play g (AddAction g a) :=
  { keys := rfl, current := rfl, status := rfl, log := ⟨[a], rfl⟩,
    tiles := fun _ _ h => h, total := fun _ => rfl, funds := fun _ _ h => h }

/-- A write to one registry entry that leaves id and balance alone. -/
theorem Play.blind (g : Game) (id : String) (f : Player → Player)
    (hid : ∀ p, (f p).ID = p.ID) (hc : ∀ p, (f p).Coins = p.Coins) :
    Play g (g.updatePlayer id f) where
  keys := updatePlayer_keys g id f hid
  current := rfl
  status := rfl
  log := ⟨[], (List.append_nil _).symm⟩
  tiles := fun _ _ h => h
  total := fun _ => by
    rw [coinTotal_blind g id f hc]
    rfl
  funds := fun _ _ hf =>
    ⟨hf.1, coins_nonneg_mono g id hf.2 f (fun p hp => by rw [hc]; exact hp)⟩

/-- A payment between the registered player `id` and the prize pool. -/
theorem Play.write (g : Game) (id : String) (player : Player)
    (hp : g.player? id = some player) (cf : Player → Int) (pool : Int)
    (hsum : cf player + pool = player.Coins + g.PrizePool)
    (hfunds : TilesOK g → Funds g → 0 ≤ cf player ∧ 0 ≤ pool) :
    Play g { g.updatePlayer id (fun p => { p with Coins := cf p }) with PrizePool := pool } where
  keys := updatePlayer_keys g id _ (fun _ => rfl)
  current := rfl
  status := rfl
  log := ⟨[], (List.append_nil _).symm⟩
  tiles := fun _ _ h => h
  total := fun hreg => by
    show coinTotal (g.updatePlayer id (fun p => { p with Coins := cf p })) + pool = _
    rw [coinTotal_updatePlayer g hreg id player hp]
    show coinTotal g - player.Coins + cf player + pool = _
    omega
  funds := fun hreg ht hf =>
    ⟨(hfunds ht hf).2,
      coins_nonneg_write g hreg id player hp hf.2 _ (hfunds ht hf).1⟩

theorem mem_setIdx {α : Type} {l : List α} {i : Int} {a b : α} (h : b ∈ setIdx l i a) :
    b ∈ l ∨ b = a := by
  unfold setIdx at h
  split_ifs at h
  · exact Or.inl h
  · exact List.mem_or_eq_of_mem_set h

/-- The tile at position `i` is handed to a registered player. -/
theorem Play.setOwner (g : Game) (i : Int) (tile : Tile) (o : String)
    (ht : idx g.Map.Tiles i = some tile) (ho : o ∈ g.keys) :
    Play g (g.setTile i { tile with OwnerID := o }) where
  keys := rfl
  current := rfl
  status := rfl
  log := ⟨[], (List.append_nil _).symm⟩
  tiles := fun Q hQ h t hmem => by
    rcases mem_setIdx hmem with h1 | h1
    · exact h t h1
    · rw [h1]
      exact hQ.1 tile o ho (h tile (idx_some ht).2.2)
  total := fun _ => rfl
  funds := fun _ _ h => h

/-- The level of the property at position `i`, below its top level, is raised by one. -/
theorem Play.setLevel (g : Game) (i : Int) (tile : Tile)
    (ht : idx g.Map.Tiles i = some tile) (hT : tile.Typ = TileType.TileProperty)
    (hl : tile.Level < (tile.RentPrice.length : Int) - 1) :
    Play g (g.setTile i { tile with Level := tile.Level + 1 }) where
  keys := rfl
  current := rfl
  status := rfl
  log := ⟨[], (List.append_nil _).symm⟩
  tiles := fun Q hQ h t hmem => by
    rcases mem_setIdx hmem with h1 | h1
    · exact h t h1
    · rw [h1]
      exact hQ.2 tile hT hl (h tile (idx_some ht).2.2)
  total := fun _ => rfl
  funds := fun _ _ h => h

theorem rateOf_le (pool percent : Int) (hp : 0 ≤ pool) (hr0 : 0 ≤ percent)
    (hr : percent ≤ 100) : rateOf pool percent ≤ pool := by
  rw [rateOf_floor pool percent hp hr0]
  have h : pool * percent ≤ pool * 100 := Int.mul_le_mul_of_nonneg_left hr hp
  generalize pool * percent = x at h
  omega

/-! ## Every tile effect is a step of play -/

theorem Play.passingGo (g : Game) (id : String) (player : Player)
    (hp : g.player? id = some player) : Play g (handlePassingGo g id) := by
  have hr : Funds g → 0 ≤ rateOf g.PrizePool PassingGoRewardRate ∧
      rateOf g.PrizePool PassingGoRewardRate ≤ g.PrizePool := fun hf =>
    ⟨rateOf_nonneg _ _ hf.1 (by decide), rateOf_le _ _ hf.1 (by decide) (by decide)⟩
  exact Play.write g id player hp
    (fun p => p.Coins + rateOf g.PrizePool PassingGoRewardRate)
    (g.PrizePool - rateOf g.PrizePool PassingGoRewardRate) (by dsimp only; omega)
    (fun _ hf => by
      have := hr hf
      have := hf.2 player (player?_some hp).2
      dsimp only
      omega)

theorem keys_coins (g : Game) (id : String) (cf : Player → Int) :
    (g.updatePlayer id (fun p => { p with Coins := cf p })).keys = g.keys :=
  updatePlayer_keys g id (fun p => { p with Coins := cf p }) (fun _ => rfl)

theorem registry_of_keys {g g1 : Game} (h : g1.keys = g.keys) (hreg : RegistryOK g) :
    RegistryOK g1 := by
  unfold RegistryOK
  rw [h]
  exact hreg

theorem Play.rentPayment (g : Game) (player : Player) (tile : Tile) (now : Time)
    (hp : g.player? player.ID = some player) (ht : tile ∈ g.Map.Tiles)
    (hne : tile.OwnerID ≠ player.ID) : Play g (handleRentPayment g player tile now).1 := by
  unfold handleRentPayment
  cases ho : g.player? tile.OwnerID with
  | none => exact Play.refl g
  | some owner =>
    dsimp only
    cases hrent : idx tile.RentPrice tile.Level with
    | none => exact Play.refl g
    | some rent =>
      dsimp only
      by_cases hc : player.Coins < rent
      · rw [if_pos hc]
        exact Play.refl g
      · rw [if_neg hc]
        have hk1 : (g.updatePlayer player.ID (fun p => { p with Coins := p.Coins - rent })).keys =
            g.keys := keys_coins g _ _
        have ho1 : (g.updatePlayer player.ID
            (fun p => { p with Coins := p.Coins - rent })).player? tile.OwnerID = some owner := by
          rw [player?_coins_ne g player.ID tile.OwnerID _ hne, ho]
        refine Play.trans ?_ (Play.addAction _ _)
        refine
          { keys := (keys_coins _ _ _).trans hk1
            current := rfl
            status := rfl
            log := ⟨[], (List.append_nil _).symm⟩
            tiles := fun _ _ h => h
            total := fun hreg => ?_
            funds := fun hreg htl hf => ⟨hf.1, ?_⟩ }
        · show coinTotal (Game.updatePlayer _ _ _) + g.PrizePool = _
          rw [coinTotal_updatePlayer _ (registry_of_keys hk1 hreg) tile.OwnerID owner ho1,
            coinTotal_updatePlayer g hreg player.ID player hp]
          dsimp only
          omega
        · have hrn : 0 ≤ rent := (htl tile ht).2.1 rent (idx_some hrent).2.2
          have h1 := coins_nonneg_write g hreg player.ID player hp hf.2
            (fun p => { p with Coins := p.Coins - rent }) (by dsimp only; omega)
          exact coins_nonneg_mono _ tile.OwnerID h1 (fun p => { p with Coins := p.Coins + rent })
            (fun p hp0 => by dsimp only; omega)

theorem Play.chance (g : Game) (player : Player) (d : Draws) (now : Time)
    (hp : g.player? player.ID = some player) : Play g (handleChanceCard g player d now).1 := by
  unfold handleChanceCard
  by_cases h1 : d.effect < 30
  · rw [if_pos h1]
    refine Play.trans ?_ (Play.addAction _ _)
    exact Play.write g player.ID player hp
      (fun p => p.Coins + rateOf g.PrizePool ChanceRewardRate)
      (g.PrizePool - rateOf g.PrizePool ChanceRewardRate) (by dsimp only; omega)
      (fun _ hf => by
        have h0 := rateOf_nonneg g.PrizePool ChanceRewardRate hf.1 (by decide)
        have h2 := rateOf_le g.PrizePool ChanceRewardRate hf.1 (by decide) (by decide)
        have := hf.2 player (player?_some hp).2
        dsimp only
        omega)
  · rw [if_neg h1]
    by_cases h2 : d.effect < 60
    · rw [if_pos h2]
      refine Play.trans ?_ (Play.addAction _ _)
      exact Play.write g player.ID player hp
        (fun p => p.Coins - if player.Coins < 100 then player.Coins else 100)
        (g.PrizePool + if player.Coins < 100 then player.Coins else 100)
        (by dsimp only; omega)
        (fun _ hf => by
          have := hf.2 player (player?_some hp).2
          have := hf.1
          dsimp only
          split_ifs <;> omega)
    · rw [if_neg h2]
      by_cases h3 : d.effect < 80
      · rw [if_pos h3]
        have hmove : Play g (AddAction (g.updatePlayer player.ID
            (fun p => { p with Position := d.target }))
            { Typ := ActionType.chanceTeleport, PlayerID := player.ID, Position := d.target,
              Amount := 0, Timestamp := now }) :=
          Play.trans (Play.blind g player.ID (fun p => { p with Position := d.target })
            (fun _ => rfl) (fun _ => rfl)) (Play.addAction _ _)
        dsimp only
        by_cases hlt : d.target < player.Position
        · rw [if_pos hlt]
          refine Play.trans hmove (Play.passingGo _ player.ID { player with Position := d.target } ?_)
          exact player?_updatePlayer_self g player.ID (fun p => { p with Position := d.target })
            (fun _ => rfl) player hp
        · rw [if_neg hlt]
          exact hmove
      · rw [if_neg h3]
        exact Play.refl g

/-- The collecting loop never writes to the entry of the collecting player. -/
theorem collectFromOthers_self (order : List String) (g : Game) (id : String) (amount : Int) :
    (collectFromOthers g id order amount).1.player? id = g.player? id := by
  induction order generalizing g amount with
  | nil => rfl
  | cons j rest ih =>
    unfold collectFromOthers
    cases hp : g.player? j with
    | none => exact ih g amount
    | some p =>
      dsimp only
      by_cases hne : p.ID ≠ id
      · rw [if_pos hne, ih]
        have hj : id ≠ j := fun h => hne ((player?_some hp).1.trans h.symm)
        exact player?_coins_ne g j id _ hj
      · rw [if_neg hne]
        exact ih g amount

theorem collectFromOthers_keys (order : List String) (g : Game) (id : String) (amount : Int) :
    (collectFromOthers g id order amount).1.keys = g.keys := by
  induction order generalizing g amount with
  | nil => rfl
  | cons j rest ih =>
    unfold collectFromOthers
    cases hp : g.player? j with
    | none => exact ih g amount
    | some p =>
      dsimp only
      by_cases hne : p.ID ≠ id
      · rw [if_pos hne, ih]
        exact keys_coins g j _
      · rw [if_neg hne]
        exact ih g amount

/-- The collecting loop moves coins from the registry into the running total. -/
theorem collectFromOthers_total (order : List String) (g : Game) (hreg : RegistryOK g)
    (id : String) (amount : Int) :
    coinTotal (collectFromOthers g id order amount).1 + (collectFromOthers g id order amount).2 =
      coinTotal g + amount := by
  induction order generalizing g amount with
  | nil => rfl
  | cons j rest ih =>
    unfold collectFromOthers
    cases hp : g.player? j with
    | none => exact ih g hreg amount
    | some p =>
      dsimp only
      by_cases hne : p.ID ≠ id
      · rw [if_pos hne, ih _ (registry_of_keys (keys_coins g j _) hreg),
          coinTotal_updatePlayer g hreg j p hp]
        dsimp only
        omega
      · rw [if_neg hne]
        exact ih g hreg amount

theorem collectFromOthers_nonneg (order : List String) (g : Game) (hreg : RegistryOK g)
    (hall : ∀ p ∈ g.Players, 0 ≤ p.Coins) (id : String) (amount : Int) :
    (∀ p ∈ (collectFromOthers g id order amount).1.Players, 0 ≤ p.Coins) ∧
    amount ≤ (collectFromOthers g id order amount).2 := by
  induction order generalizing g amount with
  | nil => exact ⟨hall, le_refl _⟩
  | cons j rest ih =>
    unfold collectFromOthers
    cases hp : g.player? j with
    | none => exact ih g hreg hall amount
    | some p =>
      dsimp only
      have hp0 := hall p (player?_some hp).2
      by_cases hne : p.ID ≠ id
      · rw [if_pos hne]
        have hstep := ih (g.updatePlayer j
            (fun q => { q with Coins := q.Coins - if p.Coins < 100 then p.Coins else 100 }))
          (registry_of_keys (keys_coins g j _) hreg)
          (coins_nonneg_write g hreg j p hp hall _ (by dsimp only; split_ifs <;> omega))
          (amount + if p.Coins < 100 then p.Coins else 100)
        refine ⟨hstep.1, le_trans ?_ hstep.2⟩
        split_ifs <;> omega
      · rw [if_neg hne]
        exact ih g hreg hall amount

theorem maintenanceFee_nonneg (tiles : List Tile) (id : String)
    (h : ∀ t ∈ tiles, 0 ≤ t.Price) : 0 ≤ maintenanceFee tiles id := by
  unfold maintenanceFee
  have key : ∀ (ts : List Tile) (start : Int), (∀ t ∈ ts, 0 ≤ t.Price) → 0 ≤ start →
      0 ≤ ts.foldl (fun amount tile =>
        if tile.OwnerID = id then amount + Int.tdiv tile.Price 10 else amount) start := by
    intro ts
    induction ts with
    | nil => intro start _ h0; exact h0
    | cons t rest ih =>
      intro start hts h0
      rw [List.foldl_cons]
      apply ih _ (fun u hu => hts u (List.mem_cons_of_mem _ hu))
      have := Int.tdiv_nonneg (hts t (List.mem_cons_self _ _)) (by decide : (0 : Int) ≤ 10)
      split_ifs <;> omega
  exact key tiles 0 h (le_refl _)

theorem grantFirstFree_closed (id : String) (Q : Tile → Prop)
    (hQ : ∀ t : Tile, Q t → Q { t with OwnerID := id }) (tiles : List Tile)
    (h : ∀ t ∈ tiles, Q t) (granted : List Tile) (n : Int)
    (hg : grantFirstFree id tiles = some (granted, n)) : ∀ t ∈ granted, Q t := by
  induction tiles generalizing granted n with
  | nil => simp [grantFirstFree] at hg
  | cons t rest ih =>
    unfold grantFirstFree at hg
    by_cases hfree : t.Typ = TileType.TileProperty ∧ t.OwnerID = ""
    · rw [if_pos hfree] at hg
      simp only [Option.some.injEq, Prod.mk.injEq] at hg
      obtain ⟨hg1, _⟩ := hg
      subst hg1
      intro u hu
      rcases List.mem_cons.1 hu with h1 | h1
      · rw [h1]
        exact hQ t (h t (List.mem_cons_self _ _))
      · exact h u (List.mem_cons_of_mem _ h1)
    · rw [if_neg hfree] at hg
      cases hrec : grantFirstFree id rest with
      | none => simp [hrec] at hg
      | some res =>
        obtain ⟨tiles1, m⟩ := res
        simp only [hrec, Option.some.injEq, Prod.mk.injEq] at hg
        obtain ⟨hg1, _⟩ := hg
        subst hg1
        intro u hu
        rcases List.mem_cons.1 hu with h1 | h1
        · rw [h1]
          exact h t (List.mem_cons_self _ _)
        · exact ih (fun v hv => h v (List.mem_cons_of_mem _ hv)) tiles1 m hrec u h1

theorem Play.fate (g : Game) (player : Player) (d : Draws) (now : Time)
    (hp : g.player? player.ID = some player) : Play g (handleFateCard g player d now).1 := by
  by_cases h1 : d.effect < 30
  · rw [handleFateCard_collect g player d now h1]
    refine Play.trans ?_ (Play.addAction _ _)
    obtain ⟨hpool, hmap, hact, hcur⟩ := collectFromOthers_frame d.order g player.ID 0
    have hk := collectFromOthers_keys d.order g player.ID 0
    have hself : (collectFromOthers g player.ID d.order 0).1.player? player.ID = some player := by
      rw [collectFromOthers_self, hp]
    refine
      { keys := (keys_coins _ _ _).trans hk
        current := hcur
        status := collectFromOthers_Status d.order g player.ID 0
        log := ⟨[], by rw [List.append_nil]; exact hact⟩
        tiles := fun _ _ h => by
          show ∀ t ∈ (collectFromOthers g player.ID d.order 0).1.Map.Tiles, _
          rw [hmap]
          exact h
        total := fun hreg => ?_
        funds := fun hreg _ hf => ⟨?_, ?_⟩ }
    · show coinTotal (Game.updatePlayer _ _ _) + (collectFromOthers g player.ID d.order 0).1.PrizePool
        = _
      rw [coinTotal_updatePlayer _ (registry_of_keys hk hreg) player.ID player hself, hpool]
      have := collectFromOthers_total d.order g hreg player.ID 0
      dsimp only
      omega
    · show 0 ≤ (collectFromOthers g player.ID d.order 0).1.PrizePool
      rw [hpool]
      exact hf.1
    · obtain ⟨hall, hle⟩ := collectFromOthers_nonneg d.order g hreg hf.2 player.ID 0
      exact coins_nonneg_mono _ player.ID hall _ (fun p hp0 => by dsimp only; omega)
  · unfold handleFateCard
    rw [if_neg h1]
    by_cases h2 : d.effect < 60
    · rw [if_pos h2]
      refine Play.trans ?_ (Play.addAction _ _)
      exact Play.write g player.ID player hp
        (fun p => p.Coins - if maintenanceFee g.Map.Tiles player.ID > player.Coins
          then player.Coins else maintenanceFee g.Map.Tiles player.ID)
        (g.PrizePool + if maintenanceFee g.Map.Tiles player.ID > player.Coins
          then player.Coins else maintenanceFee g.Map.Tiles player.ID)
        (by dsimp only; omega)
        (fun ht hf => by
          have := hf.2 player (player?_some hp).2
          have := hf.1
          have := maintenanceFee_nonneg g.Map.Tiles player.ID (fun t h => (ht t h).1)
          dsimp only
          split_ifs <;> omega)
    · rw [if_neg h2]
      by_cases h3 : d.effect < 80
      · rw [if_pos h3]
        cases hg : grantFirstFree player.ID g.Map.Tiles with
        | none => exact Play.refl g
        | some res =>
          obtain ⟨tiles1, n⟩ := res
          dsimp only
          refine Play.trans ?_ (Play.addAction _ _)
          exact
            { keys := rfl
              current := rfl
              status := rfl
              log := ⟨[], (List.append_nil _).symm⟩
              tiles := fun Q hQ h =>
                grantFirstFree_closed player.ID Q
                  (fun t => hQ.1 t player.ID (mem_keys_of_player? hp)) g.Map.Tiles h tiles1 n hg
              total := fun _ => rfl
              funds := fun _ _ h => h }
      · rw [if_neg h3]
        exact Play.refl g

theorem Play.prison (g : Game) (player : Player) (now : Time) :
    Play g (handlePrison g player now).1 :=
  Play.trans (Play.blind g player.ID (fun p => { p with InPrison := true, PrisonDays := 1 })
    (fun _ => rfl) (fun _ => rfl)) (Play.addAction _ _)

theorem Play.tileEffect (g : Game) (id : String) (d : Draws) (now : Time) :
    Play g (handleTileEffect g id d now).1 := by
  unfold handleTileEffect
  cases hp : g.player? id with
  | none => exact Play.refl g
  | some player =>
    dsimp only
    have hp1 : g.player? player.ID = some player := by rw [(player?_some hp).1]; exact hp
    cases ht : idx g.Map.Tiles player.Position with
    | none => exact Play.refl g
    | some tile =>
      dsimp only
      split
      · by_cases ho : tile.OwnerID ≠ "" ∧ tile.OwnerID ≠ player.ID
        · rw [if_pos ho]
          exact Play.rentPayment g player tile now hp1 (idx_some ht).2.2 ho.2
        · rw [if_neg ho]
          exact Play.refl g
      · exact Play.chance g player d now hp1
      · exact Play.fate g player d now hp1
      · exact Play.prison g player now
      · exact Play.refl g

/-! ## `RollDice`, `BuyProperty` and `UpgradeProperty` are steps of play -/

theorem Play.rollDice (g : Game) (id : String) (d : Draws) (now : Time) :
    Play g (RollDice g id d now).game := by
  unfold RollDice
  cases hv : validateGameState g id with
  | err e => exact Play.refl g
  | panic => exact Play.refl g
  | nil =>
    dsimp only
    cases hp : g.player? id with
    | none => exact Play.refl g
    | some player =>
      dsimp only
      by_cases hr : player.HasRolled = true
      · rw [if_pos hr]
        exact Play.refl g
      · rw [if_neg hr]
        have h1 : Play g (g.updatePlayer id (fun p => (handlePrisonState p).1)) :=
          Play.blind g id (fun p => (handlePrisonState p).1) handlePrisonState_ID
            handlePrisonState_Coins
        have hp1 : (g.updatePlayer id (fun p => (handlePrisonState p).1)).player? id =
            some (handlePrisonState player).1 :=
          player?_updatePlayer_self g id (fun p => (handlePrisonState p).1)
            handlePrisonState_ID player hp
        cases hps : (handlePrisonState player).2 with
        | err e => exact h1
        | panic => exact h1
        | nil =>
          dsimp only
          by_cases hlen : g.Map.Tiles.length = 0
          · rw [updatePlayer_Map, if_pos hlen]
            exact h1
          · rw [updatePlayer_Map, if_neg hlen]
            have h2 : Play g ((g.updatePlayer id (fun p => (handlePrisonState p).1)).updatePlayer id
                (fun p => { p with
                  Position := Int.tmod (player.Position + (d.dice + 1)) g.Map.Tiles.length,
                  HasRolled := true })) :=
              Play.trans h1 (Play.blind _ id
                (fun p => { p with
                  Position := Int.tmod (player.Position + (d.dice + 1)) g.Map.Tiles.length,
                  HasRolled := true }) (fun _ => rfl) (fun _ => rfl))
            have hp2 := player?_updatePlayer_self
              (g.updatePlayer id (fun p => (handlePrisonState p).1)) id
              (fun p => { p with
                  Position := Int.tmod (player.Position + (d.dice + 1)) g.Map.Tiles.length,
                  HasRolled := true }) (fun _ => rfl) _ hp1
            have h3 : Play g
                (if Int.tmod (player.Position + (d.dice + 1)) g.Map.Tiles.length < player.Position
                then handlePassingGo
                  ((g.updatePlayer id (fun p => (handlePrisonState p).1)).updatePlayer id
                    (fun p => { p with
                      Position := Int.tmod (player.Position + (d.dice + 1)) g.Map.Tiles.length,
                      HasRolled := true })) id
                else (g.updatePlayer id (fun p => (handlePrisonState p).1)).updatePlayer id
                    (fun p => { p with
                      Position := Int.tmod (player.Position + (d.dice + 1)) g.Map.Tiles.length,
                      HasRolled := true })) := by
              split_ifs
              · exact Play.trans h2 (Play.passingGo _ id _ hp2)
              · exact h2
            have h4 := Play.trans h3 (Play.tileEffect _ id d now)
            split
            · rename_i g4 heq
              rw [heq] at h4
              exact Play.trans h4 (Play.addAction _ _)
            · rename_i g4 e heq
              rw [heq] at h4
              exact h4
            · rename_i g4 heq
              rw [heq] at h4
              exact h4

theorem Play.buy (g : Game) (id : String) (now : Time) :
    Play g (BuyProperty g id now).game := by
  unfold BuyProperty
  cases hv : validateGameState g id with
  | err e => exact Play.refl g
  | panic => exact Play.refl g
  | nil =>
    dsimp only
    cases hp : g.player? id with
    | none => exact Play.refl g
    | some player =>
      dsimp only
      cases ht : idx g.Map.Tiles player.Position with
      | none => exact Play.refl g
      | some tile =>
        dsimp only
        cases hok : validatePropertyPurchase player tile with
        | err e => exact Play.refl g
        | panic => exact Play.refl g
        | nil =>
          obtain ⟨hT, hown, hprice⟩ := (validatePropertyPurchase_nil player tile).1 hok
          have hw := Play.write g id player hp (fun p => p.Coins - tile.Price)
            (g.PrizePool + tile.Price) (by dsimp only; omega)
            (fun htl hf => by
              have := (htl tile (idx_some ht).2.2).1
              have := hf.1
              dsimp only
              omega)
          have hs := Play.setOwner
            { g.updatePlayer id (fun p => { p with Coins := p.Coins - tile.Price }) with
              PrizePool := g.PrizePool + tile.Price } player.Position tile id ht
            (by rw [hw.keys]; exact mem_keys_of_player? hp)
          exact Play.trans (Play.trans hw hs) (Play.addAction _ _)

theorem validatePropertyUpgrade_nil (player : Player) (tile : Tile) :
    validatePropertyUpgrade player tile = Ret.nil ↔
      tile.Typ = TileType.TileProperty ∧ tile.OwnerID = player.ID ∧
        tile.Level < (tile.RentPrice.length : Int) - 1 ∧
        Int.tdiv tile.Price 2 ≤ player.Coins := by
  unfold validatePropertyUpgrade
  by_cases h1 : tile.Typ = TileType.TileProperty
  · by_cases h2 : tile.OwnerID = player.ID
    · by_cases h3 : tile.Level ≥ (tile.RentPrice.length : Int) - 1
      · simp only [h1, h2, h3, ne_eq, not_true_eq_false, if_false, if_true]
        constructor
        · intro h; cases h
        · intro h; omega
      · by_cases h4 : player.Coins < Int.tdiv tile.Price 2
        · simp only [h1, h2, h3, h4, ne_eq, not_true_eq_false, if_false, if_true]
          constructor
          · intro h; cases h
          · intro h; omega
        · simp only [h1, h2, h3, h4, ne_eq, not_true_eq_false, if_false, true_and]
          constructor
          · intro _; omega
          · intro _; trivial
    · simp [h1, h2]
  · simp [h1]

theorem Play.upgrade (g : Game) (id : String) (position : Int) (now : Time) :
    Play g (UpgradeProperty g id position now).game := by
  unfold UpgradeProperty
  cases hv : validateGameState g id with
  | err e => exact Play.refl g
  | panic => exact Play.refl g
  | nil =>
    dsimp only
    cases hp : g.player? id with
    | none => exact Play.refl g
    | some player =>
      dsimp only
      cases ht : idx g.Map.Tiles position with
      | none => exact Play.refl g
      | some tile =>
        dsimp only
        cases hok : validatePropertyUpgrade player tile with
        | err e => exact Play.refl g
        | panic => exact Play.refl g
        | nil =>
          obtain ⟨hT, hown, hlevel, hprice⟩ := (validatePropertyUpgrade_nil player tile).1 hok
          have hw := Play.write g id player hp (fun p => p.Coins - Int.tdiv tile.Price 2)
            (g.PrizePool + Int.tdiv tile.Price 2) (by dsimp only; omega)
            (fun htl hf => by
              have := Int.tdiv_nonneg (htl tile (idx_some ht).2.2).1 (by decide : (0 : Int) ≤ 2)
              have := hf.1
              dsimp only
              omega)
          have hs := Play.setLevel
            { g.updatePlayer id (fun p => { p with Coins := p.Coins - Int.tdiv tile.Price 2 }) with
              PrizePool := g.PrizePool + Int.tdiv tile.Price 2 } position tile ht hT hlevel
          exact Play.trans (Play.trans hw hs) (Play.addAction _ _)

/-! ## The invariant of reachable states -/

theorem Sound.play {g g1 : Game} (h : Sound g) (hs : g.Status ≠ GameStatus.StatusWaiting)
    (hp : Play g g1) : Sound g1 where
  registry := registry_of_keys hp.keys h.registry
  tiles := hp.tiles TileOK (tileOK_closed _) h.tiles
  pool := (hp.funds h.registry h.tiles ⟨h.pool, h.coins hs⟩).1
  coins := fun _ => (hp.funds h.registry h.tiles ⟨h.pool, h.coins hs⟩).2
  current := fun hs1 => by
    rw [hp.current, hp.keys]
    exact h.current (hp.status ▸ hs1)

theorem validateGameState_not_playing (g : Game) (id : String)
    (hs : g.Status ≠ GameStatus.StatusPlaying) :
    validateGameState g id = Ret.err GameError.ErrInvalidGameState := by
  rw [validateGameState_cases, if_pos hs]

theorem Sound.create (id : String) : Sound (NewGame id) where
  registry := List.nodup_nil
  tiles := fun t ht => by
    have hd : ∀ t ∈ NewDefaultMap.Tiles, TileOK t := by decide
    exact hd t ht
  pool := le_refl _
  coins := fun h => absurd rfl h
  current := fun h => by cases h

theorem Sound.addPlayer {g : Game} (h : Sound g) (player : Player) :
    Sound (AddPlayer g player).1 := by
  unfold AddPlayer
  by_cases h1 : g.Players.length ≥ MaxPlayers
  · rw [if_pos h1]; exact h
  · rw [if_neg h1]
    by_cases h2 : g.Status ≠ GameStatus.StatusWaiting
    · rw [if_pos h2]; exact h
    · rw [if_neg h2]
      by_cases h3 : (g.player? player.ID).isSome = true
      · rw [if_pos h3]; exact h
      · rw [if_neg h3]
        have hw : g.Status = GameStatus.StatusWaiting := not_not.1 h2
        have hnew : player.ID ∉ g.keys := by
          rw [not_mem_keys_iff]
          cases hp : g.player? player.ID with
          | none => rfl
          | some p => rw [hp] at h3; exact absurd rfl h3
        refine
          { registry := ?_
            tiles := h.tiles
            pool := h.pool
            coins := fun hs => absurd hw hs
            current := fun hs => by rw [show g.Status = _ from hw] at hs; cases hs }
        show (List.map (fun p => p.ID) (g.Players ++ [player])).Nodup
        rw [List.map_append, List.map_singleton]
        refine List.Nodup.append h.registry (List.nodup_singleton _) ?_
        rw [List.disjoint_singleton]
        exact hnew

theorem Sound.leave {g : Game} (h : Sound g) (playerID : String) :
    Sound (LeaveGame g playerID).1 := by
  unfold LeaveGame
  by_cases h1 : g.Status ≠ GameStatus.StatusWaiting
  · rw [if_pos h1]; exact h
  · rw [if_neg h1]
    have hw : g.Status = GameStatus.StatusWaiting := not_not.1 h1
    refine
      { registry := ?_
        tiles := h.tiles
        pool := h.pool
        coins := fun hs => absurd hw hs
        current := fun hs => by rw [show g.Status = _ from hw] at hs; cases hs }
    show (List.map (fun p => p.ID) (g.Players.filter _)).Nodup
    exact List.Nodup.sublist ((List.filter_sublist g.Players).map _) h.registry

/-- The fee loop: what it keeps, that it moves coins from the registry to the prize pool, and
that after a complete run no visited player is left with a negative balance. -/
theorem collectEntranceFees_sound (order : List String) (g : Game) :
    (collectEntranceFees g order).1.keys = g.keys ∧
    (collectEntranceFees g order).1.Map = g.Map ∧
    (collectEntranceFees g order).1.CurrentPlayerID = g.CurrentPlayerID ∧
    (collectEntranceFees g order).1.Actions = g.Actions ∧
    g.PrizePool ≤ (collectEntranceFees g order).1.PrizePool ∧
    (RegistryOK g →
      coinTotal (collectEntranceFees g order).1 + (collectEntranceFees g order).1.PrizePool =
        coinTotal g + g.PrizePool) ∧
    ((collectEntranceFees g order).2 = Ret.nil →
      ∀ k ∈ order, ∀ p, (collectEntranceFees g order).1.player? k = some p → 0 ≤ p.Coins) ∧
    (∀ k p, g.player? k = some p → 0 ≤ p.Coins →
      ∀ q, (collectEntranceFees g order).1.player? k = some q → 0 ≤ q.Coins) := by
  induction order generalizing g with
  | nil =>
    refine ⟨rfl, rfl, rfl, rfl, le_refl _, fun _ => rfl, (fun _ k hk => by cases hk), ?_⟩
    intro k p hp h0 q hq
    have : collectEntranceFees g [] = (g, Ret.nil) := rfl
    rw [this] at hq
    rw [hp] at hq
    rw [← Option.some.inj hq]
    exact h0
  | cons j rest ih =>
    unfold collectEntranceFees
    cases hp : g.player? j with
    | none =>
      dsimp only
      obtain ⟨i1, i2, i3, i4, i5, i6, i7, i8⟩ := ih g
      refine ⟨i1, i2, i3, i4, i5, i6, fun hr k hk p hkp => ?_, i8⟩
      rcases List.mem_cons.1 hk with h | h
      · have hnone : (collectEntranceFees g rest).1.player? j = none := by
          rw [← not_mem_keys_iff, i1, not_mem_keys_iff]
          exact hp
        rw [h, hnone] at hkp
        cases hkp
      · exact i7 hr k h p hkp
    | some player =>
      dsimp only
      by_cases hc : player.Coins < InitialEntranceFee
      · rw [if_pos hc]
        refine ⟨rfl, rfl, rfl, rfl, le_refl _, fun _ => rfl, (fun hr => by cases hr), ?_⟩
        intro k p hkp h0 q hq
        rw [hkp] at hq
        rw [← Option.some.inj hq]
        exact h0
      · rw [if_neg hc]
        have hfee : (0 : Int) ≤ InitialEntranceFee := by decide
        have hk1 : Game.keys { g.updatePlayer j
            (fun p => { p with Coins := p.Coins - InitialEntranceFee }) with
            PrizePool := g.PrizePool + InitialEntranceFee } = g.keys := keys_coins g j _
        have hl : ∀ k, Game.player? { g.updatePlayer j
            (fun p => { p with Coins := p.Coins - InitialEntranceFee }) with
            PrizePool := g.PrizePool + InitialEntranceFee } k =
            (g.updatePlayer j
              (fun p => { p with Coins := p.Coins - InitialEntranceFee })).player? k :=
          fun _ => rfl
        obtain ⟨i1, i2, i3, i4, i5, i6, i7, i8⟩ := ih { g.updatePlayer j
            (fun p => { p with Coins := p.Coins - InitialEntranceFee }) with
            PrizePool := g.PrizePool + InitialEntranceFee }
        have hself : Game.player? { g.updatePlayer j
            (fun p => { p with Coins := p.Coins - InitialEntranceFee }) with
            PrizePool := g.PrizePool + InitialEntranceFee } j =
            some { player with Coins := player.Coins - InitialEntranceFee } := by
          rw [hl]
          exact player?_coins_self g j _ player hp
        have hmono : ∀ k p, g.player? k = some p → 0 ≤ p.Coins →
            ∀ q, (collectEntranceFees { g.updatePlayer j
              (fun p => { p with Coins := p.Coins - InitialEntranceFee }) with
              PrizePool := g.PrizePool + InitialEntranceFee } rest).1.player? k = some q →
            0 ≤ q.Coins := by
          intro k p hkp h0 q hq
          by_cases hkj : k = j
          · subst hkj
            exact i8 k _ hself (by dsimp only; omega) q hq
          · refine i8 k p ?_ h0 q hq
            rw [hl, player?_coins_ne g j k _ hkj]
            exact hkp
        refine ⟨i1.trans hk1, i2, i3, i4, le_trans (by dsimp only; omega) i5, fun hreg => ?_,
          fun hr k hk p hkp => ?_, hmono⟩
        · rw [i6 (registry_of_keys hk1 hreg)]
          show coinTotal (g.updatePlayer j _) + (g.PrizePool + InitialEntranceFee) = _
          rw [coinTotal_updatePlayer g hreg j player hp]
          dsimp only
          omega
        · rcases List.mem_cons.1 hk with h | h
          · subst h
            exact i8 k _ hself (by dsimp only; omega) p hkp
          · exact i7 hr k h p hkp

theorem mem_range {g : Game} {order : List String} {p : Player} (h : p ∈ g.range order) :
    p.ID ∈ g.keys := by
  unfold Game.range at h
  obtain ⟨k, _, hk⟩ := List.mem_filterMap.1 h
  exact (player?_some hk).1 ▸ mem_keys_of_player? hk

theorem Sound.startGame {g : Game} (h : Sound g) (feeOrder idOrder : List String) (now : Time)
    (hfee : IsRange g feeOrder) : Sound (StartGame g feeOrder idOrder now).1 := by
  unfold StartGame
  cases hcan : canStartGame g with
  | err e => exact h
  | panic => exact h
  | nil =>
    dsimp only
    have hw : g.Status = GameStatus.StatusWaiting := by
      unfold canStartGame at hcan
      by_contra hne
      split_ifs at hcan
    obtain ⟨i1, i2, i3, i4, i5, _, i7, _⟩ := collectEntranceFees_sound feeOrder g
    have hst := collectEntranceFees_Status feeOrder g
    have hbase : Sound (collectEntranceFees g feeOrder).1 :=
      { registry := registry_of_keys i1 h.registry
        tiles := fun t ht => h.tiles t (i2 ▸ ht)
        pool := le_trans h.pool i5
        coins := fun hs => absurd (hst.trans hw) hs
        current := fun hs => by rw [hst, hw] at hs; cases hs }
    cases hres : collectEntranceFees g feeOrder with
    | mk g1 r =>
      rw [hres] at hbase i7 i1
      dsimp only at hbase i7 i1
      cases r with
      | err e => exact hbase
      | panic => exact hbase
      | nil =>
        dsimp only
        unfold initializeGame
        dsimp only
        cases hsort : sortStrings ((g1.range idOrder).map (fun p => p.ID)) with
        | nil => exact hbase
        | cons first others =>
          dsimp only
          have hfirst : first ∈ g1.keys := by
            have hmem : first ∈ sortStrings ((g1.range idOrder).map (fun p => p.ID)) := by
              rw [hsort]; exact List.mem_cons_self _ _
            have hperm : (sortStrings ((g1.range idOrder).map (fun p => p.ID))).Perm _ :=
              List.perm_insertionSort strLE _
            obtain ⟨p, hp, hpid⟩ := List.mem_map.1 (hperm.subset hmem)
            exact hpid ▸ mem_range hp
          exact
            { registry := hbase.registry
              tiles := hbase.tiles
              pool := hbase.pool
              coins := fun _ p hp => by
                have hk : p.ID ∈ feeOrder :=
                  hfee.symm.subset (i1 ▸ List.mem_map_of_mem (fun p => p.ID) hp)
                exact i7 rfl p.ID hk p (player?_of_mem hbase.registry hp)
              current := fun _ => hfirst }

theorem distributePrizes_frame (assets : List PlayerAsset) (ratios : List Int) (g : Game) :
    (distributePrizes g assets ratios).keys = g.keys ∧
    (distributePrizes g assets ratios).Map = g.Map ∧
    (distributePrizes g assets ratios).CurrentPlayerID = g.CurrentPlayerID := by
  induction assets generalizing g ratios with
  | nil => simp [distributePrizes]
  | cons a rest ih =>
    cases ratios with
    | nil => simp [distributePrizes]
    | cons r rs =>
      simp only [distributePrizes]
      obtain ⟨h1, h2, h3⟩ := ih rs (g.updatePlayer a.PlayerID
        (fun p => { p with Coins := p.Coins + rateOf g.PrizePool r }))
      exact ⟨h1.trans (keys_coins g _ _), h2, h3⟩

theorem distributePrizes_nonneg (assets : List PlayerAsset) (ratios : List Int) (g : Game)
    (hpool : 0 ≤ g.PrizePool) (hr : ∀ r ∈ ratios, 0 ≤ r)
    (hall : ∀ p ∈ g.Players, 0 ≤ p.Coins) :
    ∀ p ∈ (distributePrizes g assets ratios).Players, 0 ≤ p.Coins := by
  induction assets generalizing g ratios with
  | nil => simpa [distributePrizes] using hall
  | cons a rest ih =>
    cases ratios with
    | nil => simpa [distributePrizes] using hall
    | cons r rs =>
      simp only [distributePrizes]
      have h0 := rateOf_nonneg g.PrizePool r hpool (hr r (List.mem_cons_self _ _))
      exact ih rs _ hpool (fun x hx => hr x (List.mem_cons_of_mem _ hx))
        (coins_nonneg_mono g a.PlayerID hall
          (fun p => { p with Coins := p.Coins + rateOf g.PrizePool r })
          (fun p hp => by dsimp only; omega))

theorem Sound.endGame {g : Game} (h : Sound g) (order : List String) (now : Time) :
    Sound (EndGame g order now).1 := by
  unfold EndGame
  by_cases hs : g.Status ≠ GameStatus.StatusPlaying
  · rw [if_pos hs]; exact h
  · rw [if_neg hs]
    have hplay : g.Status = GameStatus.StatusPlaying := not_not.1 hs
    have hall : ∀ p ∈ g.Players, 0 ≤ p.Coins := h.coins (by rw [hplay]; decide)
    dsimp only
    obtain ⟨h1, h2, _⟩ := distributePrizes_frame
      (sortSlice (fun a b => decide (a.Total > b.Total))
        ((Game.range { g with Status := GameStatus.StatusFinished } order).map (fun player =>
          ({ PlayerID := player.ID,
             Total := addPropertyValue g.Map.Tiles player.ID player.Coins } : PlayerAsset))))
      prizeRatios { g with Status := GameStatus.StatusFinished }
    exact
      { registry := registry_of_keys h1 h.registry
        tiles := fun t ht => h.tiles t (by
          have : t ∈ (distributePrizes _ _ _).Map.Tiles := ht
          rw [h2] at this
          exact this)
        pool := by
          show 0 ≤ (distributePrizes _ _ _).PrizePool
          rw [distributePrizes_PrizePool]
          exact h.pool
        coins := fun _ =>
          distributePrizes_nonneg _ _ { g with Status := GameStatus.StatusFinished } h.pool
            prizeRatios_nonneg hall
        current := fun hs1 => by
          have : (distributePrizes _ _ _).Status = GameStatus.StatusPlaying := hs1
          rw [distributePrizes_Status] at this
          cases this }

theorem Sound.nextTurn {g : Game} (h : Sound g) (order endOrder : List String) (now : Time) :
    Sound (NextTurn g order endOrder now).1 := by
  unfold NextTurn
  by_cases hs : g.Status ≠ GameStatus.StatusPlaying
  · rw [if_pos hs]; exact h
  · rw [if_neg hs]
    have hplay : g.Status = GameStatus.StatusPlaying := not_not.1 hs
    have hnw : g.Status ≠ GameStatus.StatusWaiting := by rw [hplay]; decide
    have h1 : Sound (g.updatePlayer g.CurrentPlayerID (fun p => { p with HasRolled := false })) :=
      h.play hnw (Play.blind g _ (fun p => { p with HasRolled := false })
        (fun _ => rfl) (fun _ => rfl))
    dsimp only
    unfold getNextPlayerID
    cases hids : getOrderedPlayerIDs
        (g.updatePlayer g.CurrentPlayerID (fun p => { p with HasRolled := false })) order with
    | nil => exact h1
    | cons first others =>
      dsimp only
      have hnext : nextFrom g.CurrentPlayerID first (first :: others) ∈
          (g.updatePlayer g.CurrentPlayerID (fun p => { p with HasRolled := false })).keys := by
        have hsub : ∀ k ∈ first :: others, k ∈
            (g.updatePlayer g.CurrentPlayerID (fun p => { p with HasRolled := false })).keys := by
          intro k hk
          rw [← hids] at hk
          unfold getOrderedPlayerIDs at hk
          obtain ⟨p, hp, hpid⟩ := List.mem_map.1 hk
          exact hpid ▸ mem_range hp
        rcases nextFrom_mem g.CurrentPlayerID first (first :: others) with hn | hn
        · rw [hn]; exact hsub first (List.mem_cons_self _ _)
        · exact hsub _ hn
      have h2 : Sound { g.updatePlayer g.CurrentPlayerID (fun p => { p with HasRolled := false })
          with CurrentPlayerID := nextFrom g.CurrentPlayerID first (first :: others),
               CurrentTurnStarted := now } :=
        { registry := h1.registry
          tiles := h1.tiles
          pool := h1.pool
          coins := h1.coins
          current := fun _ => hnext }
      split_ifs
      · exact h2.endGame endOrder now
      · exact h2

theorem game_of_not_playing (g : Game) (hs : g.Status ≠ GameStatus.StatusPlaying)
    (id : String) (d : Draws) (position : Int) (now : Time) :
    (RollDice g id d now).game = g ∧ (BuyProperty g id now).game = g ∧
    (UpgradeProperty g id position now).game = g := by
  have hv := validateGameState_not_playing g id hs
  rw [RollDice_invalid g id d now _ hv, BuyProperty_invalid g id now _ hv,
    UpgradeProperty_invalid g id position now _ hv]
  exact ⟨rfl, rfl, rfl⟩

/-- Every reachable match state satisfies the invariant. -/
theorem Reachable.sound {g : Game} (h : Reachable g) : Sound g := by
  induction h with
  | create id => exact Sound.create id
  | leave playerID _ ih => exact ih.leave playerID
  | @step g op _ hadm ih =>
    cases op with
    | addPlayer player => exact ih.addPlayer player
    | startGame feeOrder idOrder now => exact ih.startGame feeOrder idOrder now hadm.1
    | rollDice playerID d now =>
      by_cases hs : g.Status = GameStatus.StatusPlaying
      · exact ih.play (by rw [hs]; decide) (Play.rollDice g playerID d now)
      · show Sound (RollDice g playerID d now).game
        rw [(game_of_not_playing g hs playerID d 0 now).1]
        exact ih
    | buyProperty playerID now =>
      by_cases hs : g.Status = GameStatus.StatusPlaying
      · exact ih.play (by rw [hs]; decide) (Play.buy g playerID now)
      · show Sound (BuyProperty g playerID now).game
        rw [(game_of_not_playing g hs playerID rollOne 0 now).2.1]
        exact ih
    | upgradeProperty playerID position now =>
      by_cases hs : g.Status = GameStatus.StatusPlaying
      · exact ih.play (by rw [hs]; decide) (Play.upgrade g playerID position now)
      · show Sound (UpgradeProperty g playerID position now).game
        rw [(game_of_not_playing g hs playerID rollOne position now).2.2]
        exact ih
    | nextTurn order endOrder now => exact ih.nextTurn order endOrder now
    | endGame order now => exact ih.endGame order now
    | getFinalResults order => exact ih

/-! ## Reachable states: prize pool, levels, current player -/

theorem playedGame_reachable : Reachable playedGame :=
  Reachable.step _ (Reachable.step _ (Reachable.step _ (Reachable.step _
    (Reachable.create "m") trivial) trivial) (by decide)) (by decide)

theorem playedGame_eq :
    playedGame.PrizePool = 2100 ∧ playedGame.Status = GameStatus.StatusPlaying ∧
    playedGame.CurrentPlayerID = "alice" ∧
    playedGame.Players.map (fun p => (p.ID, p.Coins, p.Position)) =
      [("alice", 400, 2), ("bob", 200, 0)] := by
  decide

theorem boardOK_of_tilesOK {g : Game} (h : TilesOK g) : BoardOK g :=
  fun t ht hT => (h t ht).2.2 hT

/-- C27: in every match state reachable from a newly created match on the default board, the
level `L` of every property tile satisfies `0 ≤ L < length of its rent schedule`; the lookup
`RentPrice[Level]` therefore finds a rent, and `handleRentPayment` on such a tile never ends in
an index-out-of-range panic. -/
theorem levels_within_schedule (g : Game) (h : Reachable g) :
    (∀ t ∈ g.Map.Tiles, t.Typ = TileType.TileProperty →
      0 ≤ t.Level ∧ t.Level < (t.RentPrice.length : Int)) ∧
    (∀ t ∈ g.Map.Tiles, t.Typ = TileType.TileProperty →
      ∃ rent, idx t.RentPrice t.Level = some rent) ∧
    (∀ t ∈ g.Map.Tiles, t.Typ = TileType.TileProperty → ∀ (player : Player) (now : Time),
      (handleRentPayment g player t now).2 ≠ Ret.panic) := by
  have hb : BoardOK g := boardOK_of_tilesOK h.sound.tiles
  refine ⟨hb, fun t ht hT => ?_, fun t ht hT player now => ?_⟩
  · exact Option.isSome_iff_exists.1 (hb.rent ht hT)
  · exact handleRentPayment_ret g player t now (hb.rent ht hT)

/-- C27, on an example: tile 1 of the board after the run `playedGame`. -/
theorem levels_within_schedule_witness :
    0 ≤ firstAvenue.Level ∧ firstAvenue.Level < (firstAvenue.RentPrice.length : Int) :=
  (levels_within_schedule playedGame playedGame_reachable).1 firstAvenue (by decide) rfl

/-- C28: in every reachable match state whose status is Playing, the current-player id is the
id of a player in the registry.  `StartGame` and `NextTurn` leave a Playing match only with a
registered id as current player, and once the match is not Waiting a `LeaveGame` request is
refused with Game-In-Progress and removes nobody. -/
theorem current_player_registered (g : Game) (h : Reachable g) :
    (g.Status = GameStatus.StatusPlaying →
      g.CurrentPlayerID ∈ g.keys ∧ (g.player? g.CurrentPlayerID).isSome) ∧
    (∀ (feeOrder idOrder : List String) (now : Time),
      IsRange g feeOrder → IsRange g idOrder →
      (StartGame g feeOrder idOrder now).1.Status = GameStatus.StatusPlaying →
      (StartGame g feeOrder idOrder now).1.CurrentPlayerID ∈
        (StartGame g feeOrder idOrder now).1.keys) ∧
    (∀ (order endOrder : List String) (now : Time),
      IsRange g order → IsRange g endOrder →
      (NextTurn g order endOrder now).1.Status = GameStatus.StatusPlaying →
      (NextTurn g order endOrder now).1.CurrentPlayerID ∈
        (NextTurn g order endOrder now).1.keys) ∧
    (g.Status ≠ GameStatus.StatusWaiting →
      ∀ id, LeaveGame g id = (g, Ret.err GameError.ErrGameInProgress)) := by
  refine ⟨fun hs => ?_, ?_, ?_, ?_⟩
  · have hmem := h.sound.current hs
    obtain ⟨p, hp⟩ := player?_of_mem_keys hmem
    exact ⟨hmem, by rw [hp]; rfl⟩
  · intro feeOrder idOrder now hfee _ hs
    exact (h.sound.startGame feeOrder idOrder now hfee).current hs
  · intro order endOrder now _ _ hs
    exact (h.sound.nextTurn order endOrder now).current hs
  · intro hs id
    unfold LeaveGame
    rw [if_pos hs]

/-- C28, on an example: the current player after the run `playedGame`. -/
theorem current_player_registered_witness :
    playedGame.CurrentPlayerID ∈ playedGame.keys ∧
      (playedGame.player? playedGame.CurrentPlayerID).isSome :=
  (current_player_registered playedGame playedGame_reachable).1 (by decide)

/-! ## The action log -/

theorem StartGame_frame (g : Game) (feeOrder idOrder : List String) (now : Time) :
    (StartGame g feeOrder idOrder now).1.Actions = g.Actions ∧
    (StartGame g feeOrder idOrder now).1.keys = g.keys ∧
    (RegistryOK g →
      coinTotal (StartGame g feeOrder idOrder now).1 +
          (StartGame g feeOrder idOrder now).1.PrizePool =
        coinTotal g + g.PrizePool) := by
  unfold StartGame
  cases hcan : canStartGame g with
  | err e => exact ⟨rfl, rfl, fun _ => rfl⟩
  | panic => exact ⟨rfl, rfl, fun _ => rfl⟩
  | nil =>
    dsimp only
    obtain ⟨i1, _, _, i4, _, i6, _, _⟩ := collectEntranceFees_sound feeOrder g
    cases hres : collectEntranceFees g feeOrder with
    | mk g1 r =>
      rw [hres] at i1 i4 i6
      dsimp only at i1 i4 i6
      cases r with
      | err e => exact ⟨i4, i1, i6⟩
      | panic => exact ⟨i4, i1, i6⟩
      | nil =>
        dsimp only
        unfold initializeGame
        dsimp only
        cases hsort : sortStrings ((g1.range idOrder).map (fun p => p.ID)) with
        | nil => exact ⟨i4, i1, i6⟩
        | cons first others => exact ⟨i4, i1, i6⟩

theorem EndGame_log (g : Game) (order : List String) (now : Time) :
    ∃ added, (EndGame g order now).1.Actions = g.Actions ++ added := by
  unfold EndGame
  by_cases hs : g.Status ≠ GameStatus.StatusPlaying
  · rw [if_pos hs]
    exact ⟨[], (List.append_nil _).symm⟩
  · rw [if_neg hs]
    dsimp only
    refine ⟨[{ Typ := ActionType.gameEnd, PlayerID := "", Position := 0, Amount := 0,
               Timestamp := now }], ?_⟩
    show (distributePrizes _ _ _).Actions ++ _ = _
    rw [distributePrizes_Actions]

theorem NextTurn_log (g : Game) (order endOrder : List String) (now : Time) :
    ∃ added, (NextTurn g order endOrder now).1.Actions = g.Actions ++ added := by
  unfold NextTurn
  by_cases hs : g.Status ≠ GameStatus.StatusPlaying
  · rw [if_pos hs]
    exact ⟨[], (List.append_nil _).symm⟩
  · rw [if_neg hs]
    dsimp only
    cases getNextPlayerID
        (g.updatePlayer g.CurrentPlayerID (fun p => { p with HasRolled := false }))
        (getOrderedPlayerIDs
          (g.updatePlayer g.CurrentPlayerID (fun p => { p with HasRolled := false })) order) with
    | none => exact ⟨[], (List.append_nil _).symm⟩
    | some next =>
      dsimp only
      split_ifs
      · exact EndGame_log _ endOrder now
      · exact ⟨[], (List.append_nil _).symm⟩

theorem getLast?_AddAction (g : Game) (a : GameAction) :
    (AddAction g a).Actions.getLast? = some a := by
  unfold AddAction
  simp

theorem RollDice_logged (g : Game) (id : String) (d : Draws) (now : Time) :
    (RollDice g id d now).ret = Ret.nil →
      ∃ a, (RollDice g id d now).action = some a ∧
        (RollDice g id d now).game.Actions.getLast? = some a := by
  unfold RollDice
  cases hv : validateGameState g id with
  | err e => intro h; cases h
  | panic => intro h; cases h
  | nil =>
    dsimp only
    cases hp : g.player? id with
    | none => intro h; cases h
    | some player =>
      dsimp only
      by_cases hr : player.HasRolled = true
      · rw [if_pos hr]
        intro h; cases h
      · rw [if_neg hr]
        cases hps : (handlePrisonState player).2 with
        | err e => intro h; cases h
        | panic => intro h; cases h
        | nil =>
          dsimp only
          by_cases hlen : g.Map.Tiles.length = 0
          · rw [updatePlayer_Map, if_pos hlen]
            intro h; cases h
          · rw [updatePlayer_Map, if_neg hlen]
            split
            · intro _
              exact ⟨_, rfl, getLast?_AddAction _ _⟩
            · intro h; cases h
            · intro h; cases h

theorem BuyProperty_logged (g : Game) (id : String) (now : Time) :
    (BuyProperty g id now).ret = Ret.nil →
      ∃ a, (BuyProperty g id now).action = some a ∧
        (BuyProperty g id now).game.Actions.getLast? = some a := by
  unfold BuyProperty
  cases hv : validateGameState g id with
  | err e => intro h; cases h
  | panic => intro h; cases h
  | nil =>
    dsimp only
    cases hp : g.player? id with
    | none => intro h; cases h
    | some player =>
      dsimp only
      cases ht : idx g.Map.Tiles player.Position with
      | none => intro h; cases h
      | some tile =>
        dsimp only
        cases hok : validatePropertyPurchase player tile with
        | err e => intro h; cases h
        | panic => intro h; cases h
        | nil =>
          intro _
          exact ⟨_, rfl, getLast?_AddAction _ _⟩

theorem UpgradeProperty_logged (g : Game) (id : String) (position : Int) (now : Time) :
    (UpgradeProperty g id position now).ret = Ret.nil →
      ∃ a, (UpgradeProperty g id position now).action = some a ∧
        (UpgradeProperty g id position now).game.Actions.getLast? = some a := by
  unfold UpgradeProperty
  cases hv : validateGameState g id with
  | err e => intro h; cases h
  | panic => intro h; cases h
  | nil =>
    dsimp only
    cases hp : g.player? id with
    | none => intro h; cases h
    | some player =>
      dsimp only
      cases ht : idx g.Map.Tiles position with
      | none => intro h; cases h
      | some tile =>
        dsimp only
        cases hok : validatePropertyUpgrade player tile with
        | err e => intro h; cases h
        | panic => intro h; cases h
        | nil =>
          intro _
          exact ⟨_, rfl, getLast?_AddAction _ _⟩

theorem AddPlayer_Actions (g : Game) (player : Player) :
    (AddPlayer g player).1.Actions = g.Actions := by
  unfold AddPlayer
  split_ifs <;> rfl

/-- C29: the action log is append-only and records what was returned.  For every operation
(and for a `LeaveGame` request) the log afterwards is the log before followed by zero or more
new entries, so no existing entry is changed, reordered or removed; and after every successful
`RollDice`, `BuyProperty` or `UpgradeProperty` the returned action is the last entry of the
log. -/
theorem log_append_only (g : Game) :
    (∀ op : Op, ∃ added, (Op.after g op).Actions = g.Actions ++ added) ∧
    (∀ id, (LeaveGame g id).1.Actions = g.Actions) ∧
    (∀ (id : String) (d : Draws) (now : Time), (RollDice g id d now).ret = Ret.nil →
      ∃ a, (RollDice g id d now).action = some a ∧
        (RollDice g id d now).game.Actions.getLast? = some a) ∧
    (∀ (id : String) (now : Time), (BuyProperty g id now).ret = Ret.nil →
      ∃ a, (BuyProperty g id now).action = some a ∧
        (BuyProperty g id now).game.Actions.getLast? = some a) ∧
    (∀ (id : String) (position : Int) (now : Time),
      (UpgradeProperty g id position now).ret = Ret.nil →
      ∃ a, (UpgradeProperty g id position now).action = some a ∧
        (UpgradeProperty g id position now).game.Actions.getLast? = some a) := by
  refine ⟨fun op => ?_, fun id => ?_, RollDice_logged g, BuyProperty_logged g,
    UpgradeProperty_logged g⟩
  · cases op with
    | addPlayer player => exact ⟨[], by rw [List.append_nil]; exact AddPlayer_Actions g player⟩
    | startGame feeOrder idOrder now =>
      exact ⟨[], by rw [List.append_nil]; exact (StartGame_frame g feeOrder idOrder now).1⟩
    | rollDice playerID d now => exact (Play.rollDice g playerID d now).log
    | buyProperty playerID now => exact (Play.buy g playerID now).log
    | upgradeProperty playerID position now => exact (Play.upgrade g playerID position now).log
    | nextTurn order endOrder now => exact NextTurn_log g order endOrder now
    | endGame order now => exact EndGame_log g order now
    | getFinalResults order => exact ⟨[], (List.append_nil _).symm⟩
  · unfold LeaveGame
    split_ifs <;> rfl

/-- C29, on an example: alice rolls a 3 from tile 4; the roll action returned is the last
entry of the log. -/
theorem log_append_only_witness :
    ∃ a, (RollDice wrapGame "alice" rollThree 9).action = some a ∧
      (RollDice wrapGame "alice" rollThree 9).game.Actions.getLast? = some a :=
  (log_append_only wrapGame).2.2.1 "alice" rollThree 9 (by decide)

/-! ## Reachable states: balances -/

theorem debtGame_reachable : Reachable debtGame :=
  Reachable.step _ (Reachable.step _ (Reachable.leave "carol" (Reachable.step _
    (Reachable.step _ (Reachable.step _ (Reachable.step _ (Reachable.create "m") trivial)
      trivial) trivial) (by decide))) (by decide)) (by decide)

theorem debtGame_eq :
    debtGame.PrizePool = 2100 ∧ debtGame.Status = GameStatus.StatusPlaying ∧
    debtGame.Players.map (fun p => (p.ID, p.Coins, p.Position)) =
      [("alice", 400, 2), ("bob", 200, 0)] := by
  decide

/-! ## Reachable states: tile owners -/

theorem EndGame_frame (g : Game) (order : List String) (now : Time) :
    (EndGame g order now).1.keys = g.keys ∧ (EndGame g order now).1.Map = g.Map := by
  unfold EndGame
  by_cases hs : g.Status ≠ GameStatus.StatusPlaying
  · rw [if_pos hs]
    exact ⟨rfl, rfl⟩
  · rw [if_neg hs]
    dsimp only
    obtain ⟨h1, h2, _⟩ := distributePrizes_frame
      (sortSlice (fun a b => decide (a.Total > b.Total))
        ((Game.range { g with Status := GameStatus.StatusFinished } order).map (fun player =>
          ({ PlayerID := player.ID,
             Total := addPropertyValue g.Map.Tiles player.ID player.Coins } : PlayerAsset))))
      prizeRatios { g with Status := GameStatus.StatusFinished }
    exact ⟨h1, h2⟩

theorem NextTurn_frame (g : Game) (order endOrder : List String) (now : Time) :
    (NextTurn g order endOrder now).1.keys = g.keys ∧
    (NextTurn g order endOrder now).1.Map = g.Map := by
  unfold NextTurn
  by_cases hs : g.Status ≠ GameStatus.StatusPlaying
  · rw [if_pos hs]
    exact ⟨rfl, rfl⟩
  · rw [if_neg hs]
    dsimp only
    have hk : (g.updatePlayer g.CurrentPlayerID (fun p => { p with HasRolled := false })).keys =
        g.keys := updatePlayer_keys g _ (fun p => { p with HasRolled := false }) (fun _ => rfl)
    cases getNextPlayerID
        (g.updatePlayer g.CurrentPlayerID (fun p => { p with HasRolled := false }))
        (getOrderedPlayerIDs
          (g.updatePlayer g.CurrentPlayerID (fun p => { p with HasRolled := false })) order) with
    | none => exact ⟨hk, rfl⟩
    | some next =>
      dsimp only
      split_ifs
      · obtain ⟨h1, h2⟩ := EndGame_frame
          { g.updatePlayer g.CurrentPlayerID (fun p => { p with HasRolled := false }) with
            CurrentPlayerID := next, CurrentTurnStarted := now } endOrder now
        exact ⟨h1.trans hk, h2⟩
      · exact ⟨hk, rfl⟩

theorem StartGame_Map (g : Game) (feeOrder idOrder : List String) (now : Time) :
    (StartGame g feeOrder idOrder now).1.Map = g.Map := by
  unfold StartGame
  cases hcan : canStartGame g with
  | err e => rfl
  | panic => rfl
  | nil =>
    dsimp only
    obtain ⟨_, i2, _⟩ := collectEntranceFees_sound feeOrder g
    cases hres : collectEntranceFees g feeOrder with
    | mk g1 r =>
      rw [hres] at i2
      dsimp only at i2
      cases r with
      | err e => exact i2
      | panic => exact i2
      | nil =>
        dsimp only
        unfold initializeGame
        dsimp only
        cases hsort : sortStrings ((g1.range idOrder).map (fun p => p.ID)) with
        | nil => exact i2
        | cons first others => exact i2

theorem OwnersOK.frame {g g1 : Game} (h : OwnersOK g) (hk : ∀ k ∈ g.keys, k ∈ g1.keys)
    (hm : g1.Map = g.Map) (hs : StatusAdvances g.Status g1.Status) : OwnersOK g1 := by
  refine ⟨fun t ht => ?_, fun hw t ht => ?_⟩
  · rw [hm] at ht
    rcases h.1 t ht with h1 | h1
    · exact Or.inl h1
    · exact Or.inr (hk _ h1)
  · rw [hm] at ht
    have hw0 : g.Status = GameStatus.StatusWaiting := by
      rcases hs with h1 | ⟨_, h1⟩ | ⟨_, h1⟩
      · rw [← h1]; exact hw
      · rw [hw] at h1; cases h1
      · rw [hw] at h1; cases h1
    exact h.2 hw0 t ht

theorem owners_closed (keys : List String) :
    TileClosed keys (fun t => t.OwnerID = "" ∨ t.OwnerID ∈ keys) :=
  ⟨fun _ _ ho _ => Or.inr ho, fun _ _ _ h => h⟩

theorem OwnersOK.afterPlay {g g1 : Game} (h : OwnersOK g) (hs : g.Status ≠ GameStatus.StatusWaiting)
    (hp : Play g g1) : OwnersOK g1 := by
  refine ⟨fun t ht => ?_, fun hw => ?_⟩
  · rw [hp.keys]
    exact hp.tiles _ (owners_closed g.keys) h.1 t ht
  · rw [hp.status] at hw
    exact absurd hw hs

theorem AddPlayer_frame (g : Game) (player : Player) :
    (AddPlayer g player).1.Map = g.Map ∧ ∀ k ∈ g.keys, k ∈ (AddPlayer g player).1.keys := by
  unfold AddPlayer
  split_ifs
  · exact ⟨rfl, fun _ h => h⟩
  · exact ⟨rfl, fun _ h => h⟩
  · exact ⟨rfl, fun _ h => h⟩
  · refine ⟨rfl, fun k h => ?_⟩
    show k ∈ List.map (fun p => p.ID) (g.Players ++ [player])
    rw [List.map_append]
    exact List.mem_append_left _ h

theorem OwnersOK.afterLeave {g : Game} (h : OwnersOK g) (playerID : String) :
    OwnersOK (LeaveGame g playerID).1 := by
  unfold LeaveGame
  by_cases h1 : g.Status ≠ GameStatus.StatusWaiting
  · rw [if_pos h1]; exact h
  · rw [if_neg h1]
    have hw : g.Status = GameStatus.StatusWaiting := not_not.1 h1
    exact ⟨fun t ht => Or.inl (h.2 hw t ht), fun _ t ht => h.2 hw t ht⟩

/-- Every reachable match state has its owned tiles owned by registered players. -/
theorem Reachable.owners {g : Game} (h : Reachable g) : OwnersOK g := by
  induction h with
  | create id =>
    have hd : ∀ t ∈ NewDefaultMap.Tiles, t.OwnerID = "" := by decide
    exact ⟨fun t ht => Or.inl (hd t ht), fun _ t ht => hd t ht⟩
  | leave playerID _ ih => exact ih.afterLeave playerID
  | @step g op _ hadm ih =>
    cases op with
    | addPlayer player =>
      exact ih.frame (AddPlayer_frame g player).2 (AddPlayer_frame g player).1
        (Or.inl (AddPlayer_Status g player))
    | startGame feeOrder idOrder now =>
      exact ih.frame (fun k hk => by
          show k ∈ (StartGame g feeOrder idOrder now).1.keys
          rw [(StartGame_frame g feeOrder idOrder now).2.1]; exact hk)
        (StartGame_Map g feeOrder idOrder now) (StartGame_Status g feeOrder idOrder now)
    | rollDice playerID d now =>
      by_cases hs : g.Status = GameStatus.StatusPlaying
      · exact ih.afterPlay (by rw [hs]; decide) (Play.rollDice g playerID d now)
      · show OwnersOK (RollDice g playerID d now).game
        rw [(game_of_not_playing g hs playerID d 0 now).1]
        exact ih
    | buyProperty playerID now =>
      by_cases hs : g.Status = GameStatus.StatusPlaying
      · exact ih.afterPlay (by rw [hs]; decide) (Play.buy g playerID now)
      · show OwnersOK (BuyProperty g playerID now).game
        rw [(game_of_not_playing g hs playerID rollOne 0 now).2.1]
        exact ih
    | upgradeProperty playerID position now =>
      by_cases hs : g.Status = GameStatus.StatusPlaying
      · exact ih.afterPlay (by rw [hs]; decide) (Play.upgrade g playerID position now)
      · show OwnersOK (UpgradeProperty g playerID position now).game
        rw [(game_of_not_playing g hs playerID rollOne position now).2.2]
        exact ih
    | nextTurn order endOrder now =>
      exact ih.frame (fun k hk => by
          show k ∈ (NextTurn g order endOrder now).1.keys
          rw [(NextTurn_frame g order endOrder now).1]; exact hk)
        (NextTurn_frame g order endOrder now).2 (NextTurn_Status g order endOrder now)
    | endGame order now =>
      refine ih.frame (fun k hk => by
          show k ∈ (EndGame g order now).1.keys
          rw [(EndGame_frame g order now).1]; exact hk)
        (EndGame_frame g order now).2 ?_
      show StatusAdvances g.Status (EndGame g order now).1.Status
      rw [EndGame_Status]
      by_cases hs : g.Status = GameStatus.StatusPlaying
      · rw [if_pos hs]
        exact Or.inr (Or.inr ⟨hs, rfl⟩)
      · rw [if_neg hs]
        exact Or.inl rfl
    | getFinalResults order => exact ih

theorem handleRentPayment_ret_cases (g : Game) (player : Player) (tile : Tile) (now : Time) :
    (handleRentPayment g player tile now).2 = Ret.nil ∨
    (handleRentPayment g player tile now).2 = Ret.panic ∨
    (handleRentPayment g player tile now).2 = Ret.err GameError.ErrInsufficientFunds ∨
    ((handleRentPayment g player tile now).2 = Ret.err GameError.ErrPlayerNotFound ∧
      g.player? tile.OwnerID = none) := by
  unfold handleRentPayment
  cases ho : g.player? tile.OwnerID with
  | none => exact Or.inr (Or.inr (Or.inr ⟨rfl, rfl⟩))
  | some owner =>
    dsimp only
    cases hrent : idx tile.RentPrice tile.Level with
    | none => exact Or.inr (Or.inl rfl)
    | some rent =>
      dsimp only
      split_ifs
      · exact Or.inr (Or.inr (Or.inl rfl))
      · exact Or.inl rfl

theorem handleTileEffect_ret_cases (g : Game) (id : String) (d : Draws) (now : Time) :
    (handleTileEffect g id d now).2 = Ret.nil ∨
    (handleTileEffect g id d now).2 = Ret.panic ∨
    (handleTileEffect g id d now).2 = Ret.err GameError.ErrInsufficientFunds ∨
    ((handleTileEffect g id d now).2 = Ret.err GameError.ErrPlayerNotFound ∧
      ∃ t ∈ g.Map.Tiles, t.OwnerID ≠ "" ∧ g.player? t.OwnerID = none) := by
  unfold handleTileEffect
  cases hp : g.player? id with
  | none => exact Or.inr (Or.inl rfl)
  | some player =>
    dsimp only
    cases ht : idx g.Map.Tiles player.Position with
    | none => exact Or.inr (Or.inl rfl)
    | some tile =>
      dsimp only
      split
      · by_cases ho : tile.OwnerID ≠ "" ∧ tile.OwnerID ≠ player.ID
        · rw [if_pos ho]
          rcases handleRentPayment_ret_cases g player tile now with h | h | h | ⟨h, hn⟩
          · exact Or.inl h
          · exact Or.inr (Or.inl h)
          · exact Or.inr (Or.inr (Or.inl h))
          · exact Or.inr (Or.inr (Or.inr ⟨h, tile, (idx_some ht).2.2, ho.1, hn⟩))
        · rw [if_neg ho]
          exact Or.inl rfl
      · exact Or.inl (handleChanceCard_ret g player d now)
      · exact Or.inl (handleFateCard_ret g player d now)
      · exact Or.inl rfl
      · exact Or.inl rfl

/-- How a call of `RollDice` can end. -/
theorem RollDice_ret_cases (g : Game) (id : String) (d : Draws) (now : Time) :
    (RollDice g id d now).ret = Ret.err GameError.ErrInvalidGameState ∨
    (RollDice g id d now).ret = Ret.err GameError.ErrNotYourTurn ∨
    ((RollDice g id d now).ret = Ret.err GameError.ErrPlayerNotFound ∧
      g.Status = GameStatus.StatusPlaying ∧ g.CurrentPlayerID = id ∧ g.player? id = none) ∨
    ((RollDice g id d now).ret = Ret.err GameError.ErrAlreadyRolled ∧
      ∃ p, g.player? id = some p ∧ p.HasRolled = true) ∨
    (RollDice g id d now).ret = Ret.err GameError.ErrInPrison ∨
    (RollDice g id d now).ret = Ret.panic ∨
    (∃ player, g.player? id = some player ∧
      (RollDice g id d now).ret = (handleTileEffect (afterMove g id player d) id d now).2) := by
  by_cases hs : g.Status ≠ GameStatus.StatusPlaying
  · left
    rw [RollDice_invalid g id d now _ (validateGameState_not_playing g id hs)]
  · by_cases hcur : g.CurrentPlayerID ≠ id
    · right; left
      have hv : validateGameState g id = Ret.err GameError.ErrNotYourTurn := by
        rw [validateGameState_cases, if_neg hs, if_pos hcur]
      rw [RollDice_invalid g id d now _ hv]
    · cases hp : g.player? id with
      | none =>
        right; right; left
        have hv : validateGameState g id = Ret.err GameError.ErrPlayerNotFound := by
          rw [validateGameState_cases, if_neg hs, if_neg hcur, hp]
          rfl
        rw [RollDice_invalid g id d now _ hv]
        exact ⟨rfl, not_not.1 hs, not_not.1 hcur, rfl⟩
      | some player =>
        have hv : validateGameState g id = Ret.nil :=
          validateGameState_nil.2 ⟨not_not.1 hs, not_not.1 hcur, by rw [hp]; rfl⟩
        by_cases hr : player.HasRolled = true
        · right; right; right; left
          refine ⟨?_, player, rfl, hr⟩
          unfold RollDice
          simp only [hv, hp, hr, if_true]
        · have hr0 : player.HasRolled = false := by
            cases h : player.HasRolled
            · rfl
            · exact absurd h hr
          cases hps : (handlePrisonState player).2 with
          | err e =>
            right; right; right; right; left
            have he : e = GameError.ErrInPrison := by
              unfold handlePrisonState at hps
              split_ifs at hps
              · exact (Ret.err.inj hps).symm
            unfold RollDice
            simp only [hv, hp, hr0, hps, he, if_false, Bool.false_eq_true]
          | panic =>
            right; right; right; right; right; left
            unfold RollDice
            simp only [hv, hp, hr0, hps, if_false, Bool.false_eq_true]
          | nil =>
            by_cases hlen : g.Map.Tiles.length = 0
            · right; right; right; right; right; left
              unfold RollDice
              simp only [hv, hp, hr0, hps, hlen, updatePlayer_Map, if_false, if_true,
                Bool.false_eq_true]
            · right; right; right; right; right; right
              refine ⟨player, rfl, ?_⟩
              rw [RollDice_eq g id d now player hv hp hr0 hps hlen]
              cases handleTileEffect (afterMove g id player d) id d now with
              | mk g4 r => cases r <;> rfl

/-- C32: in every match state reachable from a newly created match by match operations and
leave requests, every tile's owner id is either empty or the id of a player in the registry.
Consequently the rent payment for an owned tile never takes its Player-Not-Found branch, and
`RollDice` never ends with Player-Not-Found. -/
theorem tile_owners_registered (g : Game) (h : Reachable g) :
    (∀ t ∈ g.Map.Tiles, t.OwnerID = "" ∨ t.OwnerID ∈ g.keys) ∧
    (∀ t ∈ g.Map.Tiles, t.OwnerID ≠ "" → ∀ (player : Player) (now : Time),
      (g.player? t.OwnerID).isSome ∧
      (handleRentPayment g player t now).2 ≠ Ret.err GameError.ErrPlayerNotFound) ∧
    (∀ (id : String) (d : Draws) (now : Time),
      (RollDice g id d now).ret ≠ Ret.err GameError.ErrPlayerNotFound) := by
  have hown := h.owners.1
  have hfound : ∀ t ∈ g.Map.Tiles, t.OwnerID ≠ "" → ∃ p, g.player? t.OwnerID = some p := by
    intro t ht hne
    rcases hown t ht with h1 | h1
    · exact absurd h1 hne
    · exact player?_of_mem_keys h1
  refine ⟨hown, fun t ht hne player now => ?_, fun id d now => ?_⟩
  · obtain ⟨p, hp⟩ := hfound t ht hne
    refine ⟨by rw [hp]; rfl, ?_⟩
    rcases handleRentPayment_ret_cases g player t now with h1 | h1 | h1 | ⟨_, h1⟩
    · rw [h1]; simp
    · rw [h1]; simp
    · rw [h1]; simp
    · rw [hp] at h1; cases h1
  · rcases RollDice_ret_cases g id d now with
      h1 | h1 | ⟨_, hs, hcur, hnone⟩ | ⟨h1, _⟩ | h1 | h1 | ⟨player, hp, h1⟩
    · rw [h1]; simp
    · rw [h1]; simp
    · obtain ⟨p, hp⟩ := player?_of_mem_keys (h.sound.current hs)
      rw [hcur, hnone] at hp
      cases hp
    · rw [h1]; simp
    · rw [h1]; simp
    · rw [h1]; simp
    · rw [h1]
      rcases handleTileEffect_ret_cases (afterMove g id player d) id d now with
        h2 | h2 | h2 | ⟨_, t, ht, hne, hnone⟩
      · rw [h2]; simp
      · rw [h2]; simp
      · rw [h2]; simp
      · rw [afterMove_Map] at ht
        obtain ⟨p, hpo⟩ := hfound t ht hne
        by_cases hid : t.OwnerID = id
        · rw [hid, afterMove_player g id player d hp] at hnone
          cases hnone
        · rw [afterMove_player_ne g id t.OwnerID player d hid, hpo] at hnone
          cases hnone

theorem boughtGame_reachable : Reachable boughtGame :=
  Reachable.step _ (Reachable.step _ (Reachable.step _ playedGame_reachable (by decide))
    (by decide)) trivial

/-- C32, on an example: tile 1 after the run `boughtGame` belongs to bob, who is registered. -/
theorem tile_owners_registered_witness :
    idx boughtGame.Map.Tiles 1 =
      some { ID := 1, Name := "第一大道", Typ := TileType.TileProperty, Price := 200,
             OwnerID := "bob", Level := 0, RentPrice := [20, 40, 80] } ∧
    ("bob" = "" ∨ "bob" ∈ boughtGame.keys) :=
  ⟨by decide,
    (tile_owners_registered boughtGame boughtGame_reachable).1
      { ID := 1, Name := "第一大道", Typ := TileType.TileProperty, Price := 200,
        OwnerID := "bob", Level := 0, RentPrice := [20, 40, 80] } (by decide)⟩

/-! ## The rolled flag -/

theorem flags_updatePlayer (g : Game) (id : String) (f : Player → Player)
    (hid : ∀ p, (f p).ID = p.ID) (hr : ∀ p, (f p).HasRolled = p.HasRolled) :
    (g.updatePlayer id f).flags = g.flags := by
  unfold Game.flags Game.updatePlayer
  simp only [List.map_map]
  apply List.map_congr_left
  intro p _
  by_cases h : p.ID = id <;> simp [h, hid, hr]

theorem flags_coins (g : Game) (id : String) (cf : Player → Int) :
    (g.updatePlayer id (fun p => { p with Coins := cf p })).flags = g.flags :=
  flags_updatePlayer g id (fun p => { p with Coins := cf p }) (fun _ => rfl) (fun _ => rfl)

theorem mem_flags_updatePlayer (g : Game) (id : String) (f : Player → Player)
    (hid : ∀ p, (f p).ID = p.ID) {x : String × Bool} (hx : x ∈ (g.updatePlayer id f).flags) :
    x ∈ g.flags ∨ x.1 = id := by
  unfold Game.flags at hx
  obtain ⟨q, hq, rfl⟩ := List.mem_map.1 hx
  rcases mem_updatePlayer hq with ⟨p, _, hp, rfl⟩ | ⟨hqm, _⟩
  · right
    show (f p).ID = id
    rw [hid, hp]
  · left
    exact List.mem_map_of_mem (fun p => (p.ID, p.HasRolled)) hqm

theorem mem_flags {g : Game} {p : Player} (hp : p ∈ g.Players) :
    (p.ID, p.HasRolled) ∈ g.flags :=
  List.mem_map_of_mem (fun p => (p.ID, p.HasRolled)) hp

theorem handleRentPayment_flags (g : Game) (player : Player) (tile : Tile) (now : Time) :
    (handleRentPayment g player tile now).1.flags = g.flags := by
  unfold handleRentPayment
  cases ho : g.player? tile.OwnerID with
  | none => rfl
  | some owner =>
    dsimp only
    cases hrent : idx tile.RentPrice tile.Level with
    | none => rfl
    | some rent =>
      dsimp only
      split_ifs
      · rfl
      · show (Game.updatePlayer _ _ _).flags = _
        rw [flags_coins, flags_coins]

theorem handleChanceCard_flags (g : Game) (player : Player) (d : Draws) (now : Time) :
    (handleChanceCard g player d now).1.flags = g.flags := by
  unfold handleChanceCard
  by_cases h1 : d.effect < 30
  · rw [if_pos h1]
    exact flags_coins g player.ID _
  · rw [if_neg h1]
    by_cases h2 : d.effect < 60
    · rw [if_pos h2]
      exact flags_coins g player.ID _
    · rw [if_neg h2]
      by_cases h3 : d.effect < 80
      · rw [if_pos h3]
        have hm : (g.updatePlayer player.ID (fun p => { p with Position := d.target })).flags =
            g.flags :=
          flags_updatePlayer g player.ID (fun p => { p with Position := d.target })
            (fun _ => rfl) (fun _ => rfl)
        dsimp only
        split_ifs
        · show (Game.updatePlayer _ _ _).flags = _
          rw [flags_coins]
          exact hm
        · exact hm
      · rw [if_neg h3]

theorem collectFromOthers_flags (order : List String) (g : Game) (id : String) (amount : Int) :
    (collectFromOthers g id order amount).1.flags = g.flags := by
  induction order generalizing g amount with
  | nil => rfl
  | cons j rest ih =>
    unfold collectFromOthers
    cases hp : g.player? j with
    | none => exact ih g amount
    | some p =>
      dsimp only
      by_cases hne : p.ID ≠ id
      · rw [if_pos hne, ih, flags_coins]
      · rw [if_neg hne]
        exact ih g amount

theorem handleFateCard_flags (g : Game) (player : Player) (d : Draws) (now : Time) :
    (handleFateCard g player d now).1.flags = g.flags := by
  by_cases h1 : d.effect < 30
  · rw [handleFateCard_collect g player d now h1]
    show (Game.updatePlayer _ _ _).flags = _
    rw [flags_coins, collectFromOthers_flags]
  · unfold handleFateCard
    rw [if_neg h1]
    by_cases h2 : d.effect < 60
    · rw [if_pos h2]
      exact flags_coins g player.ID _
    · rw [if_neg h2]
      by_cases h3 : d.effect < 80
      · rw [if_pos h3]
        cases hg : grantFirstFree player.ID g.Map.Tiles with
        | none => rfl
        | some res => rfl
      · rw [if_neg h3]

theorem handleTileEffect_flags (g : Game) (id : String) (d : Draws) (now : Time) :
    (handleTileEffect g id d now).1.flags = g.flags := by
  unfold handleTileEffect
  cases hp : g.player? id with
  | none => rfl
  | some player =>
    dsimp only
    cases ht : idx g.Map.Tiles player.Position with
    | none => rfl
    | some tile =>
      dsimp only
      split
      · split_ifs
        · exact handleRentPayment_flags g player tile now
        · rfl
      · exact handleChanceCard_flags g player d now
      · exact handleFateCard_flags g player d now
      · exact flags_updatePlayer g player.ID
          (fun p => { p with InPrison := true, PrisonDays := 1 }) (fun _ => rfl) (fun _ => rfl)
      · rfl

theorem flags_after_effect (g g3 : Game) (id : String) (d : Draws) (now : Time)
    (a : GameAction) (h3 : ∀ x ∈ g3.flags, x ∈ g.flags ∨ x.1 = id) :
    ∀ x ∈ (match handleTileEffect g3 id d now with
      | (g4, Ret.nil) => ({ game := AddAction g4 a, action := some a, ret := Ret.nil } : ActionResult)
      | (g4, Ret.err e) => { game := g4, action := some a, ret := Ret.err e }
      | (g4, Ret.panic) => { game := g4, action := none, ret := Ret.panic }).game.flags,
      x ∈ g.flags ∨ x.1 = id := by
  have h4 := handleTileEffect_flags g3 id d now
  cases hres : handleTileEffect g3 id d now with
  | mk g4 r =>
    rw [hres] at h4
    dsimp only at h4
    cases r with
    | nil =>
      intro x hx
      have hx1 : x ∈ g4.flags := hx
      rw [h4] at hx1
      exact h3 x hx1
    | err e =>
      intro x hx
      have hx1 : x ∈ g4.flags := hx
      rw [h4] at hx1
      exact h3 x hx1
    | panic =>
      intro x hx
      have hx1 : x ∈ g4.flags := hx
      rw [h4] at hx1
      exact h3 x hx1

/-- A roll sets the rolled flag of nobody but the roller. -/
theorem RollDice_flags (g : Game) (id : String) (d : Draws) (now : Time) :
    ∀ x ∈ (RollDice g id d now).game.flags, x ∈ g.flags ∨ x.1 = id := by
  unfold RollDice
  cases hv : validateGameState g id with
  | err e => exact fun x hx => Or.inl hx
  | panic => exact fun x hx => Or.inl hx
  | nil =>
    dsimp only
    cases hp : g.player? id with
    | none => exact fun x hx => Or.inl hx
    | some player =>
      dsimp only
      by_cases hr : player.HasRolled = true
      · rw [if_pos hr]
        exact fun x hx => Or.inl hx
      · rw [if_neg hr]
        have h1 : ∀ x ∈ (g.updatePlayer id (fun p => (handlePrisonState p).1)).flags,
            x ∈ g.flags ∨ x.1 = id := fun x hx =>
          mem_flags_updatePlayer g id (fun p => (handlePrisonState p).1) handlePrisonState_ID hx
        cases hps : (handlePrisonState player).2 with
        | err e => exact h1
        | panic => exact h1
        | nil =>
          dsimp only
          by_cases hlen : g.Map.Tiles.length = 0
          · rw [updatePlayer_Map, if_pos hlen]
            exact h1
          · rw [updatePlayer_Map, if_neg hlen]
            have h2 : ∀ x ∈ ((g.updatePlayer id (fun p => (handlePrisonState p).1)).updatePlayer id
                (fun p => { p with
                  Position := Int.tmod (player.Position + (d.dice + 1)) g.Map.Tiles.length,
                  HasRolled := true })).flags, x ∈ g.flags ∨ x.1 = id := by
              intro x hx
              rcases mem_flags_updatePlayer _ id
                (fun p => { p with
                  Position := Int.tmod (player.Position + (d.dice + 1)) g.Map.Tiles.length,
                  HasRolled := true }) (fun _ => rfl) hx with h | h
              · exact h1 x h
              · exact Or.inr h
            have h3 : ∀ x ∈ (if Int.tmod (player.Position + (d.dice + 1)) g.Map.Tiles.length <
                  player.Position
                then handlePassingGo
                  ((g.updatePlayer id (fun p => (handlePrisonState p).1)).updatePlayer id
                    (fun p => { p with
                      Position := Int.tmod (player.Position + (d.dice + 1)) g.Map.Tiles.length,
                      HasRolled := true })) id
                else (g.updatePlayer id (fun p => (handlePrisonState p).1)).updatePlayer id
                    (fun p => { p with
                      Position := Int.tmod (player.Position + (d.dice + 1)) g.Map.Tiles.length,
                      HasRolled := true })).flags, x ∈ g.flags ∨ x.1 = id := by
              split_ifs
              · intro x hx
                have hx1 : x ∈ (Game.updatePlayer _ _ _).flags := hx
                rw [flags_coins] at hx1
                exact h2 x hx1
              · exact h2
            exact flags_after_effect g _ id d now _ h3

theorem BuyProperty_flags (g : Game) (id : String) (now : Time) :
    (BuyProperty g id now).game.flags = g.flags := by
  unfold BuyProperty
  cases hv : validateGameState g id with
  | err e => rfl
  | panic => rfl
  | nil =>
    dsimp only
    cases hp : g.player? id with
    | none => rfl
    | some player =>
      dsimp only
      cases ht : idx g.Map.Tiles player.Position with
      | none => rfl
      | some tile =>
        dsimp only
        cases hok : validatePropertyPurchase player tile with
        | err e => rfl
        | panic => rfl
        | nil => exact flags_coins g id _

theorem UpgradeProperty_flags (g : Game) (id : String) (position : Int) (now : Time) :
    (UpgradeProperty g id position now).game.flags = g.flags := by
  unfold UpgradeProperty
  cases hv : validateGameState g id with
  | err e => rfl
  | panic => rfl
  | nil =>
    dsimp only
    cases hp : g.player? id with
    | none => rfl
    | some player =>
      dsimp only
      cases ht : idx g.Map.Tiles position with
      | none => rfl
      | some tile =>
        dsimp only
        cases hok : validatePropertyUpgrade player tile with
        | err e => rfl
        | panic => rfl
        | nil => exact flags_coins g id _

theorem collectEntranceFees_flags (order : List String) (g : Game) :
    (collectEntranceFees g order).1.flags = g.flags := by
  induction order generalizing g with
  | nil => rfl
  | cons j rest ih =>
    unfold collectEntranceFees
    cases hp : g.player? j with
    | none => exact ih g
    | some player =>
      dsimp only
      split_ifs
      · rfl
      · rw [ih]
        exact flags_coins g j _

theorem StartGame_flags (g : Game) (feeOrder idOrder : List String) (now : Time) :
    (StartGame g feeOrder idOrder now).1.flags = g.flags := by
  unfold StartGame
  cases hcan : canStartGame g with
  | err e => rfl
  | panic => rfl
  | nil =>
    dsimp only
    have hf := collectEntranceFees_flags feeOrder g
    cases hres : collectEntranceFees g feeOrder with
    | mk g1 r =>
      rw [hres] at hf
      dsimp only at hf
      cases r with
      | err e => exact hf
      | panic => exact hf
      | nil =>
        dsimp only
        unfold initializeGame
        dsimp only
        cases hsort : sortStrings ((g1.range idOrder).map (fun p => p.ID)) with
        | nil => exact hf
        | cons first others => exact hf

/-- After a `NextTurn` that leaves the match Playing nobody has the rolled flag set. -/
theorem NextTurn_flags (g : Game) (order endOrder : List String) (now : Time)
    (hs : g.Status = GameStatus.StatusPlaying)
    (h : ∀ x ∈ g.flags, x.2 = true → x.1 = g.CurrentPlayerID)
    (hs1 : (NextTurn g order endOrder now).1.Status = GameStatus.StatusPlaying) :
    ∀ x ∈ (NextTurn g order endOrder now).1.flags, x.2 = false := by
  have hreset : ∀ x ∈ (g.updatePlayer g.CurrentPlayerID
      (fun p => { p with HasRolled := false })).flags, x.2 = false := by
    intro x hx
    unfold Game.flags at hx
    obtain ⟨q, hq, rfl⟩ := List.mem_map.1 hx
    rcases mem_updatePlayer hq with ⟨p, _, _, rfl⟩ | ⟨hqm, hne⟩
    · rfl
    · cases hq2 : q.HasRolled
      · rfl
      · exact absurd (h _ (mem_flags hqm) hq2) hne
  unfold NextTurn at hs1 ⊢
  rw [if_neg (not_not.2 hs)] at hs1 ⊢
  dsimp only at hs1 ⊢
  cases hnext : getNextPlayerID
      (g.updatePlayer g.CurrentPlayerID (fun p => { p with HasRolled := false }))
      (getOrderedPlayerIDs
        (g.updatePlayer g.CurrentPlayerID (fun p => { p with HasRolled := false })) order) with
  | none =>
    rw [hnext] at hs1
    exact hreset
  | some next =>
    rw [hnext] at hs1
    dsimp only at hs1 ⊢
    split_ifs at hs1 ⊢ with ht
    · rw [EndGame_Status] at hs1
      split_ifs at hs1 with h6
      all_goals first | cases hs1 | exact absurd hs h6
    · exact hreset

theorem not_waiting_fixed (g : Game) (hs : g.Status ≠ GameStatus.StatusWaiting)
    (player : Player) (playerID : String) (feeOrder idOrder : List String) (now : Time) :
    (AddPlayer g player).1 = g ∧ (LeaveGame g playerID).1 = g ∧
    (StartGame g feeOrder idOrder now).1 = g := by
  refine ⟨?_, ?_, ?_⟩
  · unfold AddPlayer
    split_ifs <;> rfl
  · unfold LeaveGame
    rw [if_pos hs]
  · unfold StartGame
    have hc : canStartGame g ≠ Ret.nil := by
      unfold canStartGame
      split_ifs <;> simp
    cases hcan : canStartGame g with
    | nil => exact absurd hcan hc
    | err e => rfl
    | panic => rfl

/-- Every state reachable with clear joiners satisfies the rolled-flag invariant. -/
theorem ReachableClear.rolled {g : Game} (h : ReachableClear g) : RolledOK g := by
  induction h with
  | create id => exact ⟨(fun _ x hx => nomatch hx), (fun _ x hx => nomatch hx)⟩
  | @leave g playerID _ ih =>
    by_cases hs : g.Status ≠ GameStatus.StatusWaiting
    · rw [(not_waiting_fixed g hs (NewPlayer "" "" 0 0) playerID [] [] 0).2.1]
      exact ih
    · have hw : g.Status = GameStatus.StatusWaiting := not_not.1 hs
      unfold LeaveGame
      rw [if_neg hs]
      refine ⟨fun _ x hx => ?_, fun hp => ?_⟩
      · unfold Game.flags at hx
        obtain ⟨q, hq, rfl⟩ := List.mem_map.1 hx
        exact ih.1 hw _ (mem_flags (List.mem_of_mem_filter hq))
      · have hp1 : g.Status = GameStatus.StatusPlaying := hp
        rw [hw] at hp1
        cases hp1
  | @step g op _ hadm hclear ih =>
    cases op with
    | addPlayer player =>
      by_cases hs : g.Status ≠ GameStatus.StatusWaiting
      · show RolledOK (AddPlayer g player).1
        rw [(not_waiting_fixed g hs player "" [] [] 0).1]
        exact ih
      · have hw : g.Status = GameStatus.StatusWaiting := not_not.1 hs
        have hst : (AddPlayer g player).1.Status = GameStatus.StatusWaiting :=
          (AddPlayer_Status g player).trans hw
        refine ⟨fun _ x hx => ?_, fun hp => ?_⟩
        rotate_left
        · have hp1 : (AddPlayer g player).1.Status = GameStatus.StatusPlaying := hp
          rw [hst] at hp1
          cases hp1
        have hx1 : x ∈ (AddPlayer g player).1.flags := hx
        unfold AddPlayer at hx1
        split_ifs at hx1
        · exact ih.1 hw x hx1
        · exact ih.1 hw x hx1
        · unfold Game.flags at hx1
          rw [List.map_append, List.mem_append] at hx1
          rcases hx1 with h1 | h1
          · exact ih.1 hw x h1
          · rw [List.map_singleton, List.mem_singleton] at h1
            rw [h1]
            exact hclear
    | startGame feeOrder idOrder now =>
      by_cases hs : g.Status ≠ GameStatus.StatusWaiting
      · show RolledOK (StartGame g feeOrder idOrder now).1
        rw [(not_waiting_fixed g hs (NewPlayer "" "" 0 0) "" feeOrder idOrder now).2.2]
        exact ih
      · have hw : g.Status = GameStatus.StatusWaiting := not_not.1 hs
        have hall : ∀ x ∈ (StartGame g feeOrder idOrder now).1.flags, x.2 = false := by
          rw [StartGame_flags]
          exact ih.1 hw
        exact ⟨fun _ => hall, fun _ x hx hx2 => by rw [hall x hx] at hx2; cases hx2⟩
    | rollDice playerID d now =>
      by_cases hs : g.Status = GameStatus.StatusPlaying
      · have hst : (RollDice g playerID d now).game.Status = GameStatus.StatusPlaying :=
          (RollDice_Status g playerID d now).trans hs
        refine ⟨fun hw => ?_, fun _ x hx hx2 => ?_⟩
        · have hw1 : (RollDice g playerID d now).game.Status = GameStatus.StatusWaiting := hw
          rw [hst] at hw1
          cases hw1
        show x.1 = (RollDice g playerID d now).game.CurrentPlayerID
        rw [(Play.rollDice g playerID d now).current]
        by_cases hcur : g.CurrentPlayerID = playerID
        · rcases RollDice_flags g playerID d now x hx with h1 | h1
          · exact ih.2 hs x h1 hx2
          · rw [h1, hcur]
        · have hv : validateGameState g playerID = Ret.err GameError.ErrNotYourTurn := by
            rw [validateGameState_cases, if_neg (not_not.2 hs), if_pos hcur]
          have hx1 : x ∈ (RollDice g playerID d now).game.flags := hx
          rw [RollDice_invalid g playerID d now _ hv] at hx1
          exact ih.2 hs x hx1 hx2
      · show RolledOK (RollDice g playerID d now).game
        rw [(game_of_not_playing g hs playerID d 0 now).1]
        exact ih
    | buyProperty playerID now =>
      have hp := Play.buy g playerID now
      refine ⟨fun hw x hx => ?_, fun hs x hx hx2 => ?_⟩
      · have hx1 : x ∈ (BuyProperty g playerID now).game.flags := hx
        rw [BuyProperty_flags] at hx1
        exact ih.1 (hp.status ▸ hw) x hx1
      · have hx1 : x ∈ (BuyProperty g playerID now).game.flags := hx
        rw [BuyProperty_flags] at hx1
        show x.1 = (BuyProperty g playerID now).game.CurrentPlayerID
        rw [hp.current]
        exact ih.2 (hp.status ▸ hs) x hx1 hx2
    | upgradeProperty playerID position now =>
      have hp := Play.upgrade g playerID position now
      refine ⟨fun hw x hx => ?_, fun hs x hx hx2 => ?_⟩
      · have hx1 : x ∈ (UpgradeProperty g playerID position now).game.flags := hx
        rw [UpgradeProperty_flags] at hx1
        exact ih.1 (hp.status ▸ hw) x hx1
      · have hx1 : x ∈ (UpgradeProperty g playerID position now).game.flags := hx
        rw [UpgradeProperty_flags] at hx1
        show x.1 = (UpgradeProperty g playerID position now).game.CurrentPlayerID
        rw [hp.current]
        exact ih.2 (hp.status ▸ hs) x hx1 hx2
    | nextTurn order endOrder now =>
      by_cases hs : g.Status = GameStatus.StatusPlaying
      · refine ⟨fun hw => ?_, fun hs1 x hx hx2 => ?_⟩
        · have hadv := NextTurn_Status g order endOrder now
          rw [hs] at hadv
          have hw1 : (NextTurn g order endOrder now).1.Status = GameStatus.StatusWaiting := hw
          rw [hw1] at hadv
          rcases hadv with h1 | ⟨h1, _⟩ | ⟨_, h1⟩ <;> cases h1
        · rw [NextTurn_flags g order endOrder now hs (ih.2 hs) hs1 x hx] at hx2
          cases hx2
      · show RolledOK (NextTurn g order endOrder now).1
        unfold NextTurn
        rw [if_pos hs]
        exact ih
    | endGame order now =>
      by_cases hs : g.Status = GameStatus.StatusPlaying
      · have hst : (EndGame g order now).1.Status = GameStatus.StatusFinished := by
          rw [EndGame_Status, if_pos hs]
        refine ⟨fun hw => ?_, fun hp => ?_⟩
        · have hw1 : (EndGame g order now).1.Status = GameStatus.StatusWaiting := hw
          rw [hst] at hw1
          cases hw1
        · have hp1 : (EndGame g order now).1.Status = GameStatus.StatusPlaying := hp
          rw [hst] at hp1
          cases hp1
      · show RolledOK (EndGame g order now).1
        unfold EndGame
        rw [if_pos hs]
        exact ih
    | getFinalResults order => exact ih

theorem ReachableClear.reachable {g : Game} (h : ReachableClear g) : Reachable g := by
  induction h with
  | create id => exact Reachable.create id
  | leave playerID _ ih => exact Reachable.leave playerID ih
  | step op _ hadm _ ih => exact Reachable.step op ih hadm

theorem playedGame_clear : ReachableClear playedGame :=
  ReachableClear.step _ (ReachableClear.step _ (ReachableClear.step _ (ReachableClear.step _
    (ReachableClear.create "m") trivial rfl) trivial rfl) (by decide) trivial) (by decide)
    trivial

/-- C33: in every Playing state reachable from a newly created match whose players joined
with the rolled flag clear, no player other than the current player has the rolled flag set.
Hence after a `NextTurn` that leaves the match Playing nobody has the flag set: the new current
player is registered with the flag clear, and a `RollDice` by that player is not rejected with
Already-Rolled. -/
theorem rolled_flag_only_current (g : Game) (h : ReachableClear g)
    (hs : g.Status = GameStatus.StatusPlaying) :
    (∀ p ∈ g.Players, p.HasRolled = true → p.ID = g.CurrentPlayerID) ∧
    (∀ (order endOrder : List String) (now : Time),
      (NextTurn g order endOrder now).1.Status = GameStatus.StatusPlaying →
      (∀ p ∈ (NextTurn g order endOrder now).1.Players, p.HasRolled = false) ∧
      (∃ p, (NextTurn g order endOrder now).1.player?
          (NextTurn g order endOrder now).1.CurrentPlayerID = some p ∧ p.HasRolled = false) ∧
      (∀ (d : Draws) (now1 : Time),
        (RollDice (NextTurn g order endOrder now).1
          (NextTurn g order endOrder now).1.CurrentPlayerID d now1).ret ≠
            Ret.err GameError.ErrAlreadyRolled)) := by
  have hinv : ∀ x ∈ g.flags, x.2 = true → x.1 = g.CurrentPlayerID := h.rolled.2 hs
  refine ⟨fun p hp hr => hinv _ (mem_flags hp) hr, fun order endOrder now hs1 => ?_⟩
  have hclear : ∀ p ∈ (NextTurn g order endOrder now).1.Players, p.HasRolled = false :=
    fun p hp => NextTurn_flags g order endOrder now hs hinv hs1 _ (mem_flags hp)
  have hcur := (h.reachable.sound.nextTurn order endOrder now).current hs1
  obtain ⟨p, hp⟩ := player?_of_mem_keys hcur
  refine ⟨hclear, ⟨p, hp, hclear p (player?_some hp).2⟩, fun d now1 => ?_⟩
  rcases RollDice_ret_cases (NextTurn g order endOrder now).1
      (NextTurn g order endOrder now).1.CurrentPlayerID d now1 with
    h1 | h1 | ⟨h1, _⟩ | ⟨_, q, hq, hr⟩ | h1 | h1 | ⟨player, _, h1⟩
  · rw [h1]; simp
  · rw [h1]; simp
  · rw [h1]; simp
  · rw [hclear q (player?_some hq).2] at hr
    cases hr
  · rw [h1]; simp
  · rw [h1]; simp
  · rw [h1]
    rcases handleTileEffect_ret_cases
        (afterMove (NextTurn g order endOrder now).1
          (NextTurn g order endOrder now).1.CurrentPlayerID player d)
        (NextTurn g order endOrder now).1.CurrentPlayerID d now1 with
      h2 | h2 | h2 | ⟨h2, _⟩
    · rw [h2]; simp
    · rw [h2]; simp
    · rw [h2]; simp
    · rw [h2]; simp

/-- C33, on an example: after the run `playedGame`, in which alice has rolled, a `NextTurn`
makes bob the current player, registered with the rolled flag clear. -/
theorem rolled_flag_only_current_witness :
    (NextTurn playedGame ["alice", "bob"] ["alice", "bob"] 5).1.CurrentPlayerID = "bob" ∧
    ∃ p, (NextTurn playedGame ["alice", "bob"] ["alice", "bob"] 5).1.player?
        (NextTurn playedGame ["alice", "bob"] ["alice", "bob"] 5).1.CurrentPlayerID = some p ∧
      p.HasRolled = false :=
  ⟨by decide,
    ((rolled_flag_only_current playedGame playedGame_clear (by decide)).2
      ["alice", "bob"] ["alice", "bob"] 5 (by decide)).2.1⟩

/-! ## When the passing reward is paid -/

/-- The move of a roll in exact arithmetic: the current player of a Playing match, not yet
rolled and free to move, rolls `d.dice + 1` from position `old >= 0`.  The state on which the
tile effect is then resolved has the player on `(old + die) mod (board length)`, and the
passing reward `floor(P * 2 / 100)` has moved from the prize pool to the player exactly when
`(old + die) mod (board length) < old`: on a 5-tile board not after a roll of 5, and not after
a roll of 6 from a position below 4. -/
theorem passing_condition_exact (g : Game) (id : String) (d : Draws) (now : Time)
    (player : Player) (hs : g.Status = GameStatus.StatusPlaying)
    (hcur : g.CurrentPlayerID = id) (hp : g.player? id = some player)
    (hr : player.HasRolled = false)
    (hprison : ¬ (player.InPrison = true ∧ 0 < player.PrisonDays))
    (hboard : g.Map.Tiles ≠ []) (hpos : 0 ≤ player.Position) (hdice : 0 ≤ d.dice)
    (hpool : 0 ≤ g.PrizePool) :
    (RollDice g id d now =
      match handleTileEffect (afterMove g id player d) id d now with
      | (g4, Ret.nil) =>
        { game := AddAction g4 (rollAction g id player d now),
          action := some (rollAction g id player d now), ret := Ret.nil }
      | (g4, Ret.err e) =>
        { game := g4, action := some (rollAction g id player d now), ret := Ret.err e }
      | (g4, Ret.panic) => { game := g4, action := none, ret := Ret.panic }) ∧
    ((afterMove g id player d).player? id).map (fun p => (p.Position, p.Coins)) =
      some ((player.Position + (d.dice + 1)) % g.Map.Tiles.length,
        player.Coins +
          if (player.Position + (d.dice + 1)) % g.Map.Tiles.length < player.Position
          then g.PrizePool * 2 / 100 else 0) ∧
    (afterMove g id player d).PrizePool =
      g.PrizePool -
        (if (player.Position + (d.dice + 1)) % g.Map.Tiles.length < player.Position
         then g.PrizePool * 2 / 100 else 0) ∧
    (g.Map.Tiles.length = 5 → d.dice + 1 = 5 → player.Position < 5 →
      (5 : Int) ≤ player.Position + (d.dice + 1) ∧
      ((afterMove g id player d).player? id).map (fun p => (p.Position, p.Coins)) =
        some (player.Position, player.Coins) ∧
      (afterMove g id player d).PrizePool = g.PrizePool) ∧
    (g.Map.Tiles.length = 5 → d.dice + 1 = 6 → player.Position < 4 →
      (5 : Int) ≤ player.Position + (d.dice + 1) ∧
      ((afterMove g id player d).player? id).map (fun p => (p.Position, p.Coins)) =
        some (player.Position + 1, player.Coins) ∧
      (afterMove g id player d).PrizePool = g.PrizePool) := by
  have hv : validateGameState g id = Ret.nil :=
    validateGameState_nil.2 ⟨hs, hcur, by rw [hp]; rfl⟩
  have hlen : g.Map.Tiles.length ≠ 0 := fun h => hboard (List.length_eq_zero.1 h)
  have hps : (handlePrisonState player).2 = Ret.nil := by
    unfold handlePrisonState
    by_cases h1 : player.InPrison = true
    · have h2 : ¬ player.PrisonDays > 0 := fun h => hprison ⟨h1, h⟩
      rw [if_pos h1, if_neg h2]
    · rw [if_neg h1]
  have htarget : rollTarget g player d =
      (player.Position + (d.dice + 1)) % g.Map.Tiles.length := by
    unfold rollTarget
    exact Int.tmod_eq_emod (by omega) (Int.natCast_nonneg _)
  have hrate : rateOf g.PrizePool PassingGoRewardRate = g.PrizePool * 2 / 100 := by
    rw [rateOf_floor _ _ hpool (by decide)]
    rfl
  have hplayer : ((afterMove g id player d).player? id).map (fun p => (p.Position, p.Coins)) =
      some ((player.Position + (d.dice + 1)) % g.Map.Tiles.length,
        player.Coins +
          if (player.Position + (d.dice + 1)) % g.Map.Tiles.length < player.Position
          then g.PrizePool * 2 / 100 else 0) := by
    rw [afterMove_player g id player d hp, Option.map_some', htarget, handlePrisonState_Coins,
      hrate]
  have hpoolEq : (afterMove g id player d).PrizePool =
      g.PrizePool -
        (if (player.Position + (d.dice + 1)) % g.Map.Tiles.length < player.Position
         then g.PrizePool * 2 / 100 else 0) := by
    rw [afterMove_PrizePool, htarget, hrate]
  refine ⟨RollDice_eq g id d now player hv hp hr hps hlen, hplayer, hpoolEq, ?_, ?_⟩
  · intro h5 hd hlt
    have h5i : (g.Map.Tiles.length : Int) = 5 := by exact_mod_cast h5
    have hmod : (player.Position + (d.dice + 1)) % (g.Map.Tiles.length : Int) =
        player.Position := by
      rw [h5i, hd]
      omega
    rw [hplayer, hpoolEq, hmod, if_neg (lt_irrefl _)]
    exact ⟨by omega, by rw [add_zero], by rw [sub_zero]⟩
  · intro h5 hd hlt
    have h5i : (g.Map.Tiles.length : Int) = 5 := by exact_mod_cast h5
    have hmod : (player.Position + (d.dice + 1)) % (g.Map.Tiles.length : Int) =
        player.Position + 1 := by
      rw [h5i, hd]
      omega
    rw [hplayer, hpoolEq, hmod, if_neg (by omega)]
    exact ⟨by omega, by rw [add_zero], by rw [sub_zero]⟩

/-! ## EndGame: the total paid out -/

/-- The payout loop adds one share per ranked player to the registry. -/
theorem distributePrizes_total (assets : List PlayerAsset) (ratios : List Int) (g : Game)
    (hreg : RegistryOK g) (hin : ∀ a ∈ assets, a.PlayerID ∈ g.keys) :
    coinTotal (distributePrizes g assets ratios) =
      coinTotal g + ((ratios.take assets.length).map (rateOf g.PrizePool)).sum := by
  induction assets generalizing g ratios with
  | nil => simp [distributePrizes]
  | cons a rest ih =>
    cases ratios with
    | nil => simp [distributePrizes]
    | cons r rs =>
      obtain ⟨p, hp⟩ := player?_of_mem_keys (hin a (List.mem_cons_self _ _))
      have hk : (g.updatePlayer a.PlayerID
          (fun q => { q with Coins := q.Coins + rateOf g.PrizePool r })).keys = g.keys :=
        keys_coins g a.PlayerID _
      simp only [distributePrizes, List.length_cons, List.take_succ_cons, List.map_cons,
        List.sum_cons]
      rw [ih rs _ (registry_of_keys hk hreg)
          (fun b hb => by rw [hk]; exact hin b (List.mem_cons_of_mem _ hb)),
        coinTotal_updatePlayer g hreg a.PlayerID p hp]
      show coinTotal g - p.Coins + (p.Coins + rateOf g.PrizePool r) +
        ((rs.take rest.length).map (rateOf g.PrizePool)).sum = _
      omega

theorem payout_bounds (pool : Int) (n : Nat) (hpool : 0 ≤ pool) :
    0 ≤ ((prizeRatios.take n).map (fun r => pool * r / 100)).sum ∧
    ((prizeRatios.take n).map (fun r => pool * r / 100)).sum ≤ pool := by
  have h50 : 0 ≤ pool * 50 / 100 := by omega
  have h30 : 0 ≤ pool * 30 / 100 := by omega
  have h15 : 0 ≤ pool * 15 / 100 := by omega
  have h5 : 0 ≤ pool * 5 / 100 := by omega
  have hsum : pool * 50 / 100 + pool * 30 / 100 + pool * 15 / 100 + pool * 5 / 100 ≤ pool := by
    omega
  unfold prizeRatios
  rcases n with _ | _ | _ | _ | n
  all_goals
    simp only [List.take_succ_cons, List.take_zero, List.take_nil, List.map_cons, List.map_nil,
      List.sum_cons, List.sum_nil]
    constructor <;> omega

/-- The total paid out in exact arithmetic: a Playing match with prize pool `P >= 0` is
ended.  `EndGame` succeeds; the sum of all balances grows by the total paid out, which is
`floor(P * r)` for the ratios 50%, 30%, 15% and 5%, one term per player and at most four; that
total is between 0 and `P`; and the prize pool field is left equal to `P`.  The shares are
what float64 arithmetic gives for `P < 2 ^ 45`. -/
theorem total_payout_exact (g : Game) (order : List String) (now : Time)
    (hs : g.Status = GameStatus.StatusPlaying) (hreg : RegistryOK g) (hord : IsRange g order)
    (hpool : 0 ≤ g.PrizePool) :
    (EndGame g order now).2 = Ret.nil ∧
    (EndGame g order now).1.PrizePool = g.PrizePool ∧
    coinTotal (EndGame g order now).1 = coinTotal g + totalPayout g ∧
    0 ≤ totalPayout g ∧ totalPayout g ≤ g.PrizePool ∧
    g.PrizePool / 2 + g.PrizePool * 3 / 10 + g.PrizePool * 15 / 100 + g.PrizePool * 5 / 100 ≤
      g.PrizePool ∧
    (4 ≤ g.Players.length →
      totalPayout g =
        g.PrizePool / 2 + g.PrizePool * 3 / 10 + g.PrizePool * 15 / 100 +
          g.PrizePool * 5 / 100) ∧
    coinTotal (EndGame g order now).1 + (EndGame g order now).1.PrizePool =
      coinTotal g + g.PrizePool + totalPayout g ∧
    (g.PrizePool < 2 ^ 45 →
      ∀ r ∈ prizeRatios, goRate g.PrizePool r = g.PrizePool * r / 100) := by
  have hb := payout_bounds g.PrizePool g.Players.length hpool
  have hstate := EndGame_eq g order now hs
  have hpoolEq : (EndGame g order now).1.PrizePool = g.PrizePool := by
    rw [hstate]
    show (distributePrizes _ _ _).PrizePool = _
    rw [distributePrizes_PrizePool]
  have hlen : (sortSlice (fun a b => decide (a.Total > b.Total))
      ((g.range order).map (fun p =>
        ({ PlayerID := p.ID, Total := totalAssets g p } : PlayerAsset)))).length =
      g.Players.length := by
    rw [(sortSlice_sorted (fun a : PlayerAsset => a.Total) _).2.length_eq, List.length_map,
      (range_perm hreg hord).length_eq]
  have hin : ∀ a ∈ sortSlice (fun a b => decide (a.Total > b.Total))
      ((g.range order).map (fun p =>
        ({ PlayerID := p.ID, Total := totalAssets g p } : PlayerAsset))),
      a.PlayerID ∈ Game.keys { g with Status := GameStatus.StatusFinished } := by
    intro a ha
    obtain ⟨p, hp, rfl⟩ :=
      List.mem_map.1 ((sortSlice_sorted (fun a : PlayerAsset => a.Total) _).2.subset ha)
    exact mem_range hp
  have hrates : (prizeRatios.take g.Players.length).map (rateOf g.PrizePool) =
      (prizeRatios.take g.Players.length).map (fun r => g.PrizePool * r / 100) := by
    apply List.map_congr_left
    intro r hr
    exact rateOf_floor _ _ hpool (prizeRatios_nonneg r (List.mem_of_mem_take hr))
  have htotal : coinTotal (EndGame g order now).1 = coinTotal g + totalPayout g := by
    rw [hstate]
    show coinTotal (distributePrizes _ _ _) = _
    rw [distributePrizes_total _ _ { g with Status := GameStatus.StatusFinished } hreg hin, hlen]
    show coinTotal g + ((prizeRatios.take g.Players.length).map (rateOf g.PrizePool)).sum = _
    rw [hrates]
    rfl
  refine ⟨by rw [hstate], hpoolEq, htotal, hb.1, hb.2, by omega, ?_, by rw [htotal, hpoolEq]; omega,
    ?_⟩
  · intro h4
    unfold totalPayout prizeRatios
    obtain ⟨n, hn⟩ : ∃ n, g.Players.length = n + 4 := ⟨g.Players.length - 4, by omega⟩
    rw [hn]
    simp only [List.take_succ_cons, List.take_nil, List.map_cons, List.map_nil, List.sum_cons,
      List.sum_nil]
    have e1 : g.PrizePool * 50 / 100 = g.PrizePool / 2 := by omega
    have e2 : g.PrizePool * 30 / 100 = g.PrizePool * 3 / 10 := by omega
    rw [e1, e2]
    ring
  · intro hlt r hr
    have hb45 : g.PrizePool.natAbs < 2 ^ 45 := by omega
    have hmem : r ∈ ([1, 2, 5, 15, 30, 50] : List Int) := by
      revert r
      decide
    rw [goRate_eq_rateOf _ _ hmem hb45]
    exact rateOf_floor _ _ hpool (prizeRatios_nonneg r hr)

theorem wrap_of_inRange (x : Int) (h : inRange x) : wrap x = x := by
  unfold wrap
  unfold inRange at h
  omega

/-! ## The two arithmetics agree on small numbers -/

theorem wrap_of_small (x : Int) (h : x.natAbs < 2 ^ 62) : wrap x = x := by
  unfold wrap
  omega

theorem updatePlayer_ext (g : Game) (id : String) (f f1 : Player → Player)
    (h : ∀ p ∈ g.Players, p.ID = id → f p = f1 p) :
    g.updatePlayer id f = g.updatePlayer id f1 := by
  unfold Game.updatePlayer
  congr 1
  apply List.map_congr_left
  intro p hp
  by_cases hi : p.ID = id
  · rw [if_pos hi, if_pos hi, h p hp hi]
  · rw [if_neg hi, if_neg hi]

theorem rateOf_neg (pool percent : Int) : rateOf (-pool) percent = -rateOf pool percent := by
  unfold rateOf
  rw [Int.neg_mul, Int.neg_tdiv]

theorem rateOf_natAbs_le (pool percent : Int) (h0 : 0 ≤ percent) (h1 : percent ≤ 100) :
    (rateOf pool percent).natAbs ≤ pool.natAbs := by
  by_cases hp : 0 ≤ pool
  · have := rateOf_nonneg pool percent hp h0
    have := rateOf_le pool percent hp h0 h1
    omega
  · have e : rateOf pool percent = -rateOf (-pool) percent := by
      rw [rateOf_neg, neg_neg]
    have := rateOf_nonneg (-pool) percent (by omega) h0
    have := rateOf_le (-pool) percent (by omega) h0 h1
    omega

/-- What one write to a balance leaves of a bound on all balances. -/
theorem coins_bound_update {g : Game} {id : String} {f : Player → Player} {b b1 : Nat}
    (h : ∀ p ∈ g.Players, p.Coins.natAbs < b) (hb : b ≤ b1)
    (hf : ∀ p ∈ g.Players, p.ID = id → (f p).Coins.natAbs < b1) :
    ∀ q ∈ (g.updatePlayer id f).Players, q.Coins.natAbs < b1 := by
  intro q hq
  rcases mem_updatePlayer hq with ⟨p, hp, hid, rfl⟩ | ⟨hq1, _⟩
  · exact hf p hp hid
  · exact Nat.lt_of_lt_of_le (h q hq1) hb

theorem handlePassingGo_exact (g : Game) (id : String)
    (hpool : g.PrizePool.natAbs < 2 ^ 45) (hc : ∀ p ∈ g.Players, p.Coins.natAbs < 2 ^ 61) :
    Machine.handlePassingGo g id = handlePassingGo g id := by
  unfold Machine.handlePassingGo handlePassingGo
  have hr := goRate_eq_rateOf g.PrizePool PassingGoRewardRate (by decide) hpool
  have hb := rateOf_natAbs_le g.PrizePool PassingGoRewardRate (by decide) (by decide)
  dsimp only
  rw [hr, wrap_of_small _ (by omega)]
  rw [updatePlayer_ext g id _
    (fun p => { p with Coins := p.Coins + rateOf g.PrizePool PassingGoRewardRate })
    (fun p hp _ => by
      have := hc p hp
      dsimp only
      rw [wrap_of_small _ (by omega)])]

theorem handleRentPayment_exact (g : Game) (player : Player) (tile : Tile) (now : Time)
    (hc : ∀ p ∈ g.Players, p.Coins.natAbs < 2 ^ 60)
    (hrent : ∀ r ∈ tile.RentPrice, r.natAbs < 2 ^ 45) :
    Machine.handleRentPayment g player tile now = handleRentPayment g player tile now := by
  unfold Machine.handleRentPayment handleRentPayment
  cases g.player? tile.OwnerID with
  | none => rfl
  | some owner =>
    dsimp only
    cases hi : idx tile.RentPrice tile.Level with
    | none => rfl
    | some rent =>
      dsimp only
      have hr := hrent rent (idx_some hi).2.2
      have e1 : g.updatePlayer player.ID (fun p => { p with Coins := wrap (p.Coins - rent) }) =
          g.updatePlayer player.ID (fun p => { p with Coins := p.Coins - rent }) :=
        updatePlayer_ext g player.ID _ _ (fun p hp _ => by
          have := hc p hp
          rw [wrap_of_small _ (by omega)])
      have hc1 : ∀ q ∈ (g.updatePlayer player.ID
          (fun p => { p with Coins := p.Coins - rent })).Players, q.Coins.natAbs < 2 ^ 61 :=
        coins_bound_update hc (by decide) (fun p hp _ => by
          have := hc p hp
          show (p.Coins - rent).natAbs < 2 ^ 61
          omega)
      have e2 : (g.updatePlayer player.ID
            (fun p => { p with Coins := p.Coins - rent })).updatePlayer tile.OwnerID
            (fun p => { p with Coins := wrap (p.Coins + rent) }) =
          (g.updatePlayer player.ID
            (fun p => { p with Coins := p.Coins - rent })).updatePlayer tile.OwnerID
            (fun p => { p with Coins := p.Coins + rent }) :=
        updatePlayer_ext _ tile.OwnerID _ _ (fun p hp _ => by
          have := hc1 p hp
          rw [wrap_of_small _ (by omega)])
      rw [e1, e2]

theorem handleChanceCard_exact (g : Game) (player : Player) (d : Draws) (now : Time)
    (hpool : g.PrizePool.natAbs < 2 ^ 45) (hc : ∀ p ∈ g.Players, p.Coins.natAbs < 2 ^ 60)
    (hp : player.Coins.natAbs < 2 ^ 60) :
    Machine.handleChanceCard g player d now = handleChanceCard g player d now := by
  unfold Machine.handleChanceCard handleChanceCard
  by_cases h1 : d.effect < 30
  · rw [if_pos h1, if_pos h1]
    have hr := goRate_eq_rateOf g.PrizePool ChanceRewardRate (by decide) hpool
    have hb := rateOf_natAbs_le g.PrizePool ChanceRewardRate (by decide) (by decide)
    dsimp only
    rw [hr, wrap_of_small _ (by omega)]
    rw [updatePlayer_ext g player.ID _
      (fun p => { p with Coins := p.Coins + rateOf g.PrizePool ChanceRewardRate })
      (fun p hp _ => by
        have := hc p hp
        dsimp only
        rw [wrap_of_small _ (by omega)])]
  · rw [if_neg h1, if_neg h1]
    by_cases h2 : d.effect < 60
    · rw [if_pos h2, if_pos h2]
      dsimp only
      have ha : (if player.Coins < 100 then player.Coins else 100).natAbs < 2 ^ 60 := by
        split_ifs <;> omega
      generalize (if player.Coins < 100 then player.Coins else 100) = amount at ha
      rw [wrap_of_small (-amount) (by omega), wrap_of_small (g.PrizePool + amount) (by omega)]
      rw [updatePlayer_ext g player.ID _ (fun p => { p with Coins := p.Coins - amount })
        (fun p hp _ => by
          have := hc p hp
          dsimp only
          rw [wrap_of_small _ (by omega)])]
    · rw [if_neg h2, if_neg h2]
      by_cases h3 : d.effect < 80
      · rw [if_pos h3, if_pos h3]
        dsimp only
        rw [handlePassingGo_exact _ _ (by exact hpool) (by
          intro q hq
          have hq1 : q ∈ (g.updatePlayer player.ID
              (fun p => { p with Position := d.target })).Players := hq
          exact coins_bound_update hc (by decide) (fun p hp _ => by
            have := hc p hp
            show p.Coins.natAbs < 2 ^ 61
            omega) q hq1)]
      · rw [if_neg h3, if_neg h3]

theorem collectFromOthers_exact (order : List String) (g : Game) (hreg : RegistryOK g)
    (id : String) (amount : Int) (hc : ∀ p ∈ g.Players, p.Coins.natAbs < 2 ^ 50)
    (ha : amount.natAbs + order.length * 2 ^ 50 < 2 ^ 62) :
    Machine.collectFromOthers g id order amount = collectFromOthers g id order amount ∧
    (∀ p ∈ (collectFromOthers g id order amount).1.Players, p.Coins.natAbs < 2 ^ 50) ∧
    (collectFromOthers g id order amount).2.natAbs ≤ amount.natAbs + order.length * 2 ^ 50 := by
  induction order generalizing g amount with
  | nil => exact ⟨rfl, hc, by simp [collectFromOthers]⟩
  | cons k rest ih =>
    simp only [List.length_cons] at ha ⊢
    unfold Machine.collectFromOthers collectFromOthers
    cases hp : g.player? k with
    | none =>
      dsimp only
      obtain ⟨h1, h2, h3⟩ := ih g hreg amount hc (by omega)
      exact ⟨h1, h2, by omega⟩
    | some p =>
      dsimp only
      by_cases hid : p.ID ≠ id
      · rw [if_pos hid, if_pos hid]
        have hpm := hc p (player?_some hp).2
        have hd : (if p.Coins < 100 then p.Coins else 100).natAbs < 2 ^ 50 ∧
            (p.Coins - if p.Coins < 100 then p.Coins else 100).natAbs < 2 ^ 50 := by
          split_ifs <;> omega
        generalize (if p.Coins < 100 then p.Coins else 100) = deduct at hd
        have e1 : g.updatePlayer k (fun q => { q with Coins := wrap (q.Coins - deduct) }) =
            g.updatePlayer k (fun q => { q with Coins := q.Coins - deduct }) :=
          updatePlayer_congr g hreg k p hp _ _ (by
            rw [wrap_of_small _ (by omega)])
        have hreg1 : RegistryOK (g.updatePlayer k (fun q => { q with Coins := q.Coins - deduct })) := by
          unfold RegistryOK
          rw [updatePlayer_keys g k (fun q => { q with Coins := q.Coins - deduct })
            (fun _ => rfl)]
          exact hreg
        have hc1 : ∀ q ∈ (g.updatePlayer k
            (fun q => { q with Coins := q.Coins - deduct })).Players, q.Coins.natAbs < 2 ^ 50 := by
          intro q hq
          rcases mem_updatePlayer hq with ⟨p1, hp1, hid1, rfl⟩ | ⟨hq1, _⟩
          · have hfind := player?_of_mem hreg hp1
            rw [hid1, hp] at hfind
            cases hfind
            exact hd.2
          · exact hc q hq1
        rw [e1, wrap_of_small _ (by omega)]
        obtain ⟨h1, h2, h3⟩ := ih _ hreg1 (amount + deduct) hc1 (by omega)
        exact ⟨h1, h2, by omega⟩
      · rw [if_neg hid, if_neg hid]
        obtain ⟨h1, h2, h3⟩ := ih g hreg amount hc (by omega)
        exact ⟨h1, h2, by omega⟩

theorem maintenanceFee_loop_exact (tiles : List Tile) (id : String) (start : Int)
    (ht : ∀ t ∈ tiles, t.small) (hs : start.natAbs + tiles.length * 2 ^ 22 < 2 ^ 62) :
    tiles.foldl (fun amount tile =>
        if tile.OwnerID = id then wrap (amount + Int.tdiv tile.Price 10) else amount) start =
      tiles.foldl (fun amount tile =>
        if tile.OwnerID = id then amount + Int.tdiv tile.Price 10 else amount) start ∧
    (tiles.foldl (fun amount tile =>
        if tile.OwnerID = id then amount + Int.tdiv tile.Price 10 else amount) start).natAbs ≤
      start.natAbs + tiles.length * 2 ^ 22 := by
  induction tiles generalizing start with
  | nil => exact ⟨rfl, by simp⟩
  | cons t rest ih =>
    simp only [List.length_cons] at hs ⊢
    simp only [List.foldl_cons]
    have hprice := (ht t (List.mem_cons_self _ _)).1
    have hfee : (Int.tdiv t.Price 10).natAbs ≤ t.Price.natAbs := by
      rw [Int.natAbs_tdiv]
      exact Nat.div_le_self _ _
    by_cases ho : t.OwnerID = id
    · rw [if_pos ho, if_pos ho, wrap_of_small _ (by omega)]
      obtain ⟨h1, h2⟩ := ih (start + Int.tdiv t.Price 10)
        (fun t1 h1 => ht t1 (List.mem_cons_of_mem _ h1)) (by omega)
      exact ⟨h1, by omega⟩
    · rw [if_neg ho, if_neg ho]
      obtain ⟨h1, h2⟩ := ih start (fun t1 h1 => ht t1 (List.mem_cons_of_mem _ h1)) (by omega)
      exact ⟨h1, by omega⟩

theorem maintenanceFee_exact (tiles : List Tile) (id : String) (ht : ∀ t ∈ tiles, t.small)
    (hlen : tiles.length ≤ 2 ^ 10) :
    Machine.maintenanceFee tiles id = maintenanceFee tiles id ∧
    (maintenanceFee tiles id).natAbs < 2 ^ 33 := by
  unfold Machine.maintenanceFee maintenanceFee
  have hb : tiles.length * 2 ^ 22 ≤ 2 ^ 10 * 2 ^ 22 := Nat.mul_le_mul_right _ hlen
  obtain ⟨h1, h2⟩ := maintenanceFee_loop_exact tiles id 0 ht (by
    simp only [Int.natAbs_zero]
    omega)
  refine ⟨h1, ?_⟩
  simp only [Int.natAbs_zero] at h2
  omega

theorem handleFateCard_exact (g : Game) (hreg : RegistryOK g) (player : Player) (d : Draws)
    (now : Time) (hpool : g.PrizePool.natAbs < 2 ^ 45)
    (hc : ∀ p ∈ g.Players, p.Coins.natAbs < 2 ^ 50) (hp : player.Coins.natAbs < 2 ^ 50)
    (ht : ∀ t ∈ g.Map.Tiles, t.small) (hlen : g.Map.Tiles.length ≤ 2 ^ 10)
    (hord : d.order.length ≤ 2 ^ 10) :
    Machine.handleFateCard g player d now = handleFateCard g player d now := by
  unfold Machine.handleFateCard handleFateCard
  by_cases h1 : d.effect < 30
  · rw [if_pos h1, if_pos h1]
    have hb : d.order.length * 2 ^ 50 ≤ 2 ^ 10 * 2 ^ 50 := Nat.mul_le_mul_right _ hord
    obtain ⟨e1, hc1, ha⟩ := collectFromOthers_exact d.order g hreg player.ID 0 hc (by
      simp only [Int.natAbs_zero]
      omega)
    simp only [Int.natAbs_zero] at ha
    rw [e1]
    cases hcol : collectFromOthers g player.ID d.order 0 with
    | mk g1 amount =>
      rw [hcol] at hc1 ha
      dsimp only at hc1 ha ⊢
      rw [updatePlayer_ext g1 player.ID _ (fun p => { p with Coins := p.Coins + amount })
        (fun p hp _ => by
          have := hc1 p hp
          dsimp only
          rw [wrap_of_small _ (by omega)])]
  · rw [if_neg h1, if_neg h1]
    by_cases h2 : d.effect < 60
    · rw [if_pos h2, if_pos h2]
      obtain ⟨e1, hb⟩ := maintenanceFee_exact g.Map.Tiles player.ID ht hlen
      rw [e1]
      dsimp only
      have ha : (if maintenanceFee g.Map.Tiles player.ID > player.Coins then player.Coins
          else maintenanceFee g.Map.Tiles player.ID).natAbs < 2 ^ 50 := by
        split_ifs <;> omega
      generalize (if maintenanceFee g.Map.Tiles player.ID > player.Coins then player.Coins
          else maintenanceFee g.Map.Tiles player.ID) = amount at ha
      rw [wrap_of_small (-amount) (by omega), wrap_of_small (g.PrizePool + amount) (by omega)]
      rw [updatePlayer_ext g player.ID _ (fun p => { p with Coins := p.Coins - amount })
        (fun p hp _ => by
          have := hc p hp
          dsimp only
          rw [wrap_of_small _ (by omega)])]
    · rw [if_neg h2, if_neg h2]

theorem handleTileEffect_exact (g : Game) (hreg : RegistryOK g) (id : String) (d : Draws)
    (now : Time) (hpool : g.PrizePool.natAbs < 2 ^ 45)
    (hc : ∀ p ∈ g.Players, p.Coins.natAbs < 2 ^ 50)
    (ht : ∀ t ∈ g.Map.Tiles, t.small) (hlen : g.Map.Tiles.length ≤ 2 ^ 10)
    (hord : d.order.length ≤ 2 ^ 10) :
    Machine.handleTileEffect g id d now = handleTileEffect g id d now := by
  unfold Machine.handleTileEffect handleTileEffect
  cases hp : g.player? id with
  | none => rfl
  | some player =>
    dsimp only
    have hpc := hc player (player?_some hp).2
    cases hi : idx g.Map.Tiles player.Position with
    | none => rfl
    | some tile =>
      dsimp only
      have htile := ht tile (idx_some hi).2.2
      cases hT : tile.Typ with
      | TileProperty =>
        dsimp only
        rw [handleRentPayment_exact g player tile now
          (fun p hp => Nat.lt_of_lt_of_le (hc p hp) (by decide)) htile.2.2]
      | TileChance =>
        exact handleChanceCard_exact g player d now hpool
          (fun p hp => Nat.lt_of_lt_of_le (hc p hp) (by decide))
          (Nat.lt_of_lt_of_le hpc (by decide))
      | TileFate => exact handleFateCard_exact g hreg player d now hpool hc hpc ht hlen hord
      | TilePrison => rfl
      | TileStart => rfl
      | TileBank => rfl

theorem handlePrisonState_exact (p : Player) (h : p.PrisonDays.natAbs < 2 ^ 61) :
    Machine.handlePrisonState p = handlePrisonState p := by
  unfold Machine.handlePrisonState handlePrisonState
  rw [wrap_of_small (p.PrisonDays - 1) (by omega)]

theorem rollTarget_exact (g : Game) (player : Player) (d : Draws)
    (hpos : player.Position.natAbs < 2 ^ 61) (hd : 0 ≤ d.dice ∧ d.dice < 6) :
    Machine.rollTarget g player d = rollTarget g player d := by
  unfold Machine.rollTarget rollTarget
  rw [wrap_of_small (d.dice + 1) (by omega), wrap_of_small _ (by omega)]

theorem pool_less_rate (pool percent : Int) (h0 : 0 ≤ percent) (h1 : percent ≤ 100) :
    (pool - rateOf pool percent).natAbs ≤ pool.natAbs := by
  by_cases hp : 0 ≤ pool
  · have := rateOf_nonneg pool percent hp h0
    have := rateOf_le pool percent hp h0 h1
    omega
  · have e : rateOf pool percent = -rateOf (-pool) percent := by
      rw [rateOf_neg, neg_neg]
    have := rateOf_nonneg (-pool) percent (by omega) h0
    have := rateOf_le (-pool) percent (by omega) h0 h1
    omega

/-- What the passing reward leaves of the bounds on a match. -/
theorem handlePassingGo_bounds (g : Game) (id : String) {b : Nat}
    (hc : ∀ p ∈ g.Players, p.Coins.natAbs < b) :
    (handlePassingGo g id).PrizePool.natAbs ≤ g.PrizePool.natAbs ∧
    (∀ p ∈ (handlePassingGo g id).Players, p.Coins.natAbs < b + g.PrizePool.natAbs) ∧
    (handlePassingGo g id).keys = g.keys ∧ (handlePassingGo g id).Map = g.Map := by
  have hb := rateOf_natAbs_le g.PrizePool PassingGoRewardRate (by decide) (by decide)
  refine ⟨pool_less_rate g.PrizePool PassingGoRewardRate (by decide) (by decide), ?_, ?_, rfl⟩
  · intro q hq
    have hq1 : q ∈ (g.updatePlayer id (fun p =>
        { p with Coins := p.Coins + rateOf g.PrizePool PassingGoRewardRate })).Players := hq
    exact coins_bound_update hc (by omega) (fun p hp _ => by
      have := hc p hp
      show (p.Coins + rateOf g.PrizePool PassingGoRewardRate).natAbs < _
      omega) q hq1
  · exact updatePlayer_keys g id
      (fun p => { p with Coins := p.Coins + rateOf g.PrizePool PassingGoRewardRate })
      (fun _ => rfl)

theorem afterMove_exact (g : Game) (id : String) (player : Player) (d : Draws)
    (hs : Small g) (hpl : player.small) (hd : 0 ≤ d.dice ∧ d.dice < 6) :
    Machine.afterMove g id player d = afterMove g id player d := by
  obtain ⟨hpool, _, _, hps, _⟩ := hs
  unfold Machine.afterMove afterMove
  have e1 : g.updatePlayer id (fun p => (Machine.handlePrisonState p).1) =
      g.updatePlayer id (fun p => (handlePrisonState p).1) :=
    updatePlayer_ext g id _ _ (fun p hp _ => by
      have := (hps p hp).2.2
      show (Machine.handlePrisonState p).1 = (handlePrisonState p).1
      rw [handlePrisonState_exact p (by omega)])
  have e2 := rollTarget_exact g player d (by have := hpl.2.1; omega) hd
  dsimp only
  rw [e1, e2]
  by_cases hw : rollTarget g player d < player.Position
  · rw [if_pos hw, if_pos hw]
    apply handlePassingGo_exact
    · exact hpool
    · have hc1 : ∀ q ∈ (g.updatePlayer id (fun p => (handlePrisonState p).1)).Players,
          q.Coins.natAbs < 2 ^ 45 :=
        coins_bound_update (fun p hp => (hps p hp).1) (Nat.le_refl _) (fun p hp _ => by
          rw [handlePrisonState_Coins]
          exact (hps p hp).1)
      exact coins_bound_update hc1 (by decide) (fun p hp _ =>
        Nat.lt_of_lt_of_le (hc1 p hp) (by decide))
  · rw [if_neg hw, if_neg hw]

/-- The state handed to the tile effect of a roll on a small match. -/
theorem afterMove_bounds (g : Game) (id : String) (player : Player) (d : Draws)
    (hs : Small g) :
    (afterMove g id player d).PrizePool.natAbs < 2 ^ 45 ∧
    (∀ p ∈ (afterMove g id player d).Players, p.Coins.natAbs < 2 ^ 46) ∧
    (afterMove g id player d).keys = g.keys ∧ (afterMove g id player d).Map = g.Map := by
  obtain ⟨hpool, _, _, hps, _⟩ := hs
  have hc1 : ∀ q ∈ (g.updatePlayer id (fun p => (handlePrisonState p).1)).Players,
      q.Coins.natAbs < 2 ^ 45 :=
    coins_bound_update (fun p hp => (hps p hp).1) (Nat.le_refl _) (fun p hp _ => by
      rw [handlePrisonState_Coins]
      exact (hps p hp).1)
  have hc2 : ∀ q ∈ ((g.updatePlayer id (fun p => (handlePrisonState p).1)).updatePlayer id
      (fun p => { p with Position := rollTarget g player d, HasRolled := true })).Players,
      q.Coins.natAbs < 2 ^ 45 :=
    coins_bound_update hc1 (Nat.le_refl _) (fun p hp _ => hc1 p hp)
  have hk2 : ((g.updatePlayer id (fun p => (handlePrisonState p).1)).updatePlayer id
      (fun p => { p with Position := rollTarget g player d, HasRolled := true })).keys =
      g.keys := by
    rw [updatePlayer_keys _ id
      (fun p => { p with Position := rollTarget g player d, HasRolled := true })
      (fun _ => rfl),
      updatePlayer_keys g id (fun p => (handlePrisonState p).1) handlePrisonState_ID]
  unfold afterMove
  dsimp only
  by_cases hw : rollTarget g player d < player.Position
  · rw [if_pos hw]
    obtain ⟨h1, h2, h3, h4⟩ := handlePassingGo_bounds _ id hc2
    refine ⟨Nat.lt_of_le_of_lt h1 hpool, ?_, h3.trans hk2, h4⟩
    intro p hp
    have := h2 p hp
    have hpool1 : ((g.updatePlayer id (fun p => (handlePrisonState p).1)).updatePlayer id
      (fun p => { p with Position := rollTarget g player d, HasRolled := true })).PrizePool =
      g.PrizePool := rfl
    rw [hpool1] at this
    omega
  · rw [if_neg hw]
    exact ⟨hpool, fun p hp => Nat.lt_of_lt_of_le (hc2 p hp) (by decide), hk2, rfl⟩

/-- The body of the machine `RollDice` once validation, the rolled check and the prison check
have passed, in terms of what the tile effect returns. -/
theorem RollDice_machine_eq (g : Game) (id : String) (d : Draws) (now : Time) (player : Player)
    (hv : validateGameState g id = Ret.nil) (hp : g.player? id = some player)
    (hr : player.HasRolled = false)
    (hprison : (Machine.handlePrisonState player).2 = Ret.nil)
    (hlen : g.Map.Tiles.length ≠ 0) :
    Machine.RollDice g id d now =
      match Machine.handleTileEffect (Machine.afterMove g id player d) id d now with
      | (g4, Ret.nil) =>
        { game := AddAction g4 (Machine.rollAction g id player d now),
          action := some (Machine.rollAction g id player d now), ret := Ret.nil }
      | (g4, Ret.err e) =>
        { game := g4, action := some (Machine.rollAction g id player d now), ret := Ret.err e }
      | (g4, Ret.panic) => { game := g4, action := none, ret := Ret.panic } := by
  unfold Machine.RollDice
  simp only [hv, hp, hr, hprison, updatePlayer_Map, hlen, if_false, Bool.false_eq_true]
  rfl

theorem RollDice_exact (g : Game) (hreg : RegistryOK g) (id : String) (d : Draws) (now : Time)
    (hs : Small g) (hd : 0 ≤ d.dice ∧ d.dice < 6) (hord : d.order.length ≤ 2 ^ 10) :
    Machine.RollDice g id d now = RollDice g id d now := by
  cases hv : validateGameState g id with
  | err e =>
    unfold Machine.RollDice RollDice
    rw [hv]
  | panic =>
    unfold Machine.RollDice RollDice
    rw [hv]
  | nil =>
    cases hp : g.player? id with
    | none =>
      unfold Machine.RollDice RollDice
      rw [hv, hp]
    | some player =>
      have hpl := hs.2.2.2.1 player (player?_some hp).2
      have e0 := handlePrisonState_exact player (by have := hpl.2.2; omega)
      have e1 : g.updatePlayer id (fun p => (Machine.handlePrisonState p).1) =
          g.updatePlayer id (fun p => (handlePrisonState p).1) :=
        updatePlayer_ext g id _ _ (fun p hp _ => by
          have := (hs.2.2.2.1 p hp).2.2
          show (Machine.handlePrisonState p).1 = (handlePrisonState p).1
          rw [handlePrisonState_exact p (by omega)])
      by_cases hr : player.HasRolled = true
      · unfold Machine.RollDice RollDice
        simp only [hv, hp, hr, if_true]
      · have hr1 : player.HasRolled = false := by
          cases h : player.HasRolled
          · rfl
          · exact absurd h hr
        cases hpr : (handlePrisonState player).2 with
        | nil =>
          by_cases hlen : g.Map.Tiles.length = 0
          · unfold Machine.RollDice RollDice
            simp only [hv, hp, hr1, e0, e1, hpr, updatePlayer_Map, hlen, if_true, if_false,
              Bool.false_eq_true]
          · rw [RollDice_machine_eq g id d now player hv hp hr1 (by rw [e0]; exact hpr) hlen,
              RollDice_eq g id d now player hv hp hr1 hpr hlen,
              afterMove_exact g id player d hs hpl hd]
            obtain ⟨h1, h2, h3, h4⟩ := afterMove_bounds g id player d hs
            rw [handleTileEffect_exact (afterMove g id player d)
              (by unfold RegistryOK; rw [h3]; exact hreg) id d now h1
              (fun p hp => Nat.lt_of_lt_of_le (h2 p hp) (by decide))
              (by rw [h4]; exact hs.2.2.2.2) (by rw [h4]; exact hs.2.2.1) hord]
            have e2 : Machine.rollAction g id player d now = rollAction g id player d now := by
              unfold Machine.rollAction rollAction
              rw [rollTarget_exact g player d (by have := hpl.2.1; omega) hd]
            rw [e2]
        | err e =>
          unfold Machine.RollDice RollDice
          simp only [hv, hp, hr1, e0, e1, hpr, if_false, Bool.false_eq_true]
        | panic =>
          unfold Machine.RollDice RollDice
          simp only [hv, hp, hr1, e0, e1, hpr, if_false, Bool.false_eq_true]

theorem BuyProperty_exact (g : Game) (id : String) (now : Time) (hs : Small g) :
    Machine.BuyProperty g id now = BuyProperty g id now := by
  obtain ⟨hpool, _, _, hps, hts⟩ := hs
  unfold Machine.BuyProperty BuyProperty
  cases hv : validateGameState g id with
  | err e => rfl
  | panic => rfl
  | nil =>
    dsimp only
    cases hp : g.player? id with
    | none => rfl
    | some player =>
      dsimp only
      cases hi : idx g.Map.Tiles player.Position with
      | none => rfl
      | some tile =>
        dsimp only
        have ht := (hts tile (idx_some hi).2.2).1
        cases hval : validatePropertyPurchase player tile with
        | err e => rfl
        | panic => rfl
        | nil =>
          dsimp only
          have e1 : g.updatePlayer id (fun p => { p with Coins := wrap (p.Coins - tile.Price) }) =
              g.updatePlayer id (fun p => { p with Coins := p.Coins - tile.Price }) :=
            updatePlayer_ext g id _ _ (fun p hp _ => by
              have := (hps p hp).1
              rw [wrap_of_small (p.Coins - tile.Price) (by omega)])
          have e2 : wrap (((g.updatePlayer id
              (fun p => { p with Coins := p.Coins - tile.Price })).setTile player.Position
              { tile with OwnerID := id }).PrizePool + tile.Price) =
              ((g.updatePlayer id
              (fun p => { p with Coins := p.Coins - tile.Price })).setTile player.Position
              { tile with OwnerID := id }).PrizePool + tile.Price := by
            show wrap (g.PrizePool + tile.Price) = g.PrizePool + tile.Price
            rw [wrap_of_small (g.PrizePool + tile.Price) (by omega)]
          rw [e1, e2]

theorem UpgradeProperty_exact (g : Game) (id : String) (position : Int) (now : Time)
    (hs : Small g) :
    Machine.UpgradeProperty g id position now = UpgradeProperty g id position now := by
  obtain ⟨hpool, _, _, hps, hts⟩ := hs
  unfold Machine.UpgradeProperty UpgradeProperty
  cases hv : validateGameState g id with
  | err e => rfl
  | panic => rfl
  | nil =>
    dsimp only
    cases hp : g.player? id with
    | none => rfl
    | some player =>
      dsimp only
      cases hi : idx g.Map.Tiles position with
      | none => rfl
      | some tile =>
        dsimp only
        have ht := hts tile (idx_some hi).2.2
        have hcost : (Int.tdiv tile.Price 2).natAbs ≤ tile.Price.natAbs := by
          rw [Int.natAbs_tdiv]
          exact Nat.div_le_self _ _
        have hprice := ht.1
        have hlevel := ht.2.1
        cases hval : validatePropertyUpgrade player tile with
        | err e => rfl
        | panic => rfl
        | nil =>
          dsimp only
          generalize Int.tdiv tile.Price 2 = cost at hcost
          have e1 : g.updatePlayer id (fun p => { p with Coins := wrap (p.Coins - cost) }) =
              g.updatePlayer id (fun p => { p with Coins := p.Coins - cost }) :=
            updatePlayer_ext g id _ _ (fun p hp _ => by
              have := (hps p hp).1
              rw [wrap_of_small (p.Coins - cost) (by omega)])
          have e2 : wrap (((g.updatePlayer id
              (fun p => { p with Coins := p.Coins - cost })).setTile position
              { tile with Level := tile.Level + 1 }).PrizePool + cost) =
              ((g.updatePlayer id
              (fun p => { p with Coins := p.Coins - cost })).setTile position
              { tile with Level := tile.Level + 1 }).PrizePool + cost := by
            show wrap (g.PrizePool + cost) = g.PrizePool + cost
            rw [wrap_of_small (g.PrizePool + cost) (by omega)]
          rw [e1, wrap_of_small (tile.Level + 1) (by omega), e2]

theorem collectEntranceFees_exact (order : List String) (g : Game) (hreg : RegistryOK g)
    (hc : ∀ p ∈ g.Players, p.Coins.natAbs < 2 ^ 61)
    (hpool : g.PrizePool.natAbs + order.length * 1000 < 2 ^ 62) :
    Machine.collectEntranceFees g order = collectEntranceFees g order := by
  induction order generalizing g with
  | nil => rfl
  | cons k rest ih =>
    simp only [List.length_cons] at hpool
    unfold Machine.collectEntranceFees collectEntranceFees
    cases hp : g.player? k with
    | none => exact ih g hreg hc (by omega)
    | some player =>
      dsimp only
      have hfee : InitialEntranceFee = 1000 := rfl
      by_cases hpoor : player.Coins < InitialEntranceFee
      · rw [if_pos hpoor, if_pos hpoor]
      · rw [if_neg hpoor, if_neg hpoor]
        have hpc := hc player (player?_some hp).2
        have e1 : g.updatePlayer k
              (fun p => { p with Coins := wrap (p.Coins - InitialEntranceFee) }) =
            g.updatePlayer k (fun p => { p with Coins := p.Coins - InitialEntranceFee }) :=
          updatePlayer_congr g hreg k player hp _ _ (by
            rw [wrap_of_small (player.Coins - InitialEntranceFee) (by omega)])
        rw [e1, wrap_of_small (g.PrizePool + InitialEntranceFee) (by omega)]
        apply ih
        · show (g.updatePlayer k
            (fun p => { p with Coins := p.Coins - InitialEntranceFee })).keys.Nodup
          rw [updatePlayer_keys g k (fun p => { p with Coins := p.Coins - InitialEntranceFee })
            (fun _ => rfl)]
          exact hreg
        · intro q hq
          have hq1 : q ∈ (g.updatePlayer k
              (fun p => { p with Coins := p.Coins - InitialEntranceFee })).Players := hq
          rcases mem_updatePlayer hq1 with ⟨p1, hp1, hid1, rfl⟩ | ⟨hq2, _⟩
          · have hfind := player?_of_mem hreg hp1
            rw [hid1, hp] at hfind
            cases hfind
            show (player.Coins - InitialEntranceFee).natAbs < 2 ^ 61
            omega
          · exact hc q hq2
        · show (g.PrizePool + InitialEntranceFee).natAbs + rest.length * 1000 < 2 ^ 62
          omega

theorem StartGame_exact (g : Game) (hreg : RegistryOK g) (feeOrder idOrder : List String)
    (now : Time) (hs : Small g) (hord : feeOrder.length ≤ 2 ^ 10) :
    Machine.StartGame g feeOrder idOrder now = StartGame g feeOrder idOrder now := by
  unfold Machine.StartGame StartGame
  have hb : feeOrder.length * 1000 ≤ 2 ^ 10 * 1000 := Nat.mul_le_mul_right _ hord
  rw [collectEntranceFees_exact feeOrder g hreg
    (fun p hp => Nat.lt_of_lt_of_le (hs.2.2.2.1 p hp).1 (by decide))
    (by have := hs.1; omega)]

theorem tile_value_small (t : Tile) (h : t.small) :
    (t.Level + 1).natAbs ≤ 2 ^ 22 ∧ (t.Price * (t.Level + 1)).natAbs < 2 ^ 45 := by
  obtain ⟨h1, h2, _⟩ := h
  have hl : (t.Level + 1).natAbs ≤ 2 ^ 22 := by omega
  refine ⟨hl, ?_⟩
  rw [Int.natAbs_mul]
  calc t.Price.natAbs * (t.Level + 1).natAbs ≤ 2 ^ 22 * 2 ^ 22 :=
        Nat.mul_le_mul (Nat.le_of_lt h1) hl
    _ < 2 ^ 45 := by decide

theorem addPropertyValue_exact (tiles : List Tile) (id : String) (start : Int)
    (ht : ∀ t ∈ tiles, t.small) (hs : start.natAbs + tiles.length * 2 ^ 45 < 2 ^ 62) :
    Machine.addPropertyValue tiles id start = addPropertyValue tiles id start := by
  unfold Machine.addPropertyValue addPropertyValue
  induction tiles generalizing start with
  | nil => rfl
  | cons t rest ih =>
    simp only [List.length_cons] at hs
    simp only [List.foldl_cons]
    obtain ⟨h1, h2⟩ := tile_value_small t (ht t (List.mem_cons_self _ _))
    by_cases ho : t.OwnerID = id
    · rw [if_pos ho, if_pos ho, wrap_of_small (t.Level + 1) (by omega),
        wrap_of_small (t.Price * (t.Level + 1)) (by omega)]
      generalize t.Price * (t.Level + 1) = v at h2
      rw [wrap_of_small (start + v) (by omega)]
      exact ih (start + v) (fun t1 h => ht t1 (List.mem_cons_of_mem _ h)) (by omega)
    · rw [if_neg ho, if_neg ho]
      exact ih start (fun t1 h => ht t1 (List.mem_cons_of_mem _ h)) (by omega)

theorem distributePrizes_exact (assets : List PlayerAsset) (ratios : List Int) (g : Game)
    (b : Nat) (hpool : g.PrizePool.natAbs < 2 ^ 45)
    (hr : ∀ r ∈ ratios, r ∈ ([1, 2, 5, 15, 30, 50] : List Int))
    (hc : ∀ p ∈ g.Players, p.Coins.natAbs < b) (hb : b + ratios.length * 2 ^ 45 ≤ 2 ^ 61) :
    Machine.distributePrizes g assets ratios = distributePrizes g assets ratios := by
  induction assets generalizing g ratios b with
  | nil =>
    unfold Machine.distributePrizes distributePrizes
    rfl
  | cons asset assets ih =>
    cases ratios with
    | nil =>
      unfold Machine.distributePrizes distributePrizes
      rfl
    | cons ratio ratios =>
      simp only [List.length_cons] at hb
      unfold Machine.distributePrizes distributePrizes
      have hmem := hr ratio (List.mem_cons_self _ _)
      have hrate := goRate_eq_rateOf g.PrizePool ratio hmem hpool
      have hpct : 0 ≤ ratio ∧ ratio ≤ 100 := by
        simp only [List.mem_cons, List.mem_singleton, List.not_mem_nil, or_false] at hmem
        omega
      have hle := rateOf_natAbs_le g.PrizePool ratio hpct.1 hpct.2
      rw [hrate]
      have e1 : g.updatePlayer asset.PlayerID
            (fun p => { p with Coins := wrap (p.Coins + rateOf g.PrizePool ratio) }) =
          g.updatePlayer asset.PlayerID
            (fun p => { p with Coins := p.Coins + rateOf g.PrizePool ratio }) :=
        updatePlayer_ext g asset.PlayerID _ _ (fun p hp _ => by
          have := hc p hp
          rw [wrap_of_small (p.Coins + rateOf g.PrizePool ratio) (by omega)])
      rw [e1]
      exact ih ratios _ (b + 2 ^ 45) hpool (fun r h => hr r (List.mem_cons_of_mem _ h))
        (coins_bound_update hc (by omega) (fun p hp _ => by
          have := hc p hp
          show (p.Coins + rateOf g.PrizePool ratio).natAbs < b + 2 ^ 45
          omega))
        (by omega)

theorem mem_range_players {g : Game} {order : List String} {p : Player}
    (h : p ∈ g.range order) : p ∈ g.Players := by
  unfold Game.range at h
  obtain ⟨k, _, hk⟩ := List.mem_filterMap.1 h
  exact (player?_some hk).2

theorem EndGame_exact (g : Game) (order : List String) (now : Time) (hs : Small g) :
    Machine.EndGame g order now = EndGame g order now := by
  obtain ⟨hpool, _, hlen, hps, hts⟩ := hs
  unfold Machine.EndGame EndGame
  by_cases hst : g.Status ≠ GameStatus.StatusPlaying
  · rw [if_pos hst, if_pos hst]
  · rw [if_neg hst, if_neg hst]
    dsimp only
    have hb : g.Map.Tiles.length * 2 ^ 45 ≤ 2 ^ 10 * 2 ^ 45 := Nat.mul_le_mul_right _ hlen
    have e1 : (Game.range { g with Status := GameStatus.StatusFinished } order).map
          (fun player => PlayerAsset.mk player.ID
            (Machine.addPropertyValue g.Map.Tiles player.ID player.Coins)) =
        (Game.range { g with Status := GameStatus.StatusFinished } order).map
          (fun player => PlayerAsset.mk player.ID
            (addPropertyValue g.Map.Tiles player.ID player.Coins)) := by
      apply List.map_congr_left
      intro p hp
      have hpm : p ∈ g.Players := mem_range_players hp
      have := (hps p hpm).1
      rw [addPropertyValue_exact g.Map.Tiles p.ID p.Coins hts (by omega)]
    rw [e1]
    rw [distributePrizes_exact _ prizeRatios { g with Status := GameStatus.StatusFinished }
      (2 ^ 45) hpool (by decide) (fun p hp => (hps p hp).1) (by decide)]

theorem Small.turnPassed {g : Game} (hs : Small g) (next : String) (now : Time) :
    Small (turnPassed g next now) := by
  obtain ⟨hpool, hn, hlen, hps, hts⟩ := hs
  refine ⟨hpool, ?_, hlen, ?_, hts⟩
  · show (g.Players.map _).length ≤ 2 ^ 10
    rw [List.length_map]
    exact hn
  · intro q hq
    have hq1 : q ∈ (g.updatePlayer g.CurrentPlayerID
        (fun p => { p with HasRolled := false })).Players := hq
    rcases mem_updatePlayer hq1 with ⟨p, hp, _, rfl⟩ | ⟨hq2, _⟩
    · exact hps p hp
    · exact hps q hq2

theorem NextTurn_exact (g : Game) (order endOrder : List String) (now : Time) (hs : Small g) :
    Machine.NextTurn g order endOrder now = NextTurn g order endOrder now := by
  unfold Machine.NextTurn NextTurn
  by_cases hst : g.Status ≠ GameStatus.StatusPlaying
  · rw [if_pos hst, if_pos hst]
  · rw [if_neg hst, if_neg hst]
    dsimp only
    cases getNextPlayerID
        (g.updatePlayer g.CurrentPlayerID (fun p => { p with HasRolled := false }))
        (getOrderedPlayerIDs
          (g.updatePlayer g.CurrentPlayerID (fun p => { p with HasRolled := false })) order) with
    | none => rfl
    | some next =>
      dsimp only
      have e := EndGame_exact (turnPassed g next now) endOrder now (hs.turnPassed next now)
      unfold turnPassed at e
      rw [e]

/-- On a small match the program computes what exact arithmetic computes. -/
theorem after_exact (g : Game) (hreg : RegistryOK g) (op : Op) (hs : Small g)
    (ha : Op.admissible g op) (ht : Op.typed g op) : Machine.after g op = Op.after g op := by
  have hlen : ∀ order, IsRange g order → order.length ≤ 2 ^ 10 := by
    intro order h
    have h1 : order.length = g.keys.length := List.Perm.length_eq h
    have h2 : g.keys.length = g.Players.length := List.length_map _ _
    have := hs.2.1
    omega
  cases op with
  | addPlayer player => rfl
  | startGame feeOrder idOrder now =>
    show (Machine.StartGame g feeOrder idOrder now).1 = (StartGame g feeOrder idOrder now).1
    rw [StartGame_exact g hreg feeOrder idOrder now hs (hlen _ ha.1)]
  | rollDice id d now =>
    show (Machine.RollDice g id d now).game = (RollDice g id d now).game
    rw [RollDice_exact g hreg id d now hs ht.1 (hlen _ ha)]
  | buyProperty id now =>
    show (Machine.BuyProperty g id now).game = (BuyProperty g id now).game
    rw [BuyProperty_exact g id now hs]
  | upgradeProperty id position now =>
    show (Machine.UpgradeProperty g id position now).game =
      (UpgradeProperty g id position now).game
    rw [UpgradeProperty_exact g id position now hs]
  | nextTurn order endOrder now =>
    show (Machine.NextTurn g order endOrder now).1 = (NextTurn g order endOrder now).1
    rw [NextTurn_exact g order endOrder now hs]
  | endGame order now =>
    show (Machine.EndGame g order now).1 = (EndGame g order now).1
    rw [EndGame_exact g order now hs]
  | getFinalResults order => rfl

theorem Small.newGame (id : String) : Small (NewGame id) := by
  have h : ∀ t ∈ NewDefaultMap.Tiles, t.small := by decide
  refine ⟨?_, ?_, ?_, (fun p hp => nomatch hp), h⟩
  · show (0 : Int).natAbs < 2 ^ 45
    decide
  · show ([] : List Player).length ≤ 2 ^ 10
    decide
  · show NewDefaultMap.Tiles.length ≤ 2 ^ 10
    decide

theorem Small.left {g : Game} (hs : Small g) (playerID : String) :
    Small (LeaveGame g playerID).1 := by
  unfold LeaveGame
  split_ifs
  · exact hs
  · obtain ⟨hpool, hn, hlen, hps, hts⟩ := hs
    refine ⟨hpool, ?_, hlen, fun p hp => hps p (List.mem_filter.1 hp).1, hts⟩
    exact Nat.le_trans (List.length_filter_le _ _) hn

/-- A run that stays small visits small states only, and every state it visits is a state
of the exact development. -/
theorem reachableSmall_exact {g : Game} (h : Machine.ReachableSmall g) :
    Small g ∧ Reachable g := by
  induction h with
  | create id => exact ⟨Small.newGame id, Reachable.create id⟩
  | @step g op _ ha ht hsmall ih =>
    refine ⟨hsmall, ?_⟩
    rw [after_exact g ih.2.sound.registry op ih.1 ha ht]
    exact Reachable.step op ih.2 ha
  | @leave g playerID _ ih => exact ⟨ih.1.left playerID, Reachable.leave playerID ih.2⟩

theorem Machine.reachable_run {g : Game} (h : Machine.Reachable g) (ops : List Op)
    (hr : Machine.Runs g ops) : Machine.Reachable (Machine.run g ops) := by
  induction ops generalizing g with
  | nil => exact h
  | cons op ops ih => exact ih (Machine.Reachable.step op h hr.1 hr.2.1) hr.2.2

theorem richGame_reachable : Machine.Reachable richGame :=
  Machine.reachable_run (Machine.Reachable.create "m") richOps (by decide)

set_option maxRecDepth 100000 in
theorem richGame_eq :
    richGame.Players.map (fun p => (p.ID, p.Coins, p.Position)) =
      [("alice", 9223372036854775767, 3), ("bob", 440, 3)] ∧
    richGame.PrizePool = 2600 ∧ richGame.Status = GameStatus.StatusPlaying ∧
    richGame.CurrentPlayerID = "alice" := by
  decide

set_option maxRecDepth 100000 in
theorem richTurn_reachable : Machine.Reachable richTurn :=
  Machine.reachable_run richGame_reachable _ (by decide)

set_option maxRecDepth 100000 in
theorem overdrawnGame_reachable : Machine.Reachable overdrawnGame :=
  Machine.reachable_run richGame_reachable overdrawnOps (by decide)

theorem windfallGame_reachable : Machine.Reachable windfallGame :=
  Machine.reachable_run (Machine.Reachable.create "m") windfallOps (by decide)

theorem reachableSmall_run {g : Game} (h : Machine.ReachableSmall g) (ops : List Op)
    (hr : Machine.RunsSmall g ops) : Machine.ReachableSmall (Machine.run g ops) := by
  induction ops generalizing g with
  | nil => exact h
  | cons op ops ih =>
    exact ih (Machine.ReachableSmall.step op h hr.1 hr.2.1 hr.2.2.1) hr.2.2.2

theorem playedRun_small : Machine.ReachableSmall playedRun :=
  reachableSmall_run (Machine.ReachableSmall.create "m") playedOps (by decide)

theorem debtRun_small : Machine.ReachableSmall debtRun :=
  reachableSmall_run (Machine.ReachableSmall.leave "carol"
    (reachableSmall_run (Machine.ReachableSmall.create "m") debtOps (by decide)))
    settledOps (by decide)

/-! ## Reachable states of the running program: the prize pool -/

set_option maxRecDepth 100000 in
/-- C26, counterexample: a run of the program that ends with a negative prize pool.  Alice
joins with 9223372036854775807 coins (the largest `int`), pays the entrance fee, buys tile 3
and upgrades it twice; fourteen rents of 120 paid by bob take her balance past `2 ^ 63 - 1`,
where it wraps around to -9223372036854775729; she then lands on the chance tile and draws
the penalty card, which takes `min(100, balance)`, that is her whole negative balance, and
adds it to the prize pool.  The match is Playing and the prize pool holds
-9223372036854773129. -/
theorem prize_pool_negative_counterexample :
    Machine.Reachable overdrawnGame ∧ overdrawnGame.Status = GameStatus.StatusPlaying ∧
    overdrawnGame.Players.map (fun p => (p.ID, p.Coins)) = [("alice", 0), ("bob", 320)] ∧
    overdrawnGame.PrizePool = -9223372036854773129 ∧ overdrawnGame.PrizePool < 0 :=
  ⟨overdrawnGame_reachable, by decide, by decide, by decide, by decide⟩

/-- C26, amended: in every match state reachable from a newly created match (prize pool 0) by
any sequence of `AddPlayer`, `StartGame`, `RollDice`, `BuyProperty`, `UpgradeProperty`,
`NextTurn`, `EndGame` and `LeaveGame` calls, successful or failed, during which every number
stored in the match stays small (`Small`: prize pool, balances, positions and prison counters
below `2 ^ 45` in absolute value), the prize pool is non-negative. -/
theorem prize_pool_nonneg_small (g : Game) (h : Machine.ReachableSmall g) : 0 ≤ g.PrizePool :=
  (reachableSmall_exact h).2.sound.pool

/-- C26, on an example: the prize pool after the run `playedRun`. -/
theorem prize_pool_nonneg_small_witness :
    Machine.ReachableSmall playedRun ∧ playedRun.PrizePool = 2100 ∧ 0 ≤ playedRun.PrizePool :=
  ⟨playedRun_small, by decide, prize_pool_nonneg_small playedRun playedRun_small⟩

/-! ## Reachable states of the running program: balances -/

/-- C31, counterexample: a run of the program that ends with a negative balance.  Alice joins
with 9223372036854775807 coins (the largest `int`), bob and carol with 1000 each; the match
starts (alice holds 9223372036854774807, the pool 3000) and is ended: alice is ranked first
and is credited 1500, which takes her balance past `2 ^ 63 - 1`; it wraps around to
-9223372036854775309.  The match is Finished. -/
theorem balance_negative_counterexample :
    Machine.Reachable windfallGame ∧ windfallGame.Status = GameStatus.StatusFinished ∧
    windfallGame.Players.map (fun p => (p.ID, p.Coins)) =
      [("alice", -9223372036854775309), ("bob", 900), ("carol", 450)] :=
  ⟨windfallGame_reachable, by decide, by decide⟩

/-- C31, amended: in every match state whose status is Playing or Finished and that is
reachable from a newly created match on the default board by a run during which every number
stored in the match stays small (`Small`: prize pool, balances, positions and prison counters
below `2 ^ 45` in absolute value), every player's balance is non-negative, whatever balances
(negative ones included) the players joined with. -/
theorem balances_nonneg_small (g : Game) (h : Machine.ReachableSmall g)
    (hs : g.Status = GameStatus.StatusPlaying ∨ g.Status = GameStatus.StatusFinished) :
    (∀ p ∈ g.Players, 0 ≤ p.Coins) ∧
    (∀ id p, g.player? id = some p → 0 ≤ p.Coins) := by
  have hnw : g.Status ≠ GameStatus.StatusWaiting := by
    rcases hs with h1 | h1 <;> rw [h1] <;> decide
  have hsound := (reachableSmall_exact h).2.sound
  exact ⟨hsound.coins hnw, fun id p hp => hsound.coins hnw p (player?_some hp).2⟩

/-- C31, on an example: the balances after the run `debtRun`, which carol joined with a
balance of -50. -/
theorem balances_nonneg_small_witness :
    Machine.ReachableSmall debtRun ∧ debtRun.Status = GameStatus.StatusPlaying ∧
    debtRun.Players.map (fun p => (p.ID, p.Coins)) = [("alice", 400), ("bob", 200)] ∧
    ∀ p ∈ debtRun.Players, 0 ≤ p.Coins :=
  ⟨debtRun_small, by decide, by decide,
    (balances_nonneg_small debtRun debtRun_small (Or.inl (by decide))).1⟩

/-! ## Conservation of coins in the running program -/

set_option maxRecDepth 100000 in
/-- C30, counterexample: a roll that changes the sum of the balances and the prize pool.  In
the reachable state `richTurn` alice holds 9223372036854775767 coins, bob 440 and the pool
2600, together 9223372036854778807.  Bob rolls a 5, stays on alice's tile 3 and pays the rent
of 120: bob holds 320 and alice's balance wraps around to -9223372036854775729, so the sum is
-9223372036854772809, lower by `2 ^ 64`. -/
theorem coins_conserved_counterexample :
    Machine.Reachable richTurn ∧
    richTurn.Players.map (fun p => (p.ID, p.Coins)) =
      [("alice", 9223372036854775767), ("bob", 440)] ∧
    coinTotal richTurn + richTurn.PrizePool = 9223372036854778807 ∧
    (Machine.RollDice richTurn "bob" (roll 4 0) 24).ret = Ret.nil ∧
    (Machine.RollDice richTurn "bob" (roll 4 0) 24).game.Players.map (fun p => (p.ID, p.Coins)) =
      [("alice", -9223372036854775729), ("bob", 320)] ∧
    coinTotal (Machine.RollDice richTurn "bob" (roll 4 0) 24).game +
        (Machine.RollDice richTurn "bob" (roll 4 0) 24).game.PrizePool =
      -9223372036854772809 :=
  ⟨richTurn_reachable, by decide, by decide, by decide, by decide, by decide⟩

/-- C30, amended: coins are conserved during play while the numbers are small.  For every
match state whose registry is a map and in which every stored number is small (`Small`: prize
pool and balances below `2 ^ 45` in absolute value), `StartGame` (whether it succeeds, fails
at once or fails after collecting part of the fees), `BuyProperty`, `UpgradeProperty` and
`RollDice` (for every die value 1..6, chance or fate draw and teleport target, and however the
tile effect ends) leave the sum of all players' balances plus the prize pool exactly
unchanged. -/
theorem coins_conserved_small (g : Game) (hreg : RegistryOK g) (hs : Small g) :
    (∀ (feeOrder idOrder : List String) (now : Time), IsRange g feeOrder →
      coinTotal (Machine.StartGame g feeOrder idOrder now).1 +
          (Machine.StartGame g feeOrder idOrder now).1.PrizePool =
        coinTotal g + g.PrizePool) ∧
    (∀ (id : String) (now : Time),
      coinTotal (Machine.BuyProperty g id now).game +
          (Machine.BuyProperty g id now).game.PrizePool =
        coinTotal g + g.PrizePool) ∧
    (∀ (id : String) (position : Int) (now : Time),
      coinTotal (Machine.UpgradeProperty g id position now).game +
          (Machine.UpgradeProperty g id position now).game.PrizePool =
        coinTotal g + g.PrizePool) ∧
    (∀ (id : String) (d : Draws) (now : Time), 0 ≤ d.dice → d.dice < 6 → IsRange g d.order →
      coinTotal (Machine.RollDice g id d now).game +
          (Machine.RollDice g id d now).game.PrizePool =
        coinTotal g + g.PrizePool) := by
  have hlen : ∀ order, IsRange g order → order.length ≤ 2 ^ 10 := by
    intro order h
    have h1 : order.length = g.keys.length := List.Perm.length_eq h
    have h2 : g.keys.length = g.Players.length := List.length_map _ _
    have := hs.2.1
    omega
  refine ⟨?_, ?_, ?_, ?_⟩
  · intro feeOrder idOrder now hord
    rw [StartGame_exact g hreg feeOrder idOrder now hs (hlen _ hord)]
    exact (StartGame_frame g feeOrder idOrder now).2.2 hreg
  · intro id now
    rw [BuyProperty_exact g id now hs]
    exact (Play.buy g id now).total hreg
  · intro id position now
    rw [UpgradeProperty_exact g id position now hs]
    exact (Play.upgrade g id position now).total hreg
  · intro id d now h0 h6 hord
    rw [RollDice_exact g hreg id d now hs ⟨h0, h6⟩ (hlen _ hord)]
    exact (Play.rollDice g id d now).total hreg

/-- C30, on an example: alice rolls a 3 from tile 4 and is paid the passing reward; balances
and prize pool still add up to 3230. -/
theorem coins_conserved_small_witness :
    coinTotal (Machine.RollDice wrapGame "alice" rollThree 9).game +
        (Machine.RollDice wrapGame "alice" rollThree 9).game.PrizePool = 3230 ∧
    coinTotal wrapGame + wrapGame.PrizePool = 3230 :=
  have h := (coins_conserved_small wrapGame (by decide) (by decide)).2.2.2 "alice" rollThree 9
    (by decide) (by decide) (by decide)
  ⟨h.trans (by decide), by decide⟩

/-! ## The passing reward of a roll in the running program -/

theorem handlePrisonState_machine_ID (p : Player) : (Machine.handlePrisonState p).1.ID = p.ID := by
  unfold Machine.handlePrisonState
  split_ifs <;> rfl

theorem handlePrisonState_machine_Coins (p : Player) :
    (Machine.handlePrisonState p).1.Coins = p.Coins := by
  unfold Machine.handlePrisonState
  split_ifs <;> rfl

theorem handlePrisonState_machine_free (player : Player)
    (hprison : ¬ (player.InPrison = true ∧ 0 < player.PrisonDays)) :
    (Machine.handlePrisonState player).2 = Ret.nil := by
  unfold Machine.handlePrisonState
  by_cases h1 : player.InPrison = true
  · have h2 : ¬ player.PrisonDays > 0 := fun h => hprison ⟨h1, h⟩
    rw [if_pos h1, if_neg h2]
  · rw [if_neg h1]

/-- The roller, as the machine `handleTileEffect` finds them: moved, marked as rolled, prison
state resolved, and paid the passing reward when the position wrapped. -/
theorem afterMove_machine_player (g : Game) (id : String) (player : Player) (d : Draws)
    (hp : g.player? id = some player) :
    (Machine.afterMove g id player d).player? id =
      some { (Machine.handlePrisonState player).1 with
        Position := Machine.rollTarget g player d, HasRolled := true,
        Coins :=
          if Machine.rollTarget g player d < player.Position then
            wrap ((Machine.handlePrisonState player).1.Coins +
              goRate g.PrizePool PassingGoRewardRate)
          else (Machine.handlePrisonState player).1.Coins } := by
  have hid : player.ID = id := (player?_some hp).1
  have h1 := player?_updatePlayer_self g id (fun p => (Machine.handlePrisonState p).1)
    handlePrisonState_machine_ID player hp
  have h2 := player?_updatePlayer_self
    (g.updatePlayer id (fun p => (Machine.handlePrisonState p).1)) id
    (fun p => { p with Position := Machine.rollTarget g player d, HasRolled := true })
    (fun _ => rfl) _ h1
  unfold Machine.afterMove
  dsimp only
  split_ifs
  · unfold Machine.handlePassingGo
    exact player?_updatePlayer_self _ id
      (fun p => { p with Coins := wrap (p.Coins + goRate g.PrizePool PassingGoRewardRate) })
      (fun _ => rfl) _ h2
  · exact h2

theorem afterMove_machine_player_ne (g : Game) (id k : String) (player : Player) (d : Draws)
    (hne : k ≠ id) : (Machine.afterMove g id player d).player? k = g.player? k := by
  have h1 := player?_updatePlayer_ne g id k (fun p => (Machine.handlePrisonState p).1)
    handlePrisonState_machine_ID hne
  have h2 := player?_updatePlayer_ne
    (g.updatePlayer id (fun p => (Machine.handlePrisonState p).1)) id k
    (fun p => { p with Position := Machine.rollTarget g player d, HasRolled := true })
    (fun _ => rfl) hne
  unfold Machine.afterMove
  dsimp only
  split_ifs
  · unfold Machine.handlePassingGo
    have h3 := player?_updatePlayer_ne
      ((g.updatePlayer id (fun p => (Machine.handlePrisonState p).1)).updatePlayer id
        (fun p => { p with Position := Machine.rollTarget g player d, HasRolled := true })) id k
      (fun p => { p with Coins := wrap (p.Coins + goRate g.PrizePool PassingGoRewardRate) })
      (fun _ => rfl) hne
    exact h3.trans (h2.trans h1)
  · exact h2.trans h1

theorem afterMove_machine_PrizePool (g : Game) (id : String) (player : Player) (d : Draws) :
    (Machine.afterMove g id player d).PrizePool =
      if Machine.rollTarget g player d < player.Position then
        wrap (g.PrizePool - goRate g.PrizePool PassingGoRewardRate) else g.PrizePool := by
  unfold Machine.afterMove
  dsimp only
  split_ifs <;> rfl

/-- The passing reward on a prize pool from 0 to `2 ^ 45`: what float64 arithmetic gives is
the floor of 2%, and it is at most the pool. -/
theorem passing_rate_small (pool : Int) (h0 : 0 ≤ pool) (h1 : pool < 2 ^ 45) :
    goRate pool PassingGoRewardRate = pool * 2 / 100 ∧
    0 ≤ pool * 2 / 100 ∧ pool * 2 / 100 ≤ pool := by
  have hr := goRate_eq_rateOf pool PassingGoRewardRate (by decide) (by omega)
  have hf : rateOf pool PassingGoRewardRate = pool * 2 / 100 :=
    rateOf_floor pool 2 h0 (by decide)
  exact ⟨hr.trans hf, by omega, by omega⟩

set_option maxRecDepth 100000 in
/-- C13, counterexample: with 16426275177895799 in the prize pool, alice rolls a 3 from
position 4 of the 5-tile board and lands on position 2.  The program credits her
`int(float64(P) * 0.02)` = 328525503557916 and debits the pool by the same amount, one more
than `floor(P * 2 / 100)` = 328525503557915. -/
theorem passing_reward_counterexample :
    (0 : Int) ≤ hugeWrapGame.PrizePool ∧
    Machine.rollTarget hugeWrapGame aliceOnBank rollThree = 2 ∧ aliceOnBank.Position = 4 ∧
    hugeWrapGame.PrizePool * 2 / 100 = 328525503557915 ∧
    ((Machine.afterMove hugeWrapGame "alice" aliceOnBank rollThree).player? "alice").map
        (fun p => p.Coins) = some (500 + 328525503557916) ∧
    (Machine.afterMove hugeWrapGame "alice" aliceOnBank rollThree).PrizePool =
      16426275177895799 - 328525503557916 ∧
    ((Machine.RollDice hugeWrapGame "alice" rollThree 9).game.player? "alice").map
        (fun p => p.Coins) = some (500 + 328525503557916) := by
  decide

/-- C13, amended: the current player of a Playing match rolls and the new position is
numerically smaller than the old one, with a prize pool `P` from 0 to `2 ^ 45` and a balance
below `2 ^ 62` in absolute value.  The state on which the tile effect is then resolved has
the roller's balance higher by exactly `floor(P * 2 / 100)`, the prize pool lower by exactly
the same amount and every other player untouched; `RollDice` returns what the tile effect
makes of that state. -/
theorem RollDice_passing_reward_bounded (g : Game) (id : String) (d : Draws) (now : Time)
    (player : Player) (hs : g.Status = GameStatus.StatusPlaying)
    (hcur : g.CurrentPlayerID = id) (hp : g.player? id = some player)
    (hr : player.HasRolled = false)
    (hprison : ¬ (player.InPrison = true ∧ 0 < player.PrisonDays))
    (hboard : g.Map.Tiles ≠ [])
    (hwrap : Machine.rollTarget g player d < player.Position) (hpool : 0 ≤ g.PrizePool)
    (hsmall : g.PrizePool < 2 ^ 45) (hb : player.Coins.natAbs < 2 ^ 62) :
    ((Machine.afterMove g id player d).player? id).map (fun p => p.Coins) =
      some (player.Coins + g.PrizePool * 2 / 100) ∧
    (Machine.afterMove g id player d).PrizePool = g.PrizePool - g.PrizePool * 2 / 100 ∧
    (∀ k, k ≠ id → (Machine.afterMove g id player d).player? k = g.player? k) ∧
    (Machine.RollDice g id d now =
      match Machine.handleTileEffect (Machine.afterMove g id player d) id d now with
      | (g4, Ret.nil) =>
        { game := AddAction g4 (Machine.rollAction g id player d now),
          action := some (Machine.rollAction g id player d now), ret := Ret.nil }
      | (g4, Ret.err e) =>
        { game := g4, action := some (Machine.rollAction g id player d now), ret := Ret.err e }
      | (g4, Ret.panic) => { game := g4, action := none, ret := Ret.panic }) := by
  obtain ⟨hrate, hr0, hr1⟩ := passing_rate_small g.PrizePool hpool hsmall
  have hv : validateGameState g id = Ret.nil :=
    validateGameState_nil.2 ⟨hs, hcur, by rw [hp]; rfl⟩
  have hlen : g.Map.Tiles.length ≠ 0 := fun h => hboard (List.length_eq_zero.1 h)
  refine ⟨?_, ?_, fun k hk => afterMove_machine_player_ne g id k player d hk,
    RollDice_machine_eq g id d now player hv hp hr
      (handlePrisonState_machine_free player hprison) hlen⟩
  · rw [afterMove_machine_player g id player d hp, if_pos hwrap, hrate,
      handlePrisonState_machine_Coins, Option.map_some',
      wrap_of_inRange (player.Coins + g.PrizePool * 2 / 100) (by unfold inRange; omega)]
  · rw [afterMove_machine_PrizePool, if_pos hwrap, hrate,
      wrap_of_inRange (g.PrizePool - g.PrizePool * 2 / 100) (by unfold inRange; omega)]

/-- C13, on the example of the 5-tile board: from position 4 a roll of 3 leads to position 2;
with 2030 in the pool the reward is 40. -/
theorem RollDice_passing_reward_bounded_witness :
    Machine.rollTarget wrapGame aliceOnBank rollThree = 2 ∧
    ((Machine.afterMove wrapGame "alice" aliceOnBank rollThree).player? "alice").map
        (fun p => p.Coins) = some (500 + 40) ∧
    (Machine.afterMove wrapGame "alice" aliceOnBank rollThree).PrizePool = 2030 - 40 :=
  have h := RollDice_passing_reward_bounded wrapGame "alice" rollThree 9 aliceOnBank rfl rfl
    (by decide) rfl (by decide) (by decide) (by decide) (by decide) (by decide) (by decide)
  ⟨by decide, h.1, h.2.1⟩

/-! ## The chance card in the running program -/

theorem handlePassingGo_exact_one (g : Game) (hreg : RegistryOK g) (id : String)
    (player : Player) (hp : g.player? id = some player)
    (hpool : g.PrizePool.natAbs < 2 ^ 45) (hc : player.Coins.natAbs < 2 ^ 61) :
    Machine.handlePassingGo g id = handlePassingGo g id := by
  unfold Machine.handlePassingGo handlePassingGo
  have hr := goRate_eq_rateOf g.PrizePool PassingGoRewardRate (by decide) hpool
  have hb := rateOf_natAbs_le g.PrizePool PassingGoRewardRate (by decide) (by decide)
  dsimp only
  rw [hr, wrap_of_small (g.PrizePool - rateOf g.PrizePool PassingGoRewardRate) (by omega)]
  rw [updatePlayer_congr g hreg id player hp
    (fun p => { p with Coins := wrap (p.Coins + rateOf g.PrizePool PassingGoRewardRate) })
    (fun p => { p with Coins := p.Coins + rateOf g.PrizePool PassingGoRewardRate })
    (by
      show { player with Coins := wrap (player.Coins + rateOf g.PrizePool PassingGoRewardRate) } =
        { player with Coins := player.Coins + rateOf g.PrizePool PassingGoRewardRate }
      rw [wrap_of_small (player.Coins + rateOf g.PrizePool PassingGoRewardRate) (by omega)])]

theorem handleChanceCard_exact_one (g : Game) (hreg : RegistryOK g) (player : Player)
    (hp : g.player? player.ID = some player) (d : Draws) (now : Time)
    (hpool : g.PrizePool.natAbs < 2 ^ 45) (hc : player.Coins.natAbs < 2 ^ 61) :
    Machine.handleChanceCard g player d now = handleChanceCard g player d now := by
  unfold Machine.handleChanceCard handleChanceCard
  by_cases h1 : d.effect < 30
  · rw [if_pos h1, if_pos h1]
    have hr := goRate_eq_rateOf g.PrizePool ChanceRewardRate (by decide) hpool
    have hb := rateOf_natAbs_le g.PrizePool ChanceRewardRate (by decide) (by decide)
    dsimp only
    rw [hr, wrap_of_small (g.PrizePool - rateOf g.PrizePool ChanceRewardRate) (by omega)]
    rw [updatePlayer_congr g hreg player.ID player hp
      (fun p => { p with Coins := wrap (p.Coins + rateOf g.PrizePool ChanceRewardRate) })
      (fun p => { p with Coins := p.Coins + rateOf g.PrizePool ChanceRewardRate })
      (by
        show { player with Coins := wrap (player.Coins + rateOf g.PrizePool ChanceRewardRate) } =
          { player with Coins := player.Coins + rateOf g.PrizePool ChanceRewardRate }
        rw [wrap_of_small (player.Coins + rateOf g.PrizePool ChanceRewardRate) (by omega)])]
  · rw [if_neg h1, if_neg h1]
    by_cases h2 : d.effect < 60
    · rw [if_pos h2, if_pos h2]
      dsimp only
      have ha : (if player.Coins < 100 then player.Coins else 100).natAbs < 2 ^ 61 ∧
          (player.Coins - if player.Coins < 100 then player.Coins else 100).natAbs < 2 ^ 61 := by
        split_ifs <;> omega
      generalize (if player.Coins < 100 then player.Coins else 100) = amount at ha
      rw [wrap_of_small (-amount) (by omega), wrap_of_small (g.PrizePool + amount) (by omega)]
      rw [updatePlayer_congr g hreg player.ID player hp
        (fun p => { p with Coins := wrap (p.Coins - amount) })
        (fun p => { p with Coins := p.Coins - amount })
        (by
          show { player with Coins := wrap (player.Coins - amount) } =
            { player with Coins := player.Coins - amount }
          rw [wrap_of_small (player.Coins - amount) (by omega)])]
    · rw [if_neg h2, if_neg h2]
      by_cases h3 : d.effect < 80
      · rw [if_pos h3, if_pos h3]
        dsimp only
        have hreg2 : RegistryOK (AddAction (g.updatePlayer player.ID
            (fun p => { p with Position := d.target }))
            { Typ := ActionType.chanceTeleport, PlayerID := player.ID, Position := d.target,
              Amount := 0, Timestamp := now }) := by
          show (g.updatePlayer player.ID (fun p => { p with Position := d.target })).keys.Nodup
          rw [updatePlayer_keys g player.ID (fun p => { p with Position := d.target })
            (fun _ => rfl)]
          exact hreg
        have hp2 : (AddAction (g.updatePlayer player.ID
            (fun p => { p with Position := d.target }))
            { Typ := ActionType.chanceTeleport, PlayerID := player.ID, Position := d.target,
              Amount := 0, Timestamp := now }).player? player.ID =
            some { player with Position := d.target } :=
          player?_updatePlayer_self g player.ID (fun p => { p with Position := d.target })
            (fun _ => rfl) player hp
        rw [handlePassingGo_exact_one _ hreg2 player.ID _ hp2 hpool hc]
      · rw [if_neg h3, if_neg h3]

theorem handleTileEffect_machine_chance (g : Game) (id : String) (d : Draws) (now : Time)
    (player : Player) (tile : Tile) (hp : g.player? id = some player)
    (ht : idx g.Map.Tiles player.Position = some tile)
    (hT : tile.Typ = TileType.TileChance) :
    Machine.handleTileEffect g id d now = Machine.handleChanceCard g player d now := by
  unfold Machine.handleTileEffect
  simp only [hp, ht, hT]

set_option maxRecDepth 100000 in
/-- C22, counterexample: with 11748601611465899 in the prize pool, alice stands on the chance
tile and draws the reward card (draw 10).  The program credits her `int(float64(P) * 0.01)` =
117486016114659 and debits the pool by the same amount, one more than `floor(P / 100)` =
117486016114658. -/
theorem chance_reward_counterexample :
    (0 : Int) ≤ hugeChanceGame.PrizePool ∧ rewardDraw.effect < 30 ∧
    hugeChanceGame.PrizePool / 100 = 117486016114658 ∧
    ((Machine.handleTileEffect hugeChanceGame "alice" rewardDraw 9).1.player? "alice").map
        (fun p => p.Coins) = some (500 + 117486016114659) ∧
    (Machine.handleTileEffect hugeChanceGame "alice" rewardDraw 9).1.PrizePool =
      11748601611465899 - 117486016114659 := by
  decide

/-- C22, amended: the chance card, for the draw `d.effect` and the teleport target
`d.target`, resolved for the player `id` standing on a chance tile, while the prize pool `P`
is from 0 to `2 ^ 45` and the player's balance is below `2 ^ 61` in absolute value.  The
effect never fails, leaves the board and every other player alone, and
* for a draw below 30 the player gains `floor(P / 100)` and the pool loses the same amount;
* for a draw in [30, 60) the player loses `min(100, balance)` and the pool gains that amount;
* for a draw in [60, 80) the position becomes the target, and the passing reward
  `floor(P * 2 / 100)` moves from the pool to the player exactly when the target is smaller
  than the position teleported from;
* for a draw of 80 or more the match state is unchanged. -/
theorem chance_card_bounded (g : Game) (hreg : RegistryOK g) (id : String) (d : Draws)
    (now : Time) (player : Player) (tile : Tile) (hp : g.player? id = some player)
    (ht : idx g.Map.Tiles player.Position = some tile)
    (hT : tile.Typ = TileType.TileChance) (hP : 0 ≤ g.PrizePool)
    (hsmall : g.PrizePool < 2 ^ 45) (hb : player.Coins.natAbs < 2 ^ 61) :
    (Machine.handleTileEffect g id d now).2 = Ret.nil ∧
    (Machine.handleTileEffect g id d now).1.Map = g.Map ∧
    (∀ k, k ≠ id → (Machine.handleTileEffect g id d now).1.player? k = g.player? k) ∧
    (d.effect < 30 →
      (Machine.handleTileEffect g id d now).1.player? id =
        some { player with Coins := player.Coins + g.PrizePool / 100 } ∧
      (Machine.handleTileEffect g id d now).1.PrizePool = g.PrizePool - g.PrizePool / 100) ∧
    (30 ≤ d.effect → d.effect < 60 →
      (Machine.handleTileEffect g id d now).1.player? id =
        some { player with Coins := player.Coins - min 100 player.Coins } ∧
      (Machine.handleTileEffect g id d now).1.PrizePool = g.PrizePool + min 100 player.Coins) ∧
    (60 ≤ d.effect → d.effect < 80 →
      (d.target < player.Position →
        (Machine.handleTileEffect g id d now).1.player? id =
          some { player with Position := d.target,
                             Coins := player.Coins + g.PrizePool * 2 / 100 } ∧
        (Machine.handleTileEffect g id d now).1.PrizePool =
          g.PrizePool - g.PrizePool * 2 / 100) ∧
      (¬ d.target < player.Position →
        (Machine.handleTileEffect g id d now).1.player? id =
          some { player with Position := d.target } ∧
        (Machine.handleTileEffect g id d now).1.PrizePool = g.PrizePool)) ∧
    (80 ≤ d.effect → (Machine.handleTileEffect g id d now).1 = g) := by
  have hid : player.ID = id := (player?_some hp).1
  have e : Machine.handleTileEffect g id d now = handleTileEffect g id d now := by
    rw [handleTileEffect_machine_chance g id d now player tile hp ht hT,
      handleTileEffect_chance g id d now player tile hp ht hT]
    exact handleChanceCard_exact_one g hreg player (by rw [hid]; exact hp) d now (by omega) hb
  rw [e]
  obtain ⟨h1, h2, h3, h4, h5, h6, h7, _⟩ := chance_card_exact g id d now player tile hp ht hT hP
  exact ⟨h1, h2, h3, h4, h5, h6, h7⟩

/-- C22, on an example: alice is teleported from tile 2 back to tile 1 and is paid the passing
reward of 40 out of a pool of 2000. -/
theorem chance_card_bounded_witness :
    (Machine.handleTileEffect chanceGame "alice" teleportBack 9).1.player? "alice" =
      some { ID := "alice", Name := "Alice", Coins := 540, Position := 1,
             Status := PlayerStatus.PlayerStatusPlaying, HasRolled := true, InPrison := false,
             PrisonDays := 0, JoinTime := 0 } ∧
    (Machine.handleTileEffect chanceGame "alice" teleportBack 9).1.PrizePool = 1960 :=
  ((chance_card_bounded chanceGame (by decide) "alice" teleportBack 9
    { ID := "alice", Name := "Alice", Coins := 500, Position := 2,
      Status := PlayerStatus.PlayerStatusPlaying, HasRolled := true, InPrison := false,
      PrisonDays := 0, JoinTime := 0 }
    { ID := 2, Name := "机会", Typ := TileType.TileChance, Price := 0, OwnerID := "",
      Level := 0, RentPrice := [] } (by decide) (by decide) rfl (by decide) (by decide)
    (by decide)).2.2.2.2.2.1 (by decide) (by decide)).1 (by decide)

/-! ## When the passing reward is paid by the running program -/

/-- Only the chance card and the fate card touch the prize pool. -/
theorem handleTileEffect_pool_kept (g : Game) (id : String) (d : Draws) (now : Time)
    (player : Player) (tile : Tile) (hp : g.player? id = some player)
    (ht : idx g.Map.Tiles player.Position = some tile)
    (h1 : tile.Typ ≠ TileType.TileChance) (h2 : tile.Typ ≠ TileType.TileFate) :
    (handleTileEffect g id d now).1.PrizePool = g.PrizePool := by
  unfold handleTileEffect
  simp only [hp, ht]
  cases hT : tile.Typ with
  | TileProperty =>
    dsimp only
    split_ifs
    · unfold handleRentPayment
      split
      · rfl
      · split
        · rfl
        · split_ifs <;> rfl
    · rfl
  | TileChance => exact absurd hT h1
  | TileFate => exact absurd hT h2
  | TilePrison => rfl
  | TileStart => rfl
  | TileBank => rfl

/-- The prize pool and the registry `RollDice` leaves are those the tile effect leaves. -/
theorem RollDice_game_view (g : Game) (id : String) (d : Draws) (now : Time) (player : Player)
    (hv : validateGameState g id = Ret.nil) (hp : g.player? id = some player)
    (hr : player.HasRolled = false) (hprison : (handlePrisonState player).2 = Ret.nil)
    (hlen : g.Map.Tiles.length ≠ 0) :
    (RollDice g id d now).game.PrizePool =
      (handleTileEffect (afterMove g id player d) id d now).1.PrizePool ∧
    (RollDice g id d now).game.Players =
      (handleTileEffect (afterMove g id player d) id d now).1.Players := by
  rw [RollDice_eq g id d now player hv hp hr hprison hlen]
  cases handleTileEffect (afterMove g id player d) id d now with
  | mk g4 ret =>
    cases ret with
    | nil => exact ⟨rfl, rfl⟩
    | err e => exact ⟨rfl, rfl⟩
    | panic => exact ⟨rfl, rfl⟩

/-- C34, counterexample: on the default 5-tile board alice rolls a 6 from tile 1 (1 < 4) and
lands on tile 2, the chance tile; the card drawn there (draw 70) teleports her to tile 0, and
since 0 < 2 the passing reward of 40 is paid out of the pool of 2000.  The call ends with
alice on tile 0, not on tile 2, holding 540 coins, and with 1960 in the pool. -/
theorem passing_reward_after_card_counterexample :
    tileOneGame.Map.Tiles.length = 5 ∧ sixAndHome.dice + 1 = 6 ∧
    (tileOneGame.player? "alice").map (fun p => (p.Position, p.Coins)) = some (1, 500) ∧
    tileOneGame.PrizePool = 2000 ∧
    (Machine.RollDice tileOneGame "alice" sixAndHome 9).ret = Ret.nil ∧
    ((Machine.RollDice tileOneGame "alice" sixAndHome 9).game.player? "alice").map
        (fun p => (p.Position, p.Coins)) = some (0, 540) ∧
    (Machine.RollDice tileOneGame "alice" sixAndHome 9).game.PrizePool = 1960 := by
  decide

/-- C34, amended: the current player of a Playing match with small numbers (`Small`), not yet
rolled and free to move, rolls `d.dice + 1` in 1..6 from position `old >= 0`, with a prize
pool `P >= 0`.  The state on which the tile effect is then resolved has the player on
`(old + die) mod (board length)`, and the passing reward `floor(P * 2 / 100)` has moved from
the prize pool to the player exactly when `(old + die) mod (board length) < old`, not whenever
`old + die >= board length`.  The call ends with the player on that tile unless the tile is a
chance tile and the teleport card (draw in [60, 80)) is drawn, and with the prize pool as the
move left it unless the tile is a chance or fate tile.  On a 5-tile board a roll of 5 returns
the player to the same tile and a roll of 6 from a position below 4 moves the player one tile
on, in both cases past the start tile and without a passing reward for the move. -/
theorem passing_reward_for_the_move (g : Game) (hreg : RegistryOK g) (hsmall : Small g)
    (hok : BoardOK g) (id : String) (d : Draws) (now : Time)
    (player : Player) (hs : g.Status = GameStatus.StatusPlaying)
    (hcur : g.CurrentPlayerID = id) (hp : g.player? id = some player)
    (hr : player.HasRolled = false)
    (hprison : ¬ (player.InPrison = true ∧ 0 < player.PrisonDays))
    (hboard : g.Map.Tiles ≠ []) (hpos : 0 ≤ player.Position)
    (hdice : 0 ≤ d.dice ∧ d.dice < 6) (hord : IsRange g d.order) (hpool : 0 ≤ g.PrizePool) :
    (Machine.RollDice g id d now =
      match Machine.handleTileEffect (Machine.afterMove g id player d) id d now with
      | (g4, Ret.nil) =>
        { game := AddAction g4 (Machine.rollAction g id player d now),
          action := some (Machine.rollAction g id player d now), ret := Ret.nil }
      | (g4, Ret.err e) =>
        { game := g4, action := some (Machine.rollAction g id player d now), ret := Ret.err e }
      | (g4, Ret.panic) => { game := g4, action := none, ret := Ret.panic }) ∧
    ((Machine.afterMove g id player d).player? id).map (fun p => (p.Position, p.Coins)) =
      some ((player.Position + (d.dice + 1)) % g.Map.Tiles.length,
        player.Coins +
          if (player.Position + (d.dice + 1)) % g.Map.Tiles.length < player.Position
          then g.PrizePool * 2 / 100 else 0) ∧
    (Machine.afterMove g id player d).PrizePool =
      g.PrizePool -
        (if (player.Position + (d.dice + 1)) % g.Map.Tiles.length < player.Position
         then g.PrizePool * 2 / 100 else 0) ∧
    (∀ tile, idx g.Map.Tiles ((player.Position + (d.dice + 1)) % g.Map.Tiles.length) =
        some tile →
      (¬ (tile.Typ = TileType.TileChance ∧ 60 ≤ d.effect ∧ d.effect < 80) →
        ((Machine.RollDice g id d now).game.player? id).map (fun p => p.Position) =
          some ((player.Position + (d.dice + 1)) % g.Map.Tiles.length)) ∧
      (tile.Typ ≠ TileType.TileChance → tile.Typ ≠ TileType.TileFate →
        (Machine.RollDice g id d now).game.PrizePool =
          g.PrizePool -
            (if (player.Position + (d.dice + 1)) % g.Map.Tiles.length < player.Position
             then g.PrizePool * 2 / 100 else 0))) ∧
    (g.Map.Tiles.length = 5 → d.dice + 1 = 5 → player.Position < 5 →
      (5 : Int) ≤ player.Position + (d.dice + 1) ∧
      ((Machine.afterMove g id player d).player? id).map (fun p => (p.Position, p.Coins)) =
        some (player.Position, player.Coins) ∧
      (Machine.afterMove g id player d).PrizePool = g.PrizePool ∧
      (∀ tile, idx g.Map.Tiles player.Position = some tile →
        (¬ (tile.Typ = TileType.TileChance ∧ 60 ≤ d.effect ∧ d.effect < 80) →
          ((Machine.RollDice g id d now).game.player? id).map (fun p => p.Position) =
            some player.Position) ∧
        (tile.Typ ≠ TileType.TileChance → tile.Typ ≠ TileType.TileFate →
          (Machine.RollDice g id d now).game.PrizePool = g.PrizePool))) ∧
    (g.Map.Tiles.length = 5 → d.dice + 1 = 6 → player.Position < 4 →
      (5 : Int) ≤ player.Position + (d.dice + 1) ∧
      ((Machine.afterMove g id player d).player? id).map (fun p => (p.Position, p.Coins)) =
        some (player.Position + 1, player.Coins) ∧
      (Machine.afterMove g id player d).PrizePool = g.PrizePool ∧
      (∀ tile, idx g.Map.Tiles (player.Position + 1) = some tile →
        (¬ (tile.Typ = TileType.TileChance ∧ 60 ≤ d.effect ∧ d.effect < 80) →
          ((Machine.RollDice g id d now).game.player? id).map (fun p => p.Position) =
            some (player.Position + 1)) ∧
        (tile.Typ ≠ TileType.TileChance → tile.Typ ≠ TileType.TileFate →
          (Machine.RollDice g id d now).game.PrizePool = g.PrizePool))) := by
  have hpl : player.small := hsmall.2.2.2.1 player (player?_some hp).2
  have hlenord : d.order.length ≤ 2 ^ 10 := by
    have h1 : d.order.length = g.keys.length := List.Perm.length_eq hord
    have h2 : g.keys.length = g.Players.length := List.length_map _ _
    have := hsmall.2.1
    omega
  have hv : validateGameState g id = Ret.nil :=
    validateGameState_nil.2 ⟨hs, hcur, by rw [hp]; rfl⟩
  have hlen : g.Map.Tiles.length ≠ 0 := fun h => hboard (List.length_eq_zero.1 h)
  have hps : (handlePrisonState player).2 = Ret.nil := by
    unfold handlePrisonState
    by_cases h1 : player.InPrison = true
    · have h2 : ¬ player.PrisonDays > 0 := fun h => hprison ⟨h1, h⟩
      rw [if_pos h1, if_neg h2]
    · rw [if_neg h1]
  have htarget : rollTarget g player d =
      (player.Position + (d.dice + 1)) % g.Map.Tiles.length := by
    unfold rollTarget
    exact Int.tmod_eq_emod (by omega) (Int.natCast_nonneg _)
  have eMove := afterMove_exact g id player d hsmall hpl hdice
  have eRoll := RollDice_exact g hreg id d now hsmall hdice hlenord
  obtain ⟨_, hplayer, hpoolEq, hfive, hsix⟩ :=
    passing_condition_exact g id d now player hs hcur hp hr hprison hboard hpos hdice.1 hpool
  obtain ⟨hgPool, hgPlayers⟩ := RollDice_game_view g id d now player hv hp hr hps hlen
  have hfinal : ∀ tile,
      idx g.Map.Tiles ((player.Position + (d.dice + 1)) % g.Map.Tiles.length) = some tile →
      (¬ (tile.Typ = TileType.TileChance ∧ 60 ≤ d.effect ∧ d.effect < 80) →
        ((RollDice g id d now).game.player? id).map (fun p => p.Position) =
          some ((player.Position + (d.dice + 1)) % g.Map.Tiles.length)) ∧
      (tile.Typ ≠ TileType.TileChance → tile.Typ ≠ TileType.TileFate →
        (RollDice g id d now).game.PrizePool =
          g.PrizePool -
            (if (player.Position + (d.dice + 1)) % g.Map.Tiles.length < player.Position
             then g.PrizePool * 2 / 100 else 0)) := by
    intro tile htile
    have hp3 := afterMove_player g id player d hp
    have hidx : idx (afterMove g id player d).Map.Tiles
        ({ (handlePrisonState player).1 with
          Position := rollTarget g player d, HasRolled := true,
          Coins := (handlePrisonState player).1.Coins +
            if rollTarget g player d < player.Position then
              rateOf g.PrizePool PassingGoRewardRate else 0 } : Player).Position =
        some tile := by
      rw [afterMove_Map]
      dsimp only
      rw [htarget]
      exact htile
    constructor
    · intro hno
      have heff := handleTileEffect_standing (afterMove g id player d) id d now _ tile hp3 hidx
        (fun hT => hok.rent (idx_some htile).2.2 hT)
      have hst := heff.2
      rw [if_neg hno] at hst
      dsimp only at hst
      rw [htarget] at hst
      have hview : (RollDice g id d now).game.player? id =
          (handleTileEffect (afterMove g id player d) id d now).1.player? id := by
        unfold Game.player?
        rw [hgPlayers]
      rw [hview]
      obtain ⟨p1, hp1, hs1⟩ := Option.map_eq_some'.1 hst
      rw [hp1]
      exact congrArg (fun x => some x.1) hs1
    · intro h1 h2
      rw [hgPool, handleTileEffect_pool_kept (afterMove g id player d) id d now _ tile hp3 hidx
        h1 h2, hpoolEq]
  rw [eRoll, eMove]
  have hdec : RollDice g id d now =
      match Machine.handleTileEffect (afterMove g id player d) id d now with
      | (g4, Ret.nil) =>
        { game := AddAction g4 (Machine.rollAction g id player d now),
          action := some (Machine.rollAction g id player d now), ret := Ret.nil }
      | (g4, Ret.err e) =>
        { game := g4, action := some (Machine.rollAction g id player d now), ret := Ret.err e }
      | (g4, Ret.panic) => { game := g4, action := none, ret := Ret.panic } := by
    have h := RollDice_machine_eq g id d now player hv hp hr
      (handlePrisonState_machine_free player hprison) hlen
    rw [eRoll, eMove] at h
    exact h
  refine ⟨hdec, hplayer, hpoolEq, hfinal, ?_, ?_⟩
  · intro h5 hd hlt
    obtain ⟨a1, a2, a3⟩ := hfive h5 hd hlt
    refine ⟨a1, a2, a3, ?_⟩
    have h5i : (g.Map.Tiles.length : Int) = 5 := by exact_mod_cast h5
    have hmod : (player.Position + (d.dice + 1)) % (g.Map.Tiles.length : Int) =
        player.Position := by
      rw [h5i, hd]
      omega
    intro tile htile
    have hf := hfinal tile (by rw [hmod]; exact htile)
    rw [hmod, if_neg (lt_irrefl _), sub_zero] at hf
    exact hf
  · intro h5 hd hlt
    obtain ⟨a1, a2, a3⟩ := hsix h5 hd hlt
    refine ⟨a1, a2, a3, ?_⟩
    have h5i : (g.Map.Tiles.length : Int) = 5 := by exact_mod_cast h5
    have hmod : (player.Position + (d.dice + 1)) % (g.Map.Tiles.length : Int) =
        player.Position + 1 := by
      rw [h5i, hd]
      omega
    intro tile htile
    have hf := hfinal tile (by rw [hmod]; exact htile)
    rw [hmod, if_neg (by omega), sub_zero] at hf
    exact hf

/-- C34, on an example: alice rolls a 5 from tile 4 of the default board; she is back on tile
4, past the start tile, and the prize pool still holds 2030. -/
theorem passing_reward_for_the_move_witness :
    (5 : Int) ≤ aliceOnBank.Position + (rollFive.dice + 1) ∧
    ((Machine.afterMove wrapGame "alice" aliceOnBank rollFive).player? "alice").map
        (fun p => (p.Position, p.Coins)) = some (aliceOnBank.Position, aliceOnBank.Coins) ∧
    (Machine.afterMove wrapGame "alice" aliceOnBank rollFive).PrizePool = wrapGame.PrizePool ∧
    ((Machine.RollDice wrapGame "alice" rollFive 9).game.player? "alice").map
        (fun p => p.Position) = some 4 ∧
    (Machine.RollDice wrapGame "alice" rollFive 9).game.PrizePool = 2030 :=
  have h := (passing_reward_for_the_move wrapGame (by decide) (by decide) (by decide) "alice"
    rollFive 9 aliceOnBank (by decide) (by decide) (by decide) (by decide) (by decide)
    (by decide) (by decide) (by decide) (by decide) (by decide)).2.2.2.2.1
    (by decide) (by decide) (by decide)
  have hf := h.2.2.2 bankTile (by decide)
  ⟨h.1, h.2.1, h.2.2.1, hf.1 (by decide), hf.2 (by decide) (by decide)⟩

/-! ## EndGame in the running program -/

set_option maxRecDepth 100000 in
/-- C14, counterexample: a 2-player match with 7506080886996643 in the prize pool ends; bob
(total assets 1300) is ranked before alice (900).  Bob is credited `floor(P / 2)` =
3753040443498321, but alice is credited `int(float64(P) * 0.3)` = 2251824266098993, one more
than `floor(P * 3 / 10)` = 2251824266098992. -/
theorem EndGame_share_counterexample :
    hugeEndingGame.Status = GameStatus.StatusPlaying ∧ (0 : Int) ≤ hugeEndingGame.PrizePool ∧
    hugeEndingGame.Players.map (fun p => (p.ID, totalAssets hugeEndingGame p)) =
      [("alice", 900), ("bob", 1300)] ∧
    hugeEndingGame.PrizePool / 2 = 3753040443498321 ∧
    hugeEndingGame.PrizePool * 3 / 10 = 2251824266098992 ∧
    (Machine.EndGame hugeEndingGame ["alice", "bob"] 9).2 = Ret.nil ∧
    (Machine.EndGame hugeEndingGame ["alice", "bob"] 9).1.Players.map
        (fun p => (p.ID, p.Coins)) =
      [("alice", 900 + 2251824266098993), ("bob", 700 + 3753040443498321)] := by
  decide

/-- C14, amended: a Playing match with small numbers (`Small`: in particular a prize pool and
balances below `2 ^ 45` in absolute value), a prize pool `P >= 0` and pairwise distinct total
assets ends.  For every visiting order of the registry, `EndGame` returns no error and leaves
every registered player with their balance plus the share of their rank:
`floor(P * 50 / 100)`, `floor(P * 30 / 100)`, `floor(P * 15 / 100)`, `floor(P * 5 / 100)` for
the four players with the largest total assets, in descending order, and nothing for anybody
else; all shares are computed from the same `P`.  In a 2-player match the richer player
receives `floor(P / 2)` and the other `floor(P * 3 / 10)`. -/
theorem EndGame_pays_by_rank_small (g : Game) (order : List String) (now : Time)
    (hs : g.Status = GameStatus.StatusPlaying) (hreg : RegistryOK g) (hord : IsRange g order)
    (hsmall : Small g) (hpool : 0 ≤ g.PrizePool)
    (hdistinct : (g.Players.map (totalAssets g)).Nodup) :
    (Machine.EndGame g order now).2 = Ret.nil ∧
    (∀ p ∈ g.Players, (Machine.EndGame g order now).1.player? p.ID =
      some { p with Coins := p.Coins + prizeShare g.PrizePool (rankOf g p) }) ∧
    (∀ a b, g.Players.Perm [a, b] → totalAssets g b < totalAssets g a →
      (Machine.EndGame g order now).1.player? a.ID =
        some { a with Coins := a.Coins + g.PrizePool / 2 } ∧
      (Machine.EndGame g order now).1.player? b.ID =
        some { b with Coins := b.Coins + g.PrizePool * 3 / 10 }) := by
  rw [EndGame_exact g order now hsmall]
  obtain ⟨h1, h2, h3, _⟩ := pays_by_rank_exact g order now hs hreg hord hpool hdistinct
  exact ⟨h1, h2, h3⟩

/-- C14, on an example: pool 2001, bob (700 coins and a tile worth 600) ranks before alice
(900 coins). -/
theorem EndGame_pays_by_rank_small_witness :
    (Machine.EndGame endingGame ["alice", "bob"] 9).2 = Ret.nil ∧
    (∀ p ∈ endingGame.Players,
      (Machine.EndGame endingGame ["alice", "bob"] 9).1.player? p.ID =
        some { p with
          Coins := p.Coins + prizeShare endingGame.PrizePool (rankOf endingGame p) }) ∧
    (∀ a b, endingGame.Players.Perm [a, b] →
      totalAssets endingGame b < totalAssets endingGame a →
      (Machine.EndGame endingGame ["alice", "bob"] 9).1.player? a.ID =
        some { a with Coins := a.Coins + endingGame.PrizePool / 2 } ∧
      (Machine.EndGame endingGame ["alice", "bob"] 9).1.player? b.ID =
        some { b with Coins := b.Coins + endingGame.PrizePool * 3 / 10 }) :=
  EndGame_pays_by_rank_small endingGame ["alice", "bob"] 9 rfl (by decide) (by decide)
    (by decide) (by decide) (by decide)

set_option maxRecDepth 100000 in
/-- C35, counterexample: a 4-player match with `P` = 13855075435523319 in the prize pool ends.
Each of the four shares `int(float64(P) * r)` is one more than `floor(P * r)`, and together
the players are credited 13855075435523320 = `P + 1`, more than the pool holds. -/
theorem EndGame_payout_counterexample :
    hugeFullGame.Status = GameStatus.StatusPlaying ∧ (0 : Int) ≤ hugeFullGame.PrizePool ∧
    (Machine.EndGame hugeFullGame ["alice", "bob", "carol", "dave"] 9).2 = Ret.nil ∧
    (Machine.EndGame hugeFullGame ["alice", "bob", "carol", "dave"] 9).1.Players.map
        (fun p => (p.ID, p.Coins)) =
      [("alice", 500 + 6927537717761660), ("bob", 500 + 4156522630656996),
       ("carol", 500 + 2078261315328498), ("dave", 500 + 692753771776166)] ∧
    coinTotal (Machine.EndGame hugeFullGame ["alice", "bob", "carol", "dave"] 9).1 -
        coinTotal hugeFullGame = 13855075435523320 ∧
    hugeFullGame.PrizePool = 13855075435523319 := by
  decide

/-- C35, amended: a Playing match with small numbers (`Small`: in particular a prize pool and
balances below `2 ^ 45` in absolute value) and a prize pool `P >= 0` is ended.  `EndGame`
succeeds; the sum of all balances grows by the total paid out, which is `floor(P * r)` for the
ratios 50%, 30%, 15% and 5%, one term per player and at most four; that total is between 0 and
`P` (`floor(P/2) + floor(P*3/10) + floor(P*15/100) + floor(P*5/100) <= P`); and the prize pool
field is left equal to `P`, so the sum of all balances plus the prize pool grows by the total
paid out. -/
theorem EndGame_total_payout_small (g : Game) (order : List String) (now : Time)
    (hs : g.Status = GameStatus.StatusPlaying) (hreg : RegistryOK g) (hord : IsRange g order)
    (hsmall : Small g) (hpool : 0 ≤ g.PrizePool) :
    (Machine.EndGame g order now).2 = Ret.nil ∧
    (Machine.EndGame g order now).1.PrizePool = g.PrizePool ∧
    coinTotal (Machine.EndGame g order now).1 = coinTotal g + totalPayout g ∧
    0 ≤ totalPayout g ∧ totalPayout g ≤ g.PrizePool ∧
    g.PrizePool / 2 + g.PrizePool * 3 / 10 + g.PrizePool * 15 / 100 + g.PrizePool * 5 / 100 ≤
      g.PrizePool ∧
    (4 ≤ g.Players.length →
      totalPayout g =
        g.PrizePool / 2 + g.PrizePool * 3 / 10 + g.PrizePool * 15 / 100 +
          g.PrizePool * 5 / 100) ∧
    coinTotal (Machine.EndGame g order now).1 + (Machine.EndGame g order now).1.PrizePool =
      coinTotal g + g.PrizePool + totalPayout g := by
  rw [EndGame_exact g order now hsmall]
  obtain ⟨h1, h2, h3, h4, h5, h6, h7, h8, _⟩ :=
    total_payout_exact g order now hs hreg hord hpool
  exact ⟨h1, h2, h3, h4, h5, h6, h7, h8⟩

/-- C35, on an example: with 2001 in the pool and two players, 1000 + 600 coins are paid out
and the pool field still holds 2001. -/
theorem EndGame_total_payout_small_witness :
    totalPayout endingGame = 1600 ∧
    (Machine.EndGame endingGame ["alice", "bob"] 9).1.PrizePool = endingGame.PrizePool ∧
    coinTotal (Machine.EndGame endingGame ["alice", "bob"] 9).1 =
      coinTotal endingGame + totalPayout endingGame :=
  have h := EndGame_total_payout_small endingGame ["alice", "bob"] 9 rfl (by decide) (by decide)
    (by decide) (by decide)
  ⟨by decide, h.2.1, h.2.2.1⟩

/-! ## NextTurn: the turn order -/

theorem nextFrom_eq_nextOr (current first : String) (ids : List String) :
    nextFrom current first ids = List.nextOr ids current first := by
  induction ids with
  | nil => rfl
  | cons id rest ih =>
    cases rest with
    | nil =>
      rw [List.nextOr_singleton]
      unfold nextFrom
      split_ifs
      · rfl
      · rfl
    | cons z xs =>
      by_cases h : id = current
      · subst h
        rw [List.nextOr_self_cons_cons]
        unfold nextFrom
        rw [if_pos rfl]
      · rw [List.nextOr_cons_of_ne _ _ _ _ (fun e => h e.symm), ← ih]
        conv_lhs => unfold nextFrom
        rw [if_neg h]

theorem next_eq_successorIn (slots : List String) (hn : slots.Nodup) (x : String)
    (hx : x ∈ slots) : slots.next x hx = successorIn slots x := by
  obtain ⟨i, hi⟩ := List.get_of_mem hx
  subst hi
  rw [List.next_get slots hn i]
  unfold successorIn
  rw [List.get_indexOf hn i,
    List.getD_eq_getElem _ _ (Nat.mod_lt _ (Nat.lt_of_le_of_lt (Nat.zero_le _) i.2))]
  rfl

/-- The successor in the visiting order of one call is the successor in the slot order. -/
theorem nextFrom_rotated (slots order : List String) (hn : slots.Nodup)
    (hrot : List.IsRotated order slots) (x : String) (hx : x ∈ slots) (first : String)
    (rest : List String) (horder : order = first :: rest) :
    nextFrom x first order = successorIn slots x := by
  have hxo : x ∈ order := hrot.mem_iff.2 hx
  have hno : order.Nodup := hrot.nodup_iff.2 hn
  rw [nextFrom_eq_nextOr, ← next_eq_successorIn slots hn x hx,
    ← List.isRotated_next_eq hrot hno hxo]
  subst horder
  rfl

theorem turnPassed_keys (g : Game) (next : String) (now : Time) :
    (turnPassed g next now).keys = g.keys :=
  updatePlayer_keys g g.CurrentPlayerID (fun p => { p with HasRolled := false }) (fun _ => rfl)

/-- One `NextTurn` call before the match timeout, the registry visited from any slot. -/
theorem NextTurn_rotated (g : Game) (slots : List String)
    (hs : g.Status = GameStatus.StatusPlaying) (hreg : RegistryOK g) (hslots : IsRange g slots)
    (hcur : g.CurrentPlayerID ∈ g.keys) (order endOrder : List String) (now : Time)
    (hrot : List.IsRotated order slots) (hearly : now - g.StartTime < GameTimeout) :
    Machine.NextTurn g order endOrder now =
      (turnPassed g (successorIn slots g.CurrentPlayerID) now, Ret.nil) ∧
    NextTurn g order endOrder now =
      (turnPassed g (successorIn slots g.CurrentPlayerID) now, Ret.nil) := by
  have hn : slots.Nodup := hslots.nodup_iff.2 hreg
  have hx : g.CurrentPlayerID ∈ slots := hslots.mem_iff.2 hcur
  have hord : IsRange g order := hrot.perm.trans hslots
  have hkeys : (g.updatePlayer g.CurrentPlayerID (fun p => { p with HasRolled := false })).keys =
      g.keys := updatePlayer_keys g _ _ (fun _ => rfl)
  have hids : getOrderedPlayerIDs
      (g.updatePlayer g.CurrentPlayerID (fun p => { p with HasRolled := false })) order =
      order := by
    unfold getOrderedPlayerIDs
    apply range_keys
    intro id hid
    rw [hkeys]
    exact hord.subset hid
  cases horder : order with
  | nil =>
    rw [horder] at hrot
    have := hrot.mem_iff.2 hx
    exact absurd this (List.not_mem_nil _)
  | cons first rest =>
    have hnext := nextFrom_rotated slots order hn hrot g.CurrentPlayerID hx first rest horder
    have hget : getNextPlayerID
        (g.updatePlayer g.CurrentPlayerID (fun p => { p with HasRolled := false }))
        (first :: rest) = some (successorIn slots g.CurrentPlayerID) := by
      unfold getNextPlayerID
      rw [← hnext, horder]
      rfl
    have hlate : ¬ (now - g.StartTime ≥ GameTimeout) := not_le.2 hearly
    constructor
    · unfold Machine.NextTurn
      rw [if_neg (not_not.2 hs)]
      simp only [← horder, hids]
      rw [horder, hget]
      dsimp only
      rw [if_neg (by exact hlate)]
      rfl
    · unfold NextTurn
      rw [if_neg (not_not.2 hs)]
      simp only [← horder, hids]
      rw [horder, hget]
      dsimp only
      rw [if_neg (by exact hlate)]
      rfl

theorem successorIn_getD (slots : List String) (hn : slots.Nodup) (i : Nat)
    (hi : i < slots.length) :
    successorIn slots (slots.getD i "") = slots.getD ((i + 1) % slots.length) "" := by
  have hlt : (i + 1) % slots.length < slots.length := Nat.mod_lt _ (by omega)
  unfold successorIn
  rw [List.getD_eq_getElem _ _ hi, List.indexOf_getElem hn i hi,
    List.getD_eq_getElem _ _ hlt, List.getD_eq_getElem _ _ hlt]

/-- Consecutive `NextTurn` calls before the match timeout walk through the slot order. -/
theorem turnHolders_walk (slots : List String) (calls : List (List String × List String × Time))
    (g : Game) (i : Nat) (hs : g.Status = GameStatus.StatusPlaying) (hreg : RegistryOK g)
    (hslots : IsRange g slots) (hi : i < slots.length)
    (hcur : g.CurrentPlayerID = slots.getD i "")
    (hcalls : ∀ call ∈ calls,
      List.IsRotated call.1 slots ∧ call.2.2 - g.StartTime < GameTimeout) :
    turnHolders g calls =
      (List.range calls.length).map (fun k => slots.getD ((i + k + 1) % slots.length) "") ∧
    (nextTurns g calls).CurrentPlayerID = slots.getD ((i + calls.length) % slots.length) "" := by
  have hn : slots.Nodup := hslots.nodup_iff.2 hreg
  induction calls generalizing g i with
  | nil =>
    refine ⟨rfl, ?_⟩
    show g.CurrentPlayerID = _
    rw [hcur, List.length_nil, Nat.add_zero, Nat.mod_eq_of_lt hi]
  | cons call calls ih =>
    have hmem : g.CurrentPlayerID ∈ g.keys := by
      rw [hcur, List.getD_eq_getElem _ _ hi]
      exact hslots.mem_iff.1 (List.getElem_mem hi)
    obtain ⟨hrot, hearly⟩ := hcalls call (List.mem_cons_self _ _)
    have hstep := (NextTurn_rotated g slots hs hreg hslots hmem call.1 call.2.1 call.2.2
      hrot hearly).1
    have hsucc : successorIn slots g.CurrentPlayerID =
        slots.getD ((i + 1) % slots.length) "" := by
      rw [hcur, successorIn_getD slots hn i hi]
    have hlt : (i + 1) % slots.length < slots.length := Nat.mod_lt _ (by omega)
    obtain ⟨h1, h2⟩ := ih (turnPassed g (successorIn slots g.CurrentPlayerID) call.2.2)
      ((i + 1) % slots.length) hs
      (by unfold RegistryOK; rw [turnPassed_keys]; exact hreg)
      (by unfold IsRange; rw [turnPassed_keys]; exact hslots) hlt hsucc
      (fun c hc => hcalls c (List.mem_cons_of_mem _ hc))
    have hmod : ∀ k, ((i + 1) % slots.length + k) % slots.length =
        (i + (k + 1)) % slots.length := by
      intro k
      rw [Nat.add_mod, Nat.mod_mod, ← Nat.add_mod]
      congr 1
      omega
    constructor
    · show (Machine.NextTurn g call.1 call.2.1 call.2.2).1.CurrentPlayerID ::
        turnHolders (Machine.NextTurn g call.1 call.2.1 call.2.2).1 calls = _
      rw [hstep]
      dsimp only
      rw [h1, List.length_cons, List.range_succ_eq_map, List.map_cons, List.map_map]
      refine congrArg₂ List.cons ?_ ?_
      · show successorIn slots g.CurrentPlayerID = _
        rw [hsucc]
      · apply List.map_congr_left
        intro k _
        show slots.getD (((i + 1) % slots.length + k + 1) % slots.length) "" =
          slots.getD ((i + (k + 1) + 1) % slots.length) ""
        congr 1
        have := hmod (k + 1)
        rw [← Nat.add_assoc] at this
        exact this
    · show (nextTurns (Machine.NextTurn g call.1 call.2.1 call.2.2).1 calls).CurrentPlayerID = _
      rw [hstep]
      dsimp only
      rw [h2, List.length_cons, hmod]

/-- C17: a Playing match with a registered current player, the keys of the registry sitting
in the slots of the map in the order `slots`, and `NextTurn` calls before the match timeout.
Whatever slot the loop over the registry starts from (the visiting order of a call is a
rotation of `slots`), `NextTurn` returns no error and sets the current player to the successor
of the current player in `slots`, wrapping from the last entry to the first; nothing else
changes but the rolled flag of the outgoing player and the turn start.  As many consecutive
calls as there are players make every player current exactly once, in the cyclic order of
`slots`, and return to the player who was current at the start. -/
theorem NextTurn_cycles (g : Game) (slots : List String)
    (hs : g.Status = GameStatus.StatusPlaying) (hreg : RegistryOK g) (hslots : IsRange g slots)
    (hcur : g.CurrentPlayerID ∈ g.keys) :
    (∀ (order endOrder : List String) (now : Time), List.IsRotated order slots →
      now - g.StartTime < GameTimeout →
      Machine.NextTurn g order endOrder now =
        (turnPassed g (successorIn slots g.CurrentPlayerID) now, Ret.nil) ∧
      NextTurn g order endOrder now =
        (turnPassed g (successorIn slots g.CurrentPlayerID) now, Ret.nil)) ∧
    (∀ calls : List (List String × List String × Time), calls.length = g.Players.length →
      (∀ call ∈ calls, List.IsRotated call.1 slots ∧ call.2.2 - g.StartTime < GameTimeout) →
      turnHolders g calls = slots.rotate (slots.indexOf g.CurrentPlayerID + 1) ∧
      (turnHolders g calls).Perm g.keys ∧ (turnHolders g calls).Nodup ∧
      (nextTurns g calls).CurrentPlayerID = g.CurrentPlayerID) := by
  have hn : slots.Nodup := hslots.nodup_iff.2 hreg
  have hx : g.CurrentPlayerID ∈ slots := hslots.mem_iff.2 hcur
  have hi : slots.indexOf g.CurrentPlayerID < slots.length := List.indexOf_lt_length.2 hx
  have hget : g.CurrentPlayerID = slots.getD (slots.indexOf g.CurrentPlayerID) "" := by
    rw [List.getD_eq_getElem _ _ hi, List.getElem_indexOf hi]
  have hlen : slots.length = g.Players.length := by
    rw [List.Perm.length_eq hslots]
    exact List.length_map _ _
  refine ⟨fun order endOrder now hrot hearly =>
    NextTurn_rotated g slots hs hreg hslots hcur order endOrder now hrot hearly, ?_⟩
  intro calls hcount hcalls
  obtain ⟨h1, h2⟩ := turnHolders_walk slots calls g (slots.indexOf g.CurrentPlayerID) hs hreg
    hslots hi hget hcalls
  have hrotate : turnHolders g calls = slots.rotate (slots.indexOf g.CurrentPlayerID + 1) := by
    rw [h1]
    apply List.ext_getElem
    · rw [List.length_map, List.length_range, List.length_rotate, hcount, hlen]
    · intro k hk1 hk2
      rw [List.getElem_map, List.getElem_range, List.getElem_rotate,
        List.getD_eq_getElem _ _ (Nat.mod_lt _ (by omega))]
      congr 1
      congr 1
      omega
  refine ⟨hrotate, ?_, ?_, ?_⟩
  · rw [hrotate]
    exact (List.rotate_perm _ _).trans hslots
  · rw [hrotate]
    exact List.nodup_rotate.2 hn
  · rw [h2, hcount, ← hlen, Nat.add_mod_right, Nat.mod_eq_of_lt hi, ← hget]

/-- C17, on an example: three players in the slots alice, bob, carol, alice to move.  The
first call visits the registry from alice's slot, the second from carol's, the third from
bob's: the turn goes to bob, then carol, then back to alice. -/
theorem NextTurn_cycles_witness :
    turnHolders threeGame threeCalls = ["bob", "carol", "alice"] ∧
    (nextTurns threeGame threeCalls).CurrentPlayerID = threeGame.CurrentPlayerID :=
  have h := (NextTurn_cycles threeGame ["alice", "bob", "carol"] (by decide) (by decide)
    (by decide) (by decide)).2 threeCalls (by decide) (by decide)
  ⟨h.1.trans (by decide), h.2.2.2⟩

end Monopoly
